import Mathlib

/-!
# GNMS (Gauss-Newton multiple shooting) solver: embedding of `GNMSBase.hpp`

The member functions of `ct::optcon::GNMSBase<STATE_DIM, CONTROL_DIM, SCALAR>` are
embedded as functions on an explicit solver state.

* `n` is `STATE_DIM`, `m` is `CONTROL_DIM`; state vectors are `Fin n → F`, control
  vectors `Fin m → F`, matrices are `Matrix (Fin _) (Fin _) F`.
* Stage-indexed containers (`StateVectorArray`, `ControlVectorArray`, ...) are lists;
  an access `a[k]` outside the bounds of the container is undefined in C++ and is
  reported by the embedding as `Outcome.fault`.
* A C++ exception is `Outcome.raise`, carrying the message and the state as it was
  left when the exception was thrown.
* Collaborators whose code is outside `GNMSBase.hpp` (integrators, the cost module,
  the linear-system provider, Eigen decompositions) are parameters of the embedding.
-/

namespace GNMS

/-- Result of running a member function on a state of type `σ`. -/
inductive Outcome (σ α : Type) where
  /-- normal return with value `a`, leaving state `s` -/
  | ret (a : α) (s : σ)
  /-- a `std::runtime_error` with message `msg` was thrown, leaving state `s` -/
  | raise (msg : String) (s : σ)
  /-- an element outside a container's bounds was accessed -/
  | fault

/-- Value of `settings_.integrator`; `unknown` stands for any value of the
enumeration type that is none of the four named ones. -/
inductive IntegratorType where
  | EULER
  | RK4
  | EULER_SYM
  | RK_SYM
  | unknown (code : Nat)
deriving DecidableEq

/-- The four integrator instances of one thread. Each function is one call
`integrate_n_steps(x, t, 1, h)` on the thread's system, whose controller currently
holds the control `u`; the result is the new content of `x`. -/
structure Integrators (F : Type) (n m : Nat) where
  integratorsEuler_ : (Fin m → F) → (Fin n → F) → ℚ → ℚ → (Fin n → F)
  integratorsRK4_ : (Fin m → F) → (Fin n → F) → ℚ → ℚ → (Fin n → F)
  integratorsEulerSymplectic_ : (Fin m → F) → (Fin n → F) → ℚ → ℚ → (Fin n → F)
  integratorsRkSymplectic_ : (Fin m → F) → (Fin n → F) → ℚ → ℚ → (Fin n → F)

/-- One integrator call, as recorded in the call log of a rollout. -/
structure IntegratorCall (F : Type) (m : Nat) where
  /-- stage index `i` -/
  stage : Nat
  /-- start time handed to the integrator -/
  t : ℚ
  /-- step size handed to the integrator -/
  h : ℚ
  /-- control held by the controller during the step -/
  u : Fin m → F

/-- The `if / else if` chain selecting the integrator inside the micro-step loop of
`rolloutSystem` (and in `initializeSingleShot`); `none` is the final `else` branch,
which throws. -/
def integrateStep {F : Type} {n m : Nat} (ints : Integrators F n m) (integrator : IntegratorType)
    (u : Fin m → F) (x : Fin n → F) (t h : ℚ) : Option (Fin n → F) :=
  match integrator with
  | .EULER => some (ints.integratorsEuler_ u x t h)
  | .RK4 => some (ints.integratorsRK4_ u x t h)
  | .EULER_SYM => some (ints.integratorsEulerSymplectic_ u x t h)
  | .RK_SYM => some (ints.integratorsRkSymplectic_ u x t h)
  | .unknown _ => none

/-- The reference arguments `x_local`, `u_local`, `t_local` of `rolloutSystem`,
together with the log of integrator calls made so far. -/
structure RolloutBuffers (F : Type) (n m : Nat) where
  x_local : List (Fin n → F)
  u_local : List (Fin m → F)
  t_local : List ℚ
  calls : List (IntegratorCall F m)

/-- The product `L * x` of a gain matrix with a state vector, written with the
scalar's own `+` and `*` only. -/
def gainTimes {F : Type} {n m : Nat} [Zero F] [Add F] [Mul F]
    (L : Matrix (Fin m) (Fin n) F) (x : Fin n → F) : Fin m → F :=
  fun i => ((List.finRange n).map (fun j => L i j * x j)).sum

/-- The sum `a + b` of two control vectors. -/
def ctrlAdd {F : Type} {m : Nat} [Add F] (a b : Fin m → F) : Fin m → F :=
  fun i => a i + b i

/-- The test `isnan(v(k))` for some `k < dim`, as made by the two checking loops
at the end of a stage of `rolloutSystem`. -/
def anyNaN {F : Type} {d : Nat} (isnan : F → Bool) (v : Fin d → F) : Bool :=
  (List.finRange d).any (fun k => isnan (v k))

/-- Number of micro-steps per stage, `size_t steps = round(dt / dt_sim)`. For the
non-negative ratios a `size_t` can take, rounding half away from zero and rounding
half up agree. -/
def substeps (dt dt_sim : ℚ) : Nat := (round (dt / dt_sim)).toNat

/-- The inner loop `for (j = 0; j < steps; j++)` of `rolloutSystem`, started at
micro-step `j` with `rem` micro-steps left. Returns the integrated state and the
extended call log, or `none` if the integrator selector is not recognised. -/
def microSteps {F : Type} {n m : Nat} (ints : Integrators F n m) (integrator : IntegratorType)
    (dt_sim : ℚ) (u : Fin m → F) (i steps : Nat) :
    Nat → Nat → (Fin n → F) → List (IntegratorCall F m) →
      Option (Fin n → F) × List (IntegratorCall F m)
  | 0, _, x0, log => (some x0, log)
  | rem + 1, j, x0, log =>
    match integrateStep ints integrator u x0 (((i * steps + j : Nat) : ℚ) * dt_sim) dt_sim with
    | none => (none, log)
    | some x1 =>
      microSteps ints integrator dt_sim u i steps rem (j + 1) x1
        (log ++ [⟨i, ((i * steps + j : Nat) : ℚ) * dt_sim, dt_sim, u⟩])

/-- The two size checks after the stage loop of `rolloutSystem`. -/
def rolloutEpilogue {F : Type} {n m : Nat} (K_local : Nat) (b : RolloutBuffers F n m) :
    Outcome (RolloutBuffers F n m) Bool :=
  if b.x_local.length ≠ K_local + 1 then
    .raise "Error: Dynamics did not provide the correct amount of states." b
  else if b.u_local.length ≠ K_local then
    .raise "Error: Dynamics did not provide the correct amount of controls." b
  else .ret true b

/-- The stage loop `for (i = 0; i < K_local; i++)` of `rolloutSystem`, at stage `i`
with `rem` stages left, followed by the code after the loop. `flag i` is the value
read from `*terminationFlag` at the start of stage `i` (`none`: null pointer). -/
def rolloutLoop {F : Type} {n m : Nat} [Zero F] [Add F] [Mul F] (isnan : F → Bool)
    (ints : Integrators F n m) (integrator : IntegratorType) (dt_sim : ℚ) (steps K_local : Nat)
    (L_ : List (Matrix (Fin m) (Fin n) F)) (u_ff_local : List (Fin m → F))
    (flag : Option (Nat → Bool)) :
    Nat → Nat → (Fin n → F) → RolloutBuffers F n m → Outcome (RolloutBuffers F n m) Bool
  | 0, _, _, b => rolloutEpilogue K_local b
  | rem + 1, i, x0, b =>
    if (match flag with
        | some f => f i
        | none => false) then .ret false b
    else
      match u_ff_local[i]?, L_[i]? with
      | some uff, some Li =>
        let u := ctrlAdd uff (gainTimes Li x0)
        let b1 : RolloutBuffers F n m := { b with u_local := b.u_local ++ [u] }
        match microSteps ints integrator dt_sim u i steps steps 0 x0 b1.calls with
        | (none, log) => .raise "invalid integration mode selected." { b1 with calls := log }
        | (some x1, log) =>
          let b2 : RolloutBuffers F n m :=
            { b1 with x_local := b1.x_local ++ [x1],
                      t_local := b1.t_local ++ [((i + 1 : Nat) : ℚ) * dt_sim],
                      calls := log }
          match b2.x_local[i]?, b2.u_local[i]? with
          | some xi, some ui =>
            if anyNaN isnan xi then .ret false b2
            else if anyNaN isnan ui then .ret false b2
            else rolloutLoop isnan ints integrator dt_sim steps K_local L_ u_ff_local flag
                   rem (i + 1) x1 b2
          | _, _ => .fault
      | _, _ => .fault

/-- Embedding of `GNMSBase::rolloutSystem`. Reads `settings_.dt`, `settings_.dt_sim`,
`settings_.integrator`, `K_` and `L_` from the solver, uses the integrators of thread
`threadId`, and rewrites the buffers `x_local`, `u_local`, `t_local`. -/
def rolloutSystem {F : Type} {n m : Nat} [Zero F] [Add F] [Mul F] (isnan : F → Bool)
    (ints : Integrators F n m) (integrator : IntegratorType) (dt dt_sim : ℚ) (K_ : Nat)
    (L_ : List (Matrix (Fin m) (Fin n) F)) (u_ff_local : List (Fin m → F))
    (b : RolloutBuffers F n m) (terminationFlag : Option (Nat → Bool)) :
    Outcome (RolloutBuffers F n m) Bool :=
  match b.x_local[0]? with
  | none => .fault
  | some x0 =>
    rolloutLoop isnan ints integrator dt_sim (substeps dt dt_sim) K_ L_ u_ff_local
      terminationFlag K_ 0 x0
      { x_local := [x0], u_local := [], t_local := [0], calls := b.calls }

/-! ## GNMSBase state -/

/-- Value of `settings_.discretization`; `unknown` stands for any value of the
enumeration type that is none of the three named ones. -/
inductive Discretization where
  | FORWARD_EULER
  | BACKWARD_EULER
  | TUSTIN
  | unknown (code : Nat)
deriving DecidableEq

/-- Modelled from the spec: the class `GNMSSettings` is declared outside the sources;
these are the members that `GNMSBase.hpp` reads, with `computeK` and `parametersOk`
taken as given results of the member functions of the same name. -/
structure GNMSSettings (F : Type) where
  dt : F
  dt_sim : F
  integrator : IntegratorType
  discretization : Discretization
  fixedHessianCorrection : Bool
  epsilon : F
  recordSmallestEigenvalue : Bool
  max_iterations : Nat
  nThreads : Nat
  nThreadsEigen : Nat
  lineSearchActive : Bool
  computeK : F → Nat
  parametersOk : Bool

/-- The policy type `Policy_t`: a control array and a state array. -/
structure Policy (F : Type) (n m : Nat) where
  controlVectorArray : List (Fin m → F)
  stateVectorArray : List (Fin n → F)

/-- Data members of the class `GNMSBase` that the embedded member functions read or write.
The declaration of `K_` is outside the sources; it counts stages and is a natural number
here. The two smallest-eigenvalue records can hold `+infinity`. -/
structure GNMSBase (F : Type) (n m : Nat) where
  K_ : Nat
  initialized_ : Bool
  configured_ : Bool
  iteration_ : Nat
  settings_ : GNMSSettings F
  policy_ : Policy F n m
  A_ : List (Matrix (Fin n) (Fin n) F)
  B_ : List (Matrix (Fin n) (Fin m) F)
  x_ : List (Fin n → F)
  xShot_ : List (Fin n → F)
  u_ : List (Fin m → F)
  u_ff_ : List (Fin m → F)
  u_ff_prev_ : List (Fin m → F)
  d_ : List (Fin n → F)
  gv_ : List (Fin m → F)
  G_ : List (Matrix (Fin m) (Fin n) F)
  H_ : List (Matrix (Fin m) (Fin m) F)
  Hi_ : List (Matrix (Fin m) (Fin m) F)
  Hi_inverse_ : List (Matrix (Fin m) (Fin m) F)
  lv_ : List (Fin m → F)
  lx_ : List (Fin n → F)
  L_ : List (Matrix (Fin m) (Fin n) F)
  P_ : List (Matrix (Fin m) (Fin n) F)
  q_ : List F
  qv_ : List (Fin n → F)
  Q_ : List (Matrix (Fin n) (Fin n) F)
  rv_ : List (Fin m → F)
  R_ : List (Matrix (Fin m) (Fin m) F)
  sv_ : List (Fin n → F)
  S_ : List (Matrix (Fin n) (Fin n) F)
  H_corrFix_ : Matrix (Fin m) (Fin m) F
  du_norm_ : F
  smallestEigenvalue_ : WithTop F
  smallestEigenvalueIteration_ : WithTop F

/-- The assignment `a[k] = v` on a container: defined only for `k` within bounds. -/
def assign {α : Type} (a : List α) (k : Nat) (v : α) : Option (List α) :=
  if k < a.length then some (a.set k v) else none

/-- The call `a.resize(k)`: keeps the first `k` elements and appends new elements up
to length `k`. The content of a new element is not specified by the container; `fill`
stands for it. -/
def resize {α : Type} (a : List α) (k : Nat) (fill : α) : List α :=
  a.take k ++ List.replicate (k - a.length) fill

/-- Turns the result of a sequence of container accesses into an outcome. -/
def Outcome.ofOption {σ : Type} : Option σ → Outcome σ Unit
  | some s => .ret () s
  | none => .fault

/-- The value of `x - 1` on `size_t` (64 bit, wrapping). -/
def sizeMinusOne (x : Nat) : Nat := (x + (2 ^ 64 - 1)) % 2 ^ 64

variable {F : Type} {n m : Nat}

/-- Modelled from the spec: `reset` is declared in the class header, which is not among
the sources. The spec says that a reset makes the next solve start from a fresh rollout;
`changeCostFunction` tells a fresh solver from a running one by `iteration_ > 0`, so the
reset puts the iteration counter back to zero and leaves the stored trajectory alone. -/
def reset (s : GNMSBase F n m) : GNMSBase F n m :=
  { s with iteration_ := 0 }

/-- Embedding of `GNMSBase::setInitialGuess`. -/
def setInitialGuess (s : GNMSBase F n m) (initialGuess : Policy F n m) :
    Outcome (GNMSBase F n m) Unit :=
  if initialGuess.controlVectorArray.length ≠ sizeMinusOne initialGuess.stateVectorArray.length then
    .raise "state and control trajectories are not equally long" s
  else if initialGuess.controlVectorArray.length < s.K_ then
    .raise "initial control guess to short" s
  else
    .ret () (reset { s with u_ff_ := initialGuess.controlVectorArray,
                            x_ := initialGuess.stateVectorArray,
                            initialized_ := true })

/-- Embedding of `GNMSBase::getSolution`: copies `u_ff_` and `x_` into `policy_` and
returns it. -/
def getSolution (s : GNMSBase F n m) : Policy F n m × GNMSBase F n m :=
  let p : Policy F n m := { controlVectorArray := s.u_ff_, stateVectorArray := s.x_ }
  (p, { s with policy_ := p })

/-- Embedding of `GNMSBase::changeTimeHorizon`. -/
def changeTimeHorizon [LinearOrderedField F] (s : GNMSBase F n m) (tf : F) :
    Outcome (GNMSBase F n m) Unit :=
  if tf < 0 then .raise "negative time horizon specified" s
  else
    let K := s.settings_.computeK tf
    if K = s.K_ then .ret () s
    else
      .ret ()
        { s with
          K_ := K
          A_ := resize s.A_ K 0
          B_ := resize s.B_ K 0
          x_ := resize s.x_ (K + 1) 0
          xShot_ := resize s.xShot_ (K + 1) 0
          u_ := resize s.u_ K 0
          u_ff_ := resize s.u_ff_ K 0
          u_ff_prev_ := resize s.u_ff_prev_ K 0
          d_ := resize s.d_ K 0
          gv_ := resize s.gv_ K 0
          G_ := resize s.G_ K 0
          H_ := resize s.H_ K 0
          Hi_ := resize s.Hi_ K 0
          Hi_inverse_ := resize s.Hi_inverse_ K 0
          lv_ := resize s.lv_ K 0
          lx_ := resize s.lx_ (K + 1) 0
          L_ := resize s.L_ K 0
          P_ := resize s.P_ K 0
          q_ := resize s.q_ (K + 1) 0
          qv_ := resize s.qv_ (K + 1) 0
          Q_ := resize s.Q_ (K + 1) 0
          rv_ := resize s.rv_ K 0
          R_ := resize s.R_ K 0
          sv_ := resize s.sv_ (K + 1) 0
          S_ := resize s.S_ (K + 1) 0 }

/-- Embedding of `GNMSBase::checkProblem`; `none` when no exception is thrown. -/
def checkProblem (s : GNMSBase F n m) : Option String :=
  if s.K_ = 0 then some "Time horizon too small resulting in 0 GNMS steps"
  else if s.L_.length < s.K_ then some "Provided initial feedback controller too short"
  else if s.u_ff_.length < s.K_ then some "Provided initial feed forward controller too short"
  else none

/-- The member functions called by `runIteration` whose bodies are outside
`GNMSBase.hpp`: the virtual `createLQProblem` and `backwardPass`. -/
structure Passes (F : Type) (n m : Nat) where
  createLQProblem : GNMSBase F n m → Outcome (GNMSBase F n m) Unit
  backwardPass : GNMSBase F n m → Outcome (GNMSBase F n m) Unit

/-- Embedding of `GNMSBase::forwardPass`: runs `createLQProblem` and returns `true`. -/
def forwardPass (p : Passes F n m) (s : GNMSBase F n m) : Outcome (GNMSBase F n m) Bool :=
  match p.createLQProblem s with
  | .ret _ s1 => .ret true s1
  | .raise msg s1 => .raise msg s1
  | .fault => .fault

/-- Embedding of `GNMSBase::runIteration`. -/
def runIteration (p : Passes F n m) (s : GNMSBase F n m) : Outcome (GNMSBase F n m) Bool :=
  if !s.initialized_ then .raise "GNMS is not initialized!" s
  else if !s.configured_ then .raise "GNMS is not configured!" s
  else
    let s0 : GNMSBase F n m := { s with smallestEigenvalueIteration_ := ⊤ }
    match checkProblem s0 with
    | some msg => .raise msg s0
    | none =>
      match forwardPass p s0 with
      | .raise msg s1 => .raise msg s1
      | .fault => .fault
      | .ret false s1 => .ret false s1
      | .ret true s1 =>
        match p.backwardPass s1 with
        | .raise msg s2 => .raise msg s2
        | .fault => .fault
        | .ret _ s2 =>
          let foundBetter := true
          .ret foundBetter { s2 with iteration_ := s2.iteration_ + 1 }

/-! ## Shots and defects -/

/-- Embedding of `GNMSBase::computeSingleDefect`. The `assert` is compiled out in release
builds and aborts otherwise; the embedding reports a failed assertion as a fault. -/
def computeSingleDefect [LinearOrderedField F] (s : GNMSBase F n m) (k : Nat) :
    Outcome (GNMSBase F n m) Unit :=
  if k < s.K_ then
    Outcome.ofOption do
      let xShot ← s.xShot_[k]?
      let xNext ← s.x_[k + 1]?
      let d_ ← assign s.d_ k (xShot - xNext)
      pure { s with d_ := d_ }
  else if k = s.K_ then
    Outcome.ofOption do
      let d_ ← assign s.d_ s.K_ 0
      pure { s with d_ := d_ }
  else .fault

/-! ## Linearisation, quadratic cost and the backward recursion -/

/-- The linear-system provider of one thread (`getLinearSystemsInstances()[threadId]`). -/
structure LinearSystem (F : Type) (n m : Nat) where
  getDerivativeState : (Fin n → F) → (Fin m → F) → F → Matrix (Fin n) (Fin n) F
  getDerivativeControl : (Fin n → F) → (Fin m → F) → F → Matrix (Fin n) (Fin m) F

/-- The cost module of one thread (`getCostFunctionInstances()[threadId]`). Each
evaluation method is given as a function of the state, control and time last passed to
`setCurrentStateAndControl`. -/
structure CostFunction (F : Type) (n m : Nat) where
  evaluateIntermediate : (Fin n → F) → (Fin m → F) → F → F
  stateDerivativeIntermediate : (Fin n → F) → (Fin m → F) → F → (Fin n → F)
  stateSecondDerivativeIntermediate : (Fin n → F) → (Fin m → F) → F → Matrix (Fin n) (Fin n) F
  stateControlDerivativeIntermediate : (Fin n → F) → (Fin m → F) → F → Matrix (Fin m) (Fin n) F
  controlDerivativeIntermediate : (Fin n → F) → (Fin m → F) → F → (Fin m → F)
  controlSecondDerivativeIntermediate : (Fin n → F) → (Fin m → F) → F → Matrix (Fin m) (Fin m) F
  evaluateTerminal : (Fin n → F) → (Fin m → F) → F → F
  stateDerivativeTerminal : (Fin n → F) → (Fin m → F) → F → (Fin n → F)
  stateSecondDerivativeTerminal : (Fin n → F) → (Fin m → F) → F → Matrix (Fin n) (Fin n) F

/-- The routines of the Eigen library that the solver calls. -/
structure EigenLib (F : Type) (n m : Nat) where
  /-- The call `eigenvalueSolver_.compute(M, ComputeEigenvectors)`: the pair
  `(eigenvectors().real(), eigenvalues())` -/
  eigenSolve : Matrix (Fin m) (Fin m) F → Matrix (Fin m) (Fin m) F × (Fin m → F)
  /-- The call `M.selfadjointView<Eigen::Lower>().llt().solve(B)` -/
  lltSolve : Matrix (Fin m) (Fin m) F → Matrix (Fin m) (Fin m) F → Matrix (Fin m) (Fin m) F
  /-- The call `M.colPivHouseholderQr().inverse()` -/
  qrInverse : Matrix (Fin n) (Fin n) F → Matrix (Fin n) (Fin n) F
  /-- The call `v.norm()` -/
  norm : (Fin m → F) → F

/-- The view `M.selfadjointView<Eigen::Lower>()`: the symmetric matrix whose lower
triangle (diagonal included) is that of `M`. -/
def selfadjointLower {d : Nat} (M : Matrix (Fin d) (Fin d) F) : Matrix (Fin d) (Fin d) F :=
  fun i j => if j ≤ i then M i j else M j i

/-- The value of `lambda.minCoeff()`, as an element of the scalars extended by `+infinity`. -/
def minCoeff [LinearOrder F] {d : Nat} (lambda : Fin d → F) : WithTop F :=
  (List.finRange d).foldl (fun acc i => min acc (lambda i : WithTop F)) ⊤

/-- The `switch` of `GNMSBase::computeLinearizedDynamics` on the values of stage `k`:
the new `(A_[k], B_[k])`, or `none` in the `default` case. -/
def linearizedDynamicsStage [Field F] (E : EigenLib F n m) (lin : LinearSystem F n m)
    (st : GNMSSettings F) (x : Fin n → F) (u : Fin m → F) (k : Nat) :
    Option (Matrix (Fin n) (Fin n) F × Matrix (Fin n) (Fin m) F) :=
  match st.discretization with
  | .FORWARD_EULER =>
    let A : Matrix (Fin n) (Fin n) F := 1
    let A := A + st.dt • lin.getDerivativeState x u ((k : F) * st.dt)
    let B := st.dt • lin.getDerivativeControl x u ((k : F) * st.dt)
    some (A, B)
  | .BACKWARD_EULER =>
    let aNew := st.dt • lin.getDerivativeState x u ((k : F) * st.dt)
    let aNewInv := E.qrInverse (1 - aNew)
    some (aNewInv, (st.dt • aNewInv) * lin.getDerivativeControl x u ((k : F) * st.dt))
  | .TUSTIN =>
    let aNew := ((1 / 2 : F) * st.dt) • lin.getDerivativeState x u ((k : F) * st.dt)
    let aNewInv := E.qrInverse (1 - aNew)
    some (aNewInv * (1 + aNew),
      (st.dt • aNewInv) * lin.getDerivativeControl x u ((k : F) * st.dt))
  | .unknown _ => none

/-- Embedding of `GNMSBase::computeLinearizedDynamics`. The `default` case throws before any
container is touched. -/
def computeLinearizedDynamics [Field F] (E : EigenLib F n m) (lin : LinearSystem F n m)
    (s : GNMSBase F n m) (k : Nat) : Outcome (GNMSBase F n m) Unit :=
  match s.settings_.discretization with
  | .unknown _ => .raise "Unknown discretization scheme" s
  | _ =>
    Outcome.ofOption do
      let x ← s.x_[k]?
      let u ← s.u_[k]?
      let AB ← linearizedDynamicsStage E lin s.settings_ x u k
      let A_ ← assign s.A_ k AB.1
      let B_ ← assign s.B_ k AB.2
      pure { s with A_ := A_, B_ := B_ }

/-- Embedding of `GNMSBase::computeQuadraticCosts`. -/
def computeQuadraticCosts [Field F] (cost : CostFunction F n m) (s : GNMSBase F n m) (k : Nat) :
    Outcome (GNMSBase F n m) Unit :=
  let dt := s.settings_.dt
  Outcome.ofOption do
    let x ← s.x_[k]?
    let u ← s.u_[k]?
    let t := dt * (k : F)
    let q_ ← assign s.q_ k (cost.evaluateIntermediate x u t * dt)
    let qv_ ← assign s.qv_ k (dt • cost.stateDerivativeIntermediate x u t)
    let Q_ ← assign s.Q_ k (dt • cost.stateSecondDerivativeIntermediate x u t)
    let P_ ← assign s.P_ k (dt • cost.stateControlDerivativeIntermediate x u t)
    let rv_ ← assign s.rv_ k (dt • cost.controlDerivativeIntermediate x u t)
    let R_ ← assign s.R_ k (dt • cost.controlSecondDerivativeIntermediate x u t)
    pure { s with q_ := q_, qv_ := qv_, Q_ := Q_, P_ := P_, rv_ := rv_, R_ := R_ }

/-- Embedding of `GNMSBase::initializeCostToGo`; `cost` is the cost module of thread
`settings_.nThreads`. -/
def initializeCostToGo [Field F] (cost : CostFunction F n m) (s : GNMSBase F n m) :
    Outcome (GNMSBase F n m) Unit :=
  Outcome.ofOption do
    let x ← s.x_[s.K_]?
    let t := s.settings_.dt * (s.K_ : F)
    let q_ ← assign s.q_ s.K_ (cost.evaluateTerminal x 0 t)
    let qv_ ← assign s.qv_ s.K_ (cost.stateDerivativeTerminal x 0 t)
    let Q_ ← assign s.Q_ s.K_ (cost.stateSecondDerivativeTerminal x 0 t)
    let QK ← Q_[s.K_]?
    let S_ ← assign s.S_ s.K_ QK
    let qvK ← qv_[s.K_]?
    let sv_ ← assign s.sv_ s.K_ qvK
    pure { s with q_ := q_, qv_ := qv_, Q_ := Q_, S_ := S_, sv_ := sv_ }

/-- The Hessian part of `GNMSBase::computeCostToGo` on the values of stage `k`. -/
def costToGoHessian [Field F] (Q A S1 : Matrix (Fin n) (Fin n) F)
    (L : Matrix (Fin m) (Fin n) F) (Hi : Matrix (Fin m) (Fin m) F) :
    Matrix (Fin n) (Fin n) F :=
  let S := Q
  let S := S + A.transpose * S1 * A
  let S := S - L.transpose * Hi * L
  (1 / 2 : F) • (S + S.transpose)

/-- The gradient part of `GNMSBase::computeCostToGo` on the values of stage `k`. -/
def costToGoGradient [Field F] (qv sv1 d : Fin n → F) (A S1 : Matrix (Fin n) (Fin n) F)
    (L G : Matrix (Fin m) (Fin n) F) (Hi : Matrix (Fin m) (Fin m) F) (lv gv : Fin m → F) :
    Fin n → F :=
  let sv := qv
  let sv := sv + A.transpose.mulVec sv1
  let sv := sv + (A.transpose * S1).mulVec d
  let sv := sv + (L.transpose * Hi).mulVec lv
  let sv := sv + L.transpose.mulVec gv
  sv + G.transpose.mulVec lv

/-- Embedding of `GNMSBase::computeCostToGo`. -/
def computeCostToGo [Field F] (s : GNMSBase F n m) (k : Nat) : Outcome (GNMSBase F n m) Unit :=
  match s.Q_[k]?, s.A_[k]?, s.S_[k + 1]?, s.L_[k]?, s.Hi_[k]? with
  | some Q, some A, some S1, some L, some Hi =>
    match assign s.S_ k (costToGoHessian Q A S1 L Hi) with
    | none => .fault
    | some S_ =>
      match s.qv_[k]?, s.sv_[k + 1]?, S_[k + 1]?, s.d_[k]?, s.lv_[k]?, s.gv_[k]?, s.G_[k]? with
      | some qv, some sv1, some S1, some d, some lv, some gv, some G =>
        match assign s.sv_ k (costToGoGradient qv sv1 d A S1 L G Hi lv gv) with
        | none => .fault
        | some sv_ => .ret () { s with S_ := S_, sv_ := sv_ }
      | _, _, _, _, _, _, _ => .fault
  | _, _, _, _, _ => .fault

/-- The values `designController` computes for one stage. -/
structure ControllerStage (F : Type) (n m : Nat) where
  gv : Fin m → F
  G : Matrix (Fin m) (Fin n) F
  H : Matrix (Fin m) (Fin m) F
  Hi : Matrix (Fin m) (Fin m) F
  Hi_inverse : Matrix (Fin m) (Fin m) F
  L : Matrix (Fin m) (Fin n) F
  lv : Fin m → F
  du_norm : F
  smallestEigenvalue : WithTop F
  smallestEigenvalueIteration : WithTop F

/-- Embedding of `GNMSBase::designController` on the values of stage `k`. The comparison
of the two inverses in the fixed-correction branch only prints a warning and is left
out. -/
def designControllerStage [LinearOrderedField F] (E : EigenLib F n m) (st : GNMSSettings F)
    (rv : Fin m → F) (B : Matrix (Fin n) (Fin m) F) (sv1 : Fin n → F)
    (P : Matrix (Fin m) (Fin n) F) (S1 A : Matrix (Fin n) (Fin n) F)
    (R : Matrix (Fin m) (Fin m) F) (du_norm : F) (smallest smallestIteration : WithTop F) :
    ControllerStage F n m :=
  let gv := rv + B.transpose.mulVec sv1
  let G := P + B.transpose * selfadjointLower S1 * A
  let H := R + B.transpose * selfadjointLower S1 * B
  if st.fixedHessianCorrection then
    let Hi := if st.epsilon > 1 / 10 ^ 10 then H + st.epsilon • (1 : Matrix (Fin m) (Fin m) F) else H
    let lambda := (E.eigenSolve Hi).2
    let smallest1 :=
      if st.recordSmallestEigenvalue then min smallest (minCoeff lambda) else smallest
    let smallestIteration1 :=
      if st.recordSmallestEigenvalue then min smallestIteration (minCoeff lambda)
      else smallestIteration
    let Hi_inverse := -E.lltSolve Hi 1
    let L := selfadjointLower Hi_inverse * G
    let lv := (selfadjointLower Hi_inverse).mulVec gv
    { gv := gv, G := G, H := H, Hi := Hi, Hi_inverse := Hi_inverse, L := L, lv := lv,
      du_norm := du_norm + E.norm lv,
      smallestEigenvalue := smallest1, smallestEigenvalueIteration := smallestIteration1 }
  else
    let V := (E.eigenSolve H).1
    let lambda := (E.eigenSolve H).2
    let smallest1 :=
      if st.recordSmallestEigenvalue then min smallest (minCoeff lambda) else smallest
    let smallestIteration1 :=
      if st.recordSmallestEigenvalue then min smallestIteration (minCoeff lambda)
      else smallestIteration
    let D : Matrix (Fin m) (Fin m) F := Matrix.diagonal (fun i => max (lambda i) st.epsilon)
    let Hi := V * D * V.transpose
    let D_inverse : Matrix (Fin m) (Fin m) F := Matrix.diagonal (fun i => -1 * (D i i)⁻¹)
    let Hi_inverse := V * D_inverse * V.transpose
    let L := Hi_inverse * G
    let lv := Hi_inverse.mulVec gv
    { gv := gv, G := G, H := H, Hi := Hi, Hi_inverse := Hi_inverse, L := L, lv := lv,
      du_norm := du_norm + E.norm lv,
      smallestEigenvalue := smallest1, smallestEigenvalueIteration := smallestIteration1 }

/-- Embedding of `GNMSBase::designController`. -/
def designController [LinearOrderedField F] (E : EigenLib F n m) (s : GNMSBase F n m) (k : Nat) :
    Outcome (GNMSBase F n m) Unit :=
  match s.rv_[k]?, s.B_[k]?, s.sv_[k + 1]?, s.P_[k]?, s.S_[k + 1]?, s.A_[k]?, s.R_[k]? with
  | some rv, some B, some sv1, some P, some S1, some A, some R =>
    let c := designControllerStage E s.settings_ rv B sv1 P S1 A R s.du_norm_
      s.smallestEigenvalue_ s.smallestEigenvalueIteration_
    match assign s.gv_ k c.gv, assign s.G_ k c.G, assign s.H_ k c.H, assign s.Hi_ k c.Hi,
      assign s.Hi_inverse_ k c.Hi_inverse, assign s.L_ k c.L, assign s.lv_ k c.lv with
    | some gv_, some G_, some H_, some Hi_, some Hi_inverse_, some L_, some lv_ =>
      .ret ()
        { s with gv_ := gv_, G_ := G_, H_ := H_, Hi_ := Hi_, Hi_inverse_ := Hi_inverse_,
                 L_ := L_, lv_ := lv_, du_norm_ := c.du_norm,
                 smallestEigenvalue_ := c.smallestEigenvalue,
                 smallestEigenvalueIteration_ := c.smallestEigenvalueIteration }
    | _, _, _, _, _, _, _ => .fault
  | _, _, _, _, _, _, _ => .fault

/-! ## Configuration, the solve loop and changes of the problem -/

/-- Embedding of `GNMSBase::configure`. The call `Eigen::setNbThreads` writes a setting
of the Eigen library, outside the solver, and is left out. -/
def configure [Field F] (s : GNMSBase F n m) (settings : GNMSSettings F) :
    Outcome (GNMSBase F n m) Unit :=
  if !settings.parametersOk then .raise "GNMSSettings are incorrect. Aborting." s
  else if settings.nThreads ≠ s.settings_.nThreads then
    .raise "Number of threads at GNMS cannot be changed after instance has been created." s
  else
    .ret ()
      { reset { s with settings_ := settings,
                       H_corrFix_ := settings.epsilon • (1 : Matrix (Fin m) (Fin m) F) } with
        configured_ := true }

/-- The `while` loop of `GNMSBase::solve` inside the `try` block, entered with the given
values of `foundBetter` and `numIterations`. The first argument bounds the number of
iterations the embedding follows; `none` means that the bound was used up with the loop
condition still true. An exception of `runIteration` leaves the loop as `Outcome.raise`. -/
def solveLoop (p : Passes F n m) :
    Nat → Bool → Nat → GNMSBase F n m → Option (Outcome (GNMSBase F n m) (Bool × Nat))
  | fuel, foundBetter, numIterations, s =>
    if foundBetter && decide (numIterations < s.settings_.max_iterations) then
      match fuel with
      | 0 => none
      | fuel + 1 =>
        match runIteration p s with
        | .ret fb s1 => solveLoop p fuel fb (numIterations + 1) s1
        | .raise msg s1 => some (.raise msg s1)
        | .fault => some .fault
    else some (.ret (foundBetter, numIterations) s)

/-- Embedding of `GNMSBase::solve`: the loop, the `catch` clause turning an exception
into the return value `false`, and the final `return`. -/
def solve (p : Passes F n m) (fuel : Nat) (s : GNMSBase F n m) :
    Option (Outcome (GNMSBase F n m) Bool) :=
  match solveLoop p fuel true 0 s with
  | none => none
  | some (.raise _ s1) => some (.ret false s1)
  | some .fault => some .fault
  | some (.ret (foundBetter, numIterations) s1) =>
    some (.ret (decide (numIterations > 1) || foundBetter ||
      (decide (numIterations = 1) && !foundBetter)) s1)

/-- The `while` loop of `GNMSBase::solve` with the call `runIteration()` taken as the
parameter `run`, so that every result of an iteration, the return value `false` included,
can be followed through the loop; `solveLoop p` is the instance `run = runIteration p`. -/
def solveLoopWith (run : GNMSBase F n m → Outcome (GNMSBase F n m) Bool) :
    Nat → Bool → Nat → GNMSBase F n m → Option (Outcome (GNMSBase F n m) (Bool × Nat))
  | fuel, foundBetter, numIterations, s =>
    if foundBetter && decide (numIterations < s.settings_.max_iterations) then
      match fuel with
      | 0 => none
      | fuel + 1 =>
        match run s with
        | .ret fb s1 => solveLoopWith run fuel fb (numIterations + 1) s1
        | .raise msg s1 => some (.raise msg s1)
        | .fault => some .fault
    else some (.ret (foundBetter, numIterations) s)

/-- The function `GNMSBase::solve` around `solveLoopWith run`: the `catch` clause and the
final `return`, as in `solve`. -/
def solveWith (run : GNMSBase F n m → Outcome (GNMSBase F n m) Bool) (fuel : Nat)
    (s : GNMSBase F n m) : Option (Outcome (GNMSBase F n m) Bool) :=
  match solveLoopWith run fuel true 0 s with
  | none => none
  | some (.raise _ s1) => some (.ret false s1)
  | some .fault => some .fault
  | some (.ret (foundBetter, numIterations) s1) =>
    some (.ret (decide (numIterations > 1) || foundBetter ||
      (decide (numIterations = 1) && !foundBetter)) s1)

/-- Embedding of `GNMSBase::changeInitialState`. -/
def changeInitialState [Zero F] (s : GNMSBase F n m) (x0 : Fin n → F) :
    Outcome (GNMSBase F n m) Unit :=
  let x_ := if s.x_.length = 0 then resize s.x_ 1 0 else s.x_
  match assign x_ 0 x0 with
  | none => .fault
  | some x_ => .ret () (reset { s with x_ := x_ })

/-- The per-thread instances behind `getCostFunctionInstances()`,
`getNonlinearSystemsInstances()` and `getLinearSystemsInstances()`, the controllers and the
integrators. `Dyn` is the type of systems and `Ctrl` the type of controllers; a shared
pointer is an option, `none` being the null pointer; a system instance is paired with the
controller set on it, and an integrator is given by the system instance it integrates. -/
structure Instances (Dyn Ctrl F : Type) (n m : Nat) where
  costFunctionInstances : List (Option (CostFunction F n m))
  nonlinearSystemsInstances : List (Option (Dyn × Option Ctrl))
  linearSystemsInstances : List (Option (LinearSystem F n m))
  controller_ : List (Option Ctrl)
  integratorsRK4_ : List (Option (Dyn × Option Ctrl))
  integratorsEuler_ : List (Option (Dyn × Option Ctrl))
  integratorsEulerSymplectic_ : List (Option (Dyn × Option Ctrl))
  integratorsRkSymplectic_ : List (Option (Dyn × Option Ctrl))

/-- The loop `for (i = 0; i < nThreads + 1; i++)` of `GNMSBase::changeNonlinearSystem`, at
thread `i` with `rem` threads left. -/
def cloneSystems {Dyn Ctrl : Type} (isSymplectic : Dyn → Bool) (dyn : Dyn) :
    Nat → Nat → Instances Dyn Ctrl F n m → Outcome (Instances Dyn Ctrl F n m) Unit
  | 0, _, th => .ret () th
  | rem + 1, i, th =>
    match th.controller_[i]? with
    | none => .fault
    | some c =>
      match assign th.nonlinearSystemsInstances i (some (dyn, c)) with
      | none => .fault
      | some systems =>
        let th1 : Instances Dyn Ctrl F n m := { th with nonlinearSystemsInstances := systems }
        match c with
        | none => .raise "Controller not defined" th1
        | some _ =>
          match assign th1.integratorsRK4_ i (some (dyn, c)),
            assign th1.integratorsEuler_ i (some (dyn, c)) with
          | some rk4, some euler =>
            let th2 : Instances Dyn Ctrl F n m :=
              { th1 with integratorsRK4_ := rk4, integratorsEuler_ := euler }
            if isSymplectic dyn then
              match assign th2.integratorsEulerSymplectic_ i (some (dyn, c)),
                assign th2.integratorsRkSymplectic_ i (some (dyn, c)) with
              | some eulerSym, some rkSym =>
                cloneSystems isSymplectic dyn rem (i + 1)
                  { th2 with integratorsEulerSymplectic_ := eulerSym,
                             integratorsRkSymplectic_ := rkSym }
              | _, _ => .fault
            else cloneSystems isSymplectic dyn rem (i + 1) th2
          | _, _ => .fault

/-- Embedding of `GNMSBase::changeNonlinearSystem`. -/
def changeNonlinearSystem {Dyn Ctrl : Type} (isSymplectic : Dyn → Bool)
    (th : Instances Dyn Ctrl F n m) (s : GNMSBase F n m) (dyn : Option Dyn) :
    Outcome (Instances Dyn Ctrl F n m × GNMSBase F n m) Unit :=
  match dyn with
  | none => .raise "system dynamics are nullptr" (th, s)
  | some d =>
    let count := s.settings_.nThreads + 1
    let th1 : Instances Dyn Ctrl F n m :=
      { th with
        nonlinearSystemsInstances := resize th.nonlinearSystemsInstances count none
        integratorsRK4_ := resize th.integratorsRK4_ count none
        integratorsEuler_ := resize th.integratorsEuler_ count none
        integratorsEulerSymplectic_ := resize th.integratorsEulerSymplectic_ count none
        integratorsRkSymplectic_ := resize th.integratorsRkSymplectic_ count none }
    match cloneSystems isSymplectic d count 0 th1 with
    | .ret _ th2 => .ret () (th2, reset s)
    | .raise msg th2 => .raise msg (th2, s)
    | .fault => .fault

/-- Embedding of `GNMSBase::changeLinearSystem`; a null `lin` is dereferenced by
`lin->clone()`. -/
def changeLinearSystem {Dyn Ctrl : Type} (th : Instances Dyn Ctrl F n m) (s : GNMSBase F n m)
    (lin : Option (LinearSystem F n m)) :
    Outcome (Instances Dyn Ctrl F n m × GNMSBase F n m) Unit :=
  match lin with
  | none => .fault
  | some l =>
    .ret ()
      ({ th with linearSystemsInstances := List.replicate (s.settings_.nThreads + 1) (some l) },
        s)

/-! ## Shots, the state update and the cost of a trajectory -/

/-- Embedding of `GNMSBase::initializeSingleShot`. The function copies `x_[k]` into
`xShot_[k]` and calls the selected integrator once on it: one step of size `dt_sim`
(the value of `settings_.dt_sim`) from the start time `k * dt_sim`. It does not set the
controller; `u` is the control the thread's controller holds when the function is
called. -/
def initializeSingleShot (ints : Integrators F n m) (dt_sim : ℚ) (u : Fin m → F)
    (s : GNMSBase F n m) (k : Nat) : Outcome (GNMSBase F n m) Unit :=
  match s.x_[k]? with
  | none => .fault
  | some xk =>
    match assign s.xShot_ k xk with
    | none => .fault
    | some xShot_ =>
      match integrateStep ints s.settings_.integrator u xk ((k : ℚ) * dt_sim) dt_sim with
      | none => .raise "invalid integration mode selected." { s with xShot_ := xShot_ }
      | some x1 =>
        match assign xShot_ k x1 with
        | none => .fault
        | some xShot_ => .ret () { s with xShot_ := xShot_ }

/-- Embedding of `GNMSBase::updateSingleShot`. -/
def updateSingleShot [Field F] (s : GNMSBase F n m) (k : Nat) :
    Outcome (GNMSBase F n m) Unit :=
  match s.xShot_[k]?, s.A_[k]?, s.lx_[k]?, s.B_[k]?, s.lv_[k]? with
  | some xShot, some A, some lx, some B, some lv =>
    match assign s.xShot_ k (xShot + (A.mulVec lx + B.mulVec lv)) with
    | none => .fault
    | some xShot_ => .ret () { s with xShot_ := xShot_ }
  | _, _, _, _, _ => .fault

/-- Embedding of `GNMSBase::designStateUpdate`. -/
def designStateUpdate [Field F] (s : GNMSBase F n m) (k : Nat) :
    Outcome (GNMSBase F n m) Unit :=
  match s.A_[k]?, s.lx_[k]?, s.B_[k]?, s.lv_[k]?, s.d_[k]? with
  | some A, some lx, some B, some lv, some d =>
    match assign s.lx_ (k + 1) (A.mulVec lx + B.mulVec lv + d) with
    | none => .fault
    | some lx_ => .ret () { s with lx_ := lx_ }
  | _, _, _, _, _ => .fault

/-- The loop `for (k = 0; k < K_; k++)` of `GNMSBase::computeCostsOfTrajectory`, at stage
`k` with `rem` stages left and the running value `acc` of `intermediateCost`; `none` is an
access outside `x_local` or `u_local`. -/
def intermediateCostLoop [Field F] (cost : CostFunction F n m) (dt : F)
    (x_local : List (Fin n → F)) (u_local : List (Fin m → F)) : Nat → Nat → F → Option F
  | 0, _, acc => some acc
  | rem + 1, k, acc =>
    match x_local[k]?, u_local[k]? with
    | some x, some u =>
      intermediateCostLoop cost dt x_local u_local rem (k + 1)
        (acc + cost.evaluateIntermediate x u (dt * (k : F)))
    | _, _ => none

/-- Embedding of `GNMSBase::computeCostsOfTrajectory`: the pair
`(intermediateCost, finalCost)` written to the two reference arguments, or `none` for an
access outside `x_local` or `u_local`. -/
def computeCostsOfTrajectory [Field F] (cost : CostFunction F n m) (s : GNMSBase F n m)
    (x_local : List (Fin n → F)) (u_local : List (Fin m → F)) : Option (F × F) :=
  match intermediateCostLoop cost s.settings_.dt x_local u_local s.K_ 0 0 with
  | none => none
  | some c =>
    let intermediateCost := c * s.settings_.dt
    match x_local[s.K_]? with
    | none => none
    | some xK =>
      some (intermediateCost, cost.evaluateTerminal xK 0 (s.settings_.dt * (s.K_ : F)))

/-- Modelled from the spec: a per-stage work unit `f` run for the stages
`k, k + 1, ..., k + rem - 1` in increasing order. The loops over the stages that call the
per-stage functions are not part of `GNMSBase.hpp`; a stage that throws or faults ends the
sweep with that outcome. -/
def forwardSweep (f : GNMSBase F n m → Nat → Outcome (GNMSBase F n m) Unit) :
    Nat → Nat → GNMSBase F n m → Outcome (GNMSBase F n m) Unit
  | 0, _, s => .ret () s
  | rem + 1, k, s =>
    match f s k with
    | .ret _ s1 => forwardSweep f rem (k + 1) s1
    | .raise msg s1 => .raise msg s1
    | .fault => .fault

/-- Modelled from the spec: the backward recursion over the stages `k - 1, ..., 0`, each
stage running `designController` and then `computeCostToGo` (section 4.4: "running from
`K - 1` down to `0`, seeded at `k = K` by the terminal cost"). The loop itself is not part
of `GNMSBase.hpp`; a stage that throws or faults ends the sweep with that outcome. -/
def backwardSweep [LinearOrderedField F] (E : EigenLib F n m) :
    Nat → GNMSBase F n m → Outcome (GNMSBase F n m) Unit
  | 0, s => .ret () s
  | k + 1, s =>
    match designController E s k with
    | .ret _ s1 =>
      match computeCostToGo s1 k with
      | .ret _ s2 => backwardSweep E k s2
      | .raise msg s2 => .raise msg s2
      | .fault => .fault
    | .raise msg s1 => .raise msg s1
    | .fault => .fault

/-! ## Concrete inputs -/

/-- Scalars extended by a not-a-number value, which every operation propagates. -/
inductive NanScalar where
  | nan
  | val (z : ℤ)
deriving DecidableEq

/-- The test `isnan` on `NanScalar`. -/
def NanScalar.isnan : NanScalar → Bool
  | .nan => true
  | .val _ => false

instance : Zero NanScalar := ⟨.val 0⟩

instance : Add NanScalar :=
  ⟨fun a b =>
    match a, b with
    | .val x, .val y => .val (x + y)
    | _, _ => .nan⟩

instance : Mul NanScalar :=
  ⟨fun a b =>
    match a, b with
    | .val x, .val y => .val (x * y)
    | _, _ => .nan⟩

/-- Integrators of a system that blows up within one step: whatever the state and the
control, the integrated state is not a number. -/
def divergingIntegrators : Integrators NanScalar 1 1 where
  integratorsEuler_ := fun _ _ _ _ _ => .nan
  integratorsRK4_ := fun _ _ _ _ _ => .nan
  integratorsEulerSymplectic_ := fun _ _ _ _ _ => .nan
  integratorsRkSymplectic_ := fun _ _ _ _ _ => .nan

/-- Settings used for the concrete inputs: unit stage duration and micro-step, forward
Euler, the given regularization policy and `epsilon`, and a horizon of `computeK tf = K`
stages for every `tf`. -/
def sampleSettings (K : Nat) (fixedHessianCorrection : Bool) (epsilon : ℚ) : GNMSSettings ℚ where
  dt := 1
  dt_sim := 1
  integrator := .EULER
  discretization := .FORWARD_EULER
  fixedHessianCorrection := fixedHessianCorrection
  epsilon := epsilon
  recordSmallestEigenvalue := false
  max_iterations := 1
  nThreads := 1
  nThreadsEigen := 1
  lineSearchActive := false
  computeK := fun _ => K
  parametersOk := true

/-- A solver with horizon `K` whose containers all have length `len` and hold zeros. -/
def zeroSolver (n m : Nat) (st : GNMSSettings ℚ) (K len : Nat) : GNMSBase ℚ n m where
  K_ := K
  initialized_ := false
  configured_ := false
  iteration_ := 0
  settings_ := st
  policy_ := { controlVectorArray := [], stateVectorArray := [] }
  A_ := List.replicate len 0
  B_ := List.replicate len 0
  x_ := List.replicate (len + 1) 0
  xShot_ := List.replicate (len + 1) 0
  u_ := List.replicate len 0
  u_ff_ := List.replicate len 0
  u_ff_prev_ := List.replicate len 0
  d_ := List.replicate len 0
  gv_ := List.replicate len 0
  G_ := List.replicate len 0
  H_ := List.replicate len 0
  Hi_ := List.replicate len 0
  Hi_inverse_ := List.replicate len 0
  lv_ := List.replicate len 0
  lx_ := List.replicate (len + 1) 0
  L_ := List.replicate len 0
  P_ := List.replicate len 0
  q_ := List.replicate (len + 1) 0
  qv_ := List.replicate (len + 1) 0
  Q_ := List.replicate (len + 1) 0
  rv_ := List.replicate len 0
  R_ := List.replicate len 0
  sv_ := List.replicate (len + 1) 0
  S_ := List.replicate (len + 1) 0
  H_corrFix_ := 0
  du_norm_ := 0
  smallestEigenvalue_ := ⊤
  smallestEigenvalueIteration_ := ⊤

/-- A one-stage solver with one state and one control, zero data, and eigenvalue clipping
with `epsilon = 1`. -/
def clippingSolver : GNMSBase ℚ 1 1 := zeroSolver 1 1 (sampleSettings 1 false 1) 1 1

/-- A one-stage solver with one state and one control, zero data, and the fixed Hessian
correction with `epsilon = 1`. -/
def fixedSolver : GNMSBase ℚ 1 1 := zeroSolver 1 1 (sampleSettings 1 true 1) 1 1

/-- A one-stage solver with one state and one control, zero data, and backward-Euler
discretization. -/
def backwardEulerSolver : GNMSBase ℚ 1 1 :=
  zeroSolver 1 1 { sampleSettings 1 true 0 with discretization := .BACKWARD_EULER } 1 1

/-- A one-stage solver with two states and one control and zero data. -/
def planarSolver : GNMSBase ℚ 2 1 := zeroSolver 2 1 (sampleSettings 1 true 0) 1 1

/-- The solver `fixedSolver`, initialized and configured. -/
def readySolver : GNMSBase ℚ 1 1 :=
  { fixedSolver with initialized_ := true, configured_ := true }

/-- A one-stage solver whose discretization selector is none of the known ones. -/
def unknownSchemeSolver : GNMSBase ℚ 1 1 :=
  zeroSolver 1 1 { sampleSettings 1 true 0 with discretization := .unknown 7 } 1 1

/-- Rollout buffers holding the initial state `1` of the scalar system. -/
def unitBuffers : RolloutBuffers ℚ 1 1 where
  x_local := [fun _ => 1]
  u_local := []
  t_local := []
  calls := []

/-- The stage-indexed containers have the lengths that a horizon of `K` stages asks for:
`K` for the per-control-stage containers and `K + 1` for the per-state-stage ones. -/
def StageSized (s : GNMSBase F n m) (K : Nat) : Prop :=
  (s.A_.length = K ∧ s.B_.length = K ∧ s.u_.length = K ∧ s.u_ff_.length = K ∧
    s.u_ff_prev_.length = K ∧ s.d_.length = K ∧ s.gv_.length = K ∧ s.G_.length = K) ∧
  (s.H_.length = K ∧ s.Hi_.length = K ∧ s.Hi_inverse_.length = K ∧ s.lv_.length = K ∧
    s.L_.length = K ∧ s.P_.length = K ∧ s.rv_.length = K ∧ s.R_.length = K) ∧
  (s.x_.length = K + 1 ∧ s.xShot_.length = K + 1 ∧ s.lx_.length = K + 1 ∧
    s.q_.length = K + 1 ∧ s.qv_.length = K + 1 ∧ s.Q_.length = K + 1 ∧
    s.sv_.length = K + 1 ∧ s.S_.length = K + 1)

/-- An initial guess of `len` zero controls and `len + 1` zero states. -/
def zeroGuess (n m len : Nat) : Policy ℚ n m where
  controlVectorArray := List.replicate len 0
  stateVectorArray := List.replicate (len + 1) 0

/-- Passes that do nothing and return normally. -/
def idlePasses (n m : Nat) : Passes ℚ n m where
  createLQProblem := fun s => .ret () s
  backwardPass := fun s => .ret () s


/-- A cost module whose terminal state Hessian is the asymmetric matrix `[[0, 1], [0, 0]]`;
all other values are zero. -/
def skewTerminalCost : CostFunction ℚ 2 1 where
  evaluateIntermediate := fun _ _ _ => 0
  stateDerivativeIntermediate := fun _ _ _ => 0
  stateSecondDerivativeIntermediate := fun _ _ _ => 0
  stateControlDerivativeIntermediate := fun _ _ _ => 0
  controlDerivativeIntermediate := fun _ _ _ => 0
  controlSecondDerivativeIntermediate := fun _ _ _ => 0
  evaluateTerminal := fun _ _ _ => 0
  stateDerivativeTerminal := fun _ _ _ => 0
  stateSecondDerivativeTerminal := fun _ _ _ => !![0, 1; 0, 0]

/-- Exact Eigen routines for a single control: the eigendecomposition of a 1×1 matrix is
the matrix itself with eigenvector `1`, the LLT solve divides by the entry, the norm is the
absolute value; the inverse of an n×n matrix is given by the adjugate formula. -/
def sampleEigenLib (n : Nat) : EigenLib ℚ n 1 where
  eigenSolve := fun M => (1, fun i => M i i)
  lltSolve := fun M B => (M 0 0)⁻¹ • B
  qrInverse := fun M => M.det⁻¹ • M.adjugate
  norm := fun v => |v 0|

/-- A linear-system provider with constant Jacobians. -/
def constantLinearSystem (n m : Nat) (Jx : Matrix (Fin n) (Fin n) ℚ)
    (Ju : Matrix (Fin n) (Fin m) ℚ) : LinearSystem ℚ n m where
  getDerivativeState := fun _ _ _ => Jx
  getDerivativeControl := fun _ _ _ => Ju

/-- Symmetric positive definite: `M` is symmetric and `x^T M x > 0` for every `x ≠ 0`. -/
def IsPosDef [LinearOrderedField F] {d : Nat} (M : Matrix (Fin d) (Fin d) F) : Prop :=
  M.IsSymm ∧ ∀ x : Fin d → F, x ≠ 0 → 0 < Matrix.dotProduct x (M.mulVec x)

/-- Contract of `selfadjointView<Lower>().llt().solve`: on a matrix whose symmetric lower
view is positive definite, the result solves the linear system. -/
def LLTExact [LinearOrderedField F] (E : EigenLib F n m) : Prop :=
  ∀ M B : Matrix (Fin m) (Fin m) F,
    IsPosDef (selfadjointLower M) → selfadjointLower M * E.lltSolve M B = B

/-- Contract of the self-adjoint eigen-solver: the eigenvectors it returns are
orthonormal. -/
def EigenvectorsOrthonormal (E : EigenLib F n m) [Field F] : Prop :=
  ∀ M : Matrix (Fin m) (Fin m) F, (E.eigenSolve M).1.transpose * (E.eigenSolve M).1 = 1

/-- Contract of `colPivHouseholderQr().inverse()`: on an invertible matrix the result is
the inverse. -/
def QRExact [Field F] (E : EigenLib F n m) : Prop :=
  ∀ M : Matrix (Fin n) (Fin n) F, IsUnit M.det → E.qrInverse M = M⁻¹


/-- The trajectory invariant of the stored solution: one state more than controls. -/
def TrajectoryInvariant (s : GNMSBase F n m) : Prop :=
  s.x_.length = s.u_ff_.length + 1

/-- Integrators of the scalar system with derivative `u`: each step maps `x` to
`x + h * u`. -/
def scalarIntegrators : Integrators ℚ 1 1 where
  integratorsEuler_ := fun u x _ h i => x i + h * u i
  integratorsRK4_ := fun u x _ h i => x i + h * u i
  integratorsEulerSymplectic_ := fun u x _ h i => x i + h * u i
  integratorsRkSymplectic_ := fun u x _ h i => x i + h * u i

/-- Instances of a solver with one thread besides the main one: two controllers, no
systems, cost functions or integrators yet. -/
def sampleInstances (F : Type) (n m : Nat) : Instances Unit Unit F n m where
  costFunctionInstances := []
  nonlinearSystemsInstances := []
  linearSystemsInstances := []
  controller_ := [some (), some ()]
  integratorsRK4_ := []
  integratorsEuler_ := []
  integratorsEulerSymplectic_ := []
  integratorsRkSymplectic_ := []

/-- A cost module all of whose values are zero. -/
def zeroCost (F : Type) [Zero F] (n m : Nat) : CostFunction F n m where
  evaluateIntermediate := fun _ _ _ => 0
  stateDerivativeIntermediate := fun _ _ _ => 0
  stateSecondDerivativeIntermediate := fun _ _ _ => 0
  stateControlDerivativeIntermediate := fun _ _ _ => 0
  controlDerivativeIntermediate := fun _ _ _ => 0
  controlSecondDerivativeIntermediate := fun _ _ _ => 0
  evaluateTerminal := fun _ _ _ => 0
  stateDerivativeTerminal := fun _ _ _ => 0
  stateSecondDerivativeTerminal := fun _ _ _ => 0

/-- The state in which the loop of `solve` starts iteration number `k + j`, when it is at
iteration number `k` in state `s`: each of the `j` iterations in between found the loop
condition true and returned `true`. -/
def iterationsFrom (p : Passes F n m) : Nat → Nat → GNMSBase F n m → Option (GNMSBase F n m)
  | 0, _, s => some s
  | j + 1, k, s =>
    if k < s.settings_.max_iterations then
      match runIteration p s with
      | .ret true s1 => iterationsFrom p j (k + 1) s1
      | _ => none
    else none

/-- Neither `createLQProblem` nor `backwardPass` changes the value `f` of the solver,
whether it returns or throws. -/
def Passes.Preserves {α : Type} (p : Passes F n m) (f : GNMSBase F n m → α) : Prop :=
  (∀ t t', p.createLQProblem t = .ret () t' → f t' = f t) ∧
  (∀ t msg t', p.createLQProblem t = .raise msg t' → f t' = f t) ∧
  (∀ t t', p.backwardPass t = .ret () t' → f t' = f t) ∧
  (∀ t msg t', p.backwardPass t = .raise msg t' → f t' = f t)

/-- The value read from `*terminationFlag` at the start of stage `i`, `false` for a null
pointer: the condition `terminationFlag && *terminationFlag` of `rolloutSystem`. -/
def flagAt (flag : Option (Nat → Bool)) (i : Nat) : Bool :=
  match flag with
  | some f => f i
  | none => false

/-- The control law observed on the buffers of a rollout: every recorded control
`u_local[k]` is `u_ff_local[k] + L_[k] * x_local[k]`, with `x_local[k]` the state recorded
for the start of stage `k`. -/
def ControlLaw [Zero F] [Add F] [Mul F] (L_ : List (Matrix (Fin m) (Fin n) F))
    (u_ff_local : List (Fin m → F)) (b : RolloutBuffers F n m) : Prop :=
  ∀ k, k < b.u_local.length →
    ∃ uff Lk xk, u_ff_local[k]? = some uff ∧ L_[k]? = some Lk ∧ b.x_local[k]? = some xk ∧
      b.u_local[k]? = some (ctrlAdd uff (gainTimes Lk xk))

/-- The container `a'` differs from `a` at most in the entry of index `k`: same length,
and the same entry at every other index. -/
def WritesOnlyIndex {α : Type} (k : Nat) (a a' : List α) : Prop :=
  a'.length = a.length ∧ ∀ j, j ≠ k → a'[j]? = a[j]?

/-- A solver sized for one stage with two states and one control whose stored input
matrix is `B_[0] = (1, 1)^T`; all other data are zero. -/
def shearSolver : GNMSBase ℚ 2 1 :=
  { planarSolver with B_ := [fun _ _ => 1] }

/-- A one-stage solver with one state and one control whose stored controller data are
`Hi_[0] = 1`, `G_[0] = 1`, `gv_[0] = 1`, `L_[0] = -1`, `lv_[0] = -1`; all other data are
zero. -/
def riccatiSolver : GNMSBase ℚ 1 1 :=
  { fixedSolver with Hi_ := [1], G_ := [1], gv_ := [1], L_ := [-1], lv_ := [-1] }

/-- A one-stage solver with one state and one control and zero data, whose stage duration
`dt = 2` is twice the micro-step `dt_sim = 1`. -/
def coarseSolver : GNMSBase ℚ 1 1 :=
  zeroSolver 1 1 { sampleSettings 1 true 1 with dt := 2 } 1 1

/-- The quadratic cost `q x^2 + r u^2` per unit of time with terminal cost `qT x^2`, for
one state and one control, with its derivatives. -/
def quadraticCost (q r qT : ℚ) : CostFunction ℚ 1 1 where
  evaluateIntermediate := fun x u _ => q * x 0 ^ 2 + r * u 0 ^ 2
  stateDerivativeIntermediate := fun x _ _ _ => 2 * q * x 0
  stateSecondDerivativeIntermediate := fun _ _ _ _ _ => 2 * q
  stateControlDerivativeIntermediate := fun _ _ _ => 0
  controlDerivativeIntermediate := fun _ u _ _ => 2 * r * u 0
  controlSecondDerivativeIntermediate := fun _ _ _ _ _ => 2 * r
  evaluateTerminal := fun x _ _ => qT * x 0 ^ 2
  stateDerivativeTerminal := fun x _ _ _ => 2 * qT * x 0
  stateSecondDerivativeTerminal := fun _ _ _ _ _ => 2 * qT

/-- Settings of the scalar scenario: `dt = dt_sim = 1/10`, Euler integration, forward-Euler
discretization, `epsilon = 0`, the given regularization policy, ten stages. -/
def scenarioSettings (fixed : Bool) : GNMSSettings ℚ :=
  { sampleSettings 10 fixed 0 with dt := 1 / 10, dt_sim := 1 / 10 }

/-- The solver of the scalar scenario at its initial guess: ten stages of the system with
derivative `u` (`A_[k] = 1`, `B_[k] = dt`), the trajectory `x = 1`, `u = 0` of the initial
guess with its shots and zero defects, and the quadratic approximation of the cost
`q x^2 + r u^2` around that trajectory, scaled by `dt`; gains and cost-to-go are zero. -/
def scenarioSolver (q r : ℚ) (fixed : Bool) : GNMSBase ℚ 1 1 :=
  { zeroSolver 1 1 (scenarioSettings fixed) 10 10 with
    A_ := List.replicate 10 1
    B_ := List.replicate 10 (fun _ _ => 1 / 10)
    x_ := List.replicate 11 (fun _ => 1)
    xShot_ := List.replicate 11 (fun _ => 1)
    q_ := List.replicate 11 (q * (1 / 10))
    qv_ := List.replicate 11 (fun _ => 1 / 10 * (2 * q))
    Q_ := List.replicate 11 (fun _ _ => 1 / 10 * (2 * q))
    R_ := List.replicate 10 (fun _ _ => 1 / 10 * (2 * r)) }

/-- The feedback gain of a scalar stage with `A = 1`, `B = dt`, `P = 0`, `R = 2 r dt` and
cost-to-go Hessian `sigma` of the next stage: `-(G / H)` with `G = dt sigma` and
`H = 2 r dt + dt sigma dt`. -/
def riccatiGain (r dt sigma : ℚ) : ℚ := -(dt * sigma) / (2 * r * dt + dt * sigma * dt)

/-- The cost-to-go Hessians of the scalar scenario, counted from the end of the horizon:
`2 qT` at the end, and `Q + sigma - L H L` one stage earlier. -/
def riccatiSeq (q r qT dt : ℚ) : Nat → ℚ
  | 0 => 2 * qT
  | j + 1 =>
    2 * q * dt + riccatiSeq q r qT dt j -
      riccatiGain r dt (riccatiSeq q r qT dt j) *
        (2 * r * dt + dt * riccatiSeq q r qT dt j * dt) *
        riccatiGain r dt (riccatiSeq q r qT dt j)

/-- The data of the scalar scenario that the backward recursion reads and leaves alone: a
solver sized for ten stages with the scenario's settings, `A_[k] = 1`, `B_[k] = dt`,
`P_[k] = 0`, `R_[k] = dt (2 r)`, `Q_[k] = dt (2 q)` for every stage, zero feedforward
controls and the initial state `1`. -/
def ScenarioData (q r : ℚ) (fixed : Bool) (s : GNMSBase ℚ 1 1) : Prop :=
  StageSized s 10 ∧ s.K_ = 10 ∧ s.settings_ = scenarioSettings fixed ∧
  (∀ k, k < 10 → ∃ A B P R Q, s.A_[k]? = some A ∧ s.B_[k]? = some B ∧ s.P_[k]? = some P ∧
    s.R_[k]? = some R ∧ s.Q_[k]? = some Q ∧ A 0 0 = 1 ∧ B 0 0 = 1 / 10 ∧ P 0 0 = 0 ∧
    R 0 0 = 1 / 10 * (2 * r) ∧ Q 0 0 = 1 / 10 * (2 * q)) ∧
  (∀ k, k < 10 → s.u_ff_[k]? = some 0) ∧ s.x_[0]? = some (fun _ => 1)

/-- The propagation of stage `i` as the specification describes it: `steps` successive
single-step integrations of size `dt_sim` from `x` under the constant control `u`, the
`j`-th of them started at time `(i * steps + j) * dt_sim`; `none` when a step meets an
integrator selector that is not recognised. -/
def stagePropagation {F : Type} {n m : Nat} (ints : Integrators F n m)
    (integrator : IntegratorType) (dt_sim : ℚ) (u : Fin m → F) (i steps : Nat)
    (x : Fin n → F) : Option (Fin n → F) :=
  (List.range steps).foldlM
    (fun x j => integrateStep ints integrator u x (((i * steps + j : Nat) : ℚ) * dt_sim) dt_sim) x

/-- The integrator calls of stage `i` as the specification describes them: `steps` calls
with step size `dt_sim` under the control `u`, the `j`-th with start time
`(i * steps + j) * dt_sim`. -/
def stageCalls {F : Type} {m : Nat} (dt_sim : ℚ) (steps i : Nat) (u : Fin m → F) :
    List (IntegratorCall F m) :=
  (List.range steps).map (fun j => ⟨i, ((i * steps + j : Nat) : ℚ) * dt_sim, dt_sim, u⟩)

/-- The integrator calls of the stages `i, i + 1, ...` with the controls `us`, stage after
stage. -/
def rolloutCalls {F : Type} {m : Nat} (dt_sim : ℚ) (steps : Nat) :
    Nat → List (Fin m → F) → List (IntegratorCall F m)
  | _, [] => []
  | i, u :: us => stageCalls dt_sim steps i u ++ rolloutCalls dt_sim steps (i + 1) us

/-- The micro-step law on the buffers of a rollout: one state more than controls, every
recorded state `x_local[i + 1]` is the propagation of stage `i` from `x_local[i]` under
`u_local[i]`, and the integrator calls made since the log `log0` are those of the stages
`0, 1, ...` with the recorded controls. -/
def MicroStepLaw {F : Type} {n m : Nat} (ints : Integrators F n m)
    (integrator : IntegratorType) (dt_sim : ℚ) (steps : Nat)
    (log0 : List (IntegratorCall F m)) (b : RolloutBuffers F n m) : Prop :=
  b.x_local.length = b.u_local.length + 1 ∧
  (∀ i, i < b.u_local.length → ∃ xi ui xi1, b.x_local[i]? = some xi ∧
    b.u_local[i]? = some ui ∧ b.x_local[i + 1]? = some xi1 ∧
    stagePropagation ints integrator dt_sim ui i steps xi = some xi1) ∧
  b.calls = log0 ++ rolloutCalls dt_sim steps 0 b.u_local

/-- Symmetric positive semidefinite: `M` is symmetric and `x^T M x >= 0` for every `x`. -/
def IsPosSemidef [LinearOrderedField F] {ι : Type} [Fintype ι] (M : Matrix ι ι F) : Prop :=
  M.IsSymm ∧ ∀ x : ι → F, 0 ≤ Matrix.dotProduct x (M.mulVec x)

/-- A one-stage solver with one state and one control under the fixed correction with
`epsilon = 1`, with unit dynamics `A = B = 1`, stage cost Hessians `Q = R = 1`, `P = 0`
and cost-to-go Hessian `S_[1] = 1`. -/
def valueSolver : GNMSBase ℚ 1 1 :=
  { fixedSolver with A_ := [1], B_ := [1], Q_ := [1, 0], R_ := [1], S_ := [0, 1] }

/-- The check at the end of stage `i` of a rollout passes: neither the recorded state
`x_local[i]` nor the recorded control `u_local[i]` has a NaN component. -/
def StageClean {F : Type} {n m : Nat} (isnan : F → Bool) (b : RolloutBuffers F n m)
    (i : Nat) : Prop :=
  (∀ x, b.x_local[i]? = some x → anyNaN isnan x = false) ∧
  (∀ u, b.u_local[i]? = some u → anyNaN isnan u = false)

/-! ## Theorems -/

/-! ### Rollout -/

/-- C1: a rollout whose final state is not a number returns `true`. With `K_ = 1`, one
micro-step per stage and a finite initial state and control, the integrator produces a
state that is not a number; the check after the stage looks at `x_local[0]` and
`u_local[0]` only, so the rollout ends with `true` and the bad state in `x_local[1]`. -/
theorem rolloutSystem_nan_final_state_returns_true :
    rolloutSystem NanScalar.isnan divergingIntegrators .EULER 1 1 1
        [fun _ _ => .val 0] [fun _ => .val 0]
        { x_local := [fun _ => .val 1], u_local := [], t_local := [], calls := [] } none
      = .ret true
          { x_local := [fun _ => .val 1, fun _ => .nan], u_local := [fun _ => .val 0],
            t_local := [0, 1], calls := [⟨0, 0, 1, fun _ => .val 0⟩] } ∧
    anyNaN NanScalar.isnan (fun _ : Fin 1 => NanScalar.nan) = true := by
  constructor
  · simp [rolloutSystem, substeps, rolloutLoop, microSteps, integrateStep, divergingIntegrators,
      rolloutEpilogue, anyNaN, ctrlAdd, gainTimes, NanScalar.isnan]
    rfl
  · simp [anyNaN, NanScalar.isnan]

/-! ### Containers and the initial guess -/

theorem assign_of_lt {α : Type} {a : List α} {k : Nat} (v : α) (h : k < a.length) :
    assign a k v = some (a.set k v) := by
  simp [assign, h]

theorem assign_of_le {α : Type} {a : List α} {k : Nat} (v : α) (h : a.length ≤ k) :
    assign a k v = none := by
  simp [assign, Nat.not_lt.mpr h]

theorem length_resize {α : Type} (a : List α) (k : Nat) (fill : α) :
    (resize a k fill).length = k := by
  simp [resize]
  omega

theorem setInitialGuess_of_mismatch (s : GNMSBase F n m) (g : Policy F n m)
    (h : g.controlVectorArray.length ≠ sizeMinusOne g.stateVectorArray.length) :
    setInitialGuess s g = .raise "state and control trajectories are not equally long" s := by
  unfold setInitialGuess
  rw [if_pos h]

theorem setInitialGuess_of_short (s : GNMSBase F n m) (g : Policy F n m)
    (h1 : ¬ g.controlVectorArray.length ≠ sizeMinusOne g.stateVectorArray.length)
    (h2 : g.controlVectorArray.length < s.K_) :
    setInitialGuess s g = .raise "initial control guess to short" s := by
  unfold setInitialGuess
  rw [if_neg h1, if_pos h2]

theorem setInitialGuess_of_ok (s : GNMSBase F n m) (g : Policy F n m)
    (h1 : ¬ g.controlVectorArray.length ≠ sizeMinusOne g.stateVectorArray.length)
    (h2 : ¬ g.controlVectorArray.length < s.K_) :
    setInitialGuess s g =
      .ret () (reset { s with u_ff_ := g.controlVectorArray, x_ := g.stateVectorArray,
                              initialized_ := true }) := by
  unfold setInitialGuess
  rw [if_neg h1, if_neg h2]

/-- C2: `setInitialGuess` throws exactly when the number of controls differs from the
number of states minus one, or is less than `K_`; this covers equal lengths and an empty
state array; and when it throws, `u_ff_`, `x_` and `initialized_` are as before. The
lengths are those of containers, hence below the `size_t` range. -/
theorem setInitialGuess_raises_iff (s : GNMSBase F n m) (g : Policy F n m)
    (hx : g.stateVectorArray.length < 2 ^ 64)
    (hu : g.controlVectorArray.length < 2 ^ 64 - 1) :
    ((∃ msg s', setInitialGuess s g = .raise msg s') ↔
      ((g.controlVectorArray.length : ℤ) ≠ (g.stateVectorArray.length : ℤ) - 1 ∨
        g.controlVectorArray.length < s.K_)) ∧
    (g.controlVectorArray.length = g.stateVectorArray.length →
      ∃ msg s', setInitialGuess s g = .raise msg s') ∧
    (g.stateVectorArray = [] → ∃ msg s', setInitialGuess s g = .raise msg s') ∧
    (∀ msg s', setInitialGuess s g = .raise msg s' →
      s'.u_ff_ = s.u_ff_ ∧ s'.x_ = s.x_ ∧ s'.initialized_ = s.initialized_) := by
  have key : g.controlVectorArray.length ≠ sizeMinusOne g.stateVectorArray.length ↔
      (g.controlVectorArray.length : ℤ) ≠ (g.stateVectorArray.length : ℤ) - 1 := by
    unfold sizeMinusOne
    omega
  refine ⟨?_, ?_, ?_, ?_⟩
  · by_cases h1 : g.controlVectorArray.length ≠ sizeMinusOne g.stateVectorArray.length
    · rw [setInitialGuess_of_mismatch s g h1]
      exact ⟨fun _ => Or.inl (key.mp h1), fun _ => ⟨_, _, rfl⟩⟩
    · by_cases h2 : g.controlVectorArray.length < s.K_
      · rw [setInitialGuess_of_short s g h1 h2]
        exact ⟨fun _ => Or.inr h2, fun _ => ⟨_, _, rfl⟩⟩
      · rw [setInitialGuess_of_ok s g h1 h2]
        constructor
        · rintro ⟨msg, s', h⟩
          cases h
        · rintro (h | h)
          · exact absurd (key.mpr h) h1
          · exact absurd h h2
  · intro h
    have h1 : g.controlVectorArray.length ≠ sizeMinusOne g.stateVectorArray.length := by
      rw [key]; omega
    exact ⟨_, s, setInitialGuess_of_mismatch s g h1⟩
  · intro h
    have h1 : g.controlVectorArray.length ≠ sizeMinusOne g.stateVectorArray.length := by
      rw [key, h]; simp
    exact ⟨_, s, setInitialGuess_of_mismatch s g h1⟩
  · intro msg s' h
    by_cases h1 : g.controlVectorArray.length ≠ sizeMinusOne g.stateVectorArray.length
    · rw [setInitialGuess_of_mismatch s g h1] at h
      cases h
      exact ⟨rfl, rfl, rfl⟩
    · by_cases h2 : g.controlVectorArray.length < s.K_
      · rw [setInitialGuess_of_short s g h1 h2] at h
        cases h
        exact ⟨rfl, rfl, rfl⟩
      · rw [setInitialGuess_of_ok s g h1 h2] at h
        cases h

theorem setInitialGuess_raises_iff_witness :
    (zeroGuess 1 1 0).stateVectorArray.length < 2 ^ 64 ∧
    (zeroGuess 1 1 0).controlVectorArray.length < 2 ^ 64 - 1 ∧
    ((∃ msg s', setInitialGuess (zeroSolver 1 1 (sampleSettings 1 true 0) 1 1) (zeroGuess 1 1 0)
        = .raise msg s') ↔
      (((zeroGuess 1 1 0).controlVectorArray.length : ℤ) ≠
          ((zeroGuess 1 1 0).stateVectorArray.length : ℤ) - 1 ∨
        (zeroGuess 1 1 0).controlVectorArray.length <
          (zeroSolver 1 1 (sampleSettings 1 true 0) 1 1).K_)) ∧
    ((zeroGuess 1 1 0).controlVectorArray.length = (zeroGuess 1 1 0).stateVectorArray.length →
      ∃ msg s', setInitialGuess (zeroSolver 1 1 (sampleSettings 1 true 0) 1 1) (zeroGuess 1 1 0)
        = .raise msg s') ∧
    ((zeroGuess 1 1 0).stateVectorArray = [] →
      ∃ msg s', setInitialGuess (zeroSolver 1 1 (sampleSettings 1 true 0) 1 1) (zeroGuess 1 1 0)
        = .raise msg s') ∧
    (∀ msg s', setInitialGuess (zeroSolver 1 1 (sampleSettings 1 true 0) 1 1) (zeroGuess 1 1 0)
        = .raise msg s' →
      s'.u_ff_ = (zeroSolver 1 1 (sampleSettings 1 true 0) 1 1).u_ff_ ∧
      s'.x_ = (zeroSolver 1 1 (sampleSettings 1 true 0) 1 1).x_ ∧
      s'.initialized_ = (zeroSolver 1 1 (sampleSettings 1 true 0) 1 1).initialized_) :=
  ⟨by simp [zeroGuess], by simp [zeroGuess],
    setInitialGuess_raises_iff (zeroSolver 1 1 (sampleSettings 1 true 0) 1 1) (zeroGuess 1 1 0)
      (by simp [zeroGuess]) (by simp [zeroGuess])⟩

/-! ### Horizon change -/

theorem changeTimeHorizon_of_neg [LinearOrderedField F] (s : GNMSBase F n m) (tf : F)
    (h0 : tf < 0) :
    changeTimeHorizon s tf = .raise "negative time horizon specified" s := by
  unfold changeTimeHorizon
  rw [if_pos h0]

theorem changeTimeHorizon_of_eq [LinearOrderedField F] (s : GNMSBase F n m) (tf : F)
    (h0 : 0 ≤ tf) (hK : s.settings_.computeK tf = s.K_) :
    changeTimeHorizon s tf = .ret () s := by
  unfold changeTimeHorizon
  rw [if_neg (not_lt.mpr h0)]
  simp only [hK, if_true]

theorem changeTimeHorizon_of_ne [LinearOrderedField F] (s : GNMSBase F n m) (tf : F)
    (h0 : 0 ≤ tf) (hK : s.settings_.computeK tf ≠ s.K_) :
    ∃ s', changeTimeHorizon s tf = .ret () s' ∧ s'.K_ = s.settings_.computeK tf ∧
      StageSized s' (s.settings_.computeK tf) ∧ s'.initialized_ = s.initialized_ ∧
      s'.configured_ = s.configured_ ∧ s'.settings_ = s.settings_ := by
  unfold changeTimeHorizon
  rw [if_neg (not_lt.mpr h0)]
  simp only [hK, if_false]
  refine ⟨_, rfl, rfl, ?_, rfl, rfl, rfl⟩
  simp only [StageSized, length_resize, and_self]

theorem changeTimeHorizon_flags [LinearOrderedField F] (s s' : GNMSBase F n m) (tf : F)
    (h : changeTimeHorizon s tf = .ret () s') :
    0 ≤ tf ∧ s'.initialized_ = s.initialized_ ∧ s'.configured_ = s.configured_ ∧
      s'.iteration_ = s.iteration_ := by
  rcases lt_or_le tf 0 with h0 | h0
  · rw [changeTimeHorizon_of_neg s tf h0] at h
    cases h
  · by_cases hK : s.settings_.computeK tf = s.K_
    · rw [changeTimeHorizon_of_eq s tf h0 hK] at h
      cases h
      exact ⟨h0, rfl, rfl, rfl⟩
    · unfold changeTimeHorizon at h
      rw [if_neg (not_lt.mpr h0)] at h
      simp only [hK, if_false] at h
      cases h
      exact ⟨h0, rfl, rfl, rfl⟩

theorem computeSingleDefect_terminal_fault [LinearOrderedField F] (s : GNMSBase F n m)
    (h : s.d_.length = s.K_) : computeSingleDefect s s.K_ = .fault := by
  unfold computeSingleDefect
  rw [if_neg (lt_irrefl _), if_pos rfl, assign_of_le _ (le_of_eq h)]
  rfl

/-- C4 (amended): for `tf >= 0`, a `changeTimeHorizon(tf)` whose stage count
`K = computeK(tf)` differs from the current `K_` returns normally and leaves every
stage-indexed container with length exactly `K` or `K + 1`; when `K` equals the current
`K_` the call returns at once and leaves the solver as it was. -/
theorem changeTimeHorizon_lengths [LinearOrderedField F] (s : GNMSBase F n m) (tf : F)
    (htf : 0 ≤ tf) :
    (s.settings_.computeK tf ≠ s.K_ →
      ∃ s', changeTimeHorizon s tf = .ret () s' ∧ s'.K_ = s.settings_.computeK tf ∧
        StageSized s' (s.settings_.computeK tf)) ∧
    (s.settings_.computeK tf = s.K_ → changeTimeHorizon s tf = .ret () s) := by
  constructor
  · intro hK
    obtain ⟨s', h1, h2, h3, -⟩ := changeTimeHorizon_of_ne s tf htf hK
    exact ⟨s', h1, h2, h3⟩
  · exact changeTimeHorizon_of_eq s tf htf

/-- C3: a guess longer than the horizon is stored whole. With `K_ = 1` and a guess of two
controls and three states, `setInitialGuess` returns normally and `getSolution` then
gives two controls and three states, not one and two. -/
theorem setInitialGuess_long_guess_not_truncated :
    ∃ s', setInitialGuess (zeroSolver 1 1 (sampleSettings 1 true 0) 1 1) (zeroGuess 1 1 2) = .ret () s' ∧
      s'.K_ = 1 ∧ (getSolution s').1.controlVectorArray.length = 2 ∧
      (getSolution s').1.stateVectorArray.length = 3 := by
  refine ⟨_, setInitialGuess_of_ok _ _ ?_ ?_, ?_, ?_, ?_⟩
  · simp [zeroGuess, sizeMinusOne]
  · simp [zeroGuess, zeroSolver]
  · rfl
  · simp [getSolution, reset, zeroGuess]
  · simp [getSolution, reset, zeroGuess]

/-- C4 (counterexample): a solver is sized for `K = 1`, takes a guess of two controls and
three states, and is asked for the same horizon again; `changeTimeHorizon` returns
normally and `u_ff_` still has length 2 and `x_` length 3. -/
theorem changeTimeHorizon_same_K_keeps_long_guess :
    ∃ s1 s2 s3 : GNMSBase ℚ 1 1,
      changeTimeHorizon (zeroSolver 1 1 (sampleSettings 1 true 0) 0 0) 1 = .ret () s1 ∧
      setInitialGuess s1 (zeroGuess 1 1 2) = .ret () s2 ∧
      (0 : ℚ) ≤ 1 ∧ 0 < s2.settings_.computeK 1 ∧
      changeTimeHorizon s2 1 = .ret () s3 ∧
      s3.u_ff_.length = 2 ∧ s3.x_.length = 3 ∧ s2.settings_.computeK 1 = 1 ∧
      ¬ StageSized s3 (s2.settings_.computeK 1) := by
  obtain ⟨s1, h1, hK1, hsz, -, -, hst⟩ :=
    changeTimeHorizon_of_ne (zeroSolver 1 1 (sampleSettings 1 true 0) 0 0) (1 : ℚ) zero_le_one
      (by simp [zeroSolver, sampleSettings])
  have hK1' : s1.K_ = 1 := by rw [hK1]; rfl
  have hcomp : s1.settings_.computeK 1 = 1 := by rw [hst]; rfl
  have hok := setInitialGuess_of_ok s1 (zeroGuess 1 1 2) (by simp [zeroGuess, sizeMinusOne])
    (by rw [hK1']; simp [zeroGuess])
  refine ⟨s1, _, _, h1, hok, zero_le_one, ?_, changeTimeHorizon_of_eq _ _ zero_le_one ?_, ?_, ?_,
    ?_, ?_⟩
  · simp [reset, hcomp]
  · simp [reset, hcomp, hK1']
  · simp [reset, zeroGuess]
  · simp [reset, zeroGuess]
  · simp [reset, hcomp]
  · simp [reset, hcomp, StageSized, zeroGuess]


theorem checkProblem_of_sized (s : GNMSBase F n m) (hK : 0 < s.K_) (hL : s.L_.length = s.K_)
    (hu : s.u_ff_.length = s.K_) : checkProblem s = none := by
  unfold checkProblem
  rw [if_neg (Nat.pos_iff_ne_zero.mp hK), if_neg (by omega), if_neg (by omega)]

theorem runIteration_of_uninitialized (p : Passes F n m) (s : GNMSBase F n m)
    (h : s.initialized_ = false) :
    runIteration p s = .raise "GNMS is not initialized!" s := by
  unfold runIteration
  simp [h]

theorem runIteration_of_passes (p : Passes F n m) (s : GNMSBase F n m)
    (hi : s.initialized_ = true) (hc : s.configured_ = true) (hcheck : checkProblem s = none)
    (hcreate : ∀ t, ∃ t', p.createLQProblem t = .ret () t')
    (hback : ∀ t, ∃ t', p.backwardPass t = .ret () t') :
    ∃ s', runIteration p s = .ret true s' := by
  obtain ⟨t1, h1⟩ := hcreate { s with smallestEigenvalueIteration_ := ⊤ }
  obtain ⟨t2, h2⟩ := hback t1
  have hcheck' : checkProblem { s with smallestEigenvalueIteration_ := ⊤ } = none := hcheck
  refine ⟨{ t2 with iteration_ := t2.iteration_ + 1 }, ?_⟩
  unfold runIteration
  simp only [hi, hc] at h1 hcheck' ⊢
  simp [hcheck', forwardPass, h1, h2]

/-- C5 (amended): for `tf >= 0`, `changeTimeHorizon(tf)` returns normally and leaves
`initialized_` as it was. A `runIteration` issued next throws "GNMS is not initialized!"
if the solver was not initialized before the call; if it was initialized and configured
and the horizon changed to `K > 0`, the checks of `runIteration` pass, and when both
passes return normally the iteration returns `true`. -/
theorem changeTimeHorizon_initialized_unchanged [LinearOrderedField F] (p : Passes F n m)
    (s : GNMSBase F n m) (tf : F) (htf : 0 ≤ tf) :
    ∃ s', changeTimeHorizon s tf = .ret () s' ∧ s'.initialized_ = s.initialized_ ∧
      (s.initialized_ = false → runIteration p s' = .raise "GNMS is not initialized!" s') ∧
      (s.initialized_ = true → s.configured_ = true → s.settings_.computeK tf ≠ s.K_ →
        0 < s.settings_.computeK tf →
        (∀ t, ∃ t', p.createLQProblem t = .ret () t') →
        (∀ t, ∃ t', p.backwardPass t = .ret () t') →
        ∃ s'', runIteration p s' = .ret true s'') := by
  by_cases hK : s.settings_.computeK tf = s.K_
  · refine ⟨s, changeTimeHorizon_of_eq s tf htf hK, rfl, runIteration_of_uninitialized p s, ?_⟩
    intro _ _ hne
    exact absurd hK hne
  · obtain ⟨s', h1, hK', hsz, hi, hc, -⟩ := changeTimeHorizon_of_ne s tf htf hK
    refine ⟨s', h1, hi, fun h => runIteration_of_uninitialized p s' (hi.trans h), ?_⟩
    intro hinit hconf _ hpos hcreate hback
    refine runIteration_of_passes p s' (hi.trans hinit) (hc.trans hconf) ?_ hcreate hback
    refine checkProblem_of_sized s' (by omega) ?_ ?_
    · rw [hK']; exact hsz.2.1.2.2.2.2.1
    · rw [hK']; exact hsz.1.2.2.2.1

/-- C5 (counterexample): an initialized and configured solver with `K_ = 0` is given a
horizon of one stage; afterwards `initialized_` is still `true` and `runIteration` runs
to the end and returns `true`. -/
theorem changeTimeHorizon_keeps_initialized :
    ∃ s1 s2 : GNMSBase ℚ 1 1,
      changeTimeHorizon
        { zeroSolver 1 1 (sampleSettings 1 true 0) 0 0 with initialized_ := true, configured_ := true }
        1 = .ret () s1 ∧
      s1.K_ ≠ (zeroSolver 1 1 (sampleSettings 1 true 0) 0 0).K_ ∧ s1.initialized_ = true ∧
      runIteration (idlePasses 1 1) s1 = .ret true s2 := by
  obtain ⟨s1, h1, hK1, hsz, hi, hc, -⟩ :=
    changeTimeHorizon_of_ne
      ({ zeroSolver 1 1 (sampleSettings 1 true 0) 0 0 with initialized_ := true, configured_ := true } :
        GNMSBase ℚ 1 1)
      (1 : ℚ) zero_le_one (by simp [zeroSolver, sampleSettings])
  have hK1' : s1.K_ = 1 := by rw [hK1]; rfl
  have hsz' : StageSized s1 1 := hsz
  obtain ⟨s2, h2⟩ := runIteration_of_passes (idlePasses 1 1) s1 hi hc
    (checkProblem_of_sized s1 (by omega) (by rw [hK1']; exact hsz'.2.1.2.2.2.2.1)
      (by rw [hK1']; exact hsz'.1.2.2.2.1))
    (fun t => ⟨t, rfl⟩) (fun t => ⟨t, rfl⟩)
  refine ⟨s1, s2, h1, ?_, hi, h2⟩
  rw [hK1']
  simp [zeroSolver]

/-- C6: after `changeTimeHorizon` has sized the solver for `K = 1`, the defect container
has length 1, and `computeSingleDefect(K)` writes `d_[1]`, outside its bounds. -/
theorem computeSingleDefect_terminal_out_of_bounds :
    ∃ s' : GNMSBase ℚ 1 1,
      changeTimeHorizon (zeroSolver 1 1 (sampleSettings 1 true 0) 0 0) 1 = .ret () s' ∧
      s'.K_ = 1 ∧ s'.d_.length = 1 ∧ computeSingleDefect s' s'.K_ = .fault := by
  obtain ⟨s', h1, hK, hsz, -⟩ :=
    changeTimeHorizon_of_ne (zeroSolver 1 1 (sampleSettings 1 true 0) 0 0) (1 : ℚ) zero_le_one
      (by simp [zeroSolver, sampleSettings])
  have hK' : s'.K_ = 1 := by rw [hK]; rfl
  have hsz' : StageSized s' 1 := hsz
  have hd : s'.d_.length = 1 := hsz'.1.2.2.2.2.2.1
  exact ⟨s', h1, hK', hd, computeSingleDefect_terminal_fault s' (by rw [hd, hK'])⟩

theorem changeTimeHorizon_lengths_witness :
    (0 : ℚ) ≤ 1 ∧
    (((zeroSolver 1 1 (sampleSettings 2 true 0) 0 0).settings_.computeK 1 ≠
        (zeroSolver 1 1 (sampleSettings 2 true 0) 0 0).K_ →
      ∃ s', changeTimeHorizon (zeroSolver 1 1 (sampleSettings 2 true 0) 0 0) 1 = .ret () s' ∧
        s'.K_ = (zeroSolver 1 1 (sampleSettings 2 true 0) 0 0).settings_.computeK 1 ∧
        StageSized s' ((zeroSolver 1 1 (sampleSettings 2 true 0) 0 0).settings_.computeK 1)) ∧
    ((zeroSolver 1 1 (sampleSettings 2 true 0) 0 0).settings_.computeK 1 =
        (zeroSolver 1 1 (sampleSettings 2 true 0) 0 0).K_ →
      changeTimeHorizon (zeroSolver 1 1 (sampleSettings 2 true 0) 0 0) 1 =
        .ret () (zeroSolver 1 1 (sampleSettings 2 true 0) 0 0))) :=
  ⟨zero_le_one, changeTimeHorizon_lengths (zeroSolver 1 1 (sampleSettings 2 true 0) 0 0) 1 zero_le_one⟩

theorem changeTimeHorizon_initialized_unchanged_witness :
    (0 : ℚ) ≤ 1 ∧
    ∃ s', changeTimeHorizon (zeroSolver 1 1 (sampleSettings 2 true 0) 0 0) 1 = .ret () s' ∧
      s'.initialized_ = (zeroSolver 1 1 (sampleSettings 2 true 0) 0 0).initialized_ ∧
      ((zeroSolver 1 1 (sampleSettings 2 true 0) 0 0).initialized_ = false →
        runIteration (idlePasses 1 1) s' = .raise "GNMS is not initialized!" s') ∧
      ((zeroSolver 1 1 (sampleSettings 2 true 0) 0 0).initialized_ = true →
        (zeroSolver 1 1 (sampleSettings 2 true 0) 0 0).configured_ = true →
        (zeroSolver 1 1 (sampleSettings 2 true 0) 0 0).settings_.computeK 1 ≠
          (zeroSolver 1 1 (sampleSettings 2 true 0) 0 0).K_ →
        0 < (zeroSolver 1 1 (sampleSettings 2 true 0) 0 0).settings_.computeK 1 →
        (∀ t, ∃ t', (idlePasses 1 1).createLQProblem t = .ret () t') →
        (∀ t, ∃ t', (idlePasses 1 1).backwardPass t = .ret () t') →
        ∃ s'', runIteration (idlePasses 1 1) s' = .ret true s'') :=
  ⟨zero_le_one,
    changeTimeHorizon_initialized_unchanged (idlePasses 1 1)
      (zeroSolver 1 1 (sampleSettings 2 true 0) 0 0) 1 zero_le_one⟩

open Matrix

/-! ### Linear algebra used by the backward pass -/

theorem selfadjointLower_of_isSymm {d : Nat} {M : Matrix (Fin d) (Fin d) F} (h : M.IsSymm) :
    selfadjointLower M = M := by
  ext i j
  unfold selfadjointLower
  split_ifs with hij
  · rfl
  · exact h.apply i j

theorem quadForm_clipped_ge [LinearOrderedField F] {d : Nat} (V : Matrix (Fin d) (Fin d) F)
    (c : Fin d → F) (eps : F) (hV : V.transpose * V = 1) (hc : ∀ i, eps ≤ c i) (x : Fin d → F) :
    eps * (x ⬝ᵥ x) ≤ x ⬝ᵥ (V * Matrix.diagonal c * V.transpose).mulVec x := by
  have hV' : V * V.transpose = 1 := mul_eq_one_comm.mp hV
  have e1 : x ⬝ᵥ (V * Matrix.diagonal c * V.transpose).mulVec x =
      ∑ i, c i * (V.transpose.mulVec x i * V.transpose.mulVec x i) := by
    rw [← Matrix.mulVec_mulVec, ← Matrix.mulVec_mulVec, Matrix.dotProduct_mulVec,
      ← Matrix.mulVec_transpose]
    simp only [Matrix.dotProduct, Matrix.mulVec_diagonal]
    exact Finset.sum_congr rfl (fun i _ => by ring)
  have e2 : x ⬝ᵥ x = ∑ i, V.transpose.mulVec x i * V.transpose.mulVec x i := by
    have : x ⬝ᵥ (V * V.transpose).mulVec x = x ⬝ᵥ x := by rw [hV', Matrix.one_mulVec]
    rw [← this, ← Matrix.mulVec_mulVec, Matrix.dotProduct_mulVec, ← Matrix.mulVec_transpose]
    rfl
  rw [e1, e2, Finset.mul_sum]
  exact Finset.sum_le_sum (fun i _ => mul_le_mul_of_nonneg_right (hc i) (mul_self_nonneg _))

theorem clipped_mul_inverse [Field F] {d : Nat} (V : Matrix (Fin d) (Fin d) F)
    (c : Fin d → F) (hV : V.transpose * V = 1) (hc : ∀ i, c i ≠ 0) :
    (V * Matrix.diagonal c * V.transpose) *
      (V * Matrix.diagonal (fun i => -1 * (c i)⁻¹) * V.transpose) = -1 := by
  have hV' : V * V.transpose = 1 := mul_eq_one_comm.mp hV
  have hd : Matrix.diagonal c * Matrix.diagonal (fun i => -1 * (c i)⁻¹) =
      (-1 : Matrix (Fin d) (Fin d) F) := by
    rw [Matrix.diagonal_mul_diagonal]
    have : (fun i => c i * (-1 * (c i)⁻¹)) = fun _ : Fin d => (-1 : F) := by
      funext i
      field_simp [hc i]
    rw [this]
    ext i j
    by_cases h : i = j <;> simp [Matrix.diagonal, h, Matrix.one_apply]
  calc (V * Matrix.diagonal c * V.transpose) *
        (V * Matrix.diagonal (fun i => -1 * (c i)⁻¹) * V.transpose)
      = V * (Matrix.diagonal c * (V.transpose * V) *
          Matrix.diagonal (fun i => -1 * (c i)⁻¹)) * V.transpose := by
        simp only [Matrix.mul_assoc]
    _ = V * (-1) * V.transpose := by rw [hV, Matrix.mul_one, hd]
    _ = -1 := by rw [Matrix.mul_neg, Matrix.mul_one, Matrix.neg_mul, hV']


/-! ### Cost-to-go -/

theorem costToGoHessian_isSymm [Field F] (Q A S1 : Matrix (Fin n) (Fin n) F)
    (L : Matrix (Fin m) (Fin n) F) (Hi : Matrix (Fin m) (Fin m) F) :
    (costToGoHessian Q A S1 L Hi).IsSymm := by
  unfold costToGoHessian Matrix.IsSymm
  simp only [Matrix.transpose_smul, Matrix.transpose_add, Matrix.transpose_transpose]
  rw [add_comm]

theorem exists_getElem?_of_length {α : Type} (a : List α) {k len : Nat} (hlen : a.length = len)
    (h : k < len) : ∃ v, a[k]? = some v :=
  ⟨a[k], List.getElem?_eq_getElem (hlen ▸ h)⟩

theorem computeCostToGo_of_sized [Field F] (s : GNMSBase F n m) (k : Nat)
    (hs : StageSized s s.K_) (hk : k < s.K_) :
    ∃ s' Q A S1 L Hi, computeCostToGo s k = .ret () s' ∧
      s.Q_[k]? = some Q ∧ s.A_[k]? = some A ∧ s.S_[k + 1]? = some S1 ∧ s.L_[k]? = some L ∧
      s.Hi_[k]? = some Hi ∧ s'.S_[k]? = some (costToGoHessian Q A S1 L Hi) := by
  obtain ⟨⟨hA, hB, hu, huff, huffp, hd, hgv, hG⟩, ⟨hH, hHi, hHinv, hlv, hL, hP, hrv, hR⟩,
    ⟨hx, hxS, hlx, hq, hqv, hQ, hsv, hS⟩⟩ := hs
  have hk1 : k < s.K_ + 1 := Nat.lt_succ_of_lt hk
  have hk2 : k + 1 < s.K_ + 1 := Nat.succ_lt_succ hk
  obtain ⟨Q, eQ⟩ := exists_getElem?_of_length s.Q_ hQ hk1
  obtain ⟨A, eA⟩ := exists_getElem?_of_length s.A_ hA hk
  obtain ⟨S1, eS1⟩ := exists_getElem?_of_length s.S_ hS hk2
  obtain ⟨L, eL⟩ := exists_getElem?_of_length s.L_ hL hk
  obtain ⟨Hi, eHi⟩ := exists_getElem?_of_length s.Hi_ hHi hk
  obtain ⟨qv, eqv⟩ := exists_getElem?_of_length s.qv_ hqv hk1
  obtain ⟨sv1, esv1⟩ := exists_getElem?_of_length s.sv_ hsv hk2
  obtain ⟨d, ed⟩ := exists_getElem?_of_length s.d_ hd hk
  obtain ⟨lv, elv⟩ := exists_getElem?_of_length s.lv_ hlv hk
  obtain ⟨gv, egv⟩ := exists_getElem?_of_length s.gv_ hgv hk
  obtain ⟨G, eG⟩ := exists_getElem?_of_length s.G_ hG hk
  have hSk : k < s.S_.length := hS ▸ hk1
  have hsvk : k < s.sv_.length := hsv ▸ hk1
  have eS1' : (s.S_.set k (costToGoHessian Q A S1 L Hi))[k + 1]? = some S1 := by
    rw [List.getElem?_set_ne (Nat.ne_of_lt (Nat.lt_succ_self k))]
    exact eS1
  have hrun : computeCostToGo s k = .ret ()
      { s with S_ := s.S_.set k (costToGoHessian Q A S1 L Hi),
               sv_ := s.sv_.set k (costToGoGradient qv sv1 d A S1 L G Hi lv gv) } := by
    unfold computeCostToGo
    simp only [eQ, eA, eS1, eL, eHi, eqv, esv1, ed, elv, egv, eG, assign_of_lt _ hSk,
      assign_of_lt _ hsvk, eS1']
  refine ⟨_, Q, A, S1, L, Hi, hrun, eQ, eA, eS1, eL, eHi, ?_⟩
  exact List.getElem?_set_eq_of_lt _ hSk


theorem initializeCostToGo_of_sized [Field F] (cost : CostFunction F n m) (s : GNMSBase F n m)
    (hs : StageSized s s.K_) :
    ∃ s' x, initializeCostToGo cost s = .ret () s' ∧ s.x_[s.K_]? = some x ∧
      s'.S_[s.K_]? =
        some (cost.stateSecondDerivativeTerminal x 0 (s.settings_.dt * (s.K_ : F))) := by
  obtain ⟨-, -, ⟨hx, hxS, hlx, hq, hqv, hQ, hsv, hS⟩⟩ := hs
  have hK : s.K_ < s.K_ + 1 := Nat.lt_succ_self _
  obtain ⟨x, ex⟩ := exists_getElem?_of_length s.x_ hx hK
  have hqK : s.K_ < s.q_.length := hq ▸ hK
  have hqvK : s.K_ < s.qv_.length := hqv ▸ hK
  have hQK : s.K_ < s.Q_.length := hQ ▸ hK
  have hSK : s.K_ < s.S_.length := hS ▸ hK
  have hsvK : s.K_ < s.sv_.length := hsv ▸ hK
  have hrun : initializeCostToGo cost s = .ret ()
      { s with
        q_ := s.q_.set s.K_ (cost.evaluateTerminal x 0 (s.settings_.dt * (s.K_ : F)))
        qv_ := s.qv_.set s.K_ (cost.stateDerivativeTerminal x 0 (s.settings_.dt * (s.K_ : F)))
        Q_ := s.Q_.set s.K_
          (cost.stateSecondDerivativeTerminal x 0 (s.settings_.dt * (s.K_ : F)))
        S_ := s.S_.set s.K_
          (cost.stateSecondDerivativeTerminal x 0 (s.settings_.dt * (s.K_ : F)))
        sv_ := s.sv_.set s.K_
          (cost.stateDerivativeTerminal x 0 (s.settings_.dt * (s.K_ : F))) } := by
    unfold initializeCostToGo
    simp only [ex, assign_of_lt _ hqK, assign_of_lt _ hqvK, assign_of_lt _ hQK,
      assign_of_lt _ hSK, assign_of_lt _ hsvK, List.getElem?_set_eq_of_lt _ hQK,
      List.getElem?_set_eq_of_lt _ hqvK, Option.bind_eq_bind, Option.some_bind, Option.pure_def,
      Outcome.ofOption]
  exact ⟨_, x, hrun, ex, List.getElem?_set_eq_of_lt _ hSK⟩


/-! ### Controller design -/

theorem stageSized_zeroSolver (n m : Nat) (st : GNMSSettings ℚ) (K : Nat) :
    StageSized (zeroSolver n m st K K) (zeroSolver n m st K K).K_ := by
  simp [StageSized, zeroSolver]

theorem designController_of_sized [LinearOrderedField F] (E : EigenLib F n m)
    (s : GNMSBase F n m) (k : Nat) (hs : StageSized s s.K_) (hk : k < s.K_) :
    ∃ rv B sv1 P S1 A R,
      (s.rv_[k]? = some rv ∧ s.B_[k]? = some B ∧ s.sv_[k + 1]? = some sv1 ∧ s.P_[k]? = some P ∧
        s.S_[k + 1]? = some S1 ∧ s.A_[k]? = some A ∧ s.R_[k]? = some R) ∧
      ∃ s', designController E s k = .ret () s' ∧
        s'.gv_[k]? = some (designControllerStage E s.settings_ rv B sv1 P S1 A R s.du_norm_
          s.smallestEigenvalue_ s.smallestEigenvalueIteration_).gv ∧
        s'.G_[k]? = some (designControllerStage E s.settings_ rv B sv1 P S1 A R s.du_norm_
          s.smallestEigenvalue_ s.smallestEigenvalueIteration_).G ∧
        s'.H_[k]? = some (designControllerStage E s.settings_ rv B sv1 P S1 A R s.du_norm_
          s.smallestEigenvalue_ s.smallestEigenvalueIteration_).H ∧
        s'.Hi_[k]? = some (designControllerStage E s.settings_ rv B sv1 P S1 A R s.du_norm_
          s.smallestEigenvalue_ s.smallestEigenvalueIteration_).Hi ∧
        s'.Hi_inverse_[k]? = some (designControllerStage E s.settings_ rv B sv1 P S1 A R
          s.du_norm_ s.smallestEigenvalue_ s.smallestEigenvalueIteration_).Hi_inverse ∧
        s'.L_[k]? = some (designControllerStage E s.settings_ rv B sv1 P S1 A R s.du_norm_
          s.smallestEigenvalue_ s.smallestEigenvalueIteration_).L ∧
        s'.lv_[k]? = some (designControllerStage E s.settings_ rv B sv1 P S1 A R s.du_norm_
          s.smallestEigenvalue_ s.smallestEigenvalueIteration_).lv := by
  obtain ⟨⟨hA, hB, hu, huff, huffp, hd, hgv, hG⟩, ⟨hH, hHi, hHinv, hlv, hL, hP, hrv, hR⟩,
    ⟨hx, hxS, hlx, hq, hqv, hQ, hsv, hS⟩⟩ := hs
  have hk2 : k + 1 < s.K_ + 1 := Nat.succ_lt_succ hk
  obtain ⟨rv, erv⟩ := exists_getElem?_of_length s.rv_ hrv hk
  obtain ⟨B, eB⟩ := exists_getElem?_of_length s.B_ hB hk
  obtain ⟨sv1, esv1⟩ := exists_getElem?_of_length s.sv_ hsv hk2
  obtain ⟨P, eP⟩ := exists_getElem?_of_length s.P_ hP hk
  obtain ⟨S1, eS1⟩ := exists_getElem?_of_length s.S_ hS hk2
  obtain ⟨A, eA⟩ := exists_getElem?_of_length s.A_ hA hk
  obtain ⟨R, eR⟩ := exists_getElem?_of_length s.R_ hR hk
  have h1 : k < s.gv_.length := hgv ▸ hk
  have h2 : k < s.G_.length := hG ▸ hk
  have h3 : k < s.H_.length := hH ▸ hk
  have h4 : k < s.Hi_.length := hHi ▸ hk
  have h5 : k < s.Hi_inverse_.length := hHinv ▸ hk
  have h6 : k < s.L_.length := hL ▸ hk
  have h7 : k < s.lv_.length := hlv ▸ hk
  refine ⟨rv, B, sv1, P, S1, A, R, ⟨erv, eB, esv1, eP, eS1, eA, eR⟩, ?_⟩
  unfold designController
  simp only [erv, eB, esv1, eP, eS1, eA, eR, assign_of_lt _ h1, assign_of_lt _ h2,
    assign_of_lt _ h3, assign_of_lt _ h4, assign_of_lt _ h5, assign_of_lt _ h6,
    assign_of_lt _ h7]
  exact ⟨_, rfl, List.getElem?_set_eq_of_lt _ h1, List.getElem?_set_eq_of_lt _ h2,
    List.getElem?_set_eq_of_lt _ h3, List.getElem?_set_eq_of_lt _ h4,
    List.getElem?_set_eq_of_lt _ h5, List.getElem?_set_eq_of_lt _ h6,
    List.getElem?_set_eq_of_lt _ h7⟩

theorem designControllerStage_clipping [LinearOrderedField F] (E : EigenLib F n m)
    (st : GNMSSettings F) (rv : Fin m → F) (B : Matrix (Fin n) (Fin m) F) (sv1 : Fin n → F)
    (P : Matrix (Fin m) (Fin n) F) (S1 A : Matrix (Fin n) (Fin n) F)
    (R : Matrix (Fin m) (Fin m) F) (du : F) (sm smi : WithTop F)
    (h : st.fixedHessianCorrection = false) :
    (designControllerStage E st rv B sv1 P S1 A R du sm smi).Hi =
      (E.eigenSolve (designControllerStage E st rv B sv1 P S1 A R du sm smi).H).1 *
        Matrix.diagonal (fun i =>
          max ((E.eigenSolve (designControllerStage E st rv B sv1 P S1 A R du sm smi).H).2 i)
            st.epsilon) *
        (E.eigenSolve (designControllerStage E st rv B sv1 P S1 A R du sm smi).H).1.transpose ∧
    (designControllerStage E st rv B sv1 P S1 A R du sm smi).Hi_inverse =
      (E.eigenSolve (designControllerStage E st rv B sv1 P S1 A R du sm smi).H).1 *
        Matrix.diagonal (fun i => -1 *
          (max ((E.eigenSolve (designControllerStage E st rv B sv1 P S1 A R du sm smi).H).2 i)
            st.epsilon)⁻¹) *
        (E.eigenSolve (designControllerStage E st rv B sv1 P S1 A R du sm smi).H).1.transpose ∧
    (designControllerStage E st rv B sv1 P S1 A R du sm smi).L =
      (designControllerStage E st rv B sv1 P S1 A R du sm smi).Hi_inverse *
        (designControllerStage E st rv B sv1 P S1 A R du sm smi).G ∧
    (designControllerStage E st rv B sv1 P S1 A R du sm smi).lv =
      (designControllerStage E st rv B sv1 P S1 A R du sm smi).Hi_inverse.mulVec
        (designControllerStage E st rv B sv1 P S1 A R du sm smi).gv := by
  unfold designControllerStage
  simp [h]

theorem designControllerStage_fixed [LinearOrderedField F] (E : EigenLib F n m)
    (st : GNMSSettings F) (rv : Fin m → F) (B : Matrix (Fin n) (Fin m) F) (sv1 : Fin n → F)
    (P : Matrix (Fin m) (Fin n) F) (S1 A : Matrix (Fin n) (Fin n) F)
    (R : Matrix (Fin m) (Fin m) F) (du : F) (sm smi : WithTop F)
    (h : st.fixedHessianCorrection = true) :
    (designControllerStage E st rv B sv1 P S1 A R du sm smi).Hi =
      (if st.epsilon > 1 / 10 ^ 10 then
        (designControllerStage E st rv B sv1 P S1 A R du sm smi).H +
          st.epsilon • (1 : Matrix (Fin m) (Fin m) F)
      else (designControllerStage E st rv B sv1 P S1 A R du sm smi).H) ∧
    (designControllerStage E st rv B sv1 P S1 A R du sm smi).Hi_inverse =
      -E.lltSolve (designControllerStage E st rv B sv1 P S1 A R du sm smi).Hi 1 ∧
    (designControllerStage E st rv B sv1 P S1 A R du sm smi).L =
      selfadjointLower (designControllerStage E st rv B sv1 P S1 A R du sm smi).Hi_inverse *
        (designControllerStage E st rv B sv1 P S1 A R du sm smi).G ∧
    (designControllerStage E st rv B sv1 P S1 A R du sm smi).lv =
      (selfadjointLower
        (designControllerStage E st rv B sv1 P S1 A R du sm smi).Hi_inverse).mulVec
        (designControllerStage E st rv B sv1 P S1 A R du sm smi).gv := by
  unfold designControllerStage
  simp [h]

theorem designControllerStage_unregularized [LinearOrderedField F] (E : EigenLib F n m)
    (st : GNMSSettings F) (rv : Fin m → F) (B : Matrix (Fin n) (Fin m) F) (sv1 : Fin n → F)
    (P : Matrix (Fin m) (Fin n) F) (S1 A : Matrix (Fin n) (Fin n) F)
    (R : Matrix (Fin m) (Fin m) F) (du : F) (sm smi : WithTop F) :
    (designControllerStage E st rv B sv1 P S1 A R du sm smi).gv = rv + B.transpose.mulVec sv1 ∧
    (designControllerStage E st rv B sv1 P S1 A R du sm smi).G =
      P + B.transpose * selfadjointLower S1 * A ∧
    (designControllerStage E st rv B sv1 P S1 A R du sm smi).H =
      R + B.transpose * selfadjointLower S1 * B := by
  unfold designControllerStage
  split_ifs <;> exact ⟨rfl, rfl, rfl⟩

theorem isSymm_clipped [Field F] {d : Nat} (V : Matrix (Fin d) (Fin d) F) (c : Fin d → F) :
    (V * Matrix.diagonal c * V.transpose).IsSymm := by
  unfold Matrix.IsSymm
  rw [Matrix.transpose_mul, Matrix.transpose_mul, Matrix.transpose_transpose,
    Matrix.diagonal_transpose, Matrix.mul_assoc]

theorem dotProduct_self_pos [LinearOrderedField F] {d : Nat} (x : Fin d → F) (hx : x ≠ 0) :
    0 < x ⬝ᵥ x := by
  have h0 : 0 ≤ x ⬝ᵥ x := Finset.sum_nonneg (fun i _ => mul_self_nonneg (x i))
  rcases h0.lt_or_eq with h | h
  · exact h
  · exact absurd (Matrix.dotProduct_self_eq_zero.mp h.symm) hx

theorem gains_of_mul_eq_neg_one [Field F] {d e : Nat} {Hi Hinv : Matrix (Fin d) (Fin d) F}
    (G : Matrix (Fin d) (Fin e) F) (gv : Fin d → F) (hmul : Hi * Hinv = -1) :
    Hinv = -Hi⁻¹ ∧ Hinv * G = -(Hi⁻¹ * G) ∧ Hinv.mulVec gv = -(Hi⁻¹.mulVec gv) ∧
      Hi * (Hinv * G) = -G ∧ Hi.mulVec (Hinv.mulVec gv) = -gv := by
  have h1 : Hi * (-Hinv) = 1 := by rw [Matrix.mul_neg, hmul, neg_neg]
  have hinv : Hi⁻¹ = -Hinv := Matrix.inv_eq_right_inv h1
  have h2 : Hinv = -Hi⁻¹ := by rw [hinv, neg_neg]
  refine ⟨h2, ?_, ?_, ?_, ?_⟩
  · rw [← Matrix.neg_mul, ← h2]
  · rw [← Matrix.neg_mulVec, ← h2]
  · rw [← Matrix.mul_assoc, hmul, Matrix.neg_mul, Matrix.one_mul]
  · rw [Matrix.mulVec_mulVec, hmul, Matrix.neg_mulVec, Matrix.one_mulVec]

theorem fixed_mul_inverse [LinearOrderedField F] (E : EigenLib F n m) (hllt : LLTExact E)
    {Hi : Matrix (Fin m) (Fin m) F} (hpd : IsPosDef Hi) :
    Hi * (-E.lltSolve Hi 1) = -1 ∧ selfadjointLower (-E.lltSolve Hi 1) = -E.lltSolve Hi 1 := by
  have hsal : selfadjointLower Hi = Hi := selfadjointLower_of_isSymm hpd.1
  have h1 : Hi * E.lltSolve Hi 1 = 1 := by
    have := hllt Hi 1 (by rw [hsal]; exact hpd)
    rwa [hsal] at this
  have hinv : Hi⁻¹ = E.lltSolve Hi 1 := Matrix.inv_eq_right_inv h1
  refine ⟨by rw [Matrix.mul_neg, h1], selfadjointLower_of_isSymm ?_⟩
  unfold Matrix.IsSymm
  rw [Matrix.transpose_neg, ← hinv, Matrix.transpose_nonsing_inv, hpd.1.eq]

/-- C8: under eigenvalue clipping with `epsilon > 0` and an eigen-solver returning
orthonormal eigenvectors `V` (with eigenvalues `lambda` of any sign and size),
`designController` returns, stores `Hi_[k] = V * diag(max(lambda_i, epsilon)) * V^T`, and
`x^T Hi_[k] x >= epsilon * x^T x` for every `x`; so `Hi_[k]` is positive definite. -/
theorem designController_clipping_floor [LinearOrderedField F] (E : EigenLib F n m)
    (s : GNMSBase F n m) (k : Nat) (hs : StageSized s s.K_) (hk : k < s.K_)
    (hclip : s.settings_.fixedHessianCorrection = false) (heps : 0 < s.settings_.epsilon)
    (horth : EigenvectorsOrthonormal E) :
    ∃ s' H Hi, designController E s k = .ret () s' ∧ s'.H_[k]? = some H ∧
      s'.Hi_[k]? = some Hi ∧
      Hi = (E.eigenSolve H).1 *
        Matrix.diagonal (fun i => max ((E.eigenSolve H).2 i) s.settings_.epsilon) *
        (E.eigenSolve H).1.transpose ∧
      (∀ x : Fin m → F, s.settings_.epsilon * (x ⬝ᵥ x) ≤ x ⬝ᵥ Hi.mulVec x) ∧
      IsPosDef Hi := by
  obtain ⟨rv, B, sv1, P, S1, A, R, -, s', hrun, -, -, hH, hHi, -⟩ :=
    designController_of_sized E s k hs hk
  obtain ⟨eHi, -⟩ := designControllerStage_clipping E s.settings_ rv B sv1 P S1 A R s.du_norm_
    s.smallestEigenvalue_ s.smallestEigenvalueIteration_ hclip
  have hfloor : ∀ x : Fin m → F, s.settings_.epsilon * (x ⬝ᵥ x) ≤
      x ⬝ᵥ (designControllerStage E s.settings_ rv B sv1 P S1 A R s.du_norm_
        s.smallestEigenvalue_ s.smallestEigenvalueIteration_).Hi.mulVec x := by
    intro x
    rw [eHi]
    exact quadForm_clipped_ge _ _ _ (horth _) (fun i => le_max_right _ _) x
  refine ⟨s', _, _, hrun, hH, hHi, eHi, hfloor, ?_, ?_⟩
  · rw [eHi]
    exact isSymm_clipped _ _
  · intro x hx
    exact lt_of_lt_of_le (mul_pos heps (dotProduct_self_pos x hx)) (hfloor x)

/-- C9: `designController` returns and stores the gains of the regularized Hessian. Under
the fixed correction with `Hi_[k]` symmetric positive definite (and an exact LLT solve),
and under clipping with all clipped eigenvalues non-zero (and orthonormal eigenvectors),
`Hi_inverse_[k] = -(Hi_[k])^{-1}`, `L_[k] = -(Hi_[k])^{-1} G_[k]`,
`lv_[k] = -(Hi_[k])^{-1} gv_[k]`, hence `Hi_[k] L_[k] = -G_[k]` and
`Hi_[k] lv_[k] = -gv_[k]`. -/
theorem designController_gains [LinearOrderedField F] (E : EigenLib F n m)
    (s : GNMSBase F n m) (k : Nat) (hs : StageSized s s.K_) (hk : k < s.K_)
    (hllt : LLTExact E) (horth : EigenvectorsOrthonormal E) :
    ∃ s' gv G H Hi Hinv L lv, designController E s k = .ret () s' ∧
      s'.gv_[k]? = some gv ∧ s'.G_[k]? = some G ∧ s'.H_[k]? = some H ∧
      s'.Hi_[k]? = some Hi ∧ s'.Hi_inverse_[k]? = some Hinv ∧ s'.L_[k]? = some L ∧
      s'.lv_[k]? = some lv ∧
      ((s.settings_.fixedHessianCorrection = true → IsPosDef Hi) →
        (s.settings_.fixedHessianCorrection = false →
          ∀ i, max ((E.eigenSolve H).2 i) s.settings_.epsilon ≠ 0) →
        Hinv = -Hi⁻¹ ∧ L = -(Hi⁻¹ * G) ∧ lv = -(Hi⁻¹.mulVec gv) ∧ Hi * L = -G ∧
          Hi.mulVec lv = -gv) := by
  obtain ⟨rv, B, sv1, P, S1, A, R, -, s', hrun, hgv, hG, hH, hHi, hHinv, hL, hlv⟩ :=
    designController_of_sized E s k hs hk
  refine ⟨s', _, _, _, _, _, _, _, hrun, hgv, hG, hH, hHi, hHinv, hL, hlv, ?_⟩
  intro hfix hclip
  cases hflag : s.settings_.fixedHessianCorrection with
  | true =>
    obtain ⟨-, eHinv, eL, elv⟩ := designControllerStage_fixed E s.settings_ rv B sv1 P S1 A R
      s.du_norm_ s.smallestEigenvalue_ s.smallestEigenvalueIteration_ hflag
    obtain ⟨hmul, hsal⟩ := fixed_mul_inverse E hllt (hfix hflag)
    rw [← eHinv] at hmul hsal
    rw [hsal] at eL elv
    obtain ⟨g1, g2, g3, g4, g5⟩ := gains_of_mul_eq_neg_one
      (designControllerStage E s.settings_ rv B sv1 P S1 A R s.du_norm_
        s.smallestEigenvalue_ s.smallestEigenvalueIteration_).G
      (designControllerStage E s.settings_ rv B sv1 P S1 A R s.du_norm_
        s.smallestEigenvalue_ s.smallestEigenvalueIteration_).gv hmul
    exact ⟨g1, eL.trans g2, elv.trans g3, by rw [eL]; exact g4, by rw [elv]; exact g5⟩
  | false =>
    obtain ⟨eHi, eHinv, eL, elv⟩ := designControllerStage_clipping E s.settings_ rv B sv1 P S1
      A R s.du_norm_ s.smallestEigenvalue_ s.smallestEigenvalueIteration_ hflag
    have hmul := clipped_mul_inverse
      (E.eigenSolve (designControllerStage E s.settings_ rv B sv1 P S1 A R s.du_norm_
        s.smallestEigenvalue_ s.smallestEigenvalueIteration_).H).1
      (fun i => max ((E.eigenSolve (designControllerStage E s.settings_ rv B sv1 P S1 A R
        s.du_norm_ s.smallestEigenvalue_ s.smallestEigenvalueIteration_).H).2 i)
        s.settings_.epsilon) (horth _) (hclip hflag)
    rw [← eHi, ← eHinv] at hmul
    obtain ⟨g1, g2, g3, g4, g5⟩ := gains_of_mul_eq_neg_one
      (designControllerStage E s.settings_ rv B sv1 P S1 A R s.du_norm_
        s.smallestEigenvalue_ s.smallestEigenvalueIteration_).G
      (designControllerStage E s.settings_ rv B sv1 P S1 A R s.du_norm_
        s.smallestEigenvalue_ s.smallestEigenvalueIteration_).gv hmul
    exact ⟨g1, eL.trans g2, elv.trans g3, by rw [eL]; exact g4, by rw [elv]; exact g5⟩


/-! ### Linearised dynamics and the symmetry of the cost-to-go -/

theorem computeLinearizedDynamics_of_stage [Field F] (E : EigenLib F n m)
    (lin : LinearSystem F n m) (s : GNMSBase F n m) (k : Nat) (x : Fin n → F) (u : Fin m → F)
    (A : Matrix (Fin n) (Fin n) F) (B : Matrix (Fin n) (Fin m) F)
    (ex : s.x_[k]? = some x) (eu : s.u_[k]? = some u)
    (hstage : linearizedDynamicsStage E lin s.settings_ x u k = some (A, B))
    (hA : k < s.A_.length) (hB : k < s.B_.length) :
    computeLinearizedDynamics E lin s k =
      .ret () { s with A_ := s.A_.set k A, B_ := s.B_.set k B } := by
  unfold computeLinearizedDynamics
  cases hd : s.settings_.discretization with
  | unknown c =>
    unfold linearizedDynamicsStage at hstage
    rw [hd] at hstage
    cases hstage
  | FORWARD_EULER =>
    simp only [ex, eu, hstage, assign_of_lt _ hA, assign_of_lt _ hB, Option.bind_eq_bind,
      Option.some_bind, Option.pure_def, Outcome.ofOption]
  | BACKWARD_EULER =>
    simp only [ex, eu, hstage, assign_of_lt _ hA, assign_of_lt _ hB, Option.bind_eq_bind,
      Option.some_bind, Option.pure_def, Outcome.ofOption]
  | TUSTIN =>
    simp only [ex, eu, hstage, assign_of_lt _ hA, assign_of_lt _ hB, Option.bind_eq_bind,
      Option.some_bind, Option.pure_def, Outcome.ofOption]

/-- C10: on a sized solver and for `k < K_`, with `J_x`, `J_u` the Jacobians of the
linear-system provider at `(x_[k], u_[k], k * dt)`, `computeLinearizedDynamics` returns
and stores: forward Euler `A = 1 + dt J_x`, `B = dt J_u`; backward Euler
`A = (1 - dt J_x)^{-1}`, `B = A (dt J_u)`; Tustin
`A = (1 - dt/2 J_x)^{-1} (1 + dt/2 J_x)`, `B = (1 - dt/2 J_x)^{-1} (dt J_u)`; the last two
when the matrix to invert is invertible and the QR inverse is exact. -/
theorem computeLinearizedDynamics_matrices [Field F] (E : EigenLib F n m)
    (lin : LinearSystem F n m) (s : GNMSBase F n m) (k : Nat)
    (hs : StageSized s s.K_) (hk : k < s.K_) (hqr : QRExact E) :
    ∃ x u, s.x_[k]? = some x ∧ s.u_[k]? = some u ∧
      (s.settings_.discretization = .FORWARD_EULER →
        ∃ s', computeLinearizedDynamics E lin s k = .ret () s' ∧
          s'.A_[k]? = some (1 + s.settings_.dt •
            lin.getDerivativeState x u ((k : F) * s.settings_.dt)) ∧
          s'.B_[k]? = some (s.settings_.dt •
            lin.getDerivativeControl x u ((k : F) * s.settings_.dt))) ∧
      (s.settings_.discretization = .BACKWARD_EULER →
        IsUnit (1 - s.settings_.dt •
          lin.getDerivativeState x u ((k : F) * s.settings_.dt)).det →
        ∃ s' A, computeLinearizedDynamics E lin s k = .ret () s' ∧
          A = (1 - s.settings_.dt •
            lin.getDerivativeState x u ((k : F) * s.settings_.dt))⁻¹ ∧
          s'.A_[k]? = some A ∧
          s'.B_[k]? = some (A * s.settings_.dt •
            lin.getDerivativeControl x u ((k : F) * s.settings_.dt))) ∧
      (s.settings_.discretization = .TUSTIN →
        IsUnit (1 - (s.settings_.dt / 2) •
          lin.getDerivativeState x u ((k : F) * s.settings_.dt)).det →
        ∃ s', computeLinearizedDynamics E lin s k = .ret () s' ∧
          s'.A_[k]? = some ((1 - (s.settings_.dt / 2) •
              lin.getDerivativeState x u ((k : F) * s.settings_.dt))⁻¹ *
            (1 + (s.settings_.dt / 2) •
              lin.getDerivativeState x u ((k : F) * s.settings_.dt))) ∧
          s'.B_[k]? = some ((1 - (s.settings_.dt / 2) •
              lin.getDerivativeState x u ((k : F) * s.settings_.dt))⁻¹ *
            s.settings_.dt • lin.getDerivativeControl x u ((k : F) * s.settings_.dt))) := by
  obtain ⟨⟨hA, hB, hu, -⟩, -, ⟨hx, -⟩⟩ := hs
  obtain ⟨x, ex⟩ := exists_getElem?_of_length s.x_ hx (Nat.lt_succ_of_lt hk)
  obtain ⟨u, eu⟩ := exists_getElem?_of_length s.u_ hu hk
  have hAk : k < s.A_.length := hA ▸ hk
  have hBk : k < s.B_.length := hB ▸ hk
  refine ⟨x, u, ex, eu, ?_, ?_, ?_⟩
  · intro hd
    have hstage : linearizedDynamicsStage E lin s.settings_ x u k = some
        (1 + s.settings_.dt • lin.getDerivativeState x u ((k : F) * s.settings_.dt),
          s.settings_.dt • lin.getDerivativeControl x u ((k : F) * s.settings_.dt)) := by
      unfold linearizedDynamicsStage
      rw [hd]
    exact ⟨_, computeLinearizedDynamics_of_stage E lin s k x u _ _ ex eu hstage hAk hBk,
      List.getElem?_set_eq_of_lt _ hAk, List.getElem?_set_eq_of_lt _ hBk⟩
  · intro hd hunit
    have hstage : linearizedDynamicsStage E lin s.settings_ x u k = some
        ((1 - s.settings_.dt • lin.getDerivativeState x u ((k : F) * s.settings_.dt))⁻¹,
          (1 - s.settings_.dt • lin.getDerivativeState x u ((k : F) * s.settings_.dt))⁻¹ *
            s.settings_.dt • lin.getDerivativeControl x u ((k : F) * s.settings_.dt)) := by
      unfold linearizedDynamicsStage
      rw [hd]
      simp only [hqr _ hunit, Matrix.smul_mul, Matrix.mul_smul]
    exact ⟨_, _, computeLinearizedDynamics_of_stage E lin s k x u _ _ ex eu hstage hAk hBk, rfl,
      List.getElem?_set_eq_of_lt _ hAk, List.getElem?_set_eq_of_lt _ hBk⟩
  · intro hd hunit
    have h2 : (1 / 2 : F) * s.settings_.dt = s.settings_.dt / 2 := by ring
    have hstage : linearizedDynamicsStage E lin s.settings_ x u k = some
        ((1 - (s.settings_.dt / 2) •
              lin.getDerivativeState x u ((k : F) * s.settings_.dt))⁻¹ *
            (1 + (s.settings_.dt / 2) •
              lin.getDerivativeState x u ((k : F) * s.settings_.dt)),
          (1 - (s.settings_.dt / 2) •
              lin.getDerivativeState x u ((k : F) * s.settings_.dt))⁻¹ *
            s.settings_.dt • lin.getDerivativeControl x u ((k : F) * s.settings_.dt)) := by
      unfold linearizedDynamicsStage
      rw [hd]
      simp only [h2, hqr _ hunit, Matrix.smul_mul, Matrix.mul_smul]
    exact ⟨_, computeLinearizedDynamics_of_stage E lin s k x u _ _ ex eu hstage hAk hBk,
      List.getElem?_set_eq_of_lt _ hAk, List.getElem?_set_eq_of_lt _ hBk⟩

/-- C7 (amended): on a sized solver and for every `k < K_`, `computeCostToGo` returns and
the `S_[k]` it stores is symmetric, whatever the values it reads; `initializeCostToGo`
returns and stores in `S_[K_]` the terminal state Hessian of the cost module at
`(x_[K_], 0, dt * K_)` as it is. -/
theorem costToGo_symmetric [Field F] (cost : CostFunction F n m) (s : GNMSBase F n m) (k : Nat)
    (hs : StageSized s s.K_) (hk : k < s.K_) :
    (∃ s' S, computeCostToGo s k = .ret () s' ∧ s'.S_[k]? = some S ∧ S.IsSymm) ∧
    (∃ s' x, initializeCostToGo cost s = .ret () s' ∧ s.x_[s.K_]? = some x ∧
      s'.S_[s.K_]? =
        some (cost.stateSecondDerivativeTerminal x 0 (s.settings_.dt * (s.K_ : F)))) := by
  constructor
  · obtain ⟨s', Q, A, S1, L, Hi, hrun, -, -, -, -, -, hS⟩ := computeCostToGo_of_sized s k hs hk
    exact ⟨s', _, hrun, hS, costToGoHessian_isSymm Q A S1 L Hi⟩
  · exact initializeCostToGo_of_sized cost s hs

/-- C7 (counterexample): with a cost module whose terminal Hessian is `[[0, 1], [0, 0]]`,
`initializeCostToGo` on a solver sized for `K = 1` returns and leaves in `S_[1]` a matrix
that is not symmetric. -/
theorem initializeCostToGo_keeps_asymmetric_hessian :
    ∃ s' S, initializeCostToGo skewTerminalCost planarSolver
        = .ret () s' ∧ s'.S_[1]? = some S ∧ ¬ S.IsSymm := by
  obtain ⟨s', x, hrun, -, hS⟩ := initializeCostToGo_of_sized skewTerminalCost
    planarSolver (stageSized_zeroSolver 2 1 _ 1)
  refine ⟨s', _, hrun, hS, ?_⟩
  intro hsymm
  have h01 := hsymm.apply 0 1
  simp [skewTerminalCost] at h01


/-! ### Concrete instances -/

theorem eigenvectorsOrthonormal_sampleEigenLib (n : Nat) :
    EigenvectorsOrthonormal (sampleEigenLib n) := by
  intro M
  simp [sampleEigenLib]

theorem qrExact_sampleEigenLib (n : Nat) : QRExact (sampleEigenLib n) := by
  intro M _
  simp [sampleEigenLib, Matrix.inv_def]

theorem lltExact_sampleEigenLib (n : Nat) : LLTExact (sampleEigenLib n) := by
  intro M B hpd
  have hpos : 0 < M 0 0 := by
    have h := hpd.2 (fun _ => 1) (fun h => one_ne_zero (congrFun h 0))
    simpa [Matrix.dotProduct, Matrix.mulVec, selfadjointLower] using h
  ext i j
  have hi : i = 0 := Subsingleton.elim _ _
  subst hi
  simp [sampleEigenLib, Matrix.mul_apply, selfadjointLower, hpos.ne']

theorem costToGo_symmetric_witness :
    StageSized planarSolver
      planarSolver.K_ ∧
    0 < planarSolver.K_ ∧
    ((∃ s' S, computeCostToGo planarSolver 0 = .ret () s' ∧
        s'.S_[0]? = some S ∧ S.IsSymm) ∧
      (∃ s' x, initializeCostToGo skewTerminalCost planarSolver
          = .ret () s' ∧
        planarSolver.x_[
          planarSolver.K_]? = some x ∧
        s'.S_[planarSolver.K_]? =
          some (skewTerminalCost.stateSecondDerivativeTerminal x 0
            (planarSolver.settings_.dt *
              (planarSolver.K_ : ℚ))))) :=
  ⟨stageSized_zeroSolver 2 1 _ 1, Nat.zero_lt_one,
    costToGo_symmetric skewTerminalCost planarSolver 0
      (stageSized_zeroSolver 2 1 _ 1) Nat.zero_lt_one⟩

theorem designController_clipping_floor_witness :
    StageSized clippingSolver
      clippingSolver.K_ ∧
    0 < clippingSolver.K_ ∧
    clippingSolver.settings_.fixedHessianCorrection = false ∧
    0 < clippingSolver.settings_.epsilon ∧
    EigenvectorsOrthonormal (sampleEigenLib 1) ∧
    ∃ s' H Hi, designController (sampleEigenLib 1) clippingSolver 0
        = .ret () s' ∧ s'.H_[0]? = some H ∧ s'.Hi_[0]? = some Hi ∧
      Hi = ((sampleEigenLib 1).eigenSolve H).1 *
        Matrix.diagonal (fun i => max (((sampleEigenLib 1).eigenSolve H).2 i)
          clippingSolver.settings_.epsilon) *
        ((sampleEigenLib 1).eigenSolve H).1.transpose ∧
      (∀ x : Fin 1 → ℚ, clippingSolver.settings_.epsilon *
        (x ⬝ᵥ x) ≤ x ⬝ᵥ Hi.mulVec x) ∧
      IsPosDef Hi :=
  ⟨stageSized_zeroSolver 1 1 _ 1, Nat.zero_lt_one, rfl, zero_lt_one,
    eigenvectorsOrthonormal_sampleEigenLib 1,
    designController_clipping_floor (sampleEigenLib 1)
      clippingSolver 0 (stageSized_zeroSolver 1 1 _ 1)
      Nat.zero_lt_one rfl zero_lt_one (eigenvectorsOrthonormal_sampleEigenLib 1)⟩

theorem designController_gains_witness :
    StageSized fixedSolver
      fixedSolver.K_ ∧
    0 < fixedSolver.K_ ∧
    LLTExact (sampleEigenLib 1) ∧ EigenvectorsOrthonormal (sampleEigenLib 1) ∧
    ∃ s' gv G H Hi Hinv L lv,
      designController (sampleEigenLib 1) fixedSolver 0
        = .ret () s' ∧
      s'.gv_[0]? = some gv ∧ s'.G_[0]? = some G ∧ s'.H_[0]? = some H ∧
      s'.Hi_[0]? = some Hi ∧ s'.Hi_inverse_[0]? = some Hinv ∧ s'.L_[0]? = some L ∧
      s'.lv_[0]? = some lv ∧
      ((fixedSolver.settings_.fixedHessianCorrection = true →
          IsPosDef Hi) →
        (fixedSolver.settings_.fixedHessianCorrection = false →
          ∀ i, max (((sampleEigenLib 1).eigenSolve H).2 i)
            fixedSolver.settings_.epsilon ≠ 0) →
        Hinv = -Hi⁻¹ ∧ L = -(Hi⁻¹ * G) ∧ lv = -(Hi⁻¹.mulVec gv) ∧ Hi * L = -G ∧
          Hi.mulVec lv = -gv) :=
  ⟨stageSized_zeroSolver 1 1 _ 1, Nat.zero_lt_one, lltExact_sampleEigenLib 1,
    eigenvectorsOrthonormal_sampleEigenLib 1,
    designController_gains (sampleEigenLib 1) fixedSolver 0
      (stageSized_zeroSolver 1 1 _ 1) Nat.zero_lt_one (lltExact_sampleEigenLib 1)
      (eigenvectorsOrthonormal_sampleEigenLib 1)⟩

theorem computeLinearizedDynamics_matrices_witness :
    StageSized
      backwardEulerSolver
      backwardEulerSolver.K_ ∧
    0 < backwardEulerSolver.K_ ∧
    QRExact (sampleEigenLib 1) ∧
    ∃ x u,
      backwardEulerSolver.x_[0]? = some x ∧
      backwardEulerSolver.u_[0]? = some u ∧
      (backwardEulerSolver.settings_.discretization = .FORWARD_EULER →
        ∃ s', computeLinearizedDynamics (sampleEigenLib 1) (constantLinearSystem 1 1 0 1)
            backwardEulerSolver
            0 = .ret () s' ∧
          s'.A_[0]? = some (1 + backwardEulerSolver.settings_.dt •
            (constantLinearSystem 1 1 0 1).getDerivativeState x u (((0 : Nat) : ℚ) *
              backwardEulerSolver.settings_.dt)) ∧
          s'.B_[0]? = some (backwardEulerSolver.settings_.dt •
            (constantLinearSystem 1 1 0 1).getDerivativeControl x u (((0 : Nat) : ℚ) *
              backwardEulerSolver.settings_.dt))) ∧
      (backwardEulerSolver.settings_.discretization = .BACKWARD_EULER →
        IsUnit (1 - backwardEulerSolver.settings_.dt •
            (constantLinearSystem 1 1 0 1).getDerivativeState x u (((0 : Nat) : ℚ) *
              backwardEulerSolver.settings_.dt)).det →
        ∃ s' A, computeLinearizedDynamics (sampleEigenLib 1) (constantLinearSystem 1 1 0 1)
            backwardEulerSolver
            0 = .ret () s' ∧
          A = (1 - backwardEulerSolver.settings_.dt •
            (constantLinearSystem 1 1 0 1).getDerivativeState x u (((0 : Nat) : ℚ) *
              backwardEulerSolver.settings_.dt))⁻¹ ∧
          s'.A_[0]? = some A ∧
          s'.B_[0]? = some (A * backwardEulerSolver.settings_.dt •
            (constantLinearSystem 1 1 0 1).getDerivativeControl x u (((0 : Nat) : ℚ) *
              backwardEulerSolver.settings_.dt))) ∧
      (backwardEulerSolver.settings_.discretization = .TUSTIN →
        IsUnit (1 - (backwardEulerSolver.settings_.dt / 2) •
            (constantLinearSystem 1 1 0 1).getDerivativeState x u (((0 : Nat) : ℚ) *
              backwardEulerSolver.settings_.dt)).det →
        ∃ s', computeLinearizedDynamics (sampleEigenLib 1) (constantLinearSystem 1 1 0 1)
            backwardEulerSolver
            0 = .ret () s' ∧
          s'.A_[0]? = some ((1 - (backwardEulerSolver.settings_.dt / 2) •
              (constantLinearSystem 1 1 0 1).getDerivativeState x u (((0 : Nat) : ℚ) *
                backwardEulerSolver.settings_.dt))⁻¹ *
            (1 + (backwardEulerSolver.settings_.dt / 2) •
              (constantLinearSystem 1 1 0 1).getDerivativeState x u (((0 : Nat) : ℚ) *
                backwardEulerSolver.settings_.dt))) ∧
          s'.B_[0]? = some ((1 - (backwardEulerSolver.settings_.dt / 2) •
              (constantLinearSystem 1 1 0 1).getDerivativeState x u (((0 : Nat) : ℚ) *
                backwardEulerSolver.settings_.dt))⁻¹ *
            backwardEulerSolver.settings_.dt •
            (constantLinearSystem 1 1 0 1).getDerivativeControl x u (((0 : Nat) : ℚ) *
              backwardEulerSolver.settings_.dt))) :=
  ⟨stageSized_zeroSolver 1 1 _ 1, Nat.zero_lt_one, qrExact_sampleEigenLib 1,
    computeLinearizedDynamics_matrices (sampleEigenLib 1) (constantLinearSystem 1 1 0 1)
      backwardEulerSolver 0
      (stageSized_zeroSolver 1 1 _ 1) Nat.zero_lt_one (qrExact_sampleEigenLib 1)⟩

theorem isPosDef_one [LinearOrderedField F] (d : Nat) :
    IsPosDef (1 : Matrix (Fin d) (Fin d) F) := by
  refine ⟨Matrix.isSymm_one, fun x hx => ?_⟩
  rw [Matrix.one_mulVec]
  exact dotProduct_self_pos x hx

/-- The premise of the fixed-correction case is met: on `fixedSolver` the regularized
Hessian stored by `designController` is positive definite. -/
theorem designController_fixed_posDef_example :
    ∃ s' Hi, designController (sampleEigenLib 1) fixedSolver 0 = .ret () s' ∧
      s'.Hi_[0]? = some Hi ∧ fixedSolver.settings_.fixedHessianCorrection = true ∧
      IsPosDef Hi := by
  obtain ⟨rv, B, sv1, P, S1, A, R, ⟨-, eB, -, -, -, -, eR⟩, s', hrun, -, -, -, hHi, -⟩ :=
    designController_of_sized (sampleEigenLib 1) fixedSolver 0 (stageSized_zeroSolver 1 1 _ 1)
      Nat.zero_lt_one
  have hB : B = 0 := by simpa [fixedSolver, zeroSolver] using eB.symm
  have hR : R = 0 := by simpa [fixedSolver, zeroSolver] using eR.symm
  obtain ⟨eHi, -⟩ := designControllerStage_fixed (sampleEigenLib 1) fixedSolver.settings_ rv B
    sv1 P S1 A R fixedSolver.du_norm_ fixedSolver.smallestEigenvalue_
    fixedSolver.smallestEigenvalueIteration_ rfl
  obtain ⟨-, -, eH⟩ := designControllerStage_unregularized (sampleEigenLib 1)
    fixedSolver.settings_ rv B sv1 P S1 A R fixedSolver.du_norm_ fixedSolver.smallestEigenvalue_
    fixedSolver.smallestEigenvalueIteration_
  refine ⟨s', _, hrun, hHi, rfl, ?_⟩
  rw [eHi, eH, hB, hR]
  have heps : fixedSolver.settings_.epsilon = 1 := rfl
  rw [heps, if_pos (by norm_num)]
  simpa using isPosDef_one (F := ℚ) 1

/-! ### Configuration and the checks of an iteration -/

theorem configure_of_bad_parameters [Field F] (s : GNMSBase F n m) (st : GNMSSettings F)
    (h : st.parametersOk = false) :
    configure s st = .raise "GNMSSettings are incorrect. Aborting." s := by
  unfold configure
  simp [h]

theorem configure_of_thread_change [Field F] (s : GNMSBase F n m) (st : GNMSSettings F)
    (h1 : st.parametersOk = true) (h2 : st.nThreads ≠ s.settings_.nThreads) :
    configure s st =
      .raise "Number of threads at GNMS cannot be changed after instance has been created." s := by
  unfold configure
  simp [h1, h2]

theorem configure_of_ok [Field F] (s : GNMSBase F n m) (st : GNMSSettings F)
    (h1 : st.parametersOk = true) (h2 : st.nThreads = s.settings_.nThreads) :
    configure s st =
      .ret ()
        { reset { s with settings_ := st,
                         H_corrFix_ := st.epsilon • (1 : Matrix (Fin m) (Fin m) F) } with
          configured_ := true } := by
  unfold configure
  simp [h1, h2]

/-- C19: `configure` throws exactly when the new settings fail `parametersOk()` or their
thread count differs from the current one; when it throws the solver, with its settings
and `configured_` flag, is as before; otherwise it returns, the stored settings are the
argument and `configured_` is set. -/
theorem configure_raises_iff [Field F] (s : GNMSBase F n m) (st : GNMSSettings F) :
    ((∃ msg s', configure s st = .raise msg s') ↔
      (st.parametersOk = false ∨ st.nThreads ≠ s.settings_.nThreads)) ∧
    (∀ msg s', configure s st = .raise msg s' →
      s' = s ∧ s'.settings_ = s.settings_ ∧ s'.configured_ = s.configured_) ∧
    (¬ (st.parametersOk = false ∨ st.nThreads ≠ s.settings_.nThreads) →
      ∃ s', configure s st = .ret () s') ∧
    (∀ s', configure s st = .ret () s' → s'.settings_ = st ∧ s'.configured_ = true) := by
  cases h1 : st.parametersOk with
  | false =>
    rw [configure_of_bad_parameters s st h1]
    refine ⟨⟨fun _ => Or.inl rfl, fun _ => ⟨_, _, rfl⟩⟩, ?_, ?_, ?_⟩
    · intro msg s' h
      cases h
      exact ⟨rfl, rfl, rfl⟩
    · intro h
      exact absurd (Or.inl rfl) h
    · intro s' h
      cases h
  | true =>
    by_cases h2 : st.nThreads = s.settings_.nThreads
    · rw [configure_of_ok s st h1 h2]
      refine ⟨⟨?_, ?_⟩, ?_, fun _ => ⟨_, rfl⟩, ?_⟩
      · rintro ⟨msg, s', h⟩
        cases h
      · rintro (h | h)
        · cases h
        · exact absurd h2 h
      · intro msg s' h
        cases h
      · intro s' h
        cases h
        exact ⟨rfl, rfl⟩
    · rw [configure_of_thread_change s st h1 h2]
      refine ⟨⟨fun _ => Or.inr h2, fun _ => ⟨_, _, rfl⟩⟩, ?_, ?_, ?_⟩
      · intro msg s' h
        cases h
        exact ⟨rfl, rfl, rfl⟩
      · intro h
        exact absurd (Or.inr h2) h
      · intro s' h
        cases h

theorem checkProblem_eq_some_iff (s : GNMSBase F n m) :
    (∃ msg, checkProblem s = some msg) ↔
      (s.K_ = 0 ∨ s.L_.length < s.K_ ∨ s.u_ff_.length < s.K_) := by
  unfold checkProblem
  constructor
  · rintro ⟨msg, h⟩
    by_cases h0 : s.K_ = 0
    · exact Or.inl h0
    · by_cases h1 : s.L_.length < s.K_
      · exact Or.inr (Or.inl h1)
      · by_cases h2 : s.u_ff_.length < s.K_
        · exact Or.inr (Or.inr h2)
        · rw [if_neg h0, if_neg h1, if_neg h2] at h
          cases h
  · intro h
    by_cases h0 : s.K_ = 0
    · exact ⟨_, if_pos h0⟩
    · by_cases h1 : s.L_.length < s.K_
      · exact ⟨_, by rw [if_neg h0, if_pos h1]⟩
      · by_cases h2 : s.u_ff_.length < s.K_
        · exact ⟨_, by rw [if_neg h0, if_neg h1, if_pos h2]⟩
        · rcases h with h | h | h
          · exact absurd h h0
          · exact absurd h h1
          · exact absurd h h2

theorem runIteration_of_checkProblem (p : Passes F n m) (s : GNMSBase F n m) (msg : String)
    (hi : s.initialized_ = true) (hc : s.configured_ = true)
    (hcheck : checkProblem s = some msg) :
    runIteration p s = .raise msg { s with smallestEigenvalueIteration_ := ⊤ } := by
  have hcheck' : checkProblem { s with smallestEigenvalueIteration_ := ⊤ } = some msg := hcheck
  unfold runIteration
  simp only [hi, hc] at hcheck' ⊢
  simp [hcheck']

/-- C14: `checkProblem` throws exactly when `K_ = 0`, or `L_` has fewer than `K_` entries,
or `u_ff_` has fewer than `K_` entries; and on an initialized and configured solver with
`K_ = 0`, `runIteration` throws the horizon error whatever the forward and backward passes
are, so neither is entered. -/
theorem checkProblem_raises_iff (s : GNMSBase F n m) :
    ((∃ msg, checkProblem s = some msg) ↔
      (s.K_ = 0 ∨ s.L_.length < s.K_ ∨ s.u_ff_.length < s.K_)) ∧
    (∀ p : Passes F n m, s.initialized_ = true → s.configured_ = true → s.K_ = 0 →
      runIteration p s =
        .raise "Time horizon too small resulting in 0 GNMS steps"
          { s with smallestEigenvalueIteration_ := ⊤ }) := by
  refine ⟨checkProblem_eq_some_iff s, ?_⟩
  intro p hi hc hK
  exact runIteration_of_checkProblem p s _ hi hc (by unfold checkProblem; rw [if_pos hK])


/-! ### Unknown discretization, initial state and the trajectory invariant -/

theorem computeLinearizedDynamics_of_unknown [Field F] (E : EigenLib F n m)
    (lin : LinearSystem F n m) (s : GNMSBase F n m) (k c : Nat)
    (hd : s.settings_.discretization = .unknown c) :
    computeLinearizedDynamics E lin s k = .raise "Unknown discretization scheme" s := by
  unfold computeLinearizedDynamics
  rw [hd]

/-- C11: with a discretization selector that is none of the three known ones,
`computeLinearizedDynamics` throws "Unknown discretization scheme" for every stage `k` and
leaves the solver, hence `A_[k]` and `B_[k]`, as it was. Nothing earlier rejects the
selector: `configure` accepts such settings when `parametersOk()` holds and the thread
count is unchanged, and an iteration whose forward pass starts with this linearization
call passes the checks of `runIteration` and throws from that call. -/
theorem computeLinearizedDynamics_unknown_scheme [Field F] (E : EigenLib F n m)
    (lin : LinearSystem F n m) (s : GNMSBase F n m) (k c : Nat)
    (hd : s.settings_.discretization = .unknown c) :
    computeLinearizedDynamics E lin s k = .raise "Unknown discretization scheme" s ∧
    (∀ t : GNMSBase F n m, s.settings_.parametersOk = true →
      s.settings_.nThreads = t.settings_.nThreads →
      ∃ t', configure t s.settings_ = .ret () t' ∧ t'.settings_ = s.settings_ ∧
        t'.configured_ = true) ∧
    (∀ p : Passes F n m, p.createLQProblem = (fun t => computeLinearizedDynamics E lin t k) →
      s.initialized_ = true → s.configured_ = true → checkProblem s = none →
      runIteration p s =
        .raise "Unknown discretization scheme" { s with smallestEigenvalueIteration_ := ⊤ }) := by
  refine ⟨computeLinearizedDynamics_of_unknown E lin s k c hd, ?_, ?_⟩
  · intro t h1 h2
    exact ⟨_, configure_of_ok t s.settings_ h1 h2, rfl, rfl⟩
  · intro p hp hi hc hcheck
    have hcheck' : checkProblem { s with smallestEigenvalueIteration_ := ⊤ } = none := hcheck
    have hlin : p.createLQProblem { s with smallestEigenvalueIteration_ := ⊤ } =
        .raise "Unknown discretization scheme" { s with smallestEigenvalueIteration_ := ⊤ } := by
      rw [hp]
      exact computeLinearizedDynamics_of_unknown E lin _ k c hd
    unfold runIteration
    simp only [hi, hc] at hcheck' hlin ⊢
    simp [hcheck', forwardPass, hlin]

theorem changeInitialState_eq [Zero F] (s : GNMSBase F n m) (x0 : Fin n → F) :
    ∃ x_ : List (Fin n → F), changeInitialState s x0 = .ret () (reset { s with x_ := x_ }) ∧
      x_[0]? = some x0 ∧ (s.x_.length ≠ 0 → x_.length = s.x_.length) ∧
      (s.x_.length = 0 → x_.length = 1) := by
  unfold changeInitialState
  by_cases h : s.x_.length = 0
  · simp only [h, if_true]
    have hlen : 0 < (resize s.x_ 1 (0 : Fin n → F)).length := by rw [length_resize]; exact Nat.one_pos
    rw [assign_of_lt _ hlen]
    refine ⟨_, rfl, List.getElem?_set_eq_of_lt _ hlen, fun h' => absurd rfl h', fun _ => ?_⟩
    rw [List.length_set, length_resize]
  · simp only [h, if_false]
    have hlen : 0 < s.x_.length := Nat.pos_of_ne_zero h
    rw [assign_of_lt _ hlen]
    exact ⟨_, rfl, List.getElem?_set_eq_of_lt _ hlen, fun _ => List.length_set _ _ _,
      fun h' => h'.elim⟩


theorem trajectoryInvariant_of_accepted (g : Policy F n m)
    (hx : g.stateVectorArray.length < 2 ^ 64) (hu : g.controlVectorArray.length < 2 ^ 64 - 1)
    (h1 : ¬ g.controlVectorArray.length ≠ sizeMinusOne g.stateVectorArray.length) :
    g.stateVectorArray.length = g.controlVectorArray.length + 1 := by
  unfold sizeMinusOne at h1
  omega

/-- C20: the invariant `len(x_) = len(u_ff_) + 1` holds after every successful
`setInitialGuess` (for guesses whose lengths are container sizes) and after every
`changeTimeHorizon` that changes `K_`; it is preserved by `setInitialGuess` whether it
returns or throws, by `changeTimeHorizon`, and by `changeInitialState`, which always
returns; and under the invariant `getSolution` gives one state more than controls. -/
theorem trajectoryInvariant_maintained [LinearOrderedField F] (s : GNMSBase F n m)
    (g : Policy F n m) (tf : F) (x0 : Fin n → F)
    (hx : g.stateVectorArray.length < 2 ^ 64)
    (hu : g.controlVectorArray.length < 2 ^ 64 - 1) :
    (∀ s', setInitialGuess s g = .ret () s' → TrajectoryInvariant s') ∧
    (∀ s', changeTimeHorizon s tf = .ret () s' → s.settings_.computeK tf ≠ s.K_ →
      TrajectoryInvariant s') ∧
    (TrajectoryInvariant s →
      (∀ msg s', setInitialGuess s g = .raise msg s' → TrajectoryInvariant s') ∧
      (∀ s', changeTimeHorizon s tf = .ret () s' → TrajectoryInvariant s') ∧
      (∀ msg s', changeTimeHorizon s tf = .raise msg s' → TrajectoryInvariant s') ∧
      (∃ s', changeInitialState s x0 = .ret () s' ∧ TrajectoryInvariant s') ∧
      (getSolution s).1.stateVectorArray.length =
        (getSolution s).1.controlVectorArray.length + 1 ∧
      TrajectoryInvariant (getSolution s).2) := by
  have hset : ∀ s', setInitialGuess s g = .ret () s' → TrajectoryInvariant s' := by
    intro s' h
    by_cases h1 : g.controlVectorArray.length ≠ sizeMinusOne g.stateVectorArray.length
    · rw [setInitialGuess_of_mismatch s g h1] at h
      cases h
    · by_cases h2 : g.controlVectorArray.length < s.K_
      · rw [setInitialGuess_of_short s g h1 h2] at h
        cases h
      · rw [setInitialGuess_of_ok s g h1 h2] at h
        cases h
        exact trajectoryInvariant_of_accepted g hx hu h1
  have hhor : ∀ s', changeTimeHorizon s tf = .ret () s' → s.settings_.computeK tf ≠ s.K_ →
      TrajectoryInvariant s' := by
    intro s' h hK
    obtain ⟨h0, -⟩ := changeTimeHorizon_flags s s' tf h
    obtain ⟨t, ht, -, hsz, -⟩ := changeTimeHorizon_of_ne s tf h0 hK
    rw [ht] at h
    cases h
    unfold TrajectoryInvariant
    rw [hsz.2.2.1, hsz.1.2.2.2.1]
  refine ⟨hset, hhor, ?_⟩
  intro hinv
  refine ⟨?_, ?_, ?_, ?_, hinv, hinv⟩
  · intro msg s' h
    by_cases h1 : g.controlVectorArray.length ≠ sizeMinusOne g.stateVectorArray.length
    · rw [setInitialGuess_of_mismatch s g h1] at h
      cases h
      exact hinv
    · by_cases h2 : g.controlVectorArray.length < s.K_
      · rw [setInitialGuess_of_short s g h1 h2] at h
        cases h
        exact hinv
      · rw [setInitialGuess_of_ok s g h1 h2] at h
        cases h
  · intro s' h
    by_cases hK : s.settings_.computeK tf = s.K_
    · obtain ⟨h0, -⟩ := changeTimeHorizon_flags s s' tf h
      rw [changeTimeHorizon_of_eq s tf h0 hK] at h
      cases h
      exact hinv
    · exact hhor s' h hK
  · intro msg s' h
    rcases lt_or_le tf 0 with h0 | h0
    · rw [changeTimeHorizon_of_neg s tf h0] at h
      cases h
      exact hinv
    · by_cases hK : s.settings_.computeK tf = s.K_
      · rw [changeTimeHorizon_of_eq s tf h0 hK] at h
        cases h
      · obtain ⟨t, ht, -⟩ := changeTimeHorizon_of_ne s tf h0 hK
        rw [ht] at h
        cases h
  · obtain ⟨x_, hrun, -, hlen, -⟩ := changeInitialState_eq s x0
    refine ⟨_, hrun, ?_⟩
    have hne : s.x_.length ≠ 0 := by
      unfold TrajectoryInvariant at hinv
      rw [hinv]
      exact Nat.succ_ne_zero _
    unfold TrajectoryInvariant
    exact (hlen hne).trans hinv


/-! ### Iterations and the solve loop -/

theorem runIteration_of_unconfigured (p : Passes F n m) (s : GNMSBase F n m)
    (hi : s.initialized_ = true) (hc : s.configured_ = false) :
    runIteration p s = .raise "GNMS is not configured!" s := by
  unfold runIteration
  simp [hi, hc]

theorem runIteration_eq_passes (p : Passes F n m) (s : GNMSBase F n m)
    (hi : s.initialized_ = true) (hc : s.configured_ = true) (hcheck : checkProblem s = none) :
    runIteration p s =
      match p.createLQProblem { s with smallestEigenvalueIteration_ := ⊤ } with
      | .ret _ s1 =>
        (match p.backwardPass s1 with
        | .ret _ s2 => .ret true { s2 with iteration_ := s2.iteration_ + 1 }
        | .raise msg s2 => .raise msg s2
        | .fault => .fault)
      | .raise msg s1 => .raise msg s1
      | .fault => .fault := by
  have hcheck' : checkProblem { s with smallestEigenvalueIteration_ := ⊤ } = none := hcheck
  unfold runIteration
  simp only [hi, hc] at hcheck' ⊢
  simp only [hcheck', forwardPass, Bool.not_true, Bool.false_eq_true, if_false]
  cases h1 : p.createLQProblem _ with
  | ret a s1 =>
    simp only []
    cases h2 : p.backwardPass s1 <;> rfl
  | raise msg s1 => rfl
  | fault => rfl


theorem runIteration_ret_inv (p : Passes F n m) (s : GNMSBase F n m) (b : Bool)
    (s' : GNMSBase F n m) (h : runIteration p s = .ret b s') :
    b = true ∧ ∃ s1 s2, p.createLQProblem { s with smallestEigenvalueIteration_ := ⊤ } = .ret () s1 ∧
      p.backwardPass s1 = .ret () s2 ∧ s' = { s2 with iteration_ := s2.iteration_ + 1 } := by
  by_cases hi : s.initialized_ = true
  · by_cases hc : s.configured_ = true
    · cases hcheck : checkProblem s with
      | some msg =>
        rw [runIteration_of_checkProblem p s msg hi hc hcheck] at h
        cases h
      | none =>
        rw [runIteration_eq_passes p s hi hc hcheck] at h
        split at h
        next a s1 h1 =>
          split at h
          next a2 s2 h2 =>
            cases h
            exact ⟨rfl, s1, s2, h1, h2, rfl⟩
          next msg s2 h2 => cases h
          next h2 => cases h
        next msg s1 h1 => cases h
        next h1 => cases h
    · rw [runIteration_of_unconfigured p s hi (Bool.eq_false_iff.mpr hc)] at h
      cases h
  · rw [runIteration_of_uninitialized p s (Bool.eq_false_iff.mpr hi)] at h
    cases h

theorem runIteration_raise_inv (p : Passes F n m) (s : GNMSBase F n m) (msg : String)
    (s' : GNMSBase F n m) (h : runIteration p s = .raise msg s') :
    s' = s ∨ s' = { s with smallestEigenvalueIteration_ := ⊤ } ∨
      p.createLQProblem { s with smallestEigenvalueIteration_ := ⊤ } = .raise msg s' ∨
      ∃ s1, p.createLQProblem { s with smallestEigenvalueIteration_ := ⊤ } = .ret () s1 ∧
        p.backwardPass s1 = .raise msg s' := by
  by_cases hi : s.initialized_ = true
  · by_cases hc : s.configured_ = true
    · cases hcheck : checkProblem s with
      | some msg' =>
        rw [runIteration_of_checkProblem p s msg' hi hc hcheck] at h
        cases h
        exact Or.inr (Or.inl rfl)
      | none =>
        rw [runIteration_eq_passes p s hi hc hcheck] at h
        split at h
        next a s1 h1 =>
          split at h
          next a2 s2 h2 => cases h
          next msg2 s2 h2 =>
            cases h
            exact Or.inr (Or.inr (Or.inr ⟨s1, h1, h2⟩))
          next h2 => cases h
        next msg1 s1 h1 =>
          cases h
          exact Or.inr (Or.inr (Or.inl h1))
        next h1 => cases h
    · rw [runIteration_of_unconfigured p s hi (Bool.eq_false_iff.mpr hc)] at h
      cases h
      exact Or.inl rfl
  · rw [runIteration_of_uninitialized p s (Bool.eq_false_iff.mpr hi)] at h
    cases h
    exact Or.inl rfl

theorem runIteration_iteration (p : Passes F n m) (s : GNMSBase F n m)
    (hit : p.Preserves (fun t => t.iteration_)) :
    (∀ b s', runIteration p s = .ret b s' → b = true ∧ s'.iteration_ = s.iteration_ + 1) ∧
    (∀ msg s', runIteration p s = .raise msg s' → s'.iteration_ = s.iteration_) := by
  obtain ⟨c1, c2, b1, b2⟩ := hit
  constructor
  · intro b s' h
    obtain ⟨hb, s1, s2, h1, h2, rfl⟩ := runIteration_ret_inv p s b s' h
    refine ⟨hb, ?_⟩
    have e1 := c1 _ _ h1
    have e2 := b1 _ _ h2
    simp only at e1 e2 ⊢
    rw [e2, e1]
  · intro msg s' h
    rcases runIteration_raise_inv p s msg s' h with rfl | rfl | h1 | ⟨s1, h1, h2⟩
    · rfl
    · rfl
    · have e1 := c2 _ _ _ h1
      exact e1
    · have e1 := c1 _ _ h1
      have e2 := b2 _ _ _ h2
      simp only at e1 e2 ⊢
      rw [e2, e1]

theorem runIteration_max_iterations (p : Passes F n m) (s : GNMSBase F n m)
    (hmax : p.Preserves (fun t => t.settings_.max_iterations)) (b : Bool) (s' : GNMSBase F n m)
    (h : runIteration p s = .ret b s') :
    s'.settings_.max_iterations = s.settings_.max_iterations := by
  obtain ⟨c1, -, b1, -⟩ := hmax
  obtain ⟨-, s1, s2, h1, h2, rfl⟩ := runIteration_ret_inv p s b s' h
  have e1 := c1 _ _ h1
  have e2 := b1 _ _ h2
  simp only at e1 e2 ⊢
  rw [e2, e1]

theorem solveLoop_exit (p : Passes F n m) (fuel : Nat) (fb : Bool) (k : Nat)
    (s : GNMSBase F n m) (h : ¬ (fb = true ∧ k < s.settings_.max_iterations)) :
    solveLoop p fuel fb k s = some (.ret (fb, k) s) := by
  unfold solveLoop
  have hc : (fb && decide (k < s.settings_.max_iterations)) = false := by
    cases fb <;> simp_all
  simp [hc]

theorem solveLoop_zero (p : Passes F n m) (k : Nat) (s : GNMSBase F n m)
    (h : k < s.settings_.max_iterations) : solveLoop p 0 true k s = none := by
  unfold solveLoop
  simp [h]

theorem solveLoop_succ (p : Passes F n m) (fuel k : Nat) (s : GNMSBase F n m)
    (h : k < s.settings_.max_iterations) :
    solveLoop p (fuel + 1) true k s =
      match runIteration p s with
      | .ret fb s1 => solveLoop p fuel fb (k + 1) s1
      | .raise msg s1 => some (.raise msg s1)
      | .fault => some .fault := by
  rw [solveLoop]
  simp [h]

theorem solveLoop_iterationsFrom (p : Passes F n m) :
    ∀ (j fuel k : Nat) (s sj : GNMSBase F n m), iterationsFrom p j k s = some sj →
      solveLoop p (fuel + j) true k s = solveLoop p fuel true (k + j) sj := by
  intro j
  induction j with
  | zero =>
    intro fuel k s sj h
    simp only [iterationsFrom, Option.some.injEq] at h
    subst h
    rfl
  | succ j ih =>
    intro fuel k s sj h
    rw [iterationsFrom] at h
    split_ifs at h with hk
    split at h
    next s1 h1 =>
      have := ih fuel (k + 1) s1 sj h
      rw [show fuel + (j + 1) = (fuel + j) + 1 by omega, solveLoop_succ p _ k s hk, h1]
      simp only []
      rw [this, show k + 1 + j = k + (j + 1) by omega]
    next => cases h

theorem solveLoop_terminates (p : Passes F n m)
    (hit : p.Preserves (fun t => t.iteration_))
    (hmax : p.Preserves (fun t => t.settings_.max_iterations)) :
    ∀ (fuel k : Nat) (s : GNMSBase F n m), s.settings_.max_iterations - k ≤ fuel →
      ∃ o, solveLoop p fuel true k s = some o ∧
        ∀ fb k' s', o = .ret (fb, k') s' →
          fb = true ∧ (k ≤ s.settings_.max_iterations → k' = s.settings_.max_iterations) ∧
            s'.iteration_ + k = s.iteration_ + k' := by
  intro fuel
  induction fuel with
  | zero =>
    intro k s hf
    have hk : ¬ (true = true ∧ k < s.settings_.max_iterations) := by omega
    refine ⟨_, solveLoop_exit p 0 true k s hk, ?_⟩
    intro fb k' s' h
    cases h
    exact ⟨rfl, fun h' => by omega, rfl⟩
  | succ fuel ih =>
    intro k s hf
    by_cases hk : k < s.settings_.max_iterations
    · rw [solveLoop_succ p fuel k s hk]
      cases hrun : runIteration p s with
      | ret b s1 =>
        obtain ⟨hb, hit1⟩ := (runIteration_iteration p s hit).1 b s1 hrun
        have hm1 := runIteration_max_iterations p s hmax b s1 hrun
        subst hb
        obtain ⟨o, ho, hpost⟩ := ih (k + 1) s1 (by omega)
        refine ⟨o, ho, ?_⟩
        intro fb k' s' h
        obtain ⟨h1, h2, h3⟩ := hpost fb k' s' h
        refine ⟨h1, fun _ => ?_, ?_⟩
        · rw [← hm1]
          exact h2 (by omega)
        · omega
      | raise msg s1 =>
        refine ⟨_, rfl, ?_⟩
        intro fb k' s' h
        cases h
      | fault =>
        refine ⟨_, rfl, ?_⟩
        intro fb k' s' h
        cases h
    · have hk' : ¬ (true = true ∧ k < s.settings_.max_iterations) := fun h => hk h.2
      refine ⟨_, solveLoop_exit p _ true k s hk', ?_⟩
      intro fb k' s' h
      cases h
      exact ⟨rfl, fun h' => by omega, rfl⟩

theorem solve_of_loop_raise (p : Passes F n m) (fuel : Nat) (s s' : GNMSBase F n m)
    (msg : String) (h : solveLoop p fuel true 0 s = some (.raise msg s')) :
    solve p fuel s = some (.ret false s') := by
  unfold solve
  rw [h]

theorem solve_of_iteration_raise (p : Passes F n m) (fuel : Nat) (s : GNMSBase F n m)
    (j : Nat) (sj s' : GNMSBase F n m) (msg : String)
    (hj : iterationsFrom p j 0 s = some sj) (hmax : j < sj.settings_.max_iterations)
    (hfuel : j < fuel) (hrun : runIteration p sj = .raise msg s') :
    solve p fuel s = some (.ret false s') := by
  apply solve_of_loop_raise p fuel s s' msg
  obtain ⟨f, rfl⟩ : ∃ f, fuel = (f + 1) + j := ⟨fuel - j - 1, by omega⟩
  rw [solveLoop_iterationsFrom p j (f + 1) 0 s sj hj, Nat.zero_add,
    solveLoop_succ p f j sj hmax, hrun]

/-- C12: `solve` never ends with an exception. If the iteration number `j` of the loop
throws (the earlier ones having returned with the loop condition true), `solve` returns
`false`, with the solver as that iteration left it; in particular when the solver is not
initialized, not configured, or fails `checkProblem`. -/
theorem solve_never_raises (p : Passes F n m) (fuel : Nat) (s : GNMSBase F n m) :
    (∀ msg s', solve p fuel s ≠ some (.raise msg s')) ∧
    (∀ j sj msg s', iterationsFrom p j 0 s = some sj → j < sj.settings_.max_iterations →
      j < fuel → runIteration p sj = .raise msg s' → solve p fuel s = some (.ret false s')) ∧
    (0 < s.settings_.max_iterations → 0 < fuel →
      (s.initialized_ = false → solve p fuel s = some (.ret false s)) ∧
      (s.initialized_ = true → s.configured_ = false → solve p fuel s = some (.ret false s)) ∧
      (s.initialized_ = true → s.configured_ = true → (∃ msg, checkProblem s = some msg) →
        solve p fuel s = some (.ret false { s with smallestEigenvalueIteration_ := ⊤ }))) := by
  refine ⟨?_, ?_, ?_⟩
  · intro msg s' h
    unfold solve at h
    split at h <;> cases h
  · intro j sj msg s' hj hmax hfuel hrun
    exact solve_of_iteration_raise p fuel s j sj s' msg hj hmax hfuel hrun
  · intro hmax hfuel
    refine ⟨?_, ?_, ?_⟩
    · intro hi
      exact solve_of_iteration_raise p fuel s 0 s s _ rfl hmax hfuel
        (runIteration_of_uninitialized p s hi)
    · intro hi hc
      exact solve_of_iteration_raise p fuel s 0 s s _ rfl hmax hfuel
        (runIteration_of_unconfigured p s hi hc)
    · rintro hi hc ⟨msg, hcheck⟩
      exact solve_of_iteration_raise p fuel s 0 s _ msg rfl hmax hfuel
        (runIteration_of_checkProblem p s msg hi hc hcheck)

/-- C13: when the two passes leave the iteration counter and `max_iterations` alone, a
`runIteration` that returns returns `true` with the counter advanced by one, and one that
throws leaves the counter as it was. Then the loop of `solve`, followed for at least
`max_iterations` iterations, ends; and if no iteration threw (or faulted) it ends after
exactly `max_iterations` iterations, with `foundBetter` true and the counter advanced by
`max_iterations`. -/
theorem runIteration_counts (p : Passes F n m) (s : GNMSBase F n m) (fuel : Nat)
    (hit : p.Preserves (fun t => t.iteration_))
    (hmax : p.Preserves (fun t => t.settings_.max_iterations))
    (hfuel : s.settings_.max_iterations ≤ fuel) :
    (∀ b s', runIteration p s = .ret b s' → b = true ∧ s'.iteration_ = s.iteration_ + 1) ∧
    (∀ msg s', runIteration p s = .raise msg s' → s'.iteration_ = s.iteration_) ∧
    (∃ o, solveLoop p fuel true 0 s = some o ∧
      ∀ fb k s', o = .ret (fb, k) s' →
        fb = true ∧ k = s.settings_.max_iterations ∧
          s'.iteration_ = s.iteration_ + s.settings_.max_iterations) ∧
    (∃ r, solve p fuel s = some r) := by
  obtain ⟨o, ho, hpost⟩ := solveLoop_terminates p hit hmax fuel 0 s (by omega)
  refine ⟨(runIteration_iteration p s hit).1, (runIteration_iteration p s hit).2,
    ⟨o, ho, ?_⟩, ?_⟩
  · intro fb k s' h
    obtain ⟨h1, h2, h3⟩ := hpost fb k s' h
    have h2' := h2 (Nat.zero_le _)
    exact ⟨h1, h2', by omega⟩
  · unfold solve
    rw [ho]
    cases o with
    | ret a s1 => exact ⟨_, rfl⟩
    | raise msg s1 => exact ⟨_, rfl⟩
    | fault => exact ⟨_, rfl⟩

theorem idlePasses_preserves {α : Type} (n m : Nat) (f : GNMSBase ℚ n m → α) :
    (idlePasses n m).Preserves f := by
  refine ⟨?_, ?_, ?_, ?_⟩
  · intro t t' h
    cases h
    rfl
  · intro t msg t' h
    cases h
  · intro t t' h
    cases h
    rfl
  · intro t msg t' h
    cases h

theorem runIteration_counts_witness :
    (idlePasses 1 1).Preserves (fun t => t.iteration_) ∧
    (idlePasses 1 1).Preserves (fun t => t.settings_.max_iterations) ∧
    readySolver.settings_.max_iterations ≤ 1 ∧
    (∀ b s', runIteration (idlePasses 1 1) readySolver = .ret b s' →
      b = true ∧ s'.iteration_ = readySolver.iteration_ + 1) ∧
    (∀ msg s', runIteration (idlePasses 1 1) readySolver = .raise msg s' →
      s'.iteration_ = readySolver.iteration_) ∧
    (∃ o, solveLoop (idlePasses 1 1) 1 true 0 readySolver = some o ∧
      ∀ fb k s', o = .ret (fb, k) s' →
        fb = true ∧ k = readySolver.settings_.max_iterations ∧
          s'.iteration_ = readySolver.iteration_ + readySolver.settings_.max_iterations) ∧
    (∃ r, solve (idlePasses 1 1) 1 readySolver = some r) :=
  ⟨idlePasses_preserves 1 1 _, idlePasses_preserves 1 1 _, Nat.le_refl 1,
    runIteration_counts (idlePasses 1 1) readySolver 1 (idlePasses_preserves 1 1 _)
      (idlePasses_preserves 1 1 _) (Nat.le_refl 1)⟩

/-- On `readySolver` with idle passes the loop of `solve` runs its one iteration and ends
normally. -/
theorem solveLoop_readySolver_example :
    ∃ s', solveLoop (idlePasses 1 1) 1 true 0 readySolver = some (.ret (true, 1) s') ∧
      s'.iteration_ = 1 := by
  have hcheck : checkProblem readySolver = none :=
    checkProblem_of_sized readySolver Nat.one_pos (by simp [readySolver, fixedSolver, zeroSolver])
      (by simp [readySolver, fixedSolver, zeroSolver])
  have hrun : runIteration (idlePasses 1 1) readySolver = .ret true
      { ({ readySolver with smallestEigenvalueIteration_ := ⊤ } : GNMSBase ℚ 1 1) with
        iteration_ := readySolver.iteration_ + 1 } :=
    (runIteration_eq_passes (idlePasses 1 1) readySolver rfl rfl hcheck).trans rfl
  refine ⟨{ ({ readySolver with smallestEigenvalueIteration_ := ⊤ } : GNMSBase ℚ 1 1) with
        iteration_ := readySolver.iteration_ + 1 }, ?_, rfl⟩
  rw [solveLoop_succ (idlePasses 1 1) 0 0 readySolver Nat.one_pos, hrun]
  exact solveLoop_exit (idlePasses 1 1) 0 true 1 _ (fun h => absurd h.2 (lt_irrefl 1))


/-! ### Changes of the problem -/

/-- With a controller for each of the two threads, `changeNonlinearSystem` returns, every
thread has its system and its two plain integrators, and the solver is reset. -/
theorem changeNonlinearSystem_example :
    changeNonlinearSystem (fun _ : Unit => false) (sampleInstances ℚ 1 1)
        { fixedSolver with iteration_ := 3 } (some ()) =
      .ret ()
        ({ sampleInstances ℚ 1 1 with
            nonlinearSystemsInstances := [some ((), some ()), some ((), some ())]
            integratorsRK4_ := [some ((), some ()), some ((), some ())]
            integratorsEuler_ := [some ((), some ()), some ((), some ())]
            integratorsEulerSymplectic_ := [none, none]
            integratorsRkSymplectic_ := [none, none] },
          reset { fixedSolver with iteration_ := 3 }) ∧
      (reset ({ fixedSolver with iteration_ := 3 } : GNMSBase ℚ 1 1)).iteration_ = 0 := by
  refine ⟨?_, rfl⟩
  rfl

/-! ### The stage loop of the rollout -/

theorem rolloutLoop_succ [Zero F] [Add F] [Mul F] (isnan : F → Bool)
    (ints : Integrators F n m) (integrator : IntegratorType) (dt_sim : ℚ) (steps K : Nat)
    (L_ : List (Matrix (Fin m) (Fin n) F)) (u_ff_local : List (Fin m → F))
    (flag : Option (Nat → Bool)) (rem i : Nat) (x0 : Fin n → F) (b : RolloutBuffers F n m) :
    rolloutLoop isnan ints integrator dt_sim steps K L_ u_ff_local flag (rem + 1) i x0 b =
      if flagAt flag i = true then .ret false b
      else
        match u_ff_local[i]?, L_[i]? with
        | some uff, some Li =>
          match microSteps ints integrator dt_sim (ctrlAdd uff (gainTimes Li x0)) i steps steps
            0 x0 b.calls with
          | (none, log) =>
            .raise "invalid integration mode selected."
              { x_local := b.x_local, u_local := b.u_local ++ [ctrlAdd uff (gainTimes Li x0)],
                t_local := b.t_local, calls := log }
          | (some x1, log) =>
            match (b.x_local ++ [x1])[i]?,
              (b.u_local ++ [ctrlAdd uff (gainTimes Li x0)])[i]? with
            | some xi, some ui =>
              if anyNaN isnan xi = true then
                .ret false
                  { x_local := b.x_local ++ [x1],
                    u_local := b.u_local ++ [ctrlAdd uff (gainTimes Li x0)],
                    t_local := b.t_local ++ [((i + 1 : Nat) : ℚ) * dt_sim], calls := log }
              else if anyNaN isnan ui = true then
                .ret false
                  { x_local := b.x_local ++ [x1],
                    u_local := b.u_local ++ [ctrlAdd uff (gainTimes Li x0)],
                    t_local := b.t_local ++ [((i + 1 : Nat) : ℚ) * dt_sim], calls := log }
              else
                rolloutLoop isnan ints integrator dt_sim steps K L_ u_ff_local flag rem (i + 1) x1
                  { x_local := b.x_local ++ [x1],
                    u_local := b.u_local ++ [ctrlAdd uff (gainTimes Li x0)],
                    t_local := b.t_local ++ [((i + 1 : Nat) : ℚ) * dt_sim], calls := log }
            | _, _ => .fault
        | _, _ => .fault := by
  rfl

theorem rolloutLoop_induct [Zero F] [Add F] [Mul F] (isnan : F → Bool)
    (ints : Integrators F n m) (integrator : IntegratorType) (dt_sim : ℚ) (steps K : Nat)
    (L_ : List (Matrix (Fin m) (Fin n) F)) (u_ff_local : List (Fin m → F))
    (flag : Option (Nat → Bool))
    (P : Nat → (Fin n → F) → RolloutBuffers F n m → Prop)
    (Q : Outcome (RolloutBuffers F n m) Bool → Prop)
    (hfault : Q .fault)
    (hflag : ∀ i x0 b, i < K → P i x0 b → flagAt flag i = true → Q (.ret false b))
    (hthrow : ∀ i x0 b uff Li log, i < K → P i x0 b → flagAt flag i = false →
      u_ff_local[i]? = some uff → L_[i]? = some Li →
      microSteps ints integrator dt_sim (ctrlAdd uff (gainTimes Li x0)) i steps steps 0 x0
        b.calls = (none, log) →
      Q (.raise "invalid integration mode selected."
        { x_local := b.x_local, u_local := b.u_local ++ [ctrlAdd uff (gainTimes Li x0)],
          t_local := b.t_local, calls := log }))
    (hnan : ∀ i x0 b uff Li x1 log xi ui, i < K → P i x0 b → flagAt flag i = false →
      u_ff_local[i]? = some uff → L_[i]? = some Li →
      microSteps ints integrator dt_sim (ctrlAdd uff (gainTimes Li x0)) i steps steps 0 x0
        b.calls = (some x1, log) →
      (b.x_local ++ [x1])[i]? = some xi →
      (b.u_local ++ [ctrlAdd uff (gainTimes Li x0)])[i]? = some ui →
      (anyNaN isnan xi = true ∨ anyNaN isnan ui = true) →
      Q (.ret false
        { x_local := b.x_local ++ [x1], u_local := b.u_local ++ [ctrlAdd uff (gainTimes Li x0)],
          t_local := b.t_local ++ [((i + 1 : Nat) : ℚ) * dt_sim], calls := log }))
    (hnext : ∀ i x0 b uff Li x1 log xi ui, i < K → P i x0 b → flagAt flag i = false →
      u_ff_local[i]? = some uff → L_[i]? = some Li →
      microSteps ints integrator dt_sim (ctrlAdd uff (gainTimes Li x0)) i steps steps 0 x0
        b.calls = (some x1, log) →
      (b.x_local ++ [x1])[i]? = some xi →
      (b.u_local ++ [ctrlAdd uff (gainTimes Li x0)])[i]? = some ui →
      anyNaN isnan xi = false → anyNaN isnan ui = false →
      P (i + 1) x1
        { x_local := b.x_local ++ [x1], u_local := b.u_local ++ [ctrlAdd uff (gainTimes Li x0)],
          t_local := b.t_local ++ [((i + 1 : Nat) : ℚ) * dt_sim], calls := log })
    (hend : ∀ x0 b, P K x0 b → Q (rolloutEpilogue K b)) :
    ∀ rem i x0 b, i + rem = K → P i x0 b →
      Q (rolloutLoop isnan ints integrator dt_sim steps K L_ u_ff_local flag rem i x0 b) := by
  intro rem
  induction rem with
  | zero =>
    intro i x0 b hi hP
    have : i = K := by omega
    subst this
    exact hend x0 b hP
  | succ rem ih =>
    intro i x0 b hi hP
    have hiK : i < K := by omega
    rw [rolloutLoop_succ]
    split_ifs with hf
    · exact hflag i x0 b hiK hP hf
    · have hf' : flagAt flag i = false := Bool.eq_false_iff.mpr hf
      split
      next uff Li hu hL =>
        split
        next log hm => exact hthrow i x0 b uff Li log hiK hP hf' hu hL hm
        next x1 log hm =>
          split
          next xi ui hxi hui =>
            split_ifs with hx hy
            · exact hnan i x0 b uff Li x1 log xi ui hiK hP hf' hu hL hm hxi hui (Or.inl hx)
            · exact hnan i x0 b uff Li x1 log xi ui hiK hP hf' hu hL hm hxi hui (Or.inr hy)
            · exact ih (i + 1) x1 _ (by omega)
                (hnext i x0 b uff Li x1 log xi ui hiK hP hf' hu hL hm hxi hui
                  (Bool.eq_false_iff.mpr hx) (Bool.eq_false_iff.mpr hy))
          next => exact hfault
      next => exact hfault

theorem microSteps_log (ints : Integrators F n m) (integrator : IntegratorType) (dt_sim : ℚ)
    (u : Fin m → F) (i steps : Nat) :
    ∀ (rem j : Nat) (x : Fin n → F) (log : List (IntegratorCall F m)) (o : Option (Fin n → F))
      (log' : List (IntegratorCall F m)),
      microSteps ints integrator dt_sim u i steps rem j x log = (o, log') →
      ∃ new, log' = log ++ new ∧ ∀ c ∈ new, c.stage = i ∧ c.u = u := by
  intro rem
  induction rem with
  | zero =>
    intro j x log o log' h
    simp only [microSteps, Prod.mk.injEq] at h
    exact ⟨[], by rw [List.append_nil]; exact h.2.symm, fun c hc => by cases hc⟩
  | succ rem ih =>
    intro j x log o log' h
    rw [microSteps] at h
    split at h
    next hstep =>
      simp only [Prod.mk.injEq] at h
      exact ⟨[], by rw [List.append_nil]; exact h.2.symm, fun c hc => by cases hc⟩
    next x1 hstep =>
      obtain ⟨new, hnew, hall⟩ := ih _ _ _ _ _ h
      refine ⟨_ :: new, by rw [hnew, List.append_assoc]; rfl, ?_⟩
      intro c hc
      rcases List.mem_cons.mp hc with rfl | hc
      · exact ⟨rfl, rfl⟩
      · exact hall c hc

theorem controlLaw_push [Zero F] [Add F] [Mul F] (L_ : List (Matrix (Fin m) (Fin n) F))
    (u_ff_local : List (Fin m → F)) (b : RolloutBuffers F n m) (i : Nat) (x0 : Fin n → F)
    (uff : Fin m → F) (Li : Matrix (Fin m) (Fin n) F) (ext : List (Fin n → F))
    (ts : List ℚ) (log : List (IntegratorCall F m))
    (hlaw : ControlLaw L_ u_ff_local b) (hu_len : b.u_local.length = i)
    (hx0 : b.x_local[i]? = some x0) (hu : u_ff_local[i]? = some uff) (hL : L_[i]? = some Li) :
    ControlLaw L_ u_ff_local
      { x_local := b.x_local ++ ext, u_local := b.u_local ++ [ctrlAdd uff (gainTimes Li x0)],
        t_local := ts, calls := log } := by
  intro k hk
  simp only [List.length_append, List.length_singleton] at hk
  have hxi : i < b.x_local.length := by
    by_contra hcon
    rw [List.getElem?_eq_none (Nat.le_of_not_lt hcon)] at hx0
    cases hx0
  by_cases hki : k < i
  · obtain ⟨uff', Lk, xk, h1, h2, h3, h4⟩ := hlaw k (by omega)
    refine ⟨uff', Lk, xk, h1, h2, ?_, ?_⟩
    · show (b.x_local ++ ext)[k]? = some xk
      rw [List.getElem?_append_left (by omega)]
      exact h3
    · show (b.u_local ++ [ctrlAdd uff (gainTimes Li x0)])[k]? = _
      rw [List.getElem?_append_left (by omega)]
      exact h4
  · have hk' : k = i := by omega
    subst hk'
    refine ⟨uff, Li, x0, hu, hL, ?_, ?_⟩
    · show (b.x_local ++ ext)[k]? = some x0
      rw [List.getElem?_append_left hxi]
      exact hx0
    · show (b.u_local ++ [ctrlAdd uff (gainTimes Li x0)])[k]? = _
      rw [List.getElem?_append_right (by omega), hu_len, Nat.sub_self]
      rfl

theorem rolloutLoop_post [Zero F] [Add F] [Mul F] (isnan : F → Bool)
    (ints : Integrators F n m) (integrator : IntegratorType) (dt_sim : ℚ) (steps K : Nat)
    (L_ : List (Matrix (Fin m) (Fin n) F)) (u_ff_local : List (Fin m → F))
    (flag : Option (Nat → Bool)) (xinit : Fin n → F) (rem i : Nat) (x0 : Fin n → F)
    (b : RolloutBuffers F n m) (hi : i + rem = K)
    (hlen : b.x_local.length = i + 1 ∧ b.u_local.length = i ∧ b.t_local.length = i + 1)
    (hfirst : b.x_local[0]? = some xinit ∧ b.t_local[0]? = some 0)
    (hlast : b.x_local[i]? = some x0) (hlaw : ControlLaw L_ u_ff_local b) :
    (∀ r b', rolloutLoop isnan ints integrator dt_sim steps K L_ u_ff_local flag rem i x0 b =
        .ret r b' →
      ControlLaw L_ u_ff_local b' ∧ b'.x_local[0]? = some xinit ∧ b'.t_local[0]? = some 0 ∧
        (r = true → b'.x_local.length = K + 1 ∧ b'.u_local.length = K ∧
          b'.t_local.length = K + 1)) ∧
    (∀ msg b', rolloutLoop isnan ints integrator dt_sim steps K L_ u_ff_local flag rem i x0 b =
        .raise msg b' →
      msg = "invalid integration mode selected." ∧ ControlLaw L_ u_ff_local b') := by
  refine rolloutLoop_induct isnan ints integrator dt_sim steps K L_ u_ff_local flag
    (fun i x0 b => (b.x_local.length = i + 1 ∧ b.u_local.length = i ∧
        b.t_local.length = i + 1) ∧
      (b.x_local[0]? = some xinit ∧ b.t_local[0]? = some 0) ∧
      b.x_local[i]? = some x0 ∧ ControlLaw L_ u_ff_local b)
    (fun o => (∀ r b', o = .ret r b' →
        ControlLaw L_ u_ff_local b' ∧ b'.x_local[0]? = some xinit ∧ b'.t_local[0]? = some 0 ∧
          (r = true → b'.x_local.length = K + 1 ∧ b'.u_local.length = K ∧
            b'.t_local.length = K + 1)) ∧
      (∀ msg b', o = .raise msg b' →
        msg = "invalid integration mode selected." ∧ ControlLaw L_ u_ff_local b'))
    ?_ ?_ ?_ ?_ ?_ ?_ rem i x0 b hi ⟨hlen, hfirst, hlast, hlaw⟩
  · exact ⟨fun r b' h => (by cases h), fun msg b' h => by cases h⟩
  · intro i x0 b _ hP _
    obtain ⟨-, hfirst, -, hlaw⟩ := hP
    refine ⟨fun r b' h => ?_, fun msg b' h => by cases h⟩
    cases h
    exact ⟨hlaw, hfirst.1, hfirst.2, fun h => by cases h⟩
  · intro i x0 b uff Li log _ hP _ hu hL _
    obtain ⟨hlen, -, hlast, hlaw⟩ := hP
    refine ⟨fun r b' h => (by cases h), fun msg b' h => ?_⟩
    cases h
    have := controlLaw_push L_ u_ff_local b i x0 uff Li [] b.t_local log hlaw hlen.2.1 hlast hu hL
    rw [List.append_nil] at this
    exact ⟨rfl, this⟩
  · intro i x0 b uff Li x1 log xi ui _ hP _ hu hL _ _ _ _
    obtain ⟨hlen, hfirst, hlast, hlaw⟩ := hP
    refine ⟨fun r b' h => ?_, fun msg b' h => by cases h⟩
    cases h
    refine ⟨controlLaw_push L_ u_ff_local b i x0 uff Li [x1] _ log hlaw hlen.2.1 hlast hu hL,
      ?_, ?_, fun h => by cases h⟩
    · show (b.x_local ++ [x1])[0]? = some xinit
      rw [List.getElem?_append_left (by omega)]
      exact hfirst.1
    · show (b.t_local ++ [((i + 1 : Nat) : ℚ) * dt_sim])[0]? = some 0
      rw [List.getElem?_append_left (by omega)]
      exact hfirst.2
  · intro i x0 b uff Li x1 log xi ui _ hP _ hu hL _ _ _ _ _
    obtain ⟨hlen, hfirst, hlast, hlaw⟩ := hP
    refine ⟨⟨?_, ?_, ?_⟩, ⟨?_, ?_⟩, ?_,
      controlLaw_push L_ u_ff_local b i x0 uff Li [x1] _ log hlaw hlen.2.1 hlast hu hL⟩
    · show (b.x_local ++ [x1]).length = i + 1 + 1
      rw [List.length_append, hlen.1]
      rfl
    · show (b.u_local ++ [ctrlAdd uff (gainTimes Li x0)]).length = i + 1
      rw [List.length_append, hlen.2.1]
      rfl
    · show (b.t_local ++ [((i + 1 : Nat) : ℚ) * dt_sim]).length = i + 1 + 1
      rw [List.length_append, hlen.2.2]
      rfl
    · show (b.x_local ++ [x1])[0]? = some xinit
      rw [List.getElem?_append_left (by omega)]
      exact hfirst.1
    · show (b.t_local ++ [((i + 1 : Nat) : ℚ) * dt_sim])[0]? = some 0
      rw [List.getElem?_append_left (by omega)]
      exact hfirst.2
    · show (b.x_local ++ [x1])[i + 1]? = some x1
      rw [List.getElem?_append_right (by omega), hlen.1, Nat.sub_self]
      rfl
  · intro x0 b hP
    obtain ⟨hlen, hfirst, -, hlaw⟩ := hP
    have hep : rolloutEpilogue K b = .ret true b := by
      unfold rolloutEpilogue
      rw [if_neg (not_not.mpr hlen.1), if_neg (not_not.mpr hlen.2.1)]
    rw [hep]
    refine ⟨fun r b' h => ?_, fun msg b' h => by cases h⟩
    cases h
    exact ⟨hlaw, hfirst.1, hfirst.2, fun _ => hlen⟩

/-! ### Shape of a rollout, its control law and cancellation -/

theorem rolloutSystem_eq_loop [Zero F] [Add F] [Mul F] (isnan : F → Bool)
    (ints : Integrators F n m) (integrator : IntegratorType) (dt dt_sim : ℚ) (K_ : Nat)
    (L_ : List (Matrix (Fin m) (Fin n) F)) (u_ff_local : List (Fin m → F))
    (b : RolloutBuffers F n m) (flag : Option (Nat → Bool)) (x0 : Fin n → F)
    (h : b.x_local[0]? = some x0) :
    rolloutSystem isnan ints integrator dt dt_sim K_ L_ u_ff_local b flag =
      rolloutLoop isnan ints integrator dt_sim (substeps dt dt_sim) K_ L_ u_ff_local flag K_ 0 x0
        { x_local := [x0], u_local := [], t_local := [0], calls := b.calls } := by
  unfold rolloutSystem
  rw [h]

theorem rolloutSystem_eq_fault [Zero F] [Add F] [Mul F] (isnan : F → Bool)
    (ints : Integrators F n m) (integrator : IntegratorType) (dt dt_sim : ℚ) (K_ : Nat)
    (L_ : List (Matrix (Fin m) (Fin n) F)) (u_ff_local : List (Fin m → F))
    (b : RolloutBuffers F n m) (flag : Option (Nat → Bool)) (h : b.x_local[0]? = none) :
    rolloutSystem isnan ints integrator dt dt_sim K_ L_ u_ff_local b flag = .fault := by
  unfold rolloutSystem
  rw [h]

theorem rolloutSystem_post [Zero F] [Add F] [Mul F] (isnan : F → Bool)
    (ints : Integrators F n m) (integrator : IntegratorType) (dt dt_sim : ℚ) (K_ : Nat)
    (L_ : List (Matrix (Fin m) (Fin n) F)) (u_ff_local : List (Fin m → F))
    (b : RolloutBuffers F n m) (flag : Option (Nat → Bool)) :
    (∀ r b', rolloutSystem isnan ints integrator dt dt_sim K_ L_ u_ff_local b flag = .ret r b' →
      ControlLaw L_ u_ff_local b' ∧ b'.x_local[0]? = b.x_local[0]? ∧ b'.t_local[0]? = some 0 ∧
        (r = true → b'.x_local.length = K_ + 1 ∧ b'.u_local.length = K_ ∧
          b'.t_local.length = K_ + 1)) ∧
    (∀ msg b', rolloutSystem isnan ints integrator dt dt_sim K_ L_ u_ff_local b flag =
        .raise msg b' →
      msg = "invalid integration mode selected." ∧ ControlLaw L_ u_ff_local b') := by
  cases hx : b.x_local[0]? with
  | none =>
    rw [rolloutSystem_eq_fault isnan ints integrator dt dt_sim K_ L_ u_ff_local b flag hx]
    exact ⟨fun r b' h => (by cases h), fun msg b' h => by cases h⟩
  | some x0 =>
    rw [rolloutSystem_eq_loop isnan ints integrator dt dt_sim K_ L_ u_ff_local b flag x0 hx]
    exact rolloutLoop_post isnan ints integrator dt_sim (substeps dt dt_sim) K_ L_ u_ff_local flag
      x0 K_ 0 x0 { x_local := [x0], u_local := [], t_local := [0], calls := b.calls }
      (Nat.zero_add _) ⟨rfl, rfl, rfl⟩ ⟨rfl, rfl⟩ rfl (fun k hk => absurd hk (Nat.not_lt_zero k))

/-- C17: a `rolloutSystem` call that returns `true` leaves exactly `K_ + 1` states, `K_`
controls and `K_ + 1` time stamps, the first state being the initial state passed in as
`x_local[0]` and the first time stamp `0`; and for no input does the call end with either
of the two errors about the amount of states or controls. -/
theorem rolloutSystem_true_shape [Zero F] [Add F] [Mul F] (isnan : F → Bool)
    (ints : Integrators F n m) (integrator : IntegratorType) (dt dt_sim : ℚ) (K_ : Nat)
    (L_ : List (Matrix (Fin m) (Fin n) F)) (u_ff_local : List (Fin m → F))
    (b : RolloutBuffers F n m) (flag : Option (Nat → Bool)) :
    (∀ b', rolloutSystem isnan ints integrator dt dt_sim K_ L_ u_ff_local b flag = .ret true b' →
      b'.x_local.length = K_ + 1 ∧ b'.u_local.length = K_ ∧ b'.t_local.length = K_ + 1 ∧
        b'.x_local[0]? = b.x_local[0]? ∧ b'.t_local[0]? = some 0) ∧
    (∀ b', rolloutSystem isnan ints integrator dt dt_sim K_ L_ u_ff_local b flag ≠
      .raise "Error: Dynamics did not provide the correct amount of states." b') ∧
    (∀ b', rolloutSystem isnan ints integrator dt dt_sim K_ L_ u_ff_local b flag ≠
      .raise "Error: Dynamics did not provide the correct amount of controls." b') := by
  obtain ⟨hret, hraise⟩ :=
    rolloutSystem_post isnan ints integrator dt dt_sim K_ L_ u_ff_local b flag
  refine ⟨?_, ?_, ?_⟩
  · intro b' h
    obtain ⟨-, h0, ht, hlen⟩ := hret true b' h
    obtain ⟨h1, h2, h3⟩ := hlen rfl
    exact ⟨h1, h2, h3, h0, ht⟩
  · intro b' h
    have := (hraise _ b' h).1
    revert this
    decide
  · intro b' h
    have := (hraise _ b' h).1
    revert this
    decide

/-- C16 (amended): in `rolloutSystem` the control recorded and applied at every stage `k`
is `u_k = u_ff_k + L_k * x_k`, with `x_k` the rollout's state at the start of stage `k`; no
reference state is subtracted. This holds on the buffers of every call that returns or
throws. -/
theorem rolloutSystem_control_law [Zero F] [Add F] [Mul F] (isnan : F → Bool)
    (ints : Integrators F n m) (integrator : IntegratorType) (dt dt_sim : ℚ) (K_ : Nat)
    (L_ : List (Matrix (Fin m) (Fin n) F)) (u_ff_local : List (Fin m → F))
    (b : RolloutBuffers F n m) (flag : Option (Nat → Bool)) :
    (∀ r b', rolloutSystem isnan ints integrator dt dt_sim K_ L_ u_ff_local b flag = .ret r b' →
      ControlLaw L_ u_ff_local b') ∧
    (∀ msg b', rolloutSystem isnan ints integrator dt dt_sim K_ L_ u_ff_local b flag =
      .raise msg b' → ControlLaw L_ u_ff_local b') := by
  obtain ⟨hret, hraise⟩ :=
    rolloutSystem_post isnan ints integrator dt dt_sim K_ L_ u_ff_local b flag
  exact ⟨fun r b' h => (hret r b' h).1, fun msg b' h => (hraise msg b' h).2⟩

/-- C16 (counterexample): one stage of the scalar system with gain `L_0 = 1`, `u_ff_0 = 0`
and initial state `1`, which is also the reference state of stage 0. The rollout returns
`true` and applies the control `1 = u_ff_0 + L_0 * x_0`; the claimed law
`u_ff_0 + L_0 * (x_0 - x_ref_0)` would give `0`. -/
theorem rolloutSystem_control_ignores_reference :
    rolloutSystem (fun _ : ℚ => false) scalarIntegrators .EULER 1 1 1
        [(1 : Matrix (Fin 1) (Fin 1) ℚ)] [(0 : Fin 1 → ℚ)]
        { x_local := [fun _ => 1], u_local := [], t_local := [], calls := [] } none
      = .ret true
          { x_local := [fun _ => 1, fun _ => 2], u_local := [fun _ => 1],
            t_local := [0, 1], calls := [⟨0, 0, 1, fun _ => 1⟩] } ∧
    (fun _ => 1 : Fin 1 → ℚ) ≠
      ctrlAdd (0 : Fin 1 → ℚ)
        (gainTimes (1 : Matrix (Fin 1) (Fin 1) ℚ) ((fun _ => 1) - (fun _ => 1))) := by
  have hu : ctrlAdd (0 : Fin 1 → ℚ)
      (gainTimes (1 : Matrix (Fin 1) (Fin 1) ℚ) (fun _ => 1)) = fun _ => 1 := by
    funext i
    simp [ctrlAdd, gainTimes, ← Fin.sum_univ_def, Matrix.one_apply]
    exact Subsingleton.elim _ _
  constructor
  · simp [rolloutSystem, substeps, rolloutLoop, microSteps, integrateStep, scalarIntegrators,
      rolloutEpilogue, anyNaN, hu]
    funext i
    norm_num
  · intro h
    have := congrFun h 0
    simp [ctrlAdd, gainTimes, ← Fin.sum_univ_def] at this

theorem rolloutLoop_cancelled [Zero F] [Add F] [Mul F] (isnan : F → Bool)
    (ints : Integrators F n m) (integrator : IntegratorType) (dt_sim : ℚ) (steps K : Nat)
    (L_ : List (Matrix (Fin m) (Fin n) F)) (u_ff_local : List (Fin m → F))
    (flag : Option (Nat → Bool)) (i0 : Nat) (hi0 : i0 < K) (hf : flagAt flag i0 = true)
    (c0 : List (IntegratorCall F m)) (rem i : Nat) (x0 : Fin n → F)
    (b : RolloutBuffers F n m) (hi : i + rem = K) (hle : i ≤ i0)
    (hcalls : ∃ new, b.calls = c0 ++ new ∧ ∀ c ∈ new, c.stage < i0) :
    (∀ r b', rolloutLoop isnan ints integrator dt_sim steps K L_ u_ff_local flag rem i x0 b =
        .ret r b' →
      r = false ∧ ∃ new, b'.calls = c0 ++ new ∧ ∀ c ∈ new, c.stage < i0) ∧
    (∀ msg b', rolloutLoop isnan ints integrator dt_sim steps K L_ u_ff_local flag rem i x0 b =
        .raise msg b' →
      ∃ new, b'.calls = c0 ++ new ∧ ∀ c ∈ new, c.stage < i0) := by
  have hext : ∀ (i : Nat) (b : RolloutBuffers F n m) (u : Fin m → F) (x : Fin n → F)
      (o : Option (Fin n → F)) (log : List (IntegratorCall F m)), i < i0 →
      (∃ new, b.calls = c0 ++ new ∧ ∀ c ∈ new, c.stage < i0) →
      microSteps ints integrator dt_sim u i steps steps 0 x b.calls = (o, log) →
      ∃ new, log = c0 ++ new ∧ ∀ c ∈ new, c.stage < i0 := by
    intro i b u x o log hlt hb hm
    obtain ⟨new, hnew, hall⟩ := hb
    obtain ⟨new', hnew', hall'⟩ := microSteps_log ints integrator dt_sim u i steps steps 0 x
      b.calls o log hm
    refine ⟨new ++ new', by rw [hnew', hnew, List.append_assoc], ?_⟩
    intro c hc
    rcases List.mem_append.mp hc with h | h
    · exact hall c h
    · rw [(hall' c h).1]
      exact hlt
  have hlt_of : ∀ i, i ≤ i0 → flagAt flag i = false → i < i0 := by
    intro i hle hfi
    rcases Nat.lt_or_ge i i0 with h | h
    · exact h
    · have : i = i0 := Nat.le_antisymm hle h
      rw [this, hf] at hfi
      cases hfi
  refine rolloutLoop_induct isnan ints integrator dt_sim steps K L_ u_ff_local flag
    (fun i _ b => i ≤ i0 ∧ ∃ new, b.calls = c0 ++ new ∧ ∀ c ∈ new, c.stage < i0)
    (fun o => (∀ r b', o = .ret r b' →
        r = false ∧ ∃ new, b'.calls = c0 ++ new ∧ ∀ c ∈ new, c.stage < i0) ∧
      (∀ msg b', o = .raise msg b' → ∃ new, b'.calls = c0 ++ new ∧ ∀ c ∈ new, c.stage < i0))
    ?_ ?_ ?_ ?_ ?_ ?_ rem i x0 b hi ⟨hle, hcalls⟩
  · exact ⟨fun r b' h => (by cases h), fun msg b' h => by cases h⟩
  · intro i x0 b _ hP _
    refine ⟨fun r b' h => ?_, fun msg b' h => by cases h⟩
    cases h
    exact ⟨rfl, hP.2⟩
  · intro i x0 b uff Li log _ hP hfi _ _ hm
    refine ⟨fun r b' h => (by cases h), fun msg b' h => ?_⟩
    cases h
    exact hext i b _ x0 none log (hlt_of i hP.1 hfi) hP.2 hm
  · intro i x0 b uff Li x1 log xi ui _ hP hfi _ _ hm _ _ _
    refine ⟨fun r b' h => ?_, fun msg b' h => by cases h⟩
    cases h
    exact ⟨rfl, hext i b _ x0 (some x1) log (hlt_of i hP.1 hfi) hP.2 hm⟩
  · intro i x0 b uff Li x1 log xi ui _ hP hfi _ _ hm _ _ _ _
    exact ⟨hlt_of i hP.1 hfi, hext i b _ x0 (some x1) log (hlt_of i hP.1 hfi) hP.2 hm⟩
  · intro x0 b hP
    exact absurd hP.1 (Nat.not_le.mpr hi0)

/-- C15: let the termination flag be set when stage `i0 < K_` starts. Then `rolloutSystem`
never returns `true`; when it returns the value is `false`, and every integrator step it has
logged, also when it throws, belongs to a stage before `i0`. If the flag is set at the
start (`i0 = 0`) the call returns `false` with no integrator step at all. And the loop of
`rolloutSystem`, on reaching stage `i0`, returns `false` at once, leaving the buffers and
the call log as they are. -/
theorem rolloutSystem_cancelled [Zero F] [Add F] [Mul F] (isnan : F → Bool)
    (ints : Integrators F n m) (integrator : IntegratorType) (dt dt_sim : ℚ) (K_ : Nat)
    (L_ : List (Matrix (Fin m) (Fin n) F)) (u_ff_local : List (Fin m → F))
    (b : RolloutBuffers F n m) (f : Nat → Bool) (i0 : Nat) (hi0 : i0 < K_)
    (hf : f i0 = true) :
    (∀ r b', rolloutSystem isnan ints integrator dt dt_sim K_ L_ u_ff_local b (some f) =
        .ret r b' →
      r = false ∧ ∃ new, b'.calls = b.calls ++ new ∧ ∀ c ∈ new, c.stage < i0) ∧
    (∀ msg b', rolloutSystem isnan ints integrator dt dt_sim K_ L_ u_ff_local b (some f) =
        .raise msg b' →
      ∃ new, b'.calls = b.calls ++ new ∧ ∀ c ∈ new, c.stage < i0) ∧
    (i0 = 0 → ∀ x0, b.x_local[0]? = some x0 →
      rolloutSystem isnan ints integrator dt dt_sim K_ L_ u_ff_local b (some f) =
        .ret false { x_local := [x0], u_local := [], t_local := [0], calls := b.calls }) ∧
    (∀ (steps rem : Nat) (x : Fin n → F) (b1 : RolloutBuffers F n m),
      rolloutLoop isnan ints integrator dt_sim steps K_ L_ u_ff_local (some f) (rem + 1) i0 x b1 =
        .ret false b1) := by
  have hstop : ∀ (steps rem : Nat) (x : Fin n → F) (b1 : RolloutBuffers F n m),
      rolloutLoop isnan ints integrator dt_sim steps K_ L_ u_ff_local (some f) (rem + 1) i0 x b1 =
        .ret false b1 := by
    intro steps rem x b1
    rw [rolloutLoop_succ, if_pos (show flagAt (some f) i0 = true from hf)]
  refine ⟨?_, ?_, ?_, hstop⟩
  · intro r b' h
    cases hx : b.x_local[0]? with
    | none =>
      rw [rolloutSystem_eq_fault isnan ints integrator dt dt_sim K_ L_ u_ff_local b _ hx] at h
      cases h
    | some x0 =>
      rw [rolloutSystem_eq_loop isnan ints integrator dt dt_sim K_ L_ u_ff_local b _ x0 hx] at h
      exact (rolloutLoop_cancelled isnan ints integrator dt_sim (substeps dt dt_sim) K_ L_
        u_ff_local (some f) i0 hi0 hf b.calls K_ 0 x0
        { x_local := [x0], u_local := [], t_local := [0], calls := b.calls }
        (Nat.zero_add _) (Nat.zero_le _)
        ⟨[], (List.append_nil _).symm, fun c hc => by cases hc⟩).1 r b' h
  · intro msg b' h
    cases hx : b.x_local[0]? with
    | none =>
      rw [rolloutSystem_eq_fault isnan ints integrator dt dt_sim K_ L_ u_ff_local b _ hx] at h
      cases h
    | some x0 =>
      rw [rolloutSystem_eq_loop isnan ints integrator dt dt_sim K_ L_ u_ff_local b _ x0 hx] at h
      exact (rolloutLoop_cancelled isnan ints integrator dt_sim (substeps dt dt_sim) K_ L_
        u_ff_local (some f) i0 hi0 hf b.calls K_ 0 x0
        { x_local := [x0], u_local := [], t_local := [0], calls := b.calls }
        (Nat.zero_add _) (Nat.zero_le _)
        ⟨[], (List.append_nil _).symm, fun c hc => by cases hc⟩).2 msg b' h
  · intro h0 x0 hx
    subst h0
    rw [rolloutSystem_eq_loop isnan ints integrator dt dt_sim K_ L_ u_ff_local b _ x0 hx]
    obtain ⟨k, rfl⟩ : ∃ k, K_ = k + 1 := ⟨K_ - 1, by omega⟩
    exact hstop _ k x0 _

/-! ### Further concrete instances -/

theorem computeLinearizedDynamics_unknown_scheme_witness :
    unknownSchemeSolver.settings_.discretization = .unknown 7 ∧
    computeLinearizedDynamics (sampleEigenLib 1) (constantLinearSystem 1 1 0 1)
        unknownSchemeSolver 0 = .raise "Unknown discretization scheme" unknownSchemeSolver ∧
    (∀ t : GNMSBase ℚ 1 1, unknownSchemeSolver.settings_.parametersOk = true →
      unknownSchemeSolver.settings_.nThreads = t.settings_.nThreads →
      ∃ t', configure t unknownSchemeSolver.settings_ = .ret () t' ∧
        t'.settings_ = unknownSchemeSolver.settings_ ∧ t'.configured_ = true) ∧
    (∀ p : Passes ℚ 1 1,
      p.createLQProblem = (fun t => computeLinearizedDynamics (sampleEigenLib 1)
        (constantLinearSystem 1 1 0 1) t 0) →
      unknownSchemeSolver.initialized_ = true → unknownSchemeSolver.configured_ = true →
      checkProblem unknownSchemeSolver = none →
      runIteration p unknownSchemeSolver =
        .raise "Unknown discretization scheme"
          { unknownSchemeSolver with smallestEigenvalueIteration_ := ⊤ }) :=
  ⟨rfl, computeLinearizedDynamics_unknown_scheme (sampleEigenLib 1)
    (constantLinearSystem 1 1 0 1) unknownSchemeSolver 0 7 rfl⟩

theorem rolloutSystem_cancelled_witness :
    (0 : Nat) < 1 ∧ (fun _ : Nat => true) 0 = true ∧
    (∀ r b', rolloutSystem (fun _ : ℚ => false) scalarIntegrators .EULER 1 1 1
        [(1 : Matrix (Fin 1) (Fin 1) ℚ)] [(0 : Fin 1 → ℚ)] unitBuffers
        (some (fun _ => true)) = .ret r b' →
      r = false ∧ ∃ new, b'.calls = unitBuffers.calls ++ new ∧ ∀ c ∈ new, c.stage < 0) ∧
    (∀ msg b', rolloutSystem (fun _ : ℚ => false) scalarIntegrators .EULER 1 1 1
        [(1 : Matrix (Fin 1) (Fin 1) ℚ)] [(0 : Fin 1 → ℚ)] unitBuffers
        (some (fun _ => true)) = .raise msg b' →
      ∃ new, b'.calls = unitBuffers.calls ++ new ∧ ∀ c ∈ new, c.stage < 0) ∧
    ((0 : Nat) = 0 → ∀ x0, unitBuffers.x_local[0]? = some x0 →
      rolloutSystem (fun _ : ℚ => false) scalarIntegrators .EULER 1 1 1
        [(1 : Matrix (Fin 1) (Fin 1) ℚ)] [(0 : Fin 1 → ℚ)] unitBuffers
        (some (fun _ => true)) =
        .ret false { x_local := [x0], u_local := [], t_local := [0],
                     calls := unitBuffers.calls }) ∧
    (∀ (steps rem : Nat) (x : Fin 1 → ℚ) (b1 : RolloutBuffers ℚ 1 1),
      rolloutLoop (fun _ : ℚ => false) scalarIntegrators .EULER 1 steps 1
        [(1 : Matrix (Fin 1) (Fin 1) ℚ)] [(0 : Fin 1 → ℚ)] (some (fun _ => true))
        (rem + 1) 0 x b1 = .ret false b1) :=
  ⟨Nat.zero_lt_one, rfl,
    rolloutSystem_cancelled (fun _ : ℚ => false) scalarIntegrators .EULER 1 1 1
      [(1 : Matrix (Fin 1) (Fin 1) ℚ)] [(0 : Fin 1 → ℚ)] unitBuffers (fun _ => true) 0
      Nat.zero_lt_one rfl⟩

theorem trajectoryInvariant_maintained_witness :
    (zeroGuess 1 1 1).stateVectorArray.length < 2 ^ 64 ∧
    (zeroGuess 1 1 1).controlVectorArray.length < 2 ^ 64 - 1 ∧
    (∀ s', setInitialGuess fixedSolver (zeroGuess 1 1 1) = .ret () s' →
      TrajectoryInvariant s') ∧
    (∀ s', changeTimeHorizon fixedSolver 1 = .ret () s' →
      fixedSolver.settings_.computeK 1 ≠ fixedSolver.K_ → TrajectoryInvariant s') ∧
    (TrajectoryInvariant fixedSolver →
      (∀ msg s', setInitialGuess fixedSolver (zeroGuess 1 1 1) = .raise msg s' →
        TrajectoryInvariant s') ∧
      (∀ s', changeTimeHorizon fixedSolver 1 = .ret () s' → TrajectoryInvariant s') ∧
      (∀ msg s', changeTimeHorizon fixedSolver 1 = .raise msg s' → TrajectoryInvariant s') ∧
      (∃ s', changeInitialState fixedSolver 0 = .ret () s' ∧ TrajectoryInvariant s') ∧
      (getSolution fixedSolver).1.stateVectorArray.length =
        (getSolution fixedSolver).1.controlVectorArray.length + 1 ∧
      TrajectoryInvariant (getSolution fixedSolver).2) :=
  ⟨by simp [zeroGuess], by simp [zeroGuess],
    trajectoryInvariant_maintained fixedSolver (zeroGuess 1 1 1) 1 0 (by simp [zeroGuess])
      (by simp [zeroGuess])⟩

/-- The invariant holds on `fixedSolver`, and a guess of one control and two states is
accepted there. -/
theorem trajectoryInvariant_example :
    TrajectoryInvariant fixedSolver ∧
    ∃ s', setInitialGuess fixedSolver (zeroGuess 1 1 1) = .ret () s' := by
  refine ⟨by simp [TrajectoryInvariant, fixedSolver, zeroSolver], _,
    setInitialGuess_of_ok _ _ ?_ ?_⟩
  · simp [zeroGuess, sizeMinusOne]
  · simp [zeroGuess, fixedSolver, zeroSolver]

/-! ### Per-stage work units write their own index only -/

theorem writesOnlyIndex_set {α : Type} (k : Nat) (a : List α) (v : α) :
    WritesOnlyIndex k a (a.set k v) :=
  ⟨List.length_set _ _ _, fun _ hj => List.getElem?_set_ne (Ne.symm hj)⟩

theorem linearizedDynamicsStage_isSome [Field F] (E : EigenLib F n m)
    (lin : LinearSystem F n m) (st : GNMSSettings F) (x : Fin n → F) (u : Fin m → F) (k : Nat)
    (h : ∀ c, st.discretization ≠ .unknown c) :
    ∃ A B, linearizedDynamicsStage E lin st x u k = some (A, B) := by
  unfold linearizedDynamicsStage
  cases hd : st.discretization with
  | unknown c => exact absurd hd (h c)
  | FORWARD_EULER => exact ⟨_, _, rfl⟩
  | BACKWARD_EULER => exact ⟨_, _, rfl⟩
  | TUSTIN => exact ⟨_, _, rfl⟩

theorem computeQuadraticCosts_of_sized [Field F] (cost : CostFunction F n m)
    (s : GNMSBase F n m) (k : Nat) (hs : StageSized s s.K_) (hk : k < s.K_) :
    ∃ x u, s.x_[k]? = some x ∧ s.u_[k]? = some u ∧
      computeQuadraticCosts cost s k = .ret ()
        { s with
          q_ := s.q_.set k
            (cost.evaluateIntermediate x u (s.settings_.dt * (k : F)) * s.settings_.dt)
          qv_ := s.qv_.set k
            (s.settings_.dt • cost.stateDerivativeIntermediate x u (s.settings_.dt * (k : F)))
          Q_ := s.Q_.set k
            (s.settings_.dt •
              cost.stateSecondDerivativeIntermediate x u (s.settings_.dt * (k : F)))
          P_ := s.P_.set k
            (s.settings_.dt •
              cost.stateControlDerivativeIntermediate x u (s.settings_.dt * (k : F)))
          rv_ := s.rv_.set k
            (s.settings_.dt • cost.controlDerivativeIntermediate x u (s.settings_.dt * (k : F)))
          R_ := s.R_.set k
            (s.settings_.dt •
              cost.controlSecondDerivativeIntermediate x u (s.settings_.dt * (k : F))) } := by
  obtain ⟨⟨hA, hB, hu, huff, huffp, hd, hgv, hG⟩, ⟨hH, hHi, hHinv, hlv, hL, hP, hrv, hR⟩,
    ⟨hx, hxS, hlx, hq, hqv, hQ, hsv, hS⟩⟩ := hs
  have hk1 : k < s.K_ + 1 := Nat.lt_succ_of_lt hk
  obtain ⟨x, ex⟩ := exists_getElem?_of_length s.x_ hx hk1
  obtain ⟨u, eu⟩ := exists_getElem?_of_length s.u_ hu hk
  have h1 : k < s.q_.length := hq ▸ hk1
  have h2 : k < s.qv_.length := hqv ▸ hk1
  have h3 : k < s.Q_.length := hQ ▸ hk1
  have h4 : k < s.P_.length := hP ▸ hk
  have h5 : k < s.rv_.length := hrv ▸ hk
  have h6 : k < s.R_.length := hR ▸ hk
  refine ⟨x, u, ex, eu, ?_⟩
  unfold computeQuadraticCosts
  simp only [ex, eu, assign_of_lt _ h1, assign_of_lt _ h2, assign_of_lt _ h3,
    assign_of_lt _ h4, assign_of_lt _ h5, assign_of_lt _ h6, Option.bind_eq_bind,
    Option.some_bind, Option.pure_def, Outcome.ofOption]

theorem updateSingleShot_of_sized [Field F] (s : GNMSBase F n m) (k : Nat)
    (hs : StageSized s s.K_) (hk : k < s.K_) :
    ∃ xShot A lx B lv, s.xShot_[k]? = some xShot ∧ s.A_[k]? = some A ∧ s.lx_[k]? = some lx ∧
      s.B_[k]? = some B ∧ s.lv_[k]? = some lv ∧
      updateSingleShot s k = .ret ()
        { s with xShot_ := s.xShot_.set k (xShot + (A.mulVec lx + B.mulVec lv)) } := by
  obtain ⟨⟨hA, hB, hu, huff, huffp, hd, hgv, hG⟩, ⟨hH, hHi, hHinv, hlv, hL, hP, hrv, hR⟩,
    ⟨hx, hxS, hlx, hq, hqv, hQ, hsv, hS⟩⟩ := hs
  have hk1 : k < s.K_ + 1 := Nat.lt_succ_of_lt hk
  obtain ⟨xShot, e1⟩ := exists_getElem?_of_length s.xShot_ hxS hk1
  obtain ⟨A, e2⟩ := exists_getElem?_of_length s.A_ hA hk
  obtain ⟨lx, e3⟩ := exists_getElem?_of_length s.lx_ hlx hk1
  obtain ⟨B, e4⟩ := exists_getElem?_of_length s.B_ hB hk
  obtain ⟨lv, e5⟩ := exists_getElem?_of_length s.lv_ hlv hk
  have h1 : k < s.xShot_.length := hxS ▸ hk1
  refine ⟨xShot, A, lx, B, lv, e1, e2, e3, e4, e5, ?_⟩
  unfold updateSingleShot
  simp only [e1, e2, e3, e4, e5, assign_of_lt _ h1]

theorem computeSingleDefect_of_sized [LinearOrderedField F] (s : GNMSBase F n m) (k : Nat)
    (hs : StageSized s s.K_) (hk : k < s.K_) :
    ∃ xShot xNext, s.xShot_[k]? = some xShot ∧ s.x_[k + 1]? = some xNext ∧
      computeSingleDefect s k = .ret () { s with d_ := s.d_.set k (xShot - xNext) } := by
  obtain ⟨⟨hA, hB, hu, huff, huffp, hd, hgv, hG⟩, ⟨hH, hHi, hHinv, hlv, hL, hP, hrv, hR⟩,
    ⟨hx, hxS, hlx, hq, hqv, hQ, hsv, hS⟩⟩ := hs
  have hk1 : k < s.K_ + 1 := Nat.lt_succ_of_lt hk
  have hk2 : k + 1 < s.K_ + 1 := Nat.succ_lt_succ hk
  obtain ⟨xShot, e1⟩ := exists_getElem?_of_length s.xShot_ hxS hk1
  obtain ⟨xNext, e2⟩ := exists_getElem?_of_length s.x_ hx hk2
  have h1 : k < s.d_.length := hd ▸ hk
  refine ⟨xShot, xNext, e1, e2, ?_⟩
  unfold computeSingleDefect
  rw [if_pos hk]
  simp only [e1, e2, assign_of_lt _ h1, Option.bind_eq_bind, Option.some_bind,
    Option.pure_def, Outcome.ofOption]

theorem designStateUpdate_of_sized [Field F] (s : GNMSBase F n m) (k : Nat)
    (hs : StageSized s s.K_) (hk : k < s.K_) :
    ∃ A lx B lv d, s.A_[k]? = some A ∧ s.lx_[k]? = some lx ∧ s.B_[k]? = some B ∧
      s.lv_[k]? = some lv ∧ s.d_[k]? = some d ∧
      designStateUpdate s k = .ret ()
        { s with lx_ := s.lx_.set (k + 1) (A.mulVec lx + B.mulVec lv + d) } := by
  obtain ⟨⟨hA, hB, hu, huff, huffp, hd, hgv, hG⟩, ⟨hH, hHi, hHinv, hlv, hL, hP, hrv, hR⟩,
    ⟨hx, hxS, hlx, hq, hqv, hQ, hsv, hS⟩⟩ := hs
  have hk1 : k < s.K_ + 1 := Nat.lt_succ_of_lt hk
  have hk2 : k + 1 < s.K_ + 1 := Nat.succ_lt_succ hk
  obtain ⟨A, e1⟩ := exists_getElem?_of_length s.A_ hA hk
  obtain ⟨lx, e2⟩ := exists_getElem?_of_length s.lx_ hlx hk1
  obtain ⟨B, e3⟩ := exists_getElem?_of_length s.B_ hB hk
  obtain ⟨lv, e4⟩ := exists_getElem?_of_length s.lv_ hlv hk
  obtain ⟨d, e5⟩ := exists_getElem?_of_length s.d_ hd hk
  have h1 : k + 1 < s.lx_.length := hlx ▸ hk2
  refine ⟨A, lx, B, lv, d, e1, e2, e3, e4, e5, ?_⟩
  unfold designStateUpdate
  simp only [e1, e2, e3, e4, e5, assign_of_lt _ h1]

/-- C21: on a sized solver and for `k < K_`, each per-stage work unit returns a solver that
differs from the one it started on in the named containers only, and in those at most in
the entry of index `k`: `computeLinearizedDynamics` in `A_`, `B_` (with an unknown
discretization it throws and changes nothing), `computeQuadraticCosts` in `q_`, `qv_`,
`Q_`, `P_`, `rv_`, `R_`, `updateSingleShot` in `xShot_`, `computeSingleDefect` in `d_`. -/
theorem perStage_writes_only_index [LinearOrderedField F] (E : EigenLib F n m)
    (lin : LinearSystem F n m) (cost : CostFunction F n m) (s : GNMSBase F n m) (k : Nat)
    (hs : StageSized s s.K_) (hk : k < s.K_) :
    ((∃ c, s.settings_.discretization = .unknown c ∧
        computeLinearizedDynamics E lin s k = .raise "Unknown discretization scheme" s) ∨
      ((∀ c, s.settings_.discretization ≠ .unknown c) ∧
        ∃ A_ B_, computeLinearizedDynamics E lin s k = .ret () { s with A_ := A_, B_ := B_ } ∧
          WritesOnlyIndex k s.A_ A_ ∧ WritesOnlyIndex k s.B_ B_)) ∧
    (∃ q_ qv_ Q_ P_ rv_ R_, computeQuadraticCosts cost s k =
        .ret () { s with q_ := q_, qv_ := qv_, Q_ := Q_, P_ := P_, rv_ := rv_, R_ := R_ } ∧
      WritesOnlyIndex k s.q_ q_ ∧ WritesOnlyIndex k s.qv_ qv_ ∧ WritesOnlyIndex k s.Q_ Q_ ∧
      WritesOnlyIndex k s.P_ P_ ∧ WritesOnlyIndex k s.rv_ rv_ ∧ WritesOnlyIndex k s.R_ R_) ∧
    (∃ xShot_, updateSingleShot s k = .ret () { s with xShot_ := xShot_ } ∧
      WritesOnlyIndex k s.xShot_ xShot_) ∧
    (∃ d_, computeSingleDefect s k = .ret () { s with d_ := d_ } ∧
      WritesOnlyIndex k s.d_ d_) := by
  refine ⟨?_, ?_, ?_, ?_⟩
  · by_cases h : ∃ c, s.settings_.discretization = .unknown c
    · obtain ⟨c, hc⟩ := h
      exact Or.inl ⟨c, hc, computeLinearizedDynamics_of_unknown E lin s k c hc⟩
    · have h' : ∀ c, s.settings_.discretization ≠ .unknown c := fun c hc => h ⟨c, hc⟩
      obtain ⟨⟨hA, hB, hu, -⟩, -, ⟨hx, -⟩⟩ := hs
      obtain ⟨x, ex⟩ := exists_getElem?_of_length s.x_ hx (Nat.lt_succ_of_lt hk)
      obtain ⟨u, eu⟩ := exists_getElem?_of_length s.u_ hu hk
      obtain ⟨A, B, hst⟩ := linearizedDynamicsStage_isSome E lin s.settings_ x u k h'
      exact Or.inr ⟨h', _, _,
        computeLinearizedDynamics_of_stage E lin s k x u A B ex eu hst (hA ▸ hk) (hB ▸ hk),
        writesOnlyIndex_set _ _ _, writesOnlyIndex_set _ _ _⟩
  · obtain ⟨x, u, -, -, hrun⟩ := computeQuadraticCosts_of_sized cost s k hs hk
    exact ⟨_, _, _, _, _, _, hrun, writesOnlyIndex_set _ _ _, writesOnlyIndex_set _ _ _,
      writesOnlyIndex_set _ _ _, writesOnlyIndex_set _ _ _, writesOnlyIndex_set _ _ _,
      writesOnlyIndex_set _ _ _⟩
  · obtain ⟨xShot, A, lx, B, lv, -, -, -, -, -, hrun⟩ := updateSingleShot_of_sized s k hs hk
    exact ⟨_, hrun, writesOnlyIndex_set _ _ _⟩
  · obtain ⟨xShot, xNext, -, -, hrun⟩ := computeSingleDefect_of_sized s k hs hk
    exact ⟨_, hrun, writesOnlyIndex_set _ _ _⟩

theorem perStage_writes_only_index_witness :
    StageSized fixedSolver fixedSolver.K_ ∧ 0 < fixedSolver.K_ ∧
    ((∃ c, fixedSolver.settings_.discretization = .unknown c ∧
        computeLinearizedDynamics (sampleEigenLib 1) (constantLinearSystem 1 1 0 1)
          fixedSolver 0 = .raise "Unknown discretization scheme" fixedSolver) ∨
      ((∀ c, fixedSolver.settings_.discretization ≠ .unknown c) ∧
        ∃ A_ B_, computeLinearizedDynamics (sampleEigenLib 1) (constantLinearSystem 1 1 0 1)
            fixedSolver 0 = .ret () { fixedSolver with A_ := A_, B_ := B_ } ∧
          WritesOnlyIndex 0 fixedSolver.A_ A_ ∧ WritesOnlyIndex 0 fixedSolver.B_ B_)) ∧
    (∃ q_ qv_ Q_ P_ rv_ R_, computeQuadraticCosts (zeroCost ℚ 1 1) fixedSolver 0 =
        .ret () { fixedSolver with
          q_ := q_, qv_ := qv_, Q_ := Q_, P_ := P_, rv_ := rv_, R_ := R_ } ∧
      WritesOnlyIndex 0 fixedSolver.q_ q_ ∧ WritesOnlyIndex 0 fixedSolver.qv_ qv_ ∧
      WritesOnlyIndex 0 fixedSolver.Q_ Q_ ∧ WritesOnlyIndex 0 fixedSolver.P_ P_ ∧
      WritesOnlyIndex 0 fixedSolver.rv_ rv_ ∧ WritesOnlyIndex 0 fixedSolver.R_ R_) ∧
    (∃ xShot_, updateSingleShot fixedSolver 0 = .ret () { fixedSolver with xShot_ := xShot_ } ∧
      WritesOnlyIndex 0 fixedSolver.xShot_ xShot_) ∧
    (∃ d_, computeSingleDefect fixedSolver 0 = .ret () { fixedSolver with d_ := d_ } ∧
      WritesOnlyIndex 0 fixedSolver.d_ d_) :=
  ⟨stageSized_zeroSolver 1 1 _ 1, Nat.zero_lt_one,
    perStage_writes_only_index (sampleEigenLib 1) (constantLinearSystem 1 1 0 1)
      (zeroCost ℚ 1 1) fixedSolver 0 (stageSized_zeroSolver 1 1 _ 1) Nat.zero_lt_one⟩

/-! ### The backward recursion: explicit results -/

theorem computeCostToGo_eq [Field F] (s : GNMSBase F n m) (k : Nat)
    {Q A S1 : Matrix (Fin n) (Fin n) F} {L G : Matrix (Fin m) (Fin n) F}
    {Hi : Matrix (Fin m) (Fin m) F} {qv sv1 d : Fin n → F} {lv gv : Fin m → F}
    (eQ : s.Q_[k]? = some Q) (eA : s.A_[k]? = some A) (eS1 : s.S_[k + 1]? = some S1)
    (eL : s.L_[k]? = some L) (eHi : s.Hi_[k]? = some Hi) (eqv : s.qv_[k]? = some qv)
    (esv1 : s.sv_[k + 1]? = some sv1) (ed : s.d_[k]? = some d) (elv : s.lv_[k]? = some lv)
    (egv : s.gv_[k]? = some gv) (eG : s.G_[k]? = some G)
    (hSk : k < s.S_.length) (hsvk : k < s.sv_.length) :
    computeCostToGo s k = .ret ()
      { s with S_ := s.S_.set k (costToGoHessian Q A S1 L Hi),
               sv_ := s.sv_.set k (costToGoGradient qv sv1 d A S1 L G Hi lv gv) } := by
  have eS1' : (s.S_.set k (costToGoHessian Q A S1 L Hi))[k + 1]? = some S1 := by
    rw [List.getElem?_set_ne (Nat.ne_of_lt (Nat.lt_succ_self k))]
    exact eS1
  unfold computeCostToGo
  simp only [eQ, eA, eS1, eL, eHi, eqv, esv1, ed, elv, egv, eG, assign_of_lt _ hSk,
    assign_of_lt _ hsvk, eS1']

theorem computeCostToGo_eq_of_sized [Field F] (s : GNMSBase F n m) (k : Nat)
    (hs : StageSized s s.K_) (hk : k < s.K_) :
    ∃ Q A S1 L Hi qv sv1 d lv gv G,
      (s.Q_[k]? = some Q ∧ s.A_[k]? = some A ∧ s.S_[k + 1]? = some S1 ∧ s.L_[k]? = some L ∧
        s.Hi_[k]? = some Hi ∧ s.qv_[k]? = some qv ∧ s.sv_[k + 1]? = some sv1 ∧
        s.d_[k]? = some d ∧ s.lv_[k]? = some lv ∧ s.gv_[k]? = some gv ∧ s.G_[k]? = some G) ∧
      k < s.S_.length ∧ k < s.sv_.length ∧
      computeCostToGo s k = .ret ()
        { s with S_ := s.S_.set k (costToGoHessian Q A S1 L Hi),
                 sv_ := s.sv_.set k (costToGoGradient qv sv1 d A S1 L G Hi lv gv) } := by
  obtain ⟨⟨hA, hB, hu, huff, huffp, hd, hgv, hG⟩, ⟨hH, hHi, hHinv, hlv, hL, hP, hrv, hR⟩,
    ⟨hx, hxS, hlx, hq, hqv, hQ, hsv, hS⟩⟩ := hs
  have hk1 : k < s.K_ + 1 := Nat.lt_succ_of_lt hk
  have hk2 : k + 1 < s.K_ + 1 := Nat.succ_lt_succ hk
  obtain ⟨Q, eQ⟩ := exists_getElem?_of_length s.Q_ hQ hk1
  obtain ⟨A, eA⟩ := exists_getElem?_of_length s.A_ hA hk
  obtain ⟨S1, eS1⟩ := exists_getElem?_of_length s.S_ hS hk2
  obtain ⟨L, eL⟩ := exists_getElem?_of_length s.L_ hL hk
  obtain ⟨Hi, eHi⟩ := exists_getElem?_of_length s.Hi_ hHi hk
  obtain ⟨qv, eqv⟩ := exists_getElem?_of_length s.qv_ hqv hk1
  obtain ⟨sv1, esv1⟩ := exists_getElem?_of_length s.sv_ hsv hk2
  obtain ⟨d, ed⟩ := exists_getElem?_of_length s.d_ hd hk
  obtain ⟨lv, elv⟩ := exists_getElem?_of_length s.lv_ hlv hk
  obtain ⟨gv, egv⟩ := exists_getElem?_of_length s.gv_ hgv hk
  obtain ⟨G, eG⟩ := exists_getElem?_of_length s.G_ hG hk
  have hSk : k < s.S_.length := hS ▸ hk1
  have hsvk : k < s.sv_.length := hsv ▸ hk1
  exact ⟨Q, A, S1, L, Hi, qv, sv1, d, lv, gv, G,
    ⟨eQ, eA, eS1, eL, eHi, eqv, esv1, ed, elv, egv, eG⟩, hSk, hsvk,
    computeCostToGo_eq s k eQ eA eS1 eL eHi eqv esv1 ed elv egv eG hSk hsvk⟩

theorem initializeCostToGo_eq_of_sized [Field F] (cost : CostFunction F n m)
    (s : GNMSBase F n m) (hs : StageSized s s.K_) :
    ∃ x, s.x_[s.K_]? = some x ∧
      initializeCostToGo cost s = .ret ()
        { s with
          q_ := s.q_.set s.K_ (cost.evaluateTerminal x 0 (s.settings_.dt * (s.K_ : F)))
          qv_ := s.qv_.set s.K_ (cost.stateDerivativeTerminal x 0 (s.settings_.dt * (s.K_ : F)))
          Q_ := s.Q_.set s.K_
            (cost.stateSecondDerivativeTerminal x 0 (s.settings_.dt * (s.K_ : F)))
          S_ := s.S_.set s.K_
            (cost.stateSecondDerivativeTerminal x 0 (s.settings_.dt * (s.K_ : F)))
          sv_ := s.sv_.set s.K_
            (cost.stateDerivativeTerminal x 0 (s.settings_.dt * (s.K_ : F))) } := by
  obtain ⟨-, -, ⟨hx, hxS, hlx, hq, hqv, hQ, hsv, hS⟩⟩ := hs
  have hK : s.K_ < s.K_ + 1 := Nat.lt_succ_self _
  obtain ⟨x, ex⟩ := exists_getElem?_of_length s.x_ hx hK
  have hqK : s.K_ < s.q_.length := hq ▸ hK
  have hqvK : s.K_ < s.qv_.length := hqv ▸ hK
  have hQK : s.K_ < s.Q_.length := hQ ▸ hK
  have hSK : s.K_ < s.S_.length := hS ▸ hK
  have hsvK : s.K_ < s.sv_.length := hsv ▸ hK
  refine ⟨x, ex, ?_⟩
  unfold initializeCostToGo
  simp only [ex, assign_of_lt _ hqK, assign_of_lt _ hqvK, assign_of_lt _ hQK,
    assign_of_lt _ hSK, assign_of_lt _ hsvK, List.getElem?_set_eq_of_lt _ hQK,
    List.getElem?_set_eq_of_lt _ hqvK, Option.bind_eq_bind, Option.some_bind, Option.pure_def,
    Outcome.ofOption]

theorem designController_eq_of_sized [LinearOrderedField F] (E : EigenLib F n m)
    (s : GNMSBase F n m) (k : Nat) (hs : StageSized s s.K_) (hk : k < s.K_) :
    ∃ rv B sv1 P S1 A R,
      (s.rv_[k]? = some rv ∧ s.B_[k]? = some B ∧ s.sv_[k + 1]? = some sv1 ∧ s.P_[k]? = some P ∧
        s.S_[k + 1]? = some S1 ∧ s.A_[k]? = some A ∧ s.R_[k]? = some R) ∧
      designController E s k = .ret ()
        { s with
          gv_ := s.gv_.set k (designControllerStage E s.settings_ rv B sv1 P S1 A R s.du_norm_
            s.smallestEigenvalue_ s.smallestEigenvalueIteration_).gv
          G_ := s.G_.set k (designControllerStage E s.settings_ rv B sv1 P S1 A R s.du_norm_
            s.smallestEigenvalue_ s.smallestEigenvalueIteration_).G
          H_ := s.H_.set k (designControllerStage E s.settings_ rv B sv1 P S1 A R s.du_norm_
            s.smallestEigenvalue_ s.smallestEigenvalueIteration_).H
          Hi_ := s.Hi_.set k (designControllerStage E s.settings_ rv B sv1 P S1 A R s.du_norm_
            s.smallestEigenvalue_ s.smallestEigenvalueIteration_).Hi
          Hi_inverse_ := s.Hi_inverse_.set k (designControllerStage E s.settings_ rv B sv1 P S1
            A R s.du_norm_ s.smallestEigenvalue_ s.smallestEigenvalueIteration_).Hi_inverse
          L_ := s.L_.set k (designControllerStage E s.settings_ rv B sv1 P S1 A R s.du_norm_
            s.smallestEigenvalue_ s.smallestEigenvalueIteration_).L
          lv_ := s.lv_.set k (designControllerStage E s.settings_ rv B sv1 P S1 A R s.du_norm_
            s.smallestEigenvalue_ s.smallestEigenvalueIteration_).lv
          du_norm_ := (designControllerStage E s.settings_ rv B sv1 P S1 A R s.du_norm_
            s.smallestEigenvalue_ s.smallestEigenvalueIteration_).du_norm
          smallestEigenvalue_ := (designControllerStage E s.settings_ rv B sv1 P S1 A R
            s.du_norm_ s.smallestEigenvalue_ s.smallestEigenvalueIteration_).smallestEigenvalue
          smallestEigenvalueIteration_ := (designControllerStage E s.settings_ rv B sv1 P S1 A R
            s.du_norm_ s.smallestEigenvalue_
            s.smallestEigenvalueIteration_).smallestEigenvalueIteration } := by
  obtain ⟨⟨hA, hB, hu, huff, huffp, hd, hgv, hG⟩, ⟨hH, hHi, hHinv, hlv, hL, hP, hrv, hR⟩,
    ⟨hx, hxS, hlx, hq, hqv, hQ, hsv, hS⟩⟩ := hs
  have hk2 : k + 1 < s.K_ + 1 := Nat.succ_lt_succ hk
  obtain ⟨rv, erv⟩ := exists_getElem?_of_length s.rv_ hrv hk
  obtain ⟨B, eB⟩ := exists_getElem?_of_length s.B_ hB hk
  obtain ⟨sv1, esv1⟩ := exists_getElem?_of_length s.sv_ hsv hk2
  obtain ⟨P, eP⟩ := exists_getElem?_of_length s.P_ hP hk
  obtain ⟨S1, eS1⟩ := exists_getElem?_of_length s.S_ hS hk2
  obtain ⟨A, eA⟩ := exists_getElem?_of_length s.A_ hA hk
  obtain ⟨R, eR⟩ := exists_getElem?_of_length s.R_ hR hk
  have h1 : k < s.gv_.length := hgv ▸ hk
  have h2 : k < s.G_.length := hG ▸ hk
  have h3 : k < s.H_.length := hH ▸ hk
  have h4 : k < s.Hi_.length := hHi ▸ hk
  have h5 : k < s.Hi_inverse_.length := hHinv ▸ hk
  have h6 : k < s.L_.length := hL ▸ hk
  have h7 : k < s.lv_.length := hlv ▸ hk
  refine ⟨rv, B, sv1, P, S1, A, R, ⟨erv, eB, esv1, eP, eS1, eA, eR⟩, ?_⟩
  unfold designController
  simp only [erv, eB, esv1, eP, eS1, eA, eR, assign_of_lt _ h1, assign_of_lt _ h2,
    assign_of_lt _ h3, assign_of_lt _ h4, assign_of_lt _ h5, assign_of_lt _ h6,
    assign_of_lt _ h7]

/-! ### The unregularized terms of the controller design -/

/-- C23 (amended): on a sized solver and for `k < K_`, `designController` returns and
stores `gv_[k] = rv_[k] + B_[k]^T sv_[k+1]`, and `G_[k]`, `H_[k]` computed with the
symmetric matrix made of the lower triangle of `S_[k+1]` in the place of `S_[k+1]`:
`G_[k] = P_[k] + B_[k]^T low(S_[k+1]) A_[k]`, `H_[k] = R_[k] + B_[k]^T low(S_[k+1]) B_[k]`.
When `S_[k+1]` is symmetric these are `P_[k] + B_[k]^T S_[k+1] A_[k]` and
`R_[k] + B_[k]^T S_[k+1] B_[k]`. -/
theorem designController_unregularized_terms [LinearOrderedField F] (E : EigenLib F n m)
    (s : GNMSBase F n m) (k : Nat) (hs : StageSized s s.K_) (hk : k < s.K_) :
    ∃ rv B sv1 P S1 A R s',
      (s.rv_[k]? = some rv ∧ s.B_[k]? = some B ∧ s.sv_[k + 1]? = some sv1 ∧ s.P_[k]? = some P ∧
        s.S_[k + 1]? = some S1 ∧ s.A_[k]? = some A ∧ s.R_[k]? = some R) ∧
      designController E s k = .ret () s' ∧
      s'.gv_[k]? = some (rv + B.transpose.mulVec sv1) ∧
      s'.G_[k]? = some (P + B.transpose * selfadjointLower S1 * A) ∧
      s'.H_[k]? = some (R + B.transpose * selfadjointLower S1 * B) ∧
      (S1.IsSymm →
        s'.G_[k]? = some (P + B.transpose * S1 * A) ∧
        s'.H_[k]? = some (R + B.transpose * S1 * B)) := by
  obtain ⟨rv, B, sv1, P, S1, A, R, hreads, s', hrun, hgv, hG, hH, -⟩ :=
    designController_of_sized E s k hs hk
  obtain ⟨e1, e2, e3⟩ := designControllerStage_unregularized E s.settings_ rv B sv1 P S1 A R
    s.du_norm_ s.smallestEigenvalue_ s.smallestEigenvalueIteration_
  rw [e1] at hgv
  rw [e2] at hG
  rw [e3] at hH
  refine ⟨rv, B, sv1, P, S1, A, R, s', hreads, hrun, hgv, hG, hH, ?_⟩
  intro hsymm
  rw [selfadjointLower_of_isSymm hsymm] at hG hH
  exact ⟨hG, hH⟩

theorem designController_unregularized_terms_witness :
    StageSized fixedSolver fixedSolver.K_ ∧ 0 < fixedSolver.K_ ∧
    ∃ rv B sv1 P S1 A R s',
      (fixedSolver.rv_[0]? = some rv ∧ fixedSolver.B_[0]? = some B ∧
        fixedSolver.sv_[0 + 1]? = some sv1 ∧ fixedSolver.P_[0]? = some P ∧
        fixedSolver.S_[0 + 1]? = some S1 ∧ fixedSolver.A_[0]? = some A ∧
        fixedSolver.R_[0]? = some R) ∧
      designController (sampleEigenLib 1) fixedSolver 0 = .ret () s' ∧
      s'.gv_[0]? = some (rv + B.transpose.mulVec sv1) ∧
      s'.G_[0]? = some (P + B.transpose * selfadjointLower S1 * A) ∧
      s'.H_[0]? = some (R + B.transpose * selfadjointLower S1 * B) ∧
      (S1.IsSymm →
        s'.G_[0]? = some (P + B.transpose * S1 * A) ∧
        s'.H_[0]? = some (R + B.transpose * S1 * B)) :=
  ⟨stageSized_zeroSolver 1 1 _ 1, Nat.zero_lt_one,
    designController_unregularized_terms (sampleEigenLib 1) fixedSolver 0
      (stageSized_zeroSolver 1 1 _ 1) Nat.zero_lt_one⟩

theorem stageSized_shearSolver : StageSized shearSolver shearSolver.K_ := by
  simp [StageSized, shearSolver, planarSolver, zeroSolver]

/-- C23 (counterexample): with the terminal Hessian `[[0, 1], [0, 0]]` of the cost module
stored unmodified in `S_[1]` by `initializeCostToGo`, and `B_[0] = (1, 1)^T`, `R_[0] = 0`,
`designController` stores `H_[0] = 0`, while `R_[0] + B_[0]^T S_[1] B_[0] = 1`. -/
theorem designController_reads_lower_triangle :
    ∃ s1 s2 B S1 R H, initializeCostToGo skewTerminalCost shearSolver = .ret () s1 ∧
      s1.B_[0]? = some B ∧ s1.S_[1]? = some S1 ∧ s1.R_[0]? = some R ∧
      designController (sampleEigenLib 2) s1 0 = .ret () s2 ∧ s2.H_[0]? = some H ∧
      H = 0 ∧ R + B.transpose * S1 * B = 1 ∧ H ≠ R + B.transpose * S1 * B := by
  obtain ⟨x, -, hinit⟩ := initializeCostToGo_eq_of_sized skewTerminalCost shearSolver
    stageSized_shearSolver
  have hs1 : StageSized
      { shearSolver with
        q_ := shearSolver.q_.set shearSolver.K_ (skewTerminalCost.evaluateTerminal x 0
          (shearSolver.settings_.dt * (shearSolver.K_ : ℚ)))
        qv_ := shearSolver.qv_.set shearSolver.K_ (skewTerminalCost.stateDerivativeTerminal x 0
          (shearSolver.settings_.dt * (shearSolver.K_ : ℚ)))
        Q_ := shearSolver.Q_.set shearSolver.K_
          (skewTerminalCost.stateSecondDerivativeTerminal x 0
            (shearSolver.settings_.dt * (shearSolver.K_ : ℚ)))
        S_ := shearSolver.S_.set shearSolver.K_
          (skewTerminalCost.stateSecondDerivativeTerminal x 0
            (shearSolver.settings_.dt * (shearSolver.K_ : ℚ)))
        sv_ := shearSolver.sv_.set shearSolver.K_
          (skewTerminalCost.stateDerivativeTerminal x 0
            (shearSolver.settings_.dt * (shearSolver.K_ : ℚ))) }
      shearSolver.K_ := by
    simp [StageSized, shearSolver, planarSolver, zeroSolver]
  obtain ⟨rv, B, sv1, P, S1, A, R, ⟨-, eB, -, -, eS1, -, eR⟩, s2, hrun, -, -, hH, -⟩ :=
    designController_of_sized (sampleEigenLib 2) _ 0 hs1 Nat.zero_lt_one
  obtain ⟨-, -, e3⟩ := designControllerStage_unregularized (sampleEigenLib 2)
    shearSolver.settings_ rv B sv1 P S1 A R shearSolver.du_norm_
    shearSolver.smallestEigenvalue_ shearSolver.smallestEigenvalueIteration_
  have hB : B = fun _ _ => 1 := by simpa [shearSolver, planarSolver, zeroSolver] using eB.symm
  have hR : R = 0 := by simpa [shearSolver, planarSolver, zeroSolver] using eR.symm
  have hS1 : S1 = !![0, 1; 0, 0] := by
    simpa [shearSolver, planarSolver, zeroSolver, skewTerminalCost] using eS1.symm
  have hcode : R + B.transpose * selfadjointLower S1 * B = 0 := by
    ext i j
    simp [hB, hR, hS1, Matrix.mul_apply, selfadjointLower, Fin.sum_univ_two]
  have hspec : R + B.transpose * S1 * B = 1 := by
    ext i j
    have hij : i = j := Subsingleton.elim _ _
    subst hij
    simp [hB, hR, hS1, Matrix.mul_apply, Fin.sum_univ_two]
  refine ⟨_, s2, B, S1, R, _, hinit, eB, eS1, eR, hrun, hH, ?_, hspec, ?_⟩
  · exact e3.trans hcode
  · rw [hspec, e3.trans hcode]
    intro h
    have h00 := congrFun (congrFun h 0) 0
    simp at h00

/-! ### The values of the cost-to-go update -/

/-- C24: on a sized solver and for `k < K_`, `computeCostToGo` returns and stores
`S_[k] = (M + M^T) / 2` with `M = Q_[k] + A_[k]^T S_[k+1] A_[k] - L_[k]^T Hi_[k] L_[k]`, and
`sv_[k] = qv_[k] + A_[k]^T sv_[k+1] + A_[k]^T S_[k+1] d_[k] + L_[k]^T Hi_[k] lv_[k] +
L_[k]^T gv_[k] + G_[k]^T lv_[k]`. With `d_[k] = 0` the term in `d_[k]` is absent, and
whatever the shots `xShot_` are, the stored `S_[k]` and `sv_[k]` are the same. -/
theorem computeCostToGo_values [Field F] (s : GNMSBase F n m) (k : Nat)
    (hs : StageSized s s.K_) (hk : k < s.K_) :
    ∃ Q A S1 L Hi qv sv1 d lv gv G s',
      (s.Q_[k]? = some Q ∧ s.A_[k]? = some A ∧ s.S_[k + 1]? = some S1 ∧ s.L_[k]? = some L ∧
        s.Hi_[k]? = some Hi ∧ s.qv_[k]? = some qv ∧ s.sv_[k + 1]? = some sv1 ∧
        s.d_[k]? = some d ∧ s.lv_[k]? = some lv ∧ s.gv_[k]? = some gv ∧ s.G_[k]? = some G) ∧
      computeCostToGo s k = .ret () s' ∧
      s'.S_[k]? = some ((1 / 2 : F) •
        ((Q + A.transpose * S1 * A - L.transpose * Hi * L) +
          (Q + A.transpose * S1 * A - L.transpose * Hi * L).transpose)) ∧
      s'.sv_[k]? = some (qv + A.transpose.mulVec sv1 + (A.transpose * S1).mulVec d +
        (L.transpose * Hi).mulVec lv + L.transpose.mulVec gv + G.transpose.mulVec lv) ∧
      (d = 0 → s'.sv_[k]? = some (qv + A.transpose.mulVec sv1 +
        (L.transpose * Hi).mulVec lv + L.transpose.mulVec gv + G.transpose.mulVec lv)) ∧
      (∀ xShot_, ∃ s'', computeCostToGo { s with xShot_ := xShot_ } k = .ret () s'' ∧
        s''.S_[k]? = s'.S_[k]? ∧ s''.sv_[k]? = s'.sv_[k]?) := by
  obtain ⟨Q, A, S1, L, Hi, qv, sv1, d, lv, gv, G,
    ⟨eQ, eA, eS1, eL, eHi, eqv, esv1, ed, elv, egv, eG⟩, hSk, hsvk, hrun⟩ :=
    computeCostToGo_eq_of_sized s k hs hk
  have hS : (s.S_.set k (costToGoHessian Q A S1 L Hi))[k]? =
      some (costToGoHessian Q A S1 L Hi) := List.getElem?_set_eq_of_lt _ hSk
  have hsv : (s.sv_.set k (costToGoGradient qv sv1 d A S1 L G Hi lv gv))[k]? =
      some (costToGoGradient qv sv1 d A S1 L G Hi lv gv) := List.getElem?_set_eq_of_lt _ hsvk
  refine ⟨Q, A, S1, L, Hi, qv, sv1, d, lv, gv, G, _,
    ⟨eQ, eA, eS1, eL, eHi, eqv, esv1, ed, elv, egv, eG⟩, hrun, hS, hsv, ?_, ?_⟩
  · intro hd
    rw [hsv, hd]
    simp [costToGoGradient]
  · intro xShot_
    exact ⟨_, computeCostToGo_eq { s with xShot_ := xShot_ } k eQ eA eS1 eL eHi eqv esv1 ed elv
      egv eG hSk hsvk, rfl, rfl⟩

theorem computeCostToGo_values_witness :
    StageSized fixedSolver fixedSolver.K_ ∧ 0 < fixedSolver.K_ ∧
    ∃ Q A S1 L Hi qv sv1 d lv gv G s',
      (fixedSolver.Q_[0]? = some Q ∧ fixedSolver.A_[0]? = some A ∧
        fixedSolver.S_[0 + 1]? = some S1 ∧ fixedSolver.L_[0]? = some L ∧
        fixedSolver.Hi_[0]? = some Hi ∧ fixedSolver.qv_[0]? = some qv ∧
        fixedSolver.sv_[0 + 1]? = some sv1 ∧ fixedSolver.d_[0]? = some d ∧
        fixedSolver.lv_[0]? = some lv ∧ fixedSolver.gv_[0]? = some gv ∧
        fixedSolver.G_[0]? = some G) ∧
      computeCostToGo fixedSolver 0 = .ret () s' ∧
      s'.S_[0]? = some ((1 / 2 : ℚ) •
        ((Q + A.transpose * S1 * A - L.transpose * Hi * L) +
          (Q + A.transpose * S1 * A - L.transpose * Hi * L).transpose)) ∧
      s'.sv_[0]? = some (qv + A.transpose.mulVec sv1 + (A.transpose * S1).mulVec d +
        (L.transpose * Hi).mulVec lv + L.transpose.mulVec gv + G.transpose.mulVec lv) ∧
      (d = 0 → s'.sv_[0]? = some (qv + A.transpose.mulVec sv1 +
        (L.transpose * Hi).mulVec lv + L.transpose.mulVec gv + G.transpose.mulVec lv)) ∧
      (∀ xShot_, ∃ s'', computeCostToGo { fixedSolver with xShot_ := xShot_ } 0 = .ret () s'' ∧
        s''.S_[0]? = s'.S_[0]? ∧ s''.sv_[0]? = s'.sv_[0]?) :=
  ⟨stageSized_zeroSolver 1 1 _ 1, Nat.zero_lt_one,
    computeCostToGo_values fixedSolver 0 (stageSized_zeroSolver 1 1 _ 1) Nat.zero_lt_one⟩

/-! ### The cost-to-go update in Riccati form -/

theorem costToGoHessian_riccati [Field F] (Q A S1 : Matrix (Fin n) (Fin n) F)
    (G : Matrix (Fin m) (Fin n) F) (Hi : Matrix (Fin m) (Fin m) F)
    (hsymm : Hi.IsSymm) (hunit : IsUnit Hi.det) :
    costToGoHessian Q A S1 (-(Hi⁻¹ * G)) Hi =
      (1 / 2 : F) • ((Q + A.transpose * S1 * A - G.transpose * Hi⁻¹ * G) +
        (Q + A.transpose * S1 * A - G.transpose * Hi⁻¹ * G).transpose) := by
  have hT : (Hi⁻¹).transpose = Hi⁻¹ := by rw [Matrix.transpose_nonsing_inv, hsymm.eq]
  have h1 : Hi * Hi⁻¹ = 1 := Matrix.mul_nonsing_inv Hi hunit
  have hL : (-(Hi⁻¹ * G)).transpose * Hi * (-(Hi⁻¹ * G)) = G.transpose * Hi⁻¹ * G := by
    rw [Matrix.transpose_neg, Matrix.transpose_mul, hT, Matrix.neg_mul, Matrix.neg_mul,
      Matrix.mul_neg, neg_neg, Matrix.mul_assoc G.transpose Hi⁻¹ Hi,
      Matrix.mul_assoc G.transpose (Hi⁻¹ * Hi), Matrix.mul_assoc Hi⁻¹ Hi, ← Matrix.mul_assoc Hi,
      h1, Matrix.one_mul, Matrix.mul_assoc]
  unfold costToGoHessian
  simp only [hL]

theorem costToGoGradient_riccati [Field F] (qv sv1 d : Fin n → F)
    (A S1 : Matrix (Fin n) (Fin n) F) (G : Matrix (Fin m) (Fin n) F)
    (Hi : Matrix (Fin m) (Fin m) F) (gv : Fin m → F)
    (hsymm : Hi.IsSymm) (hunit : IsUnit Hi.det) :
    costToGoGradient qv sv1 d A S1 (-(Hi⁻¹ * G)) G Hi (-(Hi⁻¹.mulVec gv)) gv =
      qv + A.transpose.mulVec (sv1 + S1.mulVec d) -
        G.transpose.mulVec (Hi⁻¹.mulVec gv) := by
  have hT : (Hi⁻¹).transpose = Hi⁻¹ := by rw [Matrix.transpose_nonsing_inv, hsymm.eq]
  have h2 : Hi⁻¹ * Hi = 1 := Matrix.nonsing_inv_mul Hi hunit
  have hLT : (-(Hi⁻¹ * G)).transpose = -(G.transpose * Hi⁻¹) := by
    rw [Matrix.transpose_neg, Matrix.transpose_mul, hT]
  have hLH : (-(Hi⁻¹ * G)).transpose * Hi = -G.transpose := by
    rw [hLT, Matrix.neg_mul, Matrix.mul_assoc, h2, Matrix.mul_one]
  have e1 : ((-(Hi⁻¹ * G)).transpose * Hi).mulVec (-(Hi⁻¹.mulVec gv)) =
      G.transpose.mulVec (Hi⁻¹.mulVec gv) := by
    rw [hLH, Matrix.neg_mulVec, Matrix.mulVec_neg, neg_neg]
  have e2 : (-(Hi⁻¹ * G)).transpose.mulVec gv = -(G.transpose.mulVec (Hi⁻¹.mulVec gv)) := by
    rw [hLT, Matrix.neg_mulVec, Matrix.mulVec_mulVec]
  have e3 : G.transpose.mulVec (-(Hi⁻¹.mulVec gv)) = -(G.transpose.mulVec (Hi⁻¹.mulVec gv)) :=
    Matrix.mulVec_neg _ _
  have e4 : A.transpose.mulVec (sv1 + S1.mulVec d) =
      A.transpose.mulVec sv1 + (A.transpose * S1).mulVec d := by
    rw [Matrix.mulVec_add, Matrix.mulVec_mulVec]
  unfold costToGoGradient
  simp only []
  rw [e1, e2, e3, e4]
  generalize G.transpose.mulVec (Hi⁻¹.mulVec gv) = w
  generalize A.transpose.mulVec sv1 = a
  generalize (A.transpose * S1).mulVec d = b
  abel

/-- C27: on a sized solver and for `k < K_`, when the stored `Hi_[k]` is symmetric and
invertible and the stored gains are `L_[k] = -Hi_[k]^{-1} G_[k]` and
`lv_[k] = -Hi_[k]^{-1} gv_[k]`, `computeCostToGo` returns and stores the Riccati form
`S_[k] = (M + M^T) / 2` with `M = Q_[k] + A_[k]^T S_[k+1] A_[k] - G_[k]^T Hi_[k]^{-1} G_[k]`
and `sv_[k] = qv_[k] + A_[k]^T (sv_[k+1] + S_[k+1] d_[k]) - G_[k]^T Hi_[k]^{-1} gv_[k]`. -/
theorem computeCostToGo_riccati [Field F] (s : GNMSBase F n m) (k : Nat)
    (hs : StageSized s s.K_) (hk : k < s.K_)
    (Hi : Matrix (Fin m) (Fin m) F) (G : Matrix (Fin m) (Fin n) F) (gv : Fin m → F)
    (eHi : s.Hi_[k]? = some Hi) (eG : s.G_[k]? = some G) (egv : s.gv_[k]? = some gv)
    (eL : s.L_[k]? = some (-(Hi⁻¹ * G))) (elv : s.lv_[k]? = some (-(Hi⁻¹.mulVec gv)))
    (hsymm : Hi.IsSymm) (hunit : IsUnit Hi.det) :
    ∃ Q A S1 qv sv1 d s',
      (s.Q_[k]? = some Q ∧ s.A_[k]? = some A ∧ s.S_[k + 1]? = some S1 ∧
        s.qv_[k]? = some qv ∧ s.sv_[k + 1]? = some sv1 ∧ s.d_[k]? = some d) ∧
      computeCostToGo s k = .ret () s' ∧
      s'.S_[k]? = some ((1 / 2 : F) •
        ((Q + A.transpose * S1 * A - G.transpose * Hi⁻¹ * G) +
          (Q + A.transpose * S1 * A - G.transpose * Hi⁻¹ * G).transpose)) ∧
      s'.sv_[k]? = some (qv + A.transpose.mulVec (sv1 + S1.mulVec d) -
        G.transpose.mulVec (Hi⁻¹.mulVec gv)) := by
  obtain ⟨Q, A, S1, L', Hi', qv, sv1, d, lv', gv', G',
    ⟨eQ, eA, eS1, eL', eHi', eqv, esv1, ed, elv', egv', eG'⟩, hSk, hsvk, -⟩ :=
    computeCostToGo_eq_of_sized s k hs hk
  have hrun := computeCostToGo_eq s k eQ eA eS1 eL eHi eqv esv1 ed elv egv eG hSk hsvk
  refine ⟨Q, A, S1, qv, sv1, d, _, ⟨eQ, eA, eS1, eqv, esv1, ed⟩, hrun, ?_, ?_⟩
  · rw [← costToGoHessian_riccati Q A S1 G Hi hsymm hunit]
    exact List.getElem?_set_eq_of_lt _ hSk
  · rw [← costToGoGradient_riccati qv sv1 d A S1 G Hi gv hsymm hunit]
    exact List.getElem?_set_eq_of_lt _ hsvk

theorem stageSized_riccatiSolver : StageSized riccatiSolver riccatiSolver.K_ := by
  simp [StageSized, riccatiSolver, fixedSolver, zeroSolver]

theorem computeCostToGo_riccati_witness :
    StageSized riccatiSolver riccatiSolver.K_ ∧ 0 < riccatiSolver.K_ ∧
    riccatiSolver.Hi_[0]? = some 1 ∧ riccatiSolver.G_[0]? = some 1 ∧
    riccatiSolver.gv_[0]? = some 1 ∧
    riccatiSolver.L_[0]? = some (-((1 : Matrix (Fin 1) (Fin 1) ℚ)⁻¹ * 1)) ∧
    riccatiSolver.lv_[0]? = some (-((1 : Matrix (Fin 1) (Fin 1) ℚ)⁻¹.mulVec 1)) ∧
    (1 : Matrix (Fin 1) (Fin 1) ℚ).IsSymm ∧ IsUnit (1 : Matrix (Fin 1) (Fin 1) ℚ).det ∧
    ∃ Q A S1 qv sv1 d s',
      (riccatiSolver.Q_[0]? = some Q ∧ riccatiSolver.A_[0]? = some A ∧
        riccatiSolver.S_[0 + 1]? = some S1 ∧ riccatiSolver.qv_[0]? = some qv ∧
        riccatiSolver.sv_[0 + 1]? = some sv1 ∧ riccatiSolver.d_[0]? = some d) ∧
      computeCostToGo riccatiSolver 0 = .ret () s' ∧
      s'.S_[0]? = some ((1 / 2 : ℚ) •
        ((Q + A.transpose * S1 * A -
            (1 : Matrix (Fin 1) (Fin 1) ℚ).transpose * (1 : Matrix (Fin 1) (Fin 1) ℚ)⁻¹ * 1) +
          (Q + A.transpose * S1 * A -
            (1 : Matrix (Fin 1) (Fin 1) ℚ).transpose * (1 : Matrix (Fin 1) (Fin 1) ℚ)⁻¹ *
              1).transpose)) ∧
      s'.sv_[0]? = some (qv + A.transpose.mulVec (sv1 + S1.mulVec d) -
        (1 : Matrix (Fin 1) (Fin 1) ℚ).transpose.mulVec
          ((1 : Matrix (Fin 1) (Fin 1) ℚ)⁻¹.mulVec 1)) :=
  ⟨stageSized_riccatiSolver, Nat.zero_lt_one, rfl, rfl, rfl,
    by simp [riccatiSolver], by simp [riccatiSolver], Matrix.isSymm_one, by simp,
    computeCostToGo_riccati riccatiSolver 0 stageSized_riccatiSolver Nat.zero_lt_one 1 1 1
      rfl rfl rfl (by simp [riccatiSolver]) (by simp [riccatiSolver]) Matrix.isSymm_one
      (by simp)⟩

/-! ### The fixed Hessian correction -/

/-- C28: under the fixed correction, on a sized solver and for `k < K_`, `designController`
returns and stores `Hi_[k] = H_[k] + epsilon * I` when `epsilon > 1e-10` and
`Hi_[k] = H_[k]` when `epsilon <= 1e-10`; and, with an exact LLT solve, whenever `Hi_[k]`
is symmetric positive definite the stored `Hi_inverse_[k]` is the negated inverse:
`Hi_[k] * Hi_inverse_[k] = -I` and `Hi_inverse_[k] = -Hi_[k]^{-1}`. -/
theorem designController_fixed_correction [LinearOrderedField F] (E : EigenLib F n m)
    (s : GNMSBase F n m) (k : Nat) (hs : StageSized s s.K_) (hk : k < s.K_)
    (hfix : s.settings_.fixedHessianCorrection = true) (hllt : LLTExact E) :
    ∃ s' H Hi Hinv, designController E s k = .ret () s' ∧ s'.H_[k]? = some H ∧
      s'.Hi_[k]? = some Hi ∧ s'.Hi_inverse_[k]? = some Hinv ∧
      (s.settings_.epsilon > 1 / 10 ^ 10 →
        Hi = H + s.settings_.epsilon • (1 : Matrix (Fin m) (Fin m) F)) ∧
      (s.settings_.epsilon ≤ 1 / 10 ^ 10 → Hi = H) ∧
      (IsPosDef Hi → Hi * Hinv = -1 ∧ Hinv = -Hi⁻¹) := by
  obtain ⟨rv, B, sv1, P, S1, A, R, -, s', hrun, -, -, hH, hHi, hHinv, -⟩ :=
    designController_of_sized E s k hs hk
  obtain ⟨eHi, eHinv, -⟩ := designControllerStage_fixed E s.settings_ rv B sv1 P S1 A R
    s.du_norm_ s.smallestEigenvalue_ s.smallestEigenvalueIteration_ hfix
  refine ⟨s', _, _, _, hrun, hH, hHi, hHinv, ?_, ?_, ?_⟩
  · intro heps
    rw [eHi, if_pos heps]
  · intro heps
    rw [eHi, if_neg (not_lt.mpr heps)]
  · intro hpd
    obtain ⟨hmul, -⟩ := fixed_mul_inverse E hllt hpd
    rw [← eHinv] at hmul
    exact ⟨hmul, (gains_of_mul_eq_neg_one
      (designControllerStage E s.settings_ rv B sv1 P S1 A R s.du_norm_
        s.smallestEigenvalue_ s.smallestEigenvalueIteration_).G
      (designControllerStage E s.settings_ rv B sv1 P S1 A R s.du_norm_
        s.smallestEigenvalue_ s.smallestEigenvalueIteration_).gv hmul).1⟩

theorem designController_fixed_correction_witness :
    StageSized fixedSolver fixedSolver.K_ ∧ 0 < fixedSolver.K_ ∧
    fixedSolver.settings_.fixedHessianCorrection = true ∧ LLTExact (sampleEigenLib 1) ∧
    ∃ s' H Hi Hinv, designController (sampleEigenLib 1) fixedSolver 0 = .ret () s' ∧
      s'.H_[0]? = some H ∧ s'.Hi_[0]? = some Hi ∧ s'.Hi_inverse_[0]? = some Hinv ∧
      (fixedSolver.settings_.epsilon > 1 / 10 ^ 10 →
        Hi = H + fixedSolver.settings_.epsilon • (1 : Matrix (Fin 1) (Fin 1) ℚ)) ∧
      (fixedSolver.settings_.epsilon ≤ 1 / 10 ^ 10 → Hi = H) ∧
      (IsPosDef Hi → Hi * Hinv = -1 ∧ Hinv = -Hi⁻¹) :=
  ⟨stageSized_zeroSolver 1 1 _ 1, Nat.zero_lt_one, rfl, lltExact_sampleEigenLib 1,
    designController_fixed_correction (sampleEigenLib 1) fixedSolver 0
      (stageSized_zeroSolver 1 1 _ 1) Nat.zero_lt_one rfl (lltExact_sampleEigenLib 1)⟩

/-! ### The return value of `solve` -/

theorem solveLoop_eq_with (p : Passes F n m) :
    ∀ (fuel : Nat) (fb : Bool) (k : Nat) (s : GNMSBase F n m),
      solveLoop p fuel fb k s = solveLoopWith (runIteration p) fuel fb k s := by
  intro fuel
  induction fuel with
  | zero =>
    intro fb k s
    rw [solveLoop, solveLoopWith]
  | succ fuel ih =>
    intro fb k s
    rw [solveLoop, solveLoopWith]
    split_ifs
    · cases runIteration p s with
      | ret b s1 => exact ih b (k + 1) s1
      | raise msg s1 => rfl
      | fault => rfl
    · rfl

theorem solve_eq_with (p : Passes F n m) (fuel : Nat) (s : GNMSBase F n m) :
    solve p fuel s = solveWith (runIteration p) fuel s := by
  unfold solve solveWith
  rw [solveLoop_eq_with]

theorem solveLoopWith_exit (run : GNMSBase F n m → Outcome (GNMSBase F n m) Bool) (fuel : Nat)
    (fb : Bool) (k : Nat) (s : GNMSBase F n m)
    (h : ¬ (fb = true ∧ k < s.settings_.max_iterations)) :
    solveLoopWith run fuel fb k s = some (.ret (fb, k) s) := by
  unfold solveLoopWith
  have hc : (fb && decide (k < s.settings_.max_iterations)) = false := by
    cases fb <;> simp_all
  simp [hc]

theorem solveLoopWith_succ (run : GNMSBase F n m → Outcome (GNMSBase F n m) Bool) (fuel k : Nat)
    (s : GNMSBase F n m) (h : k < s.settings_.max_iterations) :
    solveLoopWith run (fuel + 1) true k s =
      match run s with
      | .ret fb s1 => solveLoopWith run fuel fb (k + 1) s1
      | .raise msg s1 => some (.raise msg s1)
      | .fault => some .fault := by
  rw [solveLoopWith]
  simp [h]

theorem solveLoopWith_ret_inv (run : GNMSBase F n m → Outcome (GNMSBase F n m) Bool) :
    ∀ (fuel : Nat) (fb0 : Bool) (k0 : Nat) (s : GNMSBase F n m) (fb : Bool) (k : Nat)
      (s' : GNMSBase F n m), solveLoopWith run fuel fb0 k0 s = some (.ret (fb, k) s') →
      (fb = fb0 ∧ k = k0) ∨ k0 < k := by
  intro fuel
  induction fuel with
  | zero =>
    intro fb0 k0 s fb k s' h
    rw [solveLoopWith] at h
    split_ifs at h
    cases h
    exact Or.inl ⟨rfl, rfl⟩
  | succ fuel ih =>
    intro fb0 k0 s fb k s' h
    rw [solveLoopWith] at h
    split_ifs at h
    · cases hrun : run s with
      | ret b s1 =>
        rw [hrun] at h
        rcases ih b (k0 + 1) s1 fb k s' h with ⟨-, hk⟩ | hk
        · exact Or.inr (by omega)
        · exact Or.inr (by omega)
      | raise msg s1 =>
        rw [hrun] at h
        cases h
      | fault =>
        rw [hrun] at h
        cases h
    · cases h
      exact Or.inl ⟨rfl, rfl⟩

theorem solveLoopWith_terminates (run : GNMSBase F n m → Outcome (GNMSBase F n m) Bool)
    (hmax : ∀ t b t', run t = .ret b t' →
      t'.settings_.max_iterations = t.settings_.max_iterations) :
    ∀ (fuel : Nat) (fb : Bool) (k : Nat) (s : GNMSBase F n m),
      s.settings_.max_iterations - k ≤ fuel → ∃ o, solveLoopWith run fuel fb k s = some o := by
  intro fuel
  induction fuel with
  | zero =>
    intro fb k s hf
    exact ⟨_, solveLoopWith_exit run 0 fb k s (fun h => by omega)⟩
  | succ fuel ih =>
    intro fb k s hf
    by_cases hc : fb = true ∧ k < s.settings_.max_iterations
    · obtain ⟨rfl, hk⟩ := hc
      rw [solveLoopWith_succ run fuel k s hk]
      cases hrun : run s with
      | ret b s1 =>
        have := hmax s b s1 hrun
        exact ih b (k + 1) s1 (by omega)
      | raise msg s1 => exact ⟨_, rfl⟩
      | fault => exact ⟨_, rfl⟩
    · exact ⟨_, solveLoopWith_exit run _ fb k s hc⟩

/-- C25: whatever an iteration returns, `solve` returns `true` in every run in which the
loop ends without an exception (and without an access out of bounds): in particular with
`max_iterations = 0`, where no iteration is run, and when the only iteration returned
`false`. It returns `false` only when an exception left the loop. The loop ends within
`max_iterations` iterations when the iterations leave `max_iterations` alone. The
statement is made for `solve` with an arbitrary iteration function `run`, of which the
`solve` of the solver is the instance `run = runIteration p`. -/
theorem solve_returns_true (run : GNMSBase F n m → Outcome (GNMSBase F n m) Bool) (fuel : Nat)
    (s : GNMSBase F n m) :
    (∀ fb k s', solveLoopWith run fuel true 0 s = some (.ret (fb, k) s') →
      solveWith run fuel s = some (.ret true s')) ∧
    (s.settings_.max_iterations = 0 → solveWith run fuel s = some (.ret true s)) ∧
    (∀ s1, 0 < s.settings_.max_iterations → 0 < fuel → run s = .ret false s1 →
      solveWith run fuel s = some (.ret true s1)) ∧
    (∀ s', solveWith run fuel s = some (.ret false s') →
      ∃ msg, solveLoopWith run fuel true 0 s = some (.raise msg s')) ∧
    ((∀ t b t', run t = .ret b t' →
        t'.settings_.max_iterations = t.settings_.max_iterations) →
      s.settings_.max_iterations ≤ fuel → ∃ o, solveWith run fuel s = some o) ∧
    (∀ p : Passes F n m, solve p fuel s = solveWith (runIteration p) fuel s) := by
  have hret : ∀ fb k s', solveLoopWith run fuel true 0 s = some (.ret (fb, k) s') →
      solveWith run fuel s = some (.ret true s') := by
    intro fb k s' h
    unfold solveWith
    rw [h]
    rcases solveLoopWith_ret_inv run fuel true 0 s fb k s' h with ⟨rfl, rfl⟩ | hk
    · rfl
    · cases fb
      · by_cases h1 : k = 1
        · subst h1
          rfl
        · have h2 : k > 1 := by omega
          simp [h2]
      · simp
  refine ⟨hret, ?_, ?_, ?_, ?_, fun p => solve_eq_with p fuel s⟩
  · intro h0
    exact hret true 0 s (solveLoopWith_exit run fuel true 0 s (fun h => by omega))
  · intro s1 hmax hfuel hrun
    obtain ⟨f, rfl⟩ : ∃ f, fuel = f + 1 := ⟨fuel - 1, by omega⟩
    apply hret false 1 s1
    rw [solveLoopWith_succ run f 0 s hmax, hrun]
    exact solveLoopWith_exit run f false 1 s1 (fun h => by simp at h)
  · intro s' h
    unfold solveWith at h
    split at h
    next => cases h
    next msg s1 hl =>
      cases h
      exact ⟨msg, hl⟩
    next => cases h
    next fb k s1 hl =>
      have := hret fb k s1 hl
      unfold solveWith at this
      rw [hl] at this
      simp only [] at this
      rw [this] at h
      cases h
  · intro hmax hfuel
    obtain ⟨o, ho⟩ := solveLoopWith_terminates run hmax fuel true 0 s (by omega)
    unfold solveWith
    rw [ho]
    cases o with
    | ret a s1 => exact ⟨_, rfl⟩
    | raise msg s1 => exact ⟨_, rfl⟩
    | fault => exact ⟨_, rfl⟩

/-- The case of C25 in which the only iteration returns `false`, on a concrete solver:
`solve` returns `true`. -/
theorem solveWith_false_iteration_example :
    0 < readySolver.settings_.max_iterations ∧
    solveWith (fun s => .ret false s) 1 readySolver = some (.ret true readySolver) := by
  refine ⟨Nat.zero_lt_one, ?_⟩
  have h := solveLoopWith_succ (fun s => Outcome.ret false s) 0 0 readySolver Nat.zero_lt_one
  simp only [Nat.zero_add] at h
  rw [solveLoopWith_exit _ 0 false 1 readySolver (fun h => by simp at h)] at h
  unfold solveWith
  rw [h]
  rfl

/-! ### Defects, shot update and state update -/

theorem updateSingleShot_eq [Field F] (s : GNMSBase F n m) (k : Nat)
    {xShot lx : Fin n → F} {A : Matrix (Fin n) (Fin n) F} {B : Matrix (Fin n) (Fin m) F}
    {lv : Fin m → F}
    (e1 : s.xShot_[k]? = some xShot) (e2 : s.A_[k]? = some A) (e3 : s.lx_[k]? = some lx)
    (e4 : s.B_[k]? = some B) (e5 : s.lv_[k]? = some lv) (h : k < s.xShot_.length) :
    updateSingleShot s k = .ret ()
      { s with xShot_ := s.xShot_.set k (xShot + (A.mulVec lx + B.mulVec lv)) } := by
  unfold updateSingleShot
  simp only [e1, e2, e3, e4, e5, assign_of_lt _ h]

theorem designStateUpdate_eq [Field F] (s : GNMSBase F n m) (k : Nat)
    {lx d : Fin n → F} {A : Matrix (Fin n) (Fin n) F} {B : Matrix (Fin n) (Fin m) F}
    {lv : Fin m → F}
    (e1 : s.A_[k]? = some A) (e2 : s.lx_[k]? = some lx) (e3 : s.B_[k]? = some B)
    (e4 : s.lv_[k]? = some lv) (e5 : s.d_[k]? = some d) (h : k + 1 < s.lx_.length) :
    designStateUpdate s k = .ret ()
      { s with lx_ := s.lx_.set (k + 1) (A.mulVec lx + B.mulVec lv + d) } := by
  unfold designStateUpdate
  simp only [e1, e2, e3, e4, e5, assign_of_lt _ h]

theorem forwardSweep_zero (f : GNMSBase F n m → Nat → Outcome (GNMSBase F n m) Unit) (k : Nat)
    (s : GNMSBase F n m) : forwardSweep f 0 k s = .ret () s := rfl

theorem forwardSweep_succ (f : GNMSBase F n m → Nat → Outcome (GNMSBase F n m) Unit)
    (rem k : Nat) (s s1 : GNMSBase F n m) (h : f s k = .ret () s1) :
    forwardSweep f (rem + 1) k s = forwardSweep f rem (k + 1) s1 := by
  rw [forwardSweep, h]

theorem list_set_of_getElem? {α : Type} (a : List α) (k : Nat) (v : α) (h : a[k]? = some v) :
    a.set k v = a := by
  apply List.ext_getElem?
  intro j
  by_cases hj : k = j
  · subst hj
    have hk : k < a.length := by
      by_contra hc
      rw [List.getElem?_eq_none (Nat.le_of_not_lt hc)] at h
      cases h
    rw [List.getElem?_set_eq_of_lt _ hk, h]
  · rw [List.getElem?_set_ne hj]

theorem updateSingleShot_of_zero [Field F] (s : GNMSBase F n m) (k : Nat)
    (hs : StageSized s s.K_) (hk : k < s.K_) (hlx : s.lx_[k]? = some 0)
    (hlv : s.lv_[k]? = some 0) : updateSingleShot s k = .ret () s := by
  obtain ⟨xShot, A, lx, B, lv, e1, e2, e3, e4, e5, hrun⟩ := updateSingleShot_of_sized s k hs hk
  rw [hlx] at e3
  rw [hlv] at e5
  cases e3
  cases e5
  rw [hrun]
  have hx : xShot + (A.mulVec 0 + B.mulVec 0) = xShot := by
    rw [Matrix.mulVec_zero, Matrix.mulVec_zero, add_zero, add_zero]
  rw [hx, list_set_of_getElem? _ _ _ e1]

theorem forwardSweep_updateSingleShot_of_zero [Field F] :
    ∀ (rem k : Nat) (s : GNMSBase F n m), StageSized s s.K_ → k + rem ≤ s.K_ →
      (∀ j, j < s.K_ → s.lx_[j]? = some 0 ∧ s.lv_[j]? = some 0) →
      forwardSweep updateSingleShot rem k s = .ret () s := by
  intro rem
  induction rem with
  | zero =>
    intro k s _ _ _
    rfl
  | succ rem ih =>
    intro k s hs hk hz
    have hk' : k < s.K_ := by omega
    rw [forwardSweep_succ _ rem k s s
      (updateSingleShot_of_zero s k hs hk' (hz k hk').1 (hz k hk').2)]
    exact ih (k + 1) s hs (by omega) hz

theorem forwardSweep_designStateUpdate_of_zero [Field F] :
    ∀ (rem k : Nat) (s : GNMSBase F n m), StageSized s s.K_ → k + rem = s.K_ →
      (∀ j, j ≤ k → s.lx_[j]? = some 0) →
      (∀ j, j < s.K_ → s.d_[j]? = some 0 ∧ s.lv_[j]? = some 0) →
      ∃ lx_, forwardSweep designStateUpdate rem k s = .ret () { s with lx_ := lx_ } ∧
        lx_.length = s.K_ + 1 ∧ ∀ j, j ≤ s.K_ → lx_[j]? = some 0 := by
  intro rem
  induction rem with
  | zero =>
    intro k s hs hk hlx _
    refine ⟨s.lx_, rfl, hs.2.2.2.2.1, ?_⟩
    intro j hj
    exact hlx j (by omega)
  | succ rem ih =>
    intro k s hs hk hlx hz
    have hk' : k < s.K_ := by omega
    obtain ⟨A, lx, B, lv, d, e1, e2, e3, e4, e5, hrun⟩ := designStateUpdate_of_sized s k hs hk'
    rw [hlx k (Nat.le_refl k)] at e2
    rw [(hz k hk').1] at e5
    rw [(hz k hk').2] at e4
    cases e2
    cases e4
    cases e5
    have hv : A.mulVec 0 + B.mulVec 0 + (0 : Fin n → F) = 0 := by
      rw [Matrix.mulVec_zero, Matrix.mulVec_zero, add_zero, add_zero]
    rw [hv] at hrun
    have hlen : s.lx_.length = s.K_ + 1 := hs.2.2.2.2.1
    have hs1 : StageSized { s with lx_ := s.lx_.set (k + 1) 0 } s.K_ := by
      obtain ⟨g1, g2, ⟨hx, hxS, hlx', hrest⟩⟩ := hs
      exact ⟨g1, g2, ⟨hx, hxS, (List.length_set _ _ _).trans hlx', hrest⟩⟩
    obtain ⟨lx_, hsweep, hl, hall⟩ := ih (k + 1) { s with lx_ := s.lx_.set (k + 1) 0 } hs1
      (by simp only []; omega)
      (by
        intro j hj
        by_cases hjk : j = k + 1
        · subst hjk
          exact List.getElem?_set_eq_of_lt _ (by omega)
        · have : (s.lx_.set (k + 1) 0)[j]? = s.lx_[j]? :=
            List.getElem?_set_ne (Ne.symm hjk)
          exact this.trans (hlx j (by omega)))
      hz
    refine ⟨lx_, ?_, hl, hall⟩
    rw [forwardSweep_succ _ rem k s _ hrun]
    exact hsweep

/-- C29: on a sized solver and for `k < K_`, `computeSingleDefect` stores
`d_[k] = xShot_[k] - x_[k+1]`, `updateSingleShot` stores
`xShot_[k] + A_[k] lx_[k] + B_[k] lv_[k]` in `xShot_[k]`, and `designStateUpdate` stores
`lx_[k+1] = A_[k] lx_[k] + B_[k] lv_[k] + d_[k]`, each changing nothing else. Hence with
`lx_[0] = 0` and all `d_[k]` and `lv_[k]` zero, `designStateUpdate` run for the stages
`0, ..., K_ - 1` leaves every `lx_[k]` zero and changes nothing but `lx_`, and
`updateSingleShot` run for these stages afterwards changes nothing at all. -/
theorem shot_and_state_update [LinearOrderedField F] (s : GNMSBase F n m) (k : Nat)
    (hs : StageSized s s.K_) (hk : k < s.K_) :
    (∃ xShot xNext, s.xShot_[k]? = some xShot ∧ s.x_[k + 1]? = some xNext ∧
      computeSingleDefect s k = .ret () { s with d_ := s.d_.set k (xShot - xNext) }) ∧
    (∃ xShot A lx B lv, s.xShot_[k]? = some xShot ∧ s.A_[k]? = some A ∧
      s.lx_[k]? = some lx ∧ s.B_[k]? = some B ∧ s.lv_[k]? = some lv ∧
      updateSingleShot s k = .ret ()
        { s with xShot_ := s.xShot_.set k (xShot + (A.mulVec lx + B.mulVec lv)) }) ∧
    (∃ A lx B lv d, s.A_[k]? = some A ∧ s.lx_[k]? = some lx ∧ s.B_[k]? = some B ∧
      s.lv_[k]? = some lv ∧ s.d_[k]? = some d ∧
      designStateUpdate s k = .ret ()
        { s with lx_ := s.lx_.set (k + 1) (A.mulVec lx + B.mulVec lv + d) }) ∧
    (s.lx_[0]? = some 0 → (∀ j, j < s.K_ → s.d_[j]? = some 0 ∧ s.lv_[j]? = some 0) →
      ∃ lx_, forwardSweep designStateUpdate s.K_ 0 s = .ret () { s with lx_ := lx_ } ∧
        (∀ j, j ≤ s.K_ → lx_[j]? = some 0) ∧
        forwardSweep updateSingleShot s.K_ 0 { s with lx_ := lx_ } =
          .ret () { s with lx_ := lx_ }) := by
  refine ⟨computeSingleDefect_of_sized s k hs hk, updateSingleShot_of_sized s k hs hk,
    designStateUpdate_of_sized s k hs hk, ?_⟩
  intro h0 hz
  obtain ⟨lx_, hsweep, hl, hall⟩ := forwardSweep_designStateUpdate_of_zero s.K_ 0 s hs
    (Nat.zero_add _) (fun j hj => by rw [Nat.le_zero.mp hj]; exact h0) hz
  refine ⟨lx_, hsweep, hall, ?_⟩
  have hs1 : StageSized { s with lx_ := lx_ } s.K_ := by
    obtain ⟨g1, g2, ⟨hx, hxS, hlx', hrest⟩⟩ := hs
    exact ⟨g1, g2, ⟨hx, hxS, hl, hrest⟩⟩
  exact forwardSweep_updateSingleShot_of_zero s.K_ 0 { s with lx_ := lx_ } hs1
    (by simp only []; omega)
    (fun j hj => ⟨hall j (Nat.le_of_lt hj), (hz j hj).2⟩)

theorem shot_and_state_update_witness :
    StageSized fixedSolver fixedSolver.K_ ∧ 0 < fixedSolver.K_ ∧
    (∃ xShot xNext, fixedSolver.xShot_[0]? = some xShot ∧
      fixedSolver.x_[0 + 1]? = some xNext ∧
      computeSingleDefect fixedSolver 0 =
        .ret () { fixedSolver with d_ := fixedSolver.d_.set 0 (xShot - xNext) }) ∧
    (∃ xShot A lx B lv, fixedSolver.xShot_[0]? = some xShot ∧ fixedSolver.A_[0]? = some A ∧
      fixedSolver.lx_[0]? = some lx ∧ fixedSolver.B_[0]? = some B ∧
      fixedSolver.lv_[0]? = some lv ∧
      updateSingleShot fixedSolver 0 = .ret ()
        { fixedSolver with
          xShot_ := fixedSolver.xShot_.set 0 (xShot + (A.mulVec lx + B.mulVec lv)) }) ∧
    (∃ A lx B lv d, fixedSolver.A_[0]? = some A ∧ fixedSolver.lx_[0]? = some lx ∧
      fixedSolver.B_[0]? = some B ∧ fixedSolver.lv_[0]? = some lv ∧
      fixedSolver.d_[0]? = some d ∧
      designStateUpdate fixedSolver 0 = .ret ()
        { fixedSolver with
          lx_ := fixedSolver.lx_.set (0 + 1) (A.mulVec lx + B.mulVec lv + d) }) ∧
    (fixedSolver.lx_[0]? = some 0 →
      (∀ j, j < fixedSolver.K_ → fixedSolver.d_[j]? = some 0 ∧ fixedSolver.lv_[j]? = some 0) →
      ∃ lx_, forwardSweep designStateUpdate fixedSolver.K_ 0 fixedSolver =
          .ret () { fixedSolver with lx_ := lx_ } ∧
        (∀ j, j ≤ fixedSolver.K_ → lx_[j]? = some 0) ∧
        forwardSweep updateSingleShot fixedSolver.K_ 0 { fixedSolver with lx_ := lx_ } =
          .ret () { fixedSolver with lx_ := lx_ }) :=
  ⟨stageSized_zeroSolver 1 1 _ 1, Nat.zero_lt_one,
    shot_and_state_update fixedSolver 0 (stageSized_zeroSolver 1 1 _ 1) Nat.zero_lt_one⟩

/-- C30: on a sized solver and for `k < K_`, run `computeSingleDefect(k)`, then
`designStateUpdate(k)`, then `updateSingleShot(k)`; the three calls read the same `A_[k]`,
`B_[k]`, `lx_[k]`, `lv_[k]`, and `x_[k+1]` is untouched. They all return, and the updated
shot is the next state moved by its correction: `xShot_[k] = x_[k+1] + lx_[k+1]`. -/
theorem updated_shot_closes_defect [LinearOrderedField F] (s : GNMSBase F n m) (k : Nat)
    (hs : StageSized s s.K_) (hk : k < s.K_) :
    ∃ s1 s2 s3 xNext lxNext xShot',
      computeSingleDefect s k = .ret () s1 ∧ designStateUpdate s1 k = .ret () s2 ∧
      updateSingleShot s2 k = .ret () s3 ∧
      (s3.A_[k]? = s.A_[k]? ∧ s3.B_[k]? = s.B_[k]? ∧ s3.lx_[k]? = s.lx_[k]? ∧
        s3.lv_[k]? = s.lv_[k]? ∧ s3.x_ = s.x_) ∧
      s3.x_[k + 1]? = some xNext ∧ s3.lx_[k + 1]? = some lxNext ∧
      s3.xShot_[k]? = some xShot' ∧ xShot' = xNext + lxNext := by
  obtain ⟨xShot, xNext, e1, e2, hdefect⟩ := computeSingleDefect_of_sized s k hs hk
  obtain ⟨A, lx, B, lv, d, eA, elx, eB, elv, -, -⟩ := designStateUpdate_of_sized s k hs hk
  obtain ⟨⟨-, -, -, -, -, hd, -⟩, -, ⟨-, hxS, hlx, -⟩⟩ := hs
  have hdk : k < s.d_.length := hd ▸ hk
  have hlxk : k + 1 < s.lx_.length := hlx ▸ Nat.succ_lt_succ hk
  have hxSk : k < s.xShot_.length := hxS ▸ Nat.lt_succ_of_lt hk
  have hstate := designStateUpdate_eq { s with d_ := s.d_.set k (xShot - xNext) } k
    eA elx eB elv
    (List.getElem?_set_eq_of_lt _ hdk) hlxk
  have elx' : (s.lx_.set (k + 1) (A.mulVec lx + B.mulVec lv + (xShot - xNext)))[k]? =
      some lx := by
    rw [List.getElem?_set_ne (Nat.succ_ne_self k)]
    exact elx
  have hshot := updateSingleShot_eq
    { s with d_ := s.d_.set k (xShot - xNext),
             lx_ := s.lx_.set (k + 1) (A.mulVec lx + B.mulVec lv + (xShot - xNext)) } k
    e1 eA elx' eB elv hxSk
  refine ⟨_, _, _, xNext, _, _, hdefect, hstate, hshot,
    ⟨rfl, rfl, elx'.trans elx.symm, rfl, rfl⟩, e2,
    List.getElem?_set_eq_of_lt _ hlxk, List.getElem?_set_eq_of_lt _ hxSk, ?_⟩
  generalize A.mulVec lx = a
  generalize B.mulVec lv = b
  abel

theorem updated_shot_closes_defect_witness :
    StageSized fixedSolver fixedSolver.K_ ∧ 0 < fixedSolver.K_ ∧
    ∃ s1 s2 s3 xNext lxNext xShot',
      computeSingleDefect fixedSolver 0 = .ret () s1 ∧ designStateUpdate s1 0 = .ret () s2 ∧
      updateSingleShot s2 0 = .ret () s3 ∧
      (s3.A_[0]? = fixedSolver.A_[0]? ∧ s3.B_[0]? = fixedSolver.B_[0]? ∧
        s3.lx_[0]? = fixedSolver.lx_[0]? ∧ s3.lv_[0]? = fixedSolver.lv_[0]? ∧
        s3.x_ = fixedSolver.x_) ∧
      s3.x_[0 + 1]? = some xNext ∧ s3.lx_[0 + 1]? = some lxNext ∧
      s3.xShot_[0]? = some xShot' ∧ xShot' = xNext + lxNext :=
  ⟨stageSized_zeroSolver 1 1 _ 1, Nat.zero_lt_one,
    updated_shot_closes_defect fixedSolver 0 (stageSized_zeroSolver 1 1 _ 1) Nat.zero_lt_one⟩

/-! ### The shot of a stage and the rollout of a stage -/

theorem initializeSingleShot_eq (ints : Integrators F n m) (dt_sim : ℚ) (u : Fin m → F)
    (s : GNMSBase F n m) (k : Nat) {xk x1 : Fin n → F} (ex : s.x_[k]? = some xk)
    (h : k < s.xShot_.length)
    (hstep : integrateStep ints s.settings_.integrator u xk ((k : ℚ) * dt_sim) dt_sim
      = some x1) :
    initializeSingleShot ints dt_sim u s k = .ret () { s with xShot_ := s.xShot_.set k x1 } := by
  have h' : k < (s.xShot_.set k xk).length := (List.length_set _ _ _).symm ▸ h
  unfold initializeSingleShot
  simp only [ex, assign_of_lt _ h, hstep, assign_of_lt _ h', List.set_set]

/-- With one micro-step per stage, the shot of stage `k` is the state the micro-step loop
of `rolloutSystem` produces for stage `k` from `x_[k]` under the same control. -/
theorem initializeSingleShot_eq_microSteps_of_one (ints : Integrators F n m) (dt_sim : ℚ)
    (u : Fin m → F) (s : GNMSBase F n m) (k : Nat) {xk x1 : Fin n → F}
    (log log' : List (IntegratorCall F m)) (ex : s.x_[k]? = some xk)
    (h : k < s.xShot_.length)
    (hroll : microSteps ints s.settings_.integrator dt_sim u k 1 1 0 xk log = (some x1, log')) :
    ∃ s', initializeSingleShot ints dt_sim u s k = .ret () s' ∧ s'.xShot_[k]? = some x1 := by
  rw [microSteps] at hroll
  have ht : (((k * 1 + 0 : Nat) : ℚ)) = (k : ℚ) := by rw [Nat.mul_one, Nat.add_zero]
  rw [ht] at hroll
  cases hstep : integrateStep ints s.settings_.integrator u xk ((k : ℚ) * dt_sim) dt_sim with
  | none =>
    rw [hstep] at hroll
    cases hroll
  | some x1' =>
    rw [hstep] at hroll
    simp only [microSteps, Prod.mk.injEq, Option.some.injEq] at hroll
    obtain ⟨rfl, -⟩ := hroll
    exact ⟨_, initializeSingleShot_eq ints dt_sim u s k ex h hstep,
      List.getElem?_set_eq_of_lt _ h⟩

/-- C26 (code evaluated): on a solver with `dt = 2`, `dt_sim = 1`, hence two micro-steps per
stage, for the scalar system whose integrator step maps `x` to `x + h * u`, with
`x_[0] = 0` and the control `1`: `initializeSingleShot(0)` returns with `xShot_[0] = 1`,
the state after one micro-step, while the micro-step loop of `rolloutSystem` takes stage
`0` from `x_[0]` to `2`. -/
theorem initializeSingleShot_single_micro_step :
    substeps coarseSolver.settings_.dt coarseSolver.settings_.dt_sim = 2 ∧
    coarseSolver.x_[0]? = some 0 ∧
    (∃ s' xShot,
      initializeSingleShot scalarIntegrators coarseSolver.settings_.dt_sim (fun _ => 1)
        coarseSolver 0 = .ret () s' ∧
      s'.xShot_[0]? = some xShot ∧ xShot 0 = 1) ∧
    ∃ xRoll,
      (microSteps scalarIntegrators coarseSolver.settings_.integrator
        coarseSolver.settings_.dt_sim (fun _ => 1) 0
        (substeps coarseSolver.settings_.dt coarseSolver.settings_.dt_sim)
        (substeps coarseSolver.settings_.dt coarseSolver.settings_.dt_sim) 0 0 []).1
        = some xRoll ∧
      xRoll 0 = 2 := by
  have hsub : substeps coarseSolver.settings_.dt coarseSolver.settings_.dt_sim = 2 := by
    simp [substeps, coarseSolver, zeroSolver, sampleSettings]
  have hx : coarseSolver.x_[0]? = some 0 := rfl
  have hk : 0 < coarseSolver.xShot_.length := by simp [coarseSolver, zeroSolver]
  refine ⟨hsub, hx, ⟨_, _,
    initializeSingleShot_eq scalarIntegrators _ (fun _ => 1) coarseSolver 0 hx hk rfl,
    List.getElem?_set_eq_of_lt _ hk, ?_⟩, ?_⟩
  · simp [scalarIntegrators, coarseSolver, zeroSolver, sampleSettings]
  · rw [hsub]
    refine ⟨_, rfl, ?_⟩
    simp [scalarIntegrators, coarseSolver, zeroSolver, sampleSettings]
    norm_num

/-! ### The scalar scenario: the Riccati sequence -/

theorem riccatiSeq_step (q r qT dt : ℚ) (j : Nat) (hr : 0 < r) (hdt : 0 < dt)
    (hpos : 0 < riccatiSeq q r qT dt j) :
    riccatiSeq q r qT dt (j + 1) =
      2 * q * dt + riccatiSeq q r qT dt j * (2 * r) / (2 * r + dt * riccatiSeq q r qT dt j) := by
  have h1 : 0 < 2 * r + dt * riccatiSeq q r qT dt j := by positivity
  have h2 : 2 * r * dt + dt * riccatiSeq q r qT dt j * dt =
      dt * (2 * r + dt * riccatiSeq q r qT dt j) := by ring
  rw [riccatiSeq, riccatiGain, h2]
  field_simp
  ring

theorem riccatiSeq_pos (q r qT dt : ℚ) (hq : 0 < q) (hr : 0 < r) (hqT : 0 < qT)
    (hdt : 0 < dt) : ∀ j, 0 < riccatiSeq q r qT dt j := by
  intro j
  induction j with
  | zero =>
    rw [riccatiSeq]
    positivity
  | succ j ih =>
    rw [riccatiSeq_step q r qT dt j hr hdt ih]
    positivity

theorem riccatiSeq_succ_lt (q r qT dt : ℚ) (hq : 0 < q) (hr : 0 < r) (hqT : 0 < qT)
    (hdt : 0 < dt) (j : Nat) :
    riccatiSeq q r qT dt (j + 1) < 2 * q * dt + riccatiSeq q r qT dt j := by
  have hpos := riccatiSeq_pos q r qT dt hq hr hqT hdt j
  rw [riccatiSeq_step q r qT dt j hr hdt hpos]
  have h1 : 0 < 2 * r + dt * riccatiSeq q r qT dt j := by positivity
  have h2 : riccatiSeq q r qT dt j * (2 * r) / (2 * r + dt * riccatiSeq q r qT dt j) <
      riccatiSeq q r qT dt j := by
    rw [div_lt_iff₀ h1]
    nlinarith [mul_pos hdt hpos, mul_pos (mul_pos hdt hpos) hpos]
  linarith

theorem riccatiSeq_lt (q r qT dt : ℚ) (hq : 0 < q) (hr : 0 < r) (hqT : 0 < qT)
    (hdt : 0 < dt) : ∀ j, riccatiSeq q r qT dt (j + 1) < 2 * q * dt * (j + 1 : Nat) + 2 * qT := by
  intro j
  induction j with
  | zero =>
    have h := riccatiSeq_succ_lt q r qT dt hq hr hqT hdt 0
    rw [show riccatiSeq q r qT dt 0 = 2 * qT from rfl] at h
    simpa using h
  | succ j ih =>
    have h := riccatiSeq_succ_lt q r qT dt hq hr hqT hdt (j + 1)
    push_cast at ih ⊢
    linarith

theorem riccati_value_identity (q r dt sigma : ℚ) (hr : 0 < r) (hdt : 0 < dt)
    (hpos : 0 < sigma) :
    dt * (q + r * riccatiGain r dt sigma ^ 2) +
        sigma / 2 * (1 + dt * riccatiGain r dt sigma) ^ 2 =
      (2 * q * dt + sigma -
        riccatiGain r dt sigma * (2 * r * dt + dt * sigma * dt) * riccatiGain r dt sigma) / 2 := by
  have h1 : 0 < 2 * r + dt * sigma := by positivity
  have h2 : 2 * r * dt + dt * sigma * dt = dt * (2 * r + dt * sigma) := by ring
  rw [riccatiGain, h2]
  field_simp
  ring

/-! ### The scalar scenario: one stage of the backward recursion -/

theorem selfadjointLower_scalar (M : Matrix (Fin 1) (Fin 1) ℚ) : selfadjointLower M = M := by
  ext i j
  have hi : i = 0 := Subsingleton.elim _ _
  have hj : j = 0 := Subsingleton.elim _ _
  subst hi
  subst hj
  simp [selfadjointLower]

theorem designControllerStage_scalar (st : GNMSSettings ℚ) (heps : st.epsilon = 0)
    (rv : Fin 1 → ℚ) (B : Matrix (Fin 1) (Fin 1) ℚ) (sv1 : Fin 1 → ℚ)
    (P S1 A R : Matrix (Fin 1) (Fin 1) ℚ) (du : ℚ) (sm smi : WithTop ℚ)
    (hH : 0 < R 0 0 + B 0 0 * S1 0 0 * B 0 0) :
    (designControllerStage (sampleEigenLib 1) st rv B sv1 P S1 A R du sm smi).Hi 0 0 =
      R 0 0 + B 0 0 * S1 0 0 * B 0 0 ∧
    (designControllerStage (sampleEigenLib 1) st rv B sv1 P S1 A R du sm smi).L 0 0 =
      -(P 0 0 + B 0 0 * S1 0 0 * A 0 0) / (R 0 0 + B 0 0 * S1 0 0 * B 0 0) := by
  obtain ⟨-, eG, eH⟩ := designControllerStage_unregularized (sampleEigenLib 1) st rv B sv1 P S1
    A R du sm smi
  cases hfix : st.fixedHessianCorrection with
  | true =>
    obtain ⟨eHi, eHinv, eL, -⟩ := designControllerStage_fixed (sampleEigenLib 1) st rv B sv1 P
      S1 A R du sm smi hfix
    generalize designControllerStage (sampleEigenLib 1) st rv B sv1 P S1 A R du sm smi = c
      at eG eH eHi eHinv eL ⊢
    have hG00 : c.G 0 0 = P 0 0 + B 0 0 * S1 0 0 * A 0 0 := by
      rw [eG, selfadjointLower_scalar]
      simp [Matrix.mul_apply]
    have hH00 : c.H 0 0 = R 0 0 + B 0 0 * S1 0 0 * B 0 0 := by
      rw [eH, selfadjointLower_scalar]
      simp [Matrix.mul_apply]
    have hHi : c.Hi = c.H := by
      rw [eHi, heps, if_neg (by norm_num)]
    refine ⟨by rw [hHi, hH00], ?_⟩
    rw [eL, selfadjointLower_scalar, eHinv, hHi]
    simp only [Matrix.mul_apply, Fin.sum_univ_one, Fin.isValue, Matrix.neg_apply, sampleEigenLib,
      Matrix.smul_apply, Matrix.one_apply_eq, smul_eq_mul, mul_one, hG00, hH00]
    rw [neg_div, neg_mul, inv_mul_eq_div]
  | false =>
    obtain ⟨eHi, eHinv, eL, -⟩ := designControllerStage_clipping (sampleEigenLib 1) st rv B sv1
      P S1 A R du sm smi hfix
    generalize designControllerStage (sampleEigenLib 1) st rv B sv1 P S1 A R du sm smi = c
      at eG eH eHi eHinv eL ⊢
    have hG00 : c.G 0 0 = P 0 0 + B 0 0 * S1 0 0 * A 0 0 := by
      rw [eG, selfadjointLower_scalar]
      simp [Matrix.mul_apply]
    have hH00 : c.H 0 0 = R 0 0 + B 0 0 * S1 0 0 * B 0 0 := by
      rw [eH, selfadjointLower_scalar]
      simp [Matrix.mul_apply]
    have hmax : max (R 0 0 + B 0 0 * S1 0 0 * B 0 0) 0 = R 0 0 + B 0 0 * S1 0 0 * B 0 0 :=
      max_eq_left (le_of_lt hH)
    have hHi : c.Hi 0 0 = R 0 0 + B 0 0 * S1 0 0 * B 0 0 := by
      rw [eHi]
      simp only [Matrix.mul_apply, Fin.sum_univ_one, Fin.isValue, sampleEigenLib,
        Matrix.one_apply_eq, Matrix.transpose_apply, Matrix.diagonal_apply_eq, one_mul, mul_one,
        heps, hH00, hmax]
    refine ⟨hHi, ?_⟩
    rw [eL, eHinv]
    simp only [Matrix.mul_apply, Fin.sum_univ_one, Fin.isValue, sampleEigenLib,
      Matrix.one_apply_eq, Matrix.transpose_apply, Matrix.diagonal_apply_eq, one_mul, mul_one,
      heps, hG00, hH00, hmax]
    rw [neg_div, neg_one_mul, neg_mul, inv_mul_eq_div]

theorem costToGoHessian_scalar (Q A S1 L Hi : Matrix (Fin 1) (Fin 1) ℚ) :
    costToGoHessian Q A S1 L Hi 0 0 =
      Q 0 0 + A 0 0 * S1 0 0 * A 0 0 - L 0 0 * Hi 0 0 * L 0 0 := by
  unfold costToGoHessian
  simp [Matrix.mul_apply]
  ring

theorem backwardStage_scalar (q r : ℚ) (fixed : Bool) (s : GNMSBase ℚ 1 1) (k : Nat)
    (sigma : ℚ) (hd : ScenarioData q r fixed s) (hk : k < 10) (hr : 0 < r) (hsigma : 0 < sigma)
    (hS : ∃ S1, s.S_[k + 1]? = some S1 ∧ S1 0 0 = sigma) :
    ∃ s2 s3 L S, designController (sampleEigenLib 1) s k = .ret () s2 ∧
      computeCostToGo s2 k = .ret () s3 ∧ ScenarioData q r fixed s3 ∧
      s3.L_ = s.L_.set k L ∧ L 0 0 = riccatiGain r (1 / 10) sigma ∧
      s3.S_ = s.S_.set k S ∧
      S 0 0 = 2 * q * (1 / 10) + sigma -
        riccatiGain r (1 / 10) sigma * (2 * r * (1 / 10) + 1 / 10 * sigma * (1 / 10)) *
          riccatiGain r (1 / 10) sigma := by
  obtain ⟨hs, hK, hst, hdata, huff, hx0⟩ := hd
  obtain ⟨S1, eS1, hS1⟩ := hS
  obtain ⟨A, B, P, R, Q, eA, eB, eP, eR, eQ, hA, hB, hP, hR, hQ⟩ := hdata k hk
  have hsK : StageSized s s.K_ := hK ▸ hs
  have hkK : k < s.K_ := hK ▸ hk
  obtain ⟨rv, B', sv1, P', S1', A', R', ⟨erv, eB', esv1, eP', eS1', eA', eR'⟩, hrun⟩ :=
    designController_eq_of_sized (sampleEigenLib 1) s k hsK hkK
  rw [eB] at eB'
  rw [eP] at eP'
  rw [eS1] at eS1'
  rw [eA] at eA'
  rw [eR] at eR'
  cases eB'
  cases eP'
  cases eS1'
  cases eA'
  cases eR'
  have hH : 0 < R 0 0 + B 0 0 * S1 0 0 * B 0 0 := by
    rw [hR, hB, hS1]
    positivity
  have heps : s.settings_.epsilon = 0 := by
    rw [hst]
    rfl
  obtain ⟨hHi, hL⟩ := designControllerStage_scalar s.settings_ heps rv B sv1 P S1 A R
    s.du_norm_ s.smallestEigenvalue_ s.smallestEigenvalueIteration_ hH
  generalize designControllerStage (sampleEigenLib 1) s.settings_ rv B sv1 P S1 A R
    s.du_norm_ s.smallestEigenvalue_ s.smallestEigenvalueIteration_ = c at hrun hHi hL
  obtain ⟨⟨hA_, hB_, hu_, huff_, huffp_, hd_, hgv_, hG_⟩,
    ⟨hH_, hHi_, hHinv_, hlv_, hL_, hP_, hrv_, hR_⟩,
    ⟨hx_, hxS_, hlx_, hq_, hqv_, hQ_, hsv_, hS_⟩⟩ := hs
  have hk1 : k < 10 + 1 := Nat.lt_succ_of_lt hk
  obtain ⟨qv, eqv⟩ := exists_getElem?_of_length s.qv_ hqv_ hk1
  obtain ⟨dk, edk⟩ := exists_getElem?_of_length s.d_ hd_ hk
  have hcost := computeCostToGo_eq
    { s with gv_ := s.gv_.set k c.gv, G_ := s.G_.set k c.G, H_ := s.H_.set k c.H,
             Hi_ := s.Hi_.set k c.Hi, Hi_inverse_ := s.Hi_inverse_.set k c.Hi_inverse,
             L_ := s.L_.set k c.L, lv_ := s.lv_.set k c.lv, du_norm_ := c.du_norm,
             smallestEigenvalue_ := c.smallestEigenvalue,
             smallestEigenvalueIteration_ := c.smallestEigenvalueIteration } k
    eQ eA eS1
    (List.getElem?_set_eq_of_lt _ (hL_ ▸ hk)) (List.getElem?_set_eq_of_lt _ (hHi_ ▸ hk))
    eqv esv1 edk (List.getElem?_set_eq_of_lt _ (hlv_ ▸ hk))
    (List.getElem?_set_eq_of_lt _ (hgv_ ▸ hk)) (List.getElem?_set_eq_of_lt _ (hG_ ▸ hk))
    (hS_ ▸ hk1) (hsv_ ▸ hk1)
  refine ⟨_, _, c.L, costToGoHessian Q A S1 c.L c.Hi, hrun, hcost, ?_, rfl, ?_, rfl, ?_⟩
  · refine ⟨⟨⟨hA_, hB_, hu_, huff_, huffp_, hd_, ?_, ?_⟩, ⟨?_, ?_, ?_, ?_, ?_, hP_, hrv_, hR_⟩,
      ⟨hx_, hxS_, hlx_, hq_, hqv_, hQ_, ?_, ?_⟩⟩, hK, hst, hdata, huff, hx0⟩
    · exact (List.length_set _ _ _).trans hgv_
    · exact (List.length_set _ _ _).trans hG_
    · exact (List.length_set _ _ _).trans hH_
    · exact (List.length_set _ _ _).trans hHi_
    · exact (List.length_set _ _ _).trans hHinv_
    · exact (List.length_set _ _ _).trans hlv_
    · exact (List.length_set _ _ _).trans hL_
    · exact (List.length_set _ _ _).trans hsv_
    · exact (List.length_set _ _ _).trans hS_
  · rw [hL, hP, hB, hS1, hA, hR, riccatiGain]
    congr 1
    · ring
    · ring
  · rw [costToGoHessian_scalar, hL, hHi, hQ, hA, hP, hB, hS1, hR, riccatiGain]
    ring

/-! ### The scalar scenario: the backward pass -/

theorem backwardSweep_scalar (q r qT : ℚ) (fixed : Bool) (hq : 0 < q) (hr : 0 < r)
    (hqT : 0 < qT) :
    ∀ (k : Nat) (s : GNMSBase ℚ 1 1), k ≤ 10 → ScenarioData q r fixed s →
      (∃ S, s.S_[k]? = some S ∧ S 0 0 = riccatiSeq q r qT (1 / 10) (10 - k)) →
      (∀ j, k ≤ j → j < 10 → ∃ L, s.L_[j]? = some L ∧
        L 0 0 = riccatiGain r (1 / 10) (riccatiSeq q r qT (1 / 10) (10 - j - 1))) →
      ∃ s', backwardSweep (sampleEigenLib 1) k s = .ret () s' ∧ ScenarioData q r fixed s' ∧
        ∀ j, j < 10 → ∃ L, s'.L_[j]? = some L ∧
          L 0 0 = riccatiGain r (1 / 10) (riccatiSeq q r qT (1 / 10) (10 - j - 1)) := by
  intro k
  induction k with
  | zero =>
    intro s _ hd _ hL
    exact ⟨s, rfl, hd, fun j hj => hL j (Nat.zero_le j) hj⟩
  | succ k ih =>
    intro s hk hd hS hL
    have hk' : k < 10 := hk
    have hpos := riccatiSeq_pos q r qT (1 / 10) hq hr hqT (by norm_num) (10 - (k + 1))
    obtain ⟨s2, s3, L, S, hrun1, hrun2, hd3, eL3, hLk, eS3, hSk⟩ :=
      backwardStage_scalar q r fixed s k _ hd hk' hr hpos hS
    obtain ⟨⟨-, ⟨-, -, -, -, hL_, -⟩, ⟨-, -, -, -, -, -, -, hS_⟩⟩, -⟩ := hd
    have hlenL : k < s.L_.length := hL_ ▸ hk'
    have hlenS : k < s.S_.length := hS_ ▸ Nat.lt_succ_of_lt hk'
    have hidx : 10 - k = (10 - (k + 1)) + 1 := by omega
    obtain ⟨s', hsweep, hd', hall⟩ := ih s3 (Nat.le_of_lt hk') hd3
      ⟨S, by rw [eS3]; exact List.getElem?_set_eq_of_lt _ hlenS, by
        rw [hSk, hidx, riccatiSeq]⟩
      (by
        intro j hkj hj
        by_cases hjk : j = k
        · subst hjk
          refine ⟨L, by rw [eL3]; exact List.getElem?_set_eq_of_lt _ hlenL, ?_⟩
          rw [hLk, show 10 - j - 1 = 10 - (j + 1) by omega]
        · obtain ⟨L', eL', hL'⟩ := hL j (by omega) hj
          refine ⟨L', ?_, hL'⟩
          rw [eL3, List.getElem?_set_ne (Ne.symm hjk)]
          exact eL')
    refine ⟨s', ?_, hd', hall⟩
    rw [backwardSweep, hrun1]
    simp only []
    rw [hrun2]
    exact hsweep

theorem getElem?_replicate_of_lt {α : Type} (a : α) {k len : Nat} (h : k < len) :
    (List.replicate len a)[k]? = some a := by
  rw [List.getElem?_replicate, if_pos h]

theorem scenarioData_scenarioSolver (q r : ℚ) (fixed : Bool) :
    ScenarioData q r fixed (scenarioSolver q r fixed) := by
  refine ⟨by simp [StageSized, scenarioSolver, zeroSolver], rfl, rfl, ?_, ?_, rfl⟩
  · intro k hk
    refine ⟨1, fun _ _ => 1 / 10, 0, fun _ _ => 1 / 10 * (2 * r), fun _ _ => 1 / 10 * (2 * q),
      ?_, ?_, ?_, ?_, ?_, rfl, rfl, rfl, rfl, rfl⟩
    · exact getElem?_replicate_of_lt _ hk
    · exact getElem?_replicate_of_lt _ hk
    · exact getElem?_replicate_of_lt _ hk
    · exact getElem?_replicate_of_lt _ hk
    · exact getElem?_replicate_of_lt _ (Nat.lt_succ_of_lt hk)
  · intro k hk
    exact getElem?_replicate_of_lt _ hk

theorem backwardPass_scalar (q r qT : ℚ) (fixed : Bool) (hq : 0 < q) (hr : 0 < r)
    (hqT : 0 < qT) :
    ∃ s1 s2, initializeCostToGo (quadraticCost q r qT) (scenarioSolver q r fixed) = .ret () s1 ∧
      backwardSweep (sampleEigenLib 1) 10 s1 = .ret () s2 ∧ ScenarioData q r fixed s2 ∧
      ∀ j, j < 10 → ∃ L, s2.L_[j]? = some L ∧
        L 0 0 = riccatiGain r (1 / 10) (riccatiSeq q r qT (1 / 10) (10 - j - 1)) := by
  obtain ⟨hs, hK, hst, hdata, huff, hx0⟩ := scenarioData_scenarioSolver q r fixed
  obtain ⟨x, -, hinit⟩ := initializeCostToGo_eq_of_sized (quadraticCost q r qT)
    (scenarioSolver q r fixed) hs
  obtain ⟨g1, g2, ⟨hx_, hxS_, hlx_, hq_, hqv_, hQ_, hsv_, hS_⟩⟩ := hs
  have hK10 : (scenarioSolver q r fixed).K_ = 10 := rfl
  rw [hK10] at hinit
  have hd1 : ScenarioData q r fixed
      { scenarioSolver q r fixed with
        q_ := (scenarioSolver q r fixed).q_.set 10 ((quadraticCost q r qT).evaluateTerminal x 0
          ((scenarioSolver q r fixed).settings_.dt * ((10 : Nat) : ℚ)))
        qv_ := (scenarioSolver q r fixed).qv_.set 10
          ((quadraticCost q r qT).stateDerivativeTerminal x 0
            ((scenarioSolver q r fixed).settings_.dt * ((10 : Nat) : ℚ)))
        Q_ := (scenarioSolver q r fixed).Q_.set 10
          ((quadraticCost q r qT).stateSecondDerivativeTerminal x 0
            ((scenarioSolver q r fixed).settings_.dt * ((10 : Nat) : ℚ)))
        S_ := (scenarioSolver q r fixed).S_.set 10
          ((quadraticCost q r qT).stateSecondDerivativeTerminal x 0
            ((scenarioSolver q r fixed).settings_.dt * ((10 : Nat) : ℚ)))
        sv_ := (scenarioSolver q r fixed).sv_.set 10
          ((quadraticCost q r qT).stateDerivativeTerminal x 0
            ((scenarioSolver q r fixed).settings_.dt * ((10 : Nat) : ℚ))) } := by
    refine ⟨⟨g1, g2, ⟨hx_, hxS_, hlx_, ?_, ?_, ?_, ?_, ?_⟩⟩, hK, hst, ?_, huff, hx0⟩
    · exact (List.length_set _ _ _).trans hq_
    · exact (List.length_set _ _ _).trans hqv_
    · exact (List.length_set _ _ _).trans hQ_
    · exact (List.length_set _ _ _).trans hsv_
    · exact (List.length_set _ _ _).trans hS_
    · intro k hk
      obtain ⟨A, B, P, R, Q, eA, eB, eP, eR, eQ, h⟩ := hdata k hk
      refine ⟨A, B, P, R, Q, eA, eB, eP, eR, ?_, h⟩
      have : ((scenarioSolver q r fixed).Q_.set 10
          ((quadraticCost q r qT).stateSecondDerivativeTerminal x 0
            ((scenarioSolver q r fixed).settings_.dt * ((10 : Nat) : ℚ))))[k]? =
          (scenarioSolver q r fixed).Q_[k]? :=
        List.getElem?_set_ne (by omega)
      exact this.trans eQ
  obtain ⟨s2, hsweep, hd2, hall⟩ := backwardSweep_scalar q r qT fixed hq hr hqT 10 _
    (Nat.le_refl 10) hd1
    ⟨_, List.getElem?_set_eq_of_lt _ (hS_ ▸ Nat.lt_succ_self 10), rfl⟩
    (fun j hj hj' => absurd hj (Nat.not_le.mpr hj'))
  exact ⟨_, s2, hinit, hsweep, hd2, hall⟩

/-! ### The scalar scenario: the rollout -/

theorem rolloutLoop_scalar_step (dt : ℚ) (K : Nat) (L_ : List (Matrix (Fin 1) (Fin 1) ℚ))
    (u_ff : List (Fin 1 → ℚ)) (rem i : Nat) (x0 : Fin 1 → ℚ) (b : RolloutBuffers ℚ 1 1)
    (L : Matrix (Fin 1) (Fin 1) ℚ) (hL : L_[i]? = some L) (hu : u_ff[i]? = some 0)
    (hx : b.x_local.length = i + 1) (hul : b.u_local.length = i)
    (hlast : b.x_local[i]? = some x0) :
    rolloutLoop (fun _ => false) scalarIntegrators .EULER dt 1 K L_ u_ff none (rem + 1) i x0 b =
      rolloutLoop (fun _ => false) scalarIntegrators .EULER dt 1 K L_ u_ff none rem (i + 1)
        (scalarIntegrators.integratorsEuler_ (ctrlAdd 0 (gainTimes L x0)) x0
          (((i * 1 + 0 : Nat) : ℚ) * dt) dt)
        { x_local := b.x_local ++ [scalarIntegrators.integratorsEuler_
            (ctrlAdd 0 (gainTimes L x0)) x0 (((i * 1 + 0 : Nat) : ℚ) * dt) dt],
          u_local := b.u_local ++ [ctrlAdd 0 (gainTimes L x0)],
          t_local := b.t_local ++ [((i + 1 : Nat) : ℚ) * dt],
          calls := b.calls ++ [⟨i, ((i * 1 + 0 : Nat) : ℚ) * dt, dt,
            ctrlAdd 0 (gainTimes L x0)⟩] } := by
  have h1 : (b.x_local ++ [scalarIntegrators.integratorsEuler_
      (ctrlAdd 0 (gainTimes L x0)) x0 (((i * 1 + 0 : Nat) : ℚ) * dt) dt])[i]? = some x0 := by
    rw [List.getElem?_append_left (by omega)]
    exact hlast
  have h2 : (b.u_local ++ [ctrlAdd 0 (gainTimes L x0)])[i]? =
      some (ctrlAdd 0 (gainTimes L x0)) := by
    rw [List.getElem?_append_right (by omega), hul, Nat.sub_self]
    rfl
  rw [rolloutLoop_succ]
  simp only [flagAt, Bool.false_eq_true, if_false, hL, hu, microSteps, integrateStep, h1, h2,
    anyNaN, List.any_eq_true, exists_false, and_false]

theorem ctrlAdd_gainTimes_scalar (L : Matrix (Fin 1) (Fin 1) ℚ) (x : Fin 1 → ℚ) :
    ctrlAdd 0 (gainTimes L x) 0 = L 0 0 * x 0 := by
  simp [ctrlAdd, gainTimes, List.finRange]

theorem rolloutLoop_scalar (dt : ℚ) (K : Nat) (L_ : List (Matrix (Fin 1) (Fin 1) ℚ))
    (u_ff : List (Fin 1 → ℚ)) (ell : Nat → ℚ)
    (hL : ∀ k, k < K → ∃ L, L_[k]? = some L ∧ L 0 0 = ell k)
    (hu : ∀ k, k < K → u_ff[k]? = some 0) :
    ∀ (rem i : Nat) (x0 : Fin 1 → ℚ) (b : RolloutBuffers ℚ 1 1), i + rem = K →
      b.x_local.length = i + 1 → b.u_local.length = i → b.x_local[i]? = some x0 →
      ∃ b', rolloutLoop (fun _ => false) scalarIntegrators .EULER dt 1 K L_ u_ff none rem i x0 b
          = .ret true b' ∧
        b'.x_local.length = K + 1 ∧ b'.u_local.length = K ∧
        (∀ k, k ≤ i → b'.x_local[k]? = b.x_local[k]?) ∧
        (∀ k, k < i → b'.u_local[k]? = b.u_local[k]?) ∧
        (∀ k, i ≤ k → k < K → ∃ xk uk xk1, b'.x_local[k]? = some xk ∧
          b'.u_local[k]? = some uk ∧ b'.x_local[k + 1]? = some xk1 ∧
          uk 0 = ell k * xk 0 ∧ xk1 0 = xk 0 + dt * uk 0) := by
  intro rem
  induction rem with
  | zero =>
    intro i x0 b hi hx hul _
    have hiK : i = K := by omega
    subst hiK
    refine ⟨b, ?_, hx, hul, fun _ _ => rfl, fun _ _ => rfl, fun k h1 h2 => by omega⟩
    show rolloutEpilogue i b = .ret true b
    unfold rolloutEpilogue
    rw [if_neg (not_not.mpr hx), if_neg (not_not.mpr hul)]
  | succ rem ih =>
    intro i x0 b hi hx hul hlast
    have hiK : i < K := by omega
    obtain ⟨L, eL, hLi⟩ := hL i hiK
    rw [rolloutLoop_scalar_step dt K L_ u_ff rem i x0 b L eL (hu i hiK) hx hul hlast]
    have hu0 : ctrlAdd 0 (gainTimes L x0) 0 = ell i * x0 0 := by
      rw [ctrlAdd_gainTimes_scalar, hLi]
    generalize ctrlAdd 0 (gainTimes L x0) = u at hu0 ⊢
    have hx1 : scalarIntegrators.integratorsEuler_ u x0 (((i * 1 + 0 : Nat) : ℚ) * dt) dt 0 =
        x0 0 + dt * u 0 := rfl
    generalize scalarIntegrators.integratorsEuler_ u x0 (((i * 1 + 0 : Nat) : ℚ) * dt) dt = x1
      at hx1 ⊢
    have e1 : (b.x_local ++ [x1])[i + 1]? = some x1 := by
      rw [List.getElem?_append_right (by omega), hx, Nat.sub_self]
      rfl
    have e2 : (b.x_local ++ [x1])[i]? = some x0 := by
      rw [List.getElem?_append_left (by omega)]
      exact hlast
    have e3 : (b.u_local ++ [u])[i]? = some u := by
      rw [List.getElem?_append_right (by omega), hul, Nat.sub_self]
      rfl
    obtain ⟨b', hrun, hx', hu', hpx, hpu, hlaw⟩ := ih (i + 1) x1
      { x_local := b.x_local ++ [x1], u_local := b.u_local ++ [u],
        t_local := b.t_local ++ [((i + 1 : Nat) : ℚ) * dt],
        calls := b.calls ++ [⟨i, ((i * 1 + 0 : Nat) : ℚ) * dt, dt, u⟩] } (by omega)
      (by simp only [List.length_append, List.length_singleton, hx])
      (by simp only [List.length_append, List.length_singleton, hul])
      e1
    refine ⟨b', hrun, hx', hu', ?_, ?_, ?_⟩
    · intro k hk
      rw [hpx k (by omega)]
      exact List.getElem?_append_left (by omega)
    · intro k hk
      rw [hpu k (by omega)]
      exact List.getElem?_append_left (by omega)
    · intro k hik hkK
      by_cases hki : k = i
      · subst hki
        exact ⟨x0, u, x1, (hpx k (by omega)).trans e2, (hpu k (by omega)).trans e3,
          (hpx (k + 1) (Nat.le_refl _)).trans e1, hu0, hx1⟩
      · exact hlaw k (by omega) hkK

/-! ### The scalar scenario: the cost of a trajectory -/

theorem intermediateCostLoop_scalar (q r qT dt : ℚ) (K : Nat) (x_local u_local : List (Fin 1 → ℚ))
    (ell c : Nat → ℚ)
    (htraj : ∀ k, k < K → ∃ xk uk xk1, x_local[k]? = some xk ∧ u_local[k]? = some uk ∧
      x_local[k + 1]? = some xk1 ∧ uk 0 = ell k * xk 0 ∧ xk1 0 = xk 0 + dt * uk 0)
    (hid : ∀ k, k < K → dt * (q + r * ell k ^ 2) + c (k + 1) * (1 + dt * ell k) ^ 2 = c k) :
    ∀ (rem k : Nat) (acc : ℚ) (xk : Fin 1 → ℚ), k + rem = K → x_local[k]? = some xk →
      ∃ acc' xK, intermediateCostLoop (quadraticCost q r qT) dt x_local u_local rem k acc
          = some acc' ∧
        x_local[K]? = some xK ∧ acc' * dt + c K * xK 0 ^ 2 = acc * dt + c k * xk 0 ^ 2 := by
  intro rem
  induction rem with
  | zero =>
    intro k acc xk hk hx
    have hkK : k = K := by omega
    subst hkK
    exact ⟨acc, xk, rfl, hx, rfl⟩
  | succ rem ih =>
    intro k acc xk hk hx
    have hkK : k < K := by omega
    obtain ⟨xk', uk, xk1, e1, e2, e3, hu, hx1⟩ := htraj k hkK
    rw [hx] at e1
    cases e1
    obtain ⟨acc', xK, hrun, hxK, hval⟩ := ih (k + 1)
      (acc + (quadraticCost q r qT).evaluateIntermediate xk uk (dt * (k : ℚ))) xk1 (by omega) e3
    refine ⟨acc', xK, ?_, hxK, ?_⟩
    · rw [intermediateCostLoop]
      simp only [hx, e2]
      exact hrun
    · rw [hval]
      simp only [quadraticCost]
      rw [hx1, hu]
      linear_combination (xk 0 ^ 2) * hid k hkK

theorem computeCostsOfTrajectory_scalar (q r qT : ℚ) (s : GNMSBase ℚ 1 1)
    (x_local u_local : List (Fin 1 → ℚ)) (ell c : Nat → ℚ) (x0 : Fin 1 → ℚ)
    (hx0 : x_local[0]? = some x0)
    (htraj : ∀ k, k < s.K_ → ∃ xk uk xk1, x_local[k]? = some xk ∧ u_local[k]? = some uk ∧
      x_local[k + 1]? = some xk1 ∧ uk 0 = ell k * xk 0 ∧
      xk1 0 = xk 0 + s.settings_.dt * uk 0)
    (hid : ∀ k, k < s.K_ →
      s.settings_.dt * (q + r * ell k ^ 2) + c (k + 1) * (1 + s.settings_.dt * ell k) ^ 2 = c k)
    (hcK : c s.K_ = qT) :
    ∃ Ji Jf, computeCostsOfTrajectory (quadraticCost q r qT) s x_local u_local = some (Ji, Jf) ∧
      Ji + Jf = c 0 * x0 0 ^ 2 := by
  obtain ⟨acc', xK, hrun, hxK, hval⟩ := intermediateCostLoop_scalar q r qT s.settings_.dt s.K_
    x_local u_local ell c htraj hid s.K_ 0 0 x0 (Nat.zero_add _) hx0
  refine ⟨acc' * s.settings_.dt, qT * xK 0 ^ 2, ?_, ?_⟩
  · unfold computeCostsOfTrajectory
    rw [hrun]
    simp only [hxK]
    rfl
  · rw [hcK] at hval
    rw [hval]
    ring

/-! ### The scalar scenario: one backward pass and one forward pass -/

theorem initialGuess_cost_scalar (q r qT : ℚ) (fixed : Bool) :
    ∃ Ji Jf, computeCostsOfTrajectory (quadraticCost q r qT) (scenarioSolver q r fixed)
        (scenarioSolver q r fixed).x_ (scenarioSolver q r fixed).u_ = some (Ji, Jf) ∧
      Ji + Jf = q + qT := by
  obtain ⟨Ji, Jf, hrun, hsum⟩ := computeCostsOfTrajectory_scalar q r qT
    (scenarioSolver q r fixed) (scenarioSolver q r fixed).x_ (scenarioSolver q r fixed).u_
    (fun _ => 0) (fun k => q * (1 / 10) * (10 - (k : ℚ)) + qT) (fun _ => 1)
    (getElem?_replicate_of_lt _ (by norm_num))
    (by
      intro k hk
      have hk' : k < 10 := hk
      refine ⟨fun _ => 1, 0, fun _ => 1, getElem?_replicate_of_lt _ (Nat.lt_succ_of_lt hk'),
        getElem?_replicate_of_lt _ hk', getElem?_replicate_of_lt _ (Nat.succ_lt_succ hk'), ?_, ?_⟩
      · simp
      · simp)
    (by
      intro k _
      have hdt : (scenarioSolver q r fixed).settings_.dt = 1 / 10 := rfl
      rw [hdt]
      push_cast
      ring)
    (by
      have hK : (scenarioSolver q r fixed).K_ = 10 := rfl
      rw [hK]
      push_cast
      ring)
  refine ⟨Ji, Jf, hrun, ?_⟩
  rw [hsum]
  push_cast
  ring

theorem rollout_cost_scalar (q r qT : ℚ) (fixed : Bool) (hq : 0 < q) (hr : 0 < r)
    (hqT : 0 < qT) (s2 : GNMSBase ℚ 1 1) (hd : ScenarioData q r fixed s2)
    (hL : ∀ j, j < 10 → ∃ L, s2.L_[j]? = some L ∧
      L 0 0 = riccatiGain r (1 / 10) (riccatiSeq q r qT (1 / 10) (10 - j - 1))) :
    ∃ b Ji Jf,
      rolloutSystem (fun _ => false) scalarIntegrators s2.settings_.integrator s2.settings_.dt
        s2.settings_.dt_sim s2.K_ s2.L_ s2.u_ff_
        { x_local := s2.x_, u_local := s2.u_, t_local := [], calls := [] } none = .ret true b ∧
      computeCostsOfTrajectory (quadraticCost q r qT) s2 b.x_local b.u_local = some (Ji, Jf) ∧
      Ji + Jf = riccatiSeq q r qT (1 / 10) 10 / 2 := by
  obtain ⟨hs, hK, hst, -, huff, hx0⟩ := hd
  have hint : s2.settings_.integrator = .EULER := by rw [hst]; rfl
  have hdt : s2.settings_.dt = 1 / 10 := by rw [hst]; rfl
  have hdts : s2.settings_.dt_sim = 1 / 10 := by rw [hst]; rfl
  have hsub : substeps (1 / 10) (1 / 10) = 1 := by simp [substeps]
  obtain ⟨b, hloop, -, -, hpx, -, hlaw⟩ := rolloutLoop_scalar (1 / 10) 10 s2.L_ s2.u_ff_
    (fun j => riccatiGain r (1 / 10) (riccatiSeq q r qT (1 / 10) (10 - j - 1))) hL huff
    10 0 (fun _ => 1)
    { x_local := [fun _ => 1], u_local := [], t_local := [0], calls := [] } (Nat.zero_add _)
    rfl rfl rfl
  have hroll : rolloutSystem (fun _ => false) scalarIntegrators s2.settings_.integrator
      s2.settings_.dt s2.settings_.dt_sim s2.K_ s2.L_ s2.u_ff_
      { x_local := s2.x_, u_local := s2.u_, t_local := [], calls := [] } none = .ret true b := by
    rw [rolloutSystem_eq_loop _ _ _ _ _ _ _ _ _ _ (fun _ => 1) hx0, hint, hdt, hdts, hK, hsub]
    exact hloop
  obtain ⟨Ji, Jf, hcost, hsum⟩ := computeCostsOfTrajectory_scalar q r qT s2 b.x_local b.u_local
    (fun j => riccatiGain r (1 / 10) (riccatiSeq q r qT (1 / 10) (10 - j - 1)))
    (fun k => riccatiSeq q r qT (1 / 10) (10 - k) / 2) (fun _ => 1)
    ((hpx 0 (Nat.le_refl 0)).trans rfl)
    (by
      intro k hk
      rw [hdt]
      exact hlaw k (Nat.zero_le k) (hK ▸ hk))
    (by
      intro k hk
      have hk' : k < 10 := hK ▸ hk
      have hpos := riccatiSeq_pos q r qT (1 / 10) hq hr hqT (by norm_num) (10 - k - 1)
      have hid := riccati_value_identity q r (1 / 10) _ hr (by norm_num) hpos
      have h1 : 10 - (k + 1) = 10 - k - 1 := by omega
      have h2 : 10 - k = (10 - k - 1) + 1 := by omega
      rw [hdt]
      simp only []
      rw [h1]
      nth_rewrite 4 [h2]
      rw [riccatiSeq]
      exact hid)
    (by
      rw [hK]
      simp only [Nat.sub_self, riccatiSeq]
      ring)
  refine ⟨b, Ji, Jf, hroll, hcost, ?_⟩
  rw [hsum]
  simp

/-- C22: for the scalar system with derivative `u` (`A_[k] = 1`, `B_[k] = dt`), the cost
`q x^2 + r u^2` with terminal cost `qT x^2` and positive weights, ten stages,
`dt = dt_sim = 1/10`, `epsilon = 0`, either regularization policy, exact Eigen routines, and
the initial guess `x = 1`, `u = 0`: the per-stage code of one backward pass
(`initializeCostToGo`, then `designController` and `computeCostToGo` for the stages
`9, ..., 0`) returns and leaves ten gains in `L_`; `rolloutSystem` from `x_[0] = 1` under
these gains and the stored feedforward controls returns `true`; and the cost
`computeCostsOfTrajectory` gives for the rolled-out trajectory is strictly below the cost
it gives for the initial guess. -/
theorem scalar_scenario_improves (q r qT : ℚ) (hq : 0 < q) (hr : 0 < r) (hqT : 0 < qT)
    (fixed : Bool) :
    ∃ J0i J0f s1 s2 b J1i J1f,
      computeCostsOfTrajectory (quadraticCost q r qT) (scenarioSolver q r fixed)
        (scenarioSolver q r fixed).x_ (scenarioSolver q r fixed).u_ = some (J0i, J0f) ∧
      initializeCostToGo (quadraticCost q r qT) (scenarioSolver q r fixed) = .ret () s1 ∧
      backwardSweep (sampleEigenLib 1) (scenarioSolver q r fixed).K_ s1 = .ret () s2 ∧
      s2.L_.length = 10 ∧
      rolloutSystem (fun _ => false) scalarIntegrators s2.settings_.integrator s2.settings_.dt
        s2.settings_.dt_sim s2.K_ s2.L_ s2.u_ff_
        { x_local := s2.x_, u_local := s2.u_, t_local := [], calls := [] } none = .ret true b ∧
      computeCostsOfTrajectory (quadraticCost q r qT) s2 b.x_local b.u_local =
        some (J1i, J1f) ∧
      J1i + J1f < J0i + J0f := by
  obtain ⟨J0i, J0f, hcost0, hsum0⟩ := initialGuess_cost_scalar q r qT fixed
  obtain ⟨s1, s2, hinit, hsweep, hd2, hL⟩ := backwardPass_scalar q r qT fixed hq hr hqT
  obtain ⟨b, J1i, J1f, hroll, hcost1, hsum1⟩ :=
    rollout_cost_scalar q r qT fixed hq hr hqT s2 hd2 hL
  refine ⟨J0i, J0f, s1, s2, b, J1i, J1f, hcost0, hinit, hsweep, hd2.1.2.1.2.2.2.2.1, hroll,
    hcost1, ?_⟩
  rw [hsum0, hsum1]
  have h := riccatiSeq_lt q r qT (1 / 10) hq hr hqT (by norm_num) 9
  norm_num at h
  linarith

theorem scalar_scenario_improves_witness :
    (0 : ℚ) < 1 ∧
    ∃ J0i J0f s1 s2 b J1i J1f,
      computeCostsOfTrajectory (quadraticCost 1 1 1) (scenarioSolver 1 1 true)
        (scenarioSolver 1 1 true).x_ (scenarioSolver 1 1 true).u_ = some (J0i, J0f) ∧
      initializeCostToGo (quadraticCost 1 1 1) (scenarioSolver 1 1 true) = .ret () s1 ∧
      backwardSweep (sampleEigenLib 1) (scenarioSolver 1 1 true).K_ s1 = .ret () s2 ∧
      s2.L_.length = 10 ∧
      rolloutSystem (fun _ => false) scalarIntegrators s2.settings_.integrator s2.settings_.dt
        s2.settings_.dt_sim s2.K_ s2.L_ s2.u_ff_
        { x_local := s2.x_, u_local := s2.u_, t_local := [], calls := [] } none = .ret true b ∧
      computeCostsOfTrajectory (quadraticCost 1 1 1) s2 b.x_local b.u_local =
        some (J1i, J1f) ∧
      J1i + J1f < J0i + J0f :=
  ⟨zero_lt_one, scalar_scenario_improves 1 1 1 zero_lt_one zero_lt_one zero_lt_one true⟩

/-! ### The scalar scenario: the initial solver is its own linear-quadratic approximation -/

theorem forwardSweep_of_fixed (f : GNMSBase F n m → Nat → Outcome (GNMSBase F n m) Unit)
    (s : GNMSBase F n m) (K : Nat) (h : ∀ k, k < K → f s k = .ret () s) :
    ∀ rem k, k + rem ≤ K → forwardSweep f rem k s = .ret () s := by
  intro rem
  induction rem with
  | zero =>
    intro k _
    rfl
  | succ rem ih =>
    intro k hk
    rw [forwardSweep_succ f rem k s s (h k (by omega))]
    exact ih (k + 1) (by omega)

/-- The solver `scenarioSolver` holds what the per-stage code computes around the initial
guess: for every stage `k < 10`, linearizing the system with derivative `u`, approximating
`quadraticCost`, integrating the shot under the control `0` and computing the defect all
return the solver unchanged. -/
theorem scenarioSolver_fixed (q r qT : ℚ) (fixed : Bool) (k : Nat) (hk : k < 10) :
    computeLinearizedDynamics (sampleEigenLib 1) (constantLinearSystem 1 1 0 1)
      (scenarioSolver q r fixed) k = .ret () (scenarioSolver q r fixed) ∧
    computeQuadraticCosts (quadraticCost q r qT) (scenarioSolver q r fixed) k =
      .ret () (scenarioSolver q r fixed) ∧
    initializeSingleShot scalarIntegrators (scenarioSolver q r fixed).settings_.dt_sim 0
      (scenarioSolver q r fixed) k = .ret () (scenarioSolver q r fixed) ∧
    computeSingleDefect (scenarioSolver q r fixed) k = .ret () (scenarioSolver q r fixed) := by
  have hs : StageSized (scenarioSolver q r fixed) (scenarioSolver q r fixed).K_ :=
    (scenarioData_scenarioSolver q r fixed).1
  have hkK : k < (scenarioSolver q r fixed).K_ := hk
  have hk1 : k < 11 := Nat.lt_succ_of_lt hk
  have ex : (scenarioSolver q r fixed).x_[k]? = some (fun _ => 1) :=
    getElem?_replicate_of_lt _ hk1
  have ex1 : (scenarioSolver q r fixed).x_[k + 1]? = some (fun _ => 1) :=
    getElem?_replicate_of_lt _ (Nat.succ_lt_succ hk)
  have eu : (scenarioSolver q r fixed).u_[k]? = some 0 := getElem?_replicate_of_lt _ hk
  have exS : (scenarioSolver q r fixed).xShot_[k]? = some (fun _ => 1) :=
    getElem?_replicate_of_lt _ hk1
  have eA : (scenarioSolver q r fixed).A_[k]? = some 1 := getElem?_replicate_of_lt _ hk
  have eB : (scenarioSolver q r fixed).B_[k]? = some (fun _ _ => 1 / 10) :=
    getElem?_replicate_of_lt _ hk
  have eq_ : (scenarioSolver q r fixed).q_[k]? = some (q * (1 / 10)) :=
    getElem?_replicate_of_lt _ hk1
  have eqv : (scenarioSolver q r fixed).qv_[k]? = some (fun _ => 1 / 10 * (2 * q)) :=
    getElem?_replicate_of_lt _ hk1
  have eQ : (scenarioSolver q r fixed).Q_[k]? = some (fun _ _ => 1 / 10 * (2 * q)) :=
    getElem?_replicate_of_lt _ hk1
  have eP : (scenarioSolver q r fixed).P_[k]? = some 0 := getElem?_replicate_of_lt _ hk
  have erv : (scenarioSolver q r fixed).rv_[k]? = some 0 := getElem?_replicate_of_lt _ hk
  have eR : (scenarioSolver q r fixed).R_[k]? = some (fun _ _ => 1 / 10 * (2 * r)) :=
    getElem?_replicate_of_lt _ hk
  have ed : (scenarioSolver q r fixed).d_[k]? = some 0 := getElem?_replicate_of_lt _ hk
  have hdt : (scenarioSolver q r fixed).settings_.dt = 1 / 10 := rfl
  refine ⟨?_, ?_, ?_, ?_⟩
  · have hstage : linearizedDynamicsStage (sampleEigenLib 1) (constantLinearSystem 1 1 0 1)
        (scenarioSolver q r fixed).settings_ (fun _ => 1) 0 k =
        some (1, fun _ _ => 1 / 10) := by
      have hdisc : (scenarioSolver q r fixed).settings_.discretization = .FORWARD_EULER := rfl
      unfold linearizedDynamicsStage
      rw [hdisc]
      simp only [constantLinearSystem, hdt, smul_zero, add_zero, Option.some.injEq,
        Prod.mk.injEq, true_and]
      ext i j
      have hij : i = j := Subsingleton.elim _ _
      subst hij
      simp
    rw [computeLinearizedDynamics_of_stage (sampleEigenLib 1) (constantLinearSystem 1 1 0 1)
      (scenarioSolver q r fixed) k _ _ _ _ ex eu hstage
      ((scenarioData_scenarioSolver q r fixed).1.1.1 ▸ hk)
      ((scenarioData_scenarioSolver q r fixed).1.1.2.1 ▸ hk),
      list_set_of_getElem? _ _ _ eA, list_set_of_getElem? _ _ _ eB]
  · obtain ⟨x, u, ex', eu', hrun⟩ := computeQuadraticCosts_of_sized (quadraticCost q r qT)
      (scenarioSolver q r fixed) k hs hkK
    rw [ex] at ex'
    rw [eu] at eu'
    cases ex'
    cases eu'
    have v1 : (quadraticCost q r qT).evaluateIntermediate (fun _ => 1) 0
        ((scenarioSolver q r fixed).settings_.dt * (k : ℚ)) *
          (scenarioSolver q r fixed).settings_.dt = q * (1 / 10) := by
      simp [quadraticCost, hdt]
    have v2 : (scenarioSolver q r fixed).settings_.dt •
        (quadraticCost q r qT).stateDerivativeIntermediate (fun _ => 1) 0
          ((scenarioSolver q r fixed).settings_.dt * (k : ℚ)) =
        fun _ => 1 / 10 * (2 * q) := by
      ext i
      simp [quadraticCost, hdt]
    have v3 : (scenarioSolver q r fixed).settings_.dt •
        (quadraticCost q r qT).stateSecondDerivativeIntermediate (fun _ => 1) 0
          ((scenarioSolver q r fixed).settings_.dt * (k : ℚ)) =
        fun _ _ => 1 / 10 * (2 * q) := by
      ext i j
      simp [quadraticCost, hdt]
    have v4 : (scenarioSolver q r fixed).settings_.dt •
        (quadraticCost q r qT).stateControlDerivativeIntermediate (fun _ => 1) 0
          ((scenarioSolver q r fixed).settings_.dt * (k : ℚ)) = 0 := by
      simp [quadraticCost]
    have v5 : (scenarioSolver q r fixed).settings_.dt •
        (quadraticCost q r qT).controlDerivativeIntermediate (fun _ => 1) 0
          ((scenarioSolver q r fixed).settings_.dt * (k : ℚ)) = 0 := by
      ext i
      simp [quadraticCost]
    have v6 : (scenarioSolver q r fixed).settings_.dt •
        (quadraticCost q r qT).controlSecondDerivativeIntermediate (fun _ => 1) 0
          ((scenarioSolver q r fixed).settings_.dt * (k : ℚ)) =
        fun _ _ => 1 / 10 * (2 * r) := by
      ext i j
      simp [quadraticCost, hdt]
    rw [hrun, v1, v2, v3, v4, v5, v6, list_set_of_getElem? _ _ _ eq_,
      list_set_of_getElem? _ _ _ eqv, list_set_of_getElem? _ _ _ eQ,
      list_set_of_getElem? _ _ _ eP, list_set_of_getElem? _ _ _ erv,
      list_set_of_getElem? _ _ _ eR]
  · have hstep : integrateStep scalarIntegrators (scenarioSolver q r fixed).settings_.integrator
        0 (fun _ => 1) ((k : ℚ) * (scenarioSolver q r fixed).settings_.dt_sim)
        (scenarioSolver q r fixed).settings_.dt_sim = some (fun _ => 1) := by
      have hint : (scenarioSolver q r fixed).settings_.integrator = .EULER := rfl
      rw [hint]
      simp only [integrateStep, scalarIntegrators, Option.some.injEq]
      ext i
      simp
    rw [initializeSingleShot_eq scalarIntegrators _ 0 (scenarioSolver q r fixed) k ex
      ((scenarioData_scenarioSolver q r fixed).1.2.2.2.1 ▸ hk1) hstep,
      list_set_of_getElem? _ _ _ exS]
  · obtain ⟨xShot, xNext, e1, e2, hrun⟩ :=
      computeSingleDefect_of_sized (scenarioSolver q r fixed) k hs hkK
    rw [exS] at e1
    rw [ex1] at e2
    cases e1
    cases e2
    have v : ((fun _ => 1 : Fin 1 → ℚ) - fun _ => 1) = 0 := by
      ext i
      simp
    rw [hrun, v, list_set_of_getElem? _ _ _ ed]

/-- Run for the stages `0, ..., 9` in turn, the four work units that set up the
linear-quadratic problem leave `scenarioSolver` as it is. -/
theorem scenarioSolver_sweeps (q r qT : ℚ) (fixed : Bool) :
    forwardSweep (computeLinearizedDynamics (sampleEigenLib 1) (constantLinearSystem 1 1 0 1))
      10 0 (scenarioSolver q r fixed) = .ret () (scenarioSolver q r fixed) ∧
    forwardSweep (computeQuadraticCosts (quadraticCost q r qT)) 10 0 (scenarioSolver q r fixed) =
      .ret () (scenarioSolver q r fixed) ∧
    forwardSweep
      (initializeSingleShot scalarIntegrators (scenarioSolver q r fixed).settings_.dt_sim 0)
      10 0 (scenarioSolver q r fixed) = .ret () (scenarioSolver q r fixed) ∧
    forwardSweep computeSingleDefect 10 0 (scenarioSolver q r fixed) =
      .ret () (scenarioSolver q r fixed) :=
  ⟨forwardSweep_of_fixed _ _ 10 (fun k hk => (scenarioSolver_fixed q r qT fixed k hk).1) 10 0
      (Nat.le_refl _),
    forwardSweep_of_fixed _ _ 10 (fun k hk => (scenarioSolver_fixed q r qT fixed k hk).2.1) 10 0
      (Nat.le_refl _),
    forwardSweep_of_fixed _ _ 10 (fun k hk => (scenarioSolver_fixed q r qT fixed k hk).2.2.1)
      10 0 (Nat.le_refl _),
    forwardSweep_of_fixed _ _ 10 (fun k hk => (scenarioSolver_fixed q r qT fixed k hk).2.2.2)
      10 0 (Nat.le_refl _)⟩

/-! ### The quadratic approximation of the cost and its scaling -/

/-- C33: on a sized solver and for `k < K_`, `computeQuadraticCosts` returns and stores in
`q_[k]`, `qv_[k]`, `Q_[k]`, `P_[k]`, `rv_[k]`, `R_[k]` the products of `dt` with the cost
module's intermediate value, state gradient, state Hessian, cross derivative, control
gradient and control Hessian at `(x_[k], u_[k], dt * k)`; `initializeCostToGo` returns and
stores in `q_[K_]`, `qv_[K_]`, `Q_[K_]` the terminal value, gradient and Hessian at
`(x_[K_], 0, dt * K_)` as the cost module gives them, and `S_[K_] = Q_[K_]`,
`sv_[K_] = qv_[K_]`. -/
theorem quadraticCosts_scaling [Field F] (cost costT : CostFunction F n m)
    (s : GNMSBase F n m) (k : Nat) (hs : StageSized s s.K_) (hk : k < s.K_) :
    (∃ x u s', s.x_[k]? = some x ∧ s.u_[k]? = some u ∧
      computeQuadraticCosts cost s k = .ret () s' ∧
      s'.q_[k]? =
        some (s.settings_.dt * cost.evaluateIntermediate x u (s.settings_.dt * (k : F))) ∧
      s'.qv_[k]? =
        some (s.settings_.dt • cost.stateDerivativeIntermediate x u (s.settings_.dt * (k : F))) ∧
      s'.Q_[k]? = some (s.settings_.dt •
        cost.stateSecondDerivativeIntermediate x u (s.settings_.dt * (k : F))) ∧
      s'.P_[k]? = some (s.settings_.dt •
        cost.stateControlDerivativeIntermediate x u (s.settings_.dt * (k : F))) ∧
      s'.rv_[k]? = some (s.settings_.dt •
        cost.controlDerivativeIntermediate x u (s.settings_.dt * (k : F))) ∧
      s'.R_[k]? = some (s.settings_.dt •
        cost.controlSecondDerivativeIntermediate x u (s.settings_.dt * (k : F)))) ∧
    (∃ x s', s.x_[s.K_]? = some x ∧ initializeCostToGo costT s = .ret () s' ∧
      s'.q_[s.K_]? = some (costT.evaluateTerminal x 0 (s.settings_.dt * (s.K_ : F))) ∧
      s'.qv_[s.K_]? = some (costT.stateDerivativeTerminal x 0 (s.settings_.dt * (s.K_ : F))) ∧
      s'.Q_[s.K_]? =
        some (costT.stateSecondDerivativeTerminal x 0 (s.settings_.dt * (s.K_ : F))) ∧
      s'.S_[s.K_]? = s'.Q_[s.K_]? ∧ s'.sv_[s.K_]? = s'.qv_[s.K_]?) := by
  constructor
  · obtain ⟨x, u, ex, eu, hrun⟩ := computeQuadraticCosts_of_sized cost s k hs hk
    obtain ⟨-, ⟨-, -, -, -, -, hP, hrv, hR⟩, ⟨-, -, -, hq, hqv, hQ, -⟩⟩ := hs
    have hk1 : k < s.K_ + 1 := Nat.lt_succ_of_lt hk
    refine ⟨x, u, _, ex, eu, hrun, ?_, List.getElem?_set_eq_of_lt _ (hqv ▸ hk1),
      List.getElem?_set_eq_of_lt _ (hQ ▸ hk1), List.getElem?_set_eq_of_lt _ (hP ▸ hk),
      List.getElem?_set_eq_of_lt _ (hrv ▸ hk), List.getElem?_set_eq_of_lt _ (hR ▸ hk)⟩
    exact (List.getElem?_set_eq_of_lt _ (hq ▸ hk1)).trans (congrArg some (mul_comm _ _))
  · obtain ⟨x, ex, hrun⟩ := initializeCostToGo_eq_of_sized costT s hs
    obtain ⟨-, -, ⟨-, -, -, hq, hqv, hQ, hsv, hS⟩⟩ := hs
    have hK : s.K_ < s.K_ + 1 := Nat.lt_succ_self _
    have e1 := List.getElem?_set_eq_of_lt
      (costT.stateSecondDerivativeTerminal x 0 (s.settings_.dt * (s.K_ : F))) (hQ ▸ hK)
    have e2 := List.getElem?_set_eq_of_lt
      (costT.stateSecondDerivativeTerminal x 0 (s.settings_.dt * (s.K_ : F))) (hS ▸ hK)
    have e3 := List.getElem?_set_eq_of_lt
      (costT.stateDerivativeTerminal x 0 (s.settings_.dt * (s.K_ : F))) (hqv ▸ hK)
    have e4 := List.getElem?_set_eq_of_lt
      (costT.stateDerivativeTerminal x 0 (s.settings_.dt * (s.K_ : F))) (hsv ▸ hK)
    exact ⟨x, _, ex, hrun, List.getElem?_set_eq_of_lt _ (hq ▸ hK), e3, e1, e2.trans e1.symm,
      e4.trans e3.symm⟩

theorem quadraticCosts_scaling_witness :
    StageSized fixedSolver fixedSolver.K_ ∧ 0 < fixedSolver.K_ ∧
    (∃ x u s', fixedSolver.x_[0]? = some x ∧ fixedSolver.u_[0]? = some u ∧
      computeQuadraticCosts (quadraticCost 1 1 1) fixedSolver 0 = .ret () s' ∧
      s'.q_[0]? = some (fixedSolver.settings_.dt *
        (quadraticCost 1 1 1).evaluateIntermediate x u
          (fixedSolver.settings_.dt * ((0 : Nat) : ℚ))) ∧
      s'.qv_[0]? = some (fixedSolver.settings_.dt •
        (quadraticCost 1 1 1).stateDerivativeIntermediate x u
          (fixedSolver.settings_.dt * ((0 : Nat) : ℚ))) ∧
      s'.Q_[0]? = some (fixedSolver.settings_.dt •
        (quadraticCost 1 1 1).stateSecondDerivativeIntermediate x u
          (fixedSolver.settings_.dt * ((0 : Nat) : ℚ))) ∧
      s'.P_[0]? = some (fixedSolver.settings_.dt •
        (quadraticCost 1 1 1).stateControlDerivativeIntermediate x u
          (fixedSolver.settings_.dt * ((0 : Nat) : ℚ))) ∧
      s'.rv_[0]? = some (fixedSolver.settings_.dt •
        (quadraticCost 1 1 1).controlDerivativeIntermediate x u
          (fixedSolver.settings_.dt * ((0 : Nat) : ℚ))) ∧
      s'.R_[0]? = some (fixedSolver.settings_.dt •
        (quadraticCost 1 1 1).controlSecondDerivativeIntermediate x u
          (fixedSolver.settings_.dt * ((0 : Nat) : ℚ)))) ∧
    (∃ x s', fixedSolver.x_[fixedSolver.K_]? = some x ∧
      initializeCostToGo (quadraticCost 1 1 1) fixedSolver = .ret () s' ∧
      s'.q_[fixedSolver.K_]? = some ((quadraticCost 1 1 1).evaluateTerminal x 0
        (fixedSolver.settings_.dt * (fixedSolver.K_ : ℚ))) ∧
      s'.qv_[fixedSolver.K_]? = some ((quadraticCost 1 1 1).stateDerivativeTerminal x 0
        (fixedSolver.settings_.dt * (fixedSolver.K_ : ℚ))) ∧
      s'.Q_[fixedSolver.K_]? = some ((quadraticCost 1 1 1).stateSecondDerivativeTerminal x 0
        (fixedSolver.settings_.dt * (fixedSolver.K_ : ℚ))) ∧
      s'.S_[fixedSolver.K_]? = s'.Q_[fixedSolver.K_]? ∧
      s'.sv_[fixedSolver.K_]? = s'.qv_[fixedSolver.K_]?) :=
  ⟨stageSized_zeroSolver 1 1 _ 1, Nat.zero_lt_one,
    quadraticCosts_scaling (quadraticCost 1 1 1) (quadraticCost 1 1 1) fixedSolver 0
      (stageSized_zeroSolver 1 1 _ 1) Nat.zero_lt_one⟩

/-! ### The diagnostics switch -/

theorem designControllerStage_record [LinearOrderedField F] (E : EigenLib F n m)
    (st : GNMSSettings F) (b : Bool) (rv : Fin m → F) (B : Matrix (Fin n) (Fin m) F)
    (sv1 : Fin n → F) (P : Matrix (Fin m) (Fin n) F) (S1 A : Matrix (Fin n) (Fin n) F)
    (R : Matrix (Fin m) (Fin m) F) (du : F) (sm smi : WithTop F) :
    (designControllerStage E { st with recordSmallestEigenvalue := b } rv B sv1 P S1 A R du sm
        smi).gv = (designControllerStage E st rv B sv1 P S1 A R du sm smi).gv ∧
    (designControllerStage E { st with recordSmallestEigenvalue := b } rv B sv1 P S1 A R du sm
        smi).G = (designControllerStage E st rv B sv1 P S1 A R du sm smi).G ∧
    (designControllerStage E { st with recordSmallestEigenvalue := b } rv B sv1 P S1 A R du sm
        smi).H = (designControllerStage E st rv B sv1 P S1 A R du sm smi).H ∧
    (designControllerStage E { st with recordSmallestEigenvalue := b } rv B sv1 P S1 A R du sm
        smi).Hi = (designControllerStage E st rv B sv1 P S1 A R du sm smi).Hi ∧
    (designControllerStage E { st with recordSmallestEigenvalue := b } rv B sv1 P S1 A R du sm
        smi).Hi_inverse = (designControllerStage E st rv B sv1 P S1 A R du sm smi).Hi_inverse ∧
    (designControllerStage E { st with recordSmallestEigenvalue := b } rv B sv1 P S1 A R du sm
        smi).L = (designControllerStage E st rv B sv1 P S1 A R du sm smi).L ∧
    (designControllerStage E { st with recordSmallestEigenvalue := b } rv B sv1 P S1 A R du sm
        smi).lv = (designControllerStage E st rv B sv1 P S1 A R du sm smi).lv ∧
    (designControllerStage E { st with recordSmallestEigenvalue := b } rv B sv1 P S1 A R du sm
        smi).du_norm = (designControllerStage E st rv B sv1 P S1 A R du sm smi).du_norm := by
  unfold designControllerStage
  cases st.fixedHessianCorrection <;> exact ⟨rfl, rfl, rfl, rfl, rfl, rfl, rfl, rfl⟩

/-- C35: on a sized solver and for `k < K_`, run `designController(k)` from the same solver
once with `recordSmallestEigenvalue = b1` and once with `recordSmallestEigenvalue = b2`.
Both runs return, under either regularization policy, and leave the same `gv_`, `G_`,
`H_`, `Hi_`, `Hi_inverse_`, `L_`, `lv_` and `du_norm_`; the two solvers they leave differ at
most in the settings (the switch itself) and in the two smallest-eigenvalue records. -/
theorem designController_diagnostics_independent [LinearOrderedField F] (E : EigenLib F n m)
    (s : GNMSBase F n m) (k : Nat) (hs : StageSized s s.K_) (hk : k < s.K_) (b1 b2 : Bool) :
    ∃ t1 t2,
      designController E
        { s with settings_ := { s.settings_ with recordSmallestEigenvalue := b1 } } k
        = .ret () t1 ∧
      designController E
        { s with settings_ := { s.settings_ with recordSmallestEigenvalue := b2 } } k
        = .ret () t2 ∧
      t1.gv_ = t2.gv_ ∧ t1.G_ = t2.G_ ∧ t1.H_ = t2.H_ ∧ t1.Hi_ = t2.Hi_ ∧
      t1.Hi_inverse_ = t2.Hi_inverse_ ∧ t1.L_ = t2.L_ ∧ t1.lv_ = t2.lv_ ∧
      t1.du_norm_ = t2.du_norm_ ∧
      t2 = { t1 with settings_ := t2.settings_, smallestEigenvalue_ := t2.smallestEigenvalue_,
                     smallestEigenvalueIteration_ := t2.smallestEigenvalueIteration_ } := by
  obtain ⟨rv1, B1, sv11, P1, S11, A1, R1, ⟨erv1, eB1, esv11, eP1, eS11, eA1, eR1⟩, hrun1⟩ :=
    designController_eq_of_sized E
      { s with settings_ := { s.settings_ with recordSmallestEigenvalue := b1 } } k hs hk
  obtain ⟨rv2, B2, sv12, P2, S12, A2, R2, ⟨erv2, eB2, esv12, eP2, eS12, eA2, eR2⟩, hrun2⟩ :=
    designController_eq_of_sized E
      { s with settings_ := { s.settings_ with recordSmallestEigenvalue := b2 } } k hs hk
  have d1 : rv1 = rv2 := Option.some.inj (erv1.symm.trans erv2)
  have d2 : B1 = B2 := Option.some.inj (eB1.symm.trans eB2)
  have d3 : sv11 = sv12 := Option.some.inj (esv11.symm.trans esv12)
  have d4 : P1 = P2 := Option.some.inj (eP1.symm.trans eP2)
  have d5 : S11 = S12 := Option.some.inj (eS11.symm.trans eS12)
  have d6 : A1 = A2 := Option.some.inj (eA1.symm.trans eA2)
  have d7 : R1 = R2 := Option.some.inj (eR1.symm.trans eR2)
  subst d1 d2 d3 d4 d5 d6 d7
  obtain ⟨f1, f2, f3, f4, f5, f6, f7, f8⟩ := designControllerStage_record E s.settings_ b1 rv1
    B1 sv11 P1 S11 A1 R1 s.du_norm_ s.smallestEigenvalue_ s.smallestEigenvalueIteration_
  obtain ⟨g1, g2, g3, g4, g5, g6, g7, g8⟩ := designControllerStage_record E s.settings_ b2 rv1
    B1 sv11 P1 S11 A1 R1 s.du_norm_ s.smallestEigenvalue_ s.smallestEigenvalueIteration_
  refine ⟨_, _, hrun1, hrun2, ?_, ?_, ?_, ?_, ?_, ?_, ?_, ?_, ?_⟩
  · exact congrArg (s.gv_.set k) (f1.trans g1.symm)
  · exact congrArg (s.G_.set k) (f2.trans g2.symm)
  · exact congrArg (s.H_.set k) (f3.trans g3.symm)
  · exact congrArg (s.Hi_.set k) (f4.trans g4.symm)
  · exact congrArg (s.Hi_inverse_.set k) (f5.trans g5.symm)
  · exact congrArg (s.L_.set k) (f6.trans g6.symm)
  · exact congrArg (s.lv_.set k) (f7.trans g7.symm)
  · exact f8.trans g8.symm
  · simp only [GNMSBase.mk.injEq, true_and, and_true]
    exact ⟨congrArg (s.gv_.set k) (g1.trans f1.symm), congrArg (s.G_.set k) (g2.trans f2.symm),
      congrArg (s.H_.set k) (g3.trans f3.symm), congrArg (s.Hi_.set k) (g4.trans f4.symm),
      congrArg (s.Hi_inverse_.set k) (g5.trans f5.symm), congrArg (s.lv_.set k) (g7.trans f7.symm),
      congrArg (s.L_.set k) (g6.trans f6.symm), g8.trans f8.symm⟩

theorem designController_diagnostics_independent_witness :
    StageSized fixedSolver fixedSolver.K_ ∧ 0 < fixedSolver.K_ ∧
    ∃ t1 t2,
      designController (sampleEigenLib 1)
        { fixedSolver with
          settings_ := { fixedSolver.settings_ with recordSmallestEigenvalue := true } } 0
        = .ret () t1 ∧
      designController (sampleEigenLib 1)
        { fixedSolver with
          settings_ := { fixedSolver.settings_ with recordSmallestEigenvalue := false } } 0
        = .ret () t2 ∧
      t1.gv_ = t2.gv_ ∧ t1.G_ = t2.G_ ∧ t1.H_ = t2.H_ ∧ t1.Hi_ = t2.Hi_ ∧
      t1.Hi_inverse_ = t2.Hi_inverse_ ∧ t1.L_ = t2.L_ ∧ t1.lv_ = t2.lv_ ∧
      t1.du_norm_ = t2.du_norm_ ∧
      t2 = { t1 with settings_ := t2.settings_, smallestEigenvalue_ := t2.smallestEigenvalue_,
                     smallestEigenvalueIteration_ := t2.smallestEigenvalueIteration_ } :=
  ⟨stageSized_zeroSolver 1 1 _ 1, Nat.zero_lt_one,
    designController_diagnostics_independent (sampleEigenLib 1) fixedSolver 0
      (stageSized_zeroSolver 1 1 _ 1) Nat.zero_lt_one true false⟩

/-- The records do depend on the switch: on `fixedSolver`, where `Hi_[0] = 1`, the run with
`recordSmallestEigenvalue = true` leaves the smallest eigenvalue `1` on record, the run
with `recordSmallestEigenvalue = false` leaves the record at `+infinity`. -/
theorem designController_record_example :
    ∃ t1 t2,
      designController (sampleEigenLib 1)
        { fixedSolver with
          settings_ := { fixedSolver.settings_ with recordSmallestEigenvalue := true } } 0
        = .ret () t1 ∧
      designController (sampleEigenLib 1)
        { fixedSolver with
          settings_ := { fixedSolver.settings_ with recordSmallestEigenvalue := false } } 0
        = .ret () t2 ∧
      t1.smallestEigenvalue_ = ((1 : ℚ) : WithTop ℚ) ∧ t2.smallestEigenvalue_ = ⊤ := by
  obtain ⟨rv1, B1, sv11, P1, S11, A1, R1, ⟨-, eB1, -, -, -, -, eR1⟩, hrun1⟩ :=
    designController_eq_of_sized (sampleEigenLib 1)
      { fixedSolver with
        settings_ := { fixedSolver.settings_ with recordSmallestEigenvalue := true } } 0
      (stageSized_zeroSolver 1 1 _ 1) Nat.zero_lt_one
  obtain ⟨rv2, B2, sv12, P2, S12, A2, R2, -, hrun2⟩ :=
    designController_eq_of_sized (sampleEigenLib 1)
      { fixedSolver with
        settings_ := { fixedSolver.settings_ with recordSmallestEigenvalue := false } } 0
      (stageSized_zeroSolver 1 1 _ 1) Nat.zero_lt_one
  have hB : B1 = 0 := by simpa [fixedSolver, zeroSolver] using eB1.symm
  have hR : R1 = 0 := by simpa [fixedSolver, zeroSolver] using eR1.symm
  subst hB hR
  refine ⟨_, _, hrun1, hrun2, ?_, ?_⟩
  · clear hrun1 hrun2
    show (designControllerStage (sampleEigenLib 1)
      { fixedSolver.settings_ with recordSmallestEigenvalue := true } rv1 0 sv11 P1 S11 A1 0
      fixedSolver.du_norm_ fixedSolver.smallestEigenvalue_
      fixedSolver.smallestEigenvalueIteration_).smallestEigenvalue = ((1 : ℚ) : WithTop ℚ)
    clear eB1 eR1
    have h10 : ((10 : ℚ) ^ 10)⁻¹ < 1 := by norm_num
    simp [designControllerStage, sampleEigenLib, minCoeff, fixedSolver, zeroSolver,
      sampleSettings, List.finRange, h10]
  · clear hrun1 hrun2
    show (designControllerStage (sampleEigenLib 1)
      { fixedSolver.settings_ with recordSmallestEigenvalue := false } rv2 B2 sv12 P2 S12 A2 R2
      fixedSolver.du_norm_ fixedSolver.smallestEigenvalue_
      fixedSolver.smallestEigenvalueIteration_).smallestEigenvalue = ⊤
    simp [designControllerStage, fixedSolver, zeroSolver, sampleSettings]

/-! ### The time stamps of a rollout -/

theorem rolloutLoop_time_stamps [Zero F] [Add F] [Mul F] (isnan : F → Bool)
    (ints : Integrators F n m) (integrator : IntegratorType) (dt_sim : ℚ) (steps K : Nat)
    (L_ : List (Matrix (Fin m) (Fin n) F)) (u_ff_local : List (Fin m → F))
    (flag : Option (Nat → Bool)) (rem i : Nat) (x0 : Fin n → F)
    (b : RolloutBuffers F n m) (hi : i + rem = K)
    (hlen : b.t_local.length = i + 1)
    (hstamps : ∀ j, j ≤ i → b.t_local[j]? = some ((j : ℚ) * dt_sim)) :
    ∀ r b', rolloutLoop isnan ints integrator dt_sim steps K L_ u_ff_local flag rem i x0 b =
        .ret r b' →
      ∀ j, j < b'.t_local.length → b'.t_local[j]? = some ((j : ℚ) * dt_sim) := by
  have key := rolloutLoop_induct isnan ints integrator dt_sim steps K L_ u_ff_local flag
    (fun i _ b => b.t_local.length = i + 1 ∧
      ∀ j, j ≤ i → b.t_local[j]? = some ((j : ℚ) * dt_sim))
    (fun o => ∀ r b', o = .ret r b' →
      ∀ j, j < b'.t_local.length → b'.t_local[j]? = some ((j : ℚ) * dt_sim))
    (by intro r b' h; cases h)
    (by
      rintro i x0 b _ ⟨hl, hst⟩ _ r b' h
      cases h
      intro j hj
      exact hst j (by omega))
    (by
      intro i x0 b uff Li log _ _ _ _ _ _ r b' h
      cases h)
    (by
      rintro i x0 b uff Li x1 log xi ui _ ⟨hl, hst⟩ _ _ _ _ _ _ _ r b' h
      cases h
      intro j hj
      simp only [List.length_append, List.length_singleton] at hj
      by_cases hji : j ≤ i
      · rw [List.getElem?_append_left (by omega)]
        exact hst j hji
      · have hj' : j = i + 1 := by omega
        subst hj'
        rw [List.getElem?_append_right (by omega), hl, Nat.sub_self]
        rfl)
    (by
      rintro i x0 b uff Li x1 log xi ui _ ⟨hl, hst⟩ _ _ _ _ _ _ _ _
      refine ⟨by simp only [List.length_append, List.length_singleton, hl], ?_⟩
      intro j hj
      by_cases hji : j ≤ i
      · rw [List.getElem?_append_left (by omega)]
        exact hst j hji
      · have hj' : j = i + 1 := by omega
        subst hj'
        rw [List.getElem?_append_right (by omega), hl, Nat.sub_self]
        rfl)
    (by
      rintro x0 b ⟨hl, hst⟩ r b' h
      unfold rolloutEpilogue at h
      split_ifs at h
      cases h
      intro j hj
      exact hst j (by omega))
  exact key rem i x0 b hi ⟨hlen, hstamps⟩

/-- Whatever the number of micro-steps per stage, every time stamp a returning
`rolloutSystem` leaves in `t_local` is the index times `dt_sim`. -/
theorem rolloutSystem_time_stamps [Zero F] [Add F] [Mul F] (isnan : F → Bool)
    (ints : Integrators F n m) (integrator : IntegratorType) (dt dt_sim : ℚ) (K_ : Nat)
    (L_ : List (Matrix (Fin m) (Fin n) F)) (u_ff_local : List (Fin m → F))
    (b : RolloutBuffers F n m) (flag : Option (Nat → Bool)) (r : Bool)
    (b' : RolloutBuffers F n m)
    (h : rolloutSystem isnan ints integrator dt dt_sim K_ L_ u_ff_local b flag = .ret r b') :
    ∀ j, j < b'.t_local.length → b'.t_local[j]? = some ((j : ℚ) * dt_sim) := by
  cases hx : b.x_local[0]? with
  | none =>
    unfold rolloutSystem at h
    rw [hx] at h
    cases h
  | some x0 =>
    rw [rolloutSystem_eq_loop isnan ints integrator dt dt_sim K_ L_ u_ff_local b flag x0 hx] at h
    refine rolloutLoop_time_stamps isnan ints integrator dt_sim (substeps dt dt_sim) K_ L_
      u_ff_local flag K_ 0 x0
      { x_local := [x0], u_local := [], t_local := [0], calls := b.calls } (Nat.zero_add _) rfl
      ?_ r b' h
    intro j hj
    have : j = 0 := by omega
    subst this
    simp

/-- C32 (code evaluated): with `dt = 2` and `dt_sim = 1`, hence two micro-steps per stage,
a rollout of one stage of the scalar system returns `true`; its two integrator steps end
at the times `1` and `2`, and `2 = dt * 1` is the time the linearization and the cost
approximation use for stage `1`, but the time stamp recorded for state `1` is
`1 = 1 * dt_sim`. -/
theorem rolloutSystem_time_stamp_of_coarse_stage :
    substeps coarseSolver.settings_.dt coarseSolver.settings_.dt_sim = 2 ∧
    coarseSolver.settings_.dt * ((0 + 1 : Nat) : ℚ) = 2 ∧
    ∃ b', rolloutSystem (fun _ : ℚ => false) scalarIntegrators coarseSolver.settings_.integrator
        coarseSolver.settings_.dt coarseSolver.settings_.dt_sim coarseSolver.K_ coarseSolver.L_
        coarseSolver.u_ff_
        { x_local := coarseSolver.x_, u_local := [], t_local := [], calls := [] } none
        = .ret true b' ∧
      b'.calls.map (fun c => (c.stage, c.t + c.h)) = [(0, 1), (0, 2)] ∧
      b'.t_local = [0, 1] := by
  have hsub : substeps coarseSolver.settings_.dt coarseSolver.settings_.dt_sim = 2 := by
    simp [substeps, coarseSolver, zeroSolver, sampleSettings]
  refine ⟨hsub, by simp [coarseSolver, zeroSolver, sampleSettings], ?_⟩
  have hx : coarseSolver.x_[0]? = some 0 := rfl
  rw [rolloutSystem_eq_loop _ _ _ _ _ _ _ _ _ _ 0 hx, hsub]
  refine ⟨_, rfl, ?_, ?_⟩
  · simp [coarseSolver, zeroSolver, sampleSettings]
    norm_num
  · simp [coarseSolver, zeroSolver, sampleSettings]

/-! ### The micro-steps of a rollout -/

theorem integrateStep_isSome (ints : Integrators F n m) (integrator : IntegratorType)
    (h : ∀ c, integrator ≠ .unknown c) (u : Fin m → F) (x : Fin n → F) (t hstep : ℚ) :
    ∃ x1, integrateStep ints integrator u x t hstep = some x1 := by
  unfold integrateStep
  cases integrator with
  | unknown c => exact absurd rfl (h c)
  | EULER => exact ⟨_, rfl⟩
  | RK4 => exact ⟨_, rfl⟩
  | EULER_SYM => exact ⟨_, rfl⟩
  | RK_SYM => exact ⟨_, rfl⟩

theorem microSteps_eq_fold (ints : Integrators F n m) (integrator : IntegratorType)
    (dt_sim : ℚ) (u : Fin m → F) (i steps : Nat) :
    ∀ (rem j : Nat) (x : Fin n → F) (log : List (IntegratorCall F m)),
      (microSteps ints integrator dt_sim u i steps rem j x log).1 =
        (List.range' j rem).foldlM
          (fun x j => integrateStep ints integrator u x (((i * steps + j : Nat) : ℚ) * dt_sim)
            dt_sim) x ∧
      (∀ x1, (microSteps ints integrator dt_sim u i steps rem j x log).1 = some x1 →
        (microSteps ints integrator dt_sim u i steps rem j x log).2 =
          log ++ (List.range' j rem).map
            (fun j => ⟨i, ((i * steps + j : Nat) : ℚ) * dt_sim, dt_sim, u⟩)) := by
  intro rem
  induction rem with
  | zero =>
    intro j x log
    simp [microSteps]
  | succ rem ih =>
    intro j x log
    rw [microSteps, List.range'_succ, List.foldlM_cons, List.map_cons]
    cases hstep : integrateStep ints integrator u x (((i * steps + j : Nat) : ℚ) * dt_sim)
        dt_sim with
    | none =>
      refine ⟨rfl, ?_⟩
      intro x1 h
      cases h
    | some x1 =>
      obtain ⟨h1, h2⟩ := ih (j + 1) x1
        (log ++ [⟨i, ((i * steps + j : Nat) : ℚ) * dt_sim, dt_sim, u⟩])
      refine ⟨h1, ?_⟩
      intro x2 hx2
      have := h2 x2 hx2
      simp only [] at this ⊢
      rw [this, List.append_assoc]
      rfl

theorem microSteps_stage (ints : Integrators F n m) (integrator : IntegratorType)
    (dt_sim : ℚ) (u : Fin m → F) (i steps : Nat) (x x1 : Fin n → F)
    (log log' : List (IntegratorCall F m))
    (h : microSteps ints integrator dt_sim u i steps steps 0 x log = (some x1, log')) :
    stagePropagation ints integrator dt_sim u i steps x = some x1 ∧
      log' = log ++ stageCalls dt_sim steps i u := by
  obtain ⟨h1, h2⟩ := microSteps_eq_fold ints integrator dt_sim u i steps steps 0 x log
  rw [h] at h1 h2
  unfold stagePropagation stageCalls
  rw [List.range_eq_range']
  exact ⟨h1.symm, h2 x1 rfl⟩

theorem microSteps_isSome (ints : Integrators F n m) (integrator : IntegratorType)
    (hint : ∀ c, integrator ≠ .unknown c) (dt_sim : ℚ) (u : Fin m → F) (i steps : Nat) :
    ∀ (rem j : Nat) (x : Fin n → F) (log : List (IntegratorCall F m)),
      ∃ x1 log', microSteps ints integrator dt_sim u i steps rem j x log = (some x1, log') := by
  intro rem
  induction rem with
  | zero =>
    intro j x log
    exact ⟨x, log, rfl⟩
  | succ rem ih =>
    intro j x log
    obtain ⟨x1, hx1⟩ := integrateStep_isSome ints integrator hint u x
      (((i * steps + j : Nat) : ℚ) * dt_sim) dt_sim
    rw [microSteps, hx1]
    exact ih (j + 1) x1 _

theorem rolloutCalls_append {F : Type} {m : Nat} (dt_sim : ℚ) (steps : Nat) :
    ∀ (us : List (Fin m → F)) (i : Nat) (u : Fin m → F),
      rolloutCalls dt_sim steps i (us ++ [u]) =
        rolloutCalls dt_sim steps i us ++ stageCalls dt_sim steps (i + us.length) u := by
  intro us
  induction us with
  | nil =>
    intro i u
    simp [rolloutCalls]
  | cons v us ih =>
    intro i u
    rw [List.cons_append, rolloutCalls, rolloutCalls, ih (i + 1) u, List.append_assoc,
      List.length_cons]
    rw [show i + 1 + us.length = i + (us.length + 1) by omega]

theorem length_rolloutCalls {F : Type} {m : Nat} (dt_sim : ℚ) (steps : Nat) :
    ∀ (us : List (Fin m → F)) (i : Nat),
      (rolloutCalls dt_sim steps i us).length = us.length * steps := by
  intro us
  induction us with
  | nil =>
    intro i
    simp [rolloutCalls]
  | cons v us ih =>
    intro i
    rw [rolloutCalls, List.length_append, ih (i + 1), List.length_cons]
    simp only [stageCalls, List.length_map, List.length_range]
    ring

theorem microStepLaw_push (ints : Integrators F n m) (integrator : IntegratorType)
    (dt_sim : ℚ) (steps : Nat) (log0 : List (IntegratorCall F m)) (b : RolloutBuffers F n m)
    (i : Nat) (x0 x1 : Fin n → F) (u : Fin m → F) (log : List (IntegratorCall F m))
    (t : ℚ) (hlaw : MicroStepLaw ints integrator dt_sim steps log0 b)
    (hi : b.u_local.length = i) (hlast : b.x_local[i]? = some x0)
    (hm : microSteps ints integrator dt_sim u i steps steps 0 x0 b.calls = (some x1, log)) :
    MicroStepLaw ints integrator dt_sim steps log0
      { x_local := b.x_local ++ [x1], u_local := b.u_local ++ [u],
        t_local := b.t_local ++ [t], calls := log } := by
  obtain ⟨hlen, hstages, hcalls⟩ := hlaw
  obtain ⟨hprop, hlog⟩ := microSteps_stage ints integrator dt_sim u i steps x0 x1 b.calls log hm
  have e1 : (b.x_local ++ [x1])[i + 1]? = some x1 := by
    rw [List.getElem?_append_right (by omega), hlen, hi, Nat.sub_self]
    rfl
  have e2 : (b.x_local ++ [x1])[i]? = some x0 := by
    rw [List.getElem?_append_left (by omega)]
    exact hlast
  have e3 : (b.u_local ++ [u])[i]? = some u := by
    rw [List.getElem?_append_right (by omega), hi, Nat.sub_self]
    rfl
  refine ⟨?_, ?_, ?_⟩
  · simp only [List.length_append, List.length_singleton, hlen]
  · intro k hk
    simp only [List.length_append, List.length_singleton] at hk
    by_cases hki : k = i
    · subst hki
      exact ⟨x0, u, x1, e2, e3, e1, hprop⟩
    · have hk' : k < b.u_local.length := by omega
      obtain ⟨xk, uk, xk1, c1, c2, c3, c4⟩ := hstages k hk'
      refine ⟨xk, uk, xk1, ?_, ?_, ?_, c4⟩
      · show (b.x_local ++ [x1])[k]? = some xk
        rw [List.getElem?_append_left (by omega)]
        exact c1
      · show (b.u_local ++ [u])[k]? = some uk
        rw [List.getElem?_append_left hk']
        exact c2
      · show (b.x_local ++ [x1])[k + 1]? = some xk1
        rw [List.getElem?_append_left (by omega)]
        exact c3
  · show log = log0 ++ rolloutCalls dt_sim steps 0 (b.u_local ++ [u])
    rw [hlog, hcalls, rolloutCalls_append, Nat.zero_add, hi, List.append_assoc]

theorem rolloutLoop_micro_steps [Zero F] [Add F] [Mul F] (isnan : F → Bool)
    (ints : Integrators F n m) (integrator : IntegratorType) (dt_sim : ℚ) (steps K : Nat)
    (L_ : List (Matrix (Fin m) (Fin n) F)) (u_ff_local : List (Fin m → F))
    (flag : Option (Nat → Bool)) (log0 : List (IntegratorCall F m)) (rem i : Nat)
    (x0 : Fin n → F) (b : RolloutBuffers F n m) (hi : i + rem = K)
    (hlaw : MicroStepLaw ints integrator dt_sim steps log0 b) (hlen : b.u_local.length = i)
    (hlast : b.x_local[i]? = some x0) :
    ∀ r b', rolloutLoop isnan ints integrator dt_sim steps K L_ u_ff_local flag rem i x0 b =
        .ret r b' →
      MicroStepLaw ints integrator dt_sim steps log0 b' ∧ (r = true → b'.u_local.length = K) := by
  have key := rolloutLoop_induct isnan ints integrator dt_sim steps K L_ u_ff_local flag
    (fun i x0 b => MicroStepLaw ints integrator dt_sim steps log0 b ∧ b.u_local.length = i ∧
      b.x_local[i]? = some x0)
    (fun o => ∀ r b', o = .ret r b' →
      MicroStepLaw ints integrator dt_sim steps log0 b' ∧ (r = true → b'.u_local.length = K))
    (by intro r b' h; cases h)
    (by
      rintro i x0 b _ ⟨hl, -, -⟩ _ r b' h
      cases h
      exact ⟨hl, fun h => by cases h⟩)
    (by
      intro i x0 b uff Li log _ _ _ _ _ _ r b' h
      cases h)
    (by
      rintro i x0 b uff Li x1 log xi ui _ ⟨hl, hu, hx⟩ _ _ _ hm _ _ _ r b' h
      cases h
      exact ⟨microStepLaw_push ints integrator dt_sim steps log0 b i x0 x1 _ log _ hl hu hx hm,
        fun h => by cases h⟩)
    (by
      rintro i x0 b uff Li x1 log xi ui _ ⟨hl, hu, hx⟩ _ _ _ hm _ _ _ _
      refine ⟨microStepLaw_push ints integrator dt_sim steps log0 b i x0 x1 _ log _ hl hu hx hm,
        by simp only [List.length_append, List.length_singleton, hu], ?_⟩
      show (b.x_local ++ [x1])[i + 1]? = some x1
      rw [List.getElem?_append_right (by rw [hl.1, hu]), hl.1, hu, Nat.sub_self]
      rfl)
    (by
      rintro x0 b ⟨hl, hu, -⟩ r b' h
      unfold rolloutEpilogue at h
      split_ifs at h
      cases h
      exact ⟨hl, fun _ => hu⟩)
  exact key rem i x0 b hi ⟨hlaw, hlen, hlast⟩

theorem rolloutLoop_returns [Zero F] [Add F] [Mul F] (isnan : F → Bool)
    (ints : Integrators F n m) (integrator : IntegratorType)
    (hint : ∀ c, integrator ≠ .unknown c) (dt_sim : ℚ) (steps K : Nat)
    (L_ : List (Matrix (Fin m) (Fin n) F)) (u_ff_local : List (Fin m → F))
    (flag : Option (Nat → Bool)) (hL : K ≤ L_.length) (hu : K ≤ u_ff_local.length) :
    ∀ (rem i : Nat) (x0 : Fin n → F) (b : RolloutBuffers F n m), i + rem = K →
      b.x_local.length = i + 1 → b.u_local.length = i →
      ∃ r b', rolloutLoop isnan ints integrator dt_sim steps K L_ u_ff_local flag rem i x0 b =
        .ret r b' := by
  intro rem
  induction rem with
  | zero =>
    intro i x0 b hi hx hul
    have hiK : i = K := by omega
    subst hiK
    refine ⟨true, b, ?_⟩
    show rolloutEpilogue i b = .ret true b
    unfold rolloutEpilogue
    rw [if_neg (not_not.mpr hx), if_neg (not_not.mpr hul)]
  | succ rem ih =>
    intro i x0 b hi hx hul
    have hiK : i < K := by omega
    obtain ⟨uff, e1⟩ : ∃ v, u_ff_local[i]? = some v :=
      ⟨_, List.getElem?_eq_getElem (Nat.lt_of_lt_of_le hiK hu)⟩
    obtain ⟨Li, e2⟩ : ∃ v, L_[i]? = some v :=
      ⟨_, List.getElem?_eq_getElem (Nat.lt_of_lt_of_le hiK hL)⟩
    obtain ⟨xi, e0⟩ : ∃ v, b.x_local[i]? = some v :=
      ⟨_, List.getElem?_eq_getElem (hx ▸ Nat.lt_succ_self i)⟩
    obtain ⟨x1, log, hm⟩ := microSteps_isSome ints integrator hint dt_sim
      (ctrlAdd uff (gainTimes Li x0)) i steps steps 0 x0 b.calls
    have e3 : (b.x_local ++ [x1])[i]? = some xi := by
      rw [List.getElem?_append_left (by omega)]
      exact e0
    have e4 : (b.u_local ++ [ctrlAdd uff (gainTimes Li x0)])[i]? =
        some (ctrlAdd uff (gainTimes Li x0)) := by
      rw [List.getElem?_append_right (by omega), hul, Nat.sub_self]
      rfl
    rw [rolloutLoop_succ]
    by_cases hf : flagAt flag i = true
    · rw [if_pos hf]
      exact ⟨false, b, rfl⟩
    · rw [if_neg hf]
      simp only [e1, e2, hm, e3, e4]
      split_ifs
      · exact ⟨false, _, rfl⟩
      · exact ⟨false, _, rfl⟩
      · exact ih (i + 1) x1 _ (by omega)
          (by simp only [List.length_append, List.length_singleton, hx])
          (by simp only [List.length_append, List.length_singleton, hul])

theorem rolloutSystem_of_unknown [Zero F] [Add F] [Mul F] (isnan : F → Bool)
    (ints : Integrators F n m) (c : Nat) (dt dt_sim : ℚ) (K_ : Nat)
    (L_ : List (Matrix (Fin m) (Fin n) F)) (u_ff_local : List (Fin m → F))
    (b : RolloutBuffers F n m) (flag : Option (Nat → Bool)) (x0 : Fin n → F)
    (uff : Fin m → F) (L0 : Matrix (Fin m) (Fin n) F)
    (hx : b.x_local[0]? = some x0) (hu : u_ff_local[0]? = some uff) (hL : L_[0]? = some L0)
    (hK : 0 < K_) (hsteps : 0 < substeps dt dt_sim) (hflag : flagAt flag 0 = false) :
    rolloutSystem isnan ints (.unknown c) dt dt_sim K_ L_ u_ff_local b flag =
      .raise "invalid integration mode selected."
        { x_local := [x0], u_local := [ctrlAdd uff (gainTimes L0 x0)], t_local := [0],
          calls := b.calls } := by
  obtain ⟨K', rfl⟩ : ∃ K', K_ = K' + 1 := ⟨K_ - 1, by omega⟩
  obtain ⟨s', hs'⟩ : ∃ s', substeps dt dt_sim = s' + 1 := ⟨substeps dt dt_sim - 1, by omega⟩
  rw [rolloutSystem_eq_loop isnan ints _ dt dt_sim _ L_ u_ff_local b flag x0 hx, hs',
    rolloutLoop_succ, if_neg (by rw [hflag]; exact Bool.false_ne_true)]
  simp only [hu, hL, microSteps, integrateStep, List.nil_append]

theorem stageClean_push (isnan : F → Bool) (b : RolloutBuffers F n m) (j : Nat)
    (x1 : Fin n → F) (u : Fin m → F) (ts : List ℚ) (log : List (IntegratorCall F m))
    (hx : j < b.x_local.length) (hu : j < b.u_local.length) (h : StageClean isnan b j) :
    StageClean isnan
      { x_local := b.x_local ++ [x1], u_local := b.u_local ++ [u], t_local := ts,
        calls := log } j := by
  constructor
  · intro x hx'
    change (b.x_local ++ [x1])[j]? = some x at hx'
    rw [List.getElem?_append_left hx] at hx'
    exact h.1 x hx'
  · intro v hv
    change (b.u_local ++ [u])[j]? = some v at hv
    rw [List.getElem?_append_left hu] at hv
    exact h.2 v hv

theorem stageClean_last (isnan : F → Bool) (b : RolloutBuffers F n m) (i : Nat)
    (xi : Fin n → F) (ui : Fin m → F) (hx : b.x_local[i]? = some xi)
    (hu : b.u_local[i]? = some ui) (h1 : anyNaN isnan xi = false)
    (h2 : anyNaN isnan ui = false) : StageClean isnan b i := by
  constructor
  · intro x hx'
    rw [hx] at hx'
    cases hx'
    exact h1
  · intro v hv
    rw [hu] at hv
    cases hv
    exact h2

theorem rolloutLoop_progress [Zero F] [Add F] [Mul F] (isnan : F → Bool)
    (ints : Integrators F n m) (integrator : IntegratorType) (dt_sim : ℚ) (steps K : Nat)
    (L_ : List (Matrix (Fin m) (Fin n) F)) (u_ff_local : List (Fin m → F))
    (flag : Option (Nat → Bool)) (rem i : Nat) (x0 : Fin n → F) (b : RolloutBuffers F n m)
    (hi : i + rem = K) (hul : b.u_local.length = i) (hxl : b.x_local.length = i + 1)
    (hflags : ∀ j, j < i → flagAt flag j = false)
    (hclean : ∀ j, j < i → StageClean isnan b j) :
    ∀ r b', rolloutLoop isnan ints integrator dt_sim steps K L_ u_ff_local flag rem i x0 b =
        .ret r b' →
      b'.u_local.length ≤ K ∧
      (∀ j, j < b'.u_local.length → flagAt flag j = false) ∧
      (∀ j, j + 1 < b'.u_local.length → StageClean isnan b' j) ∧
      (r = true → b'.u_local.length = K ∧ ∀ j, j < K → StageClean isnan b' j) ∧
      (r = false →
        (b'.u_local.length < K ∧ flagAt flag b'.u_local.length = true ∧
          ∀ j, j < b'.u_local.length → StageClean isnan b' j) ∨
        ∃ j xj uj, j + 1 = b'.u_local.length ∧ b'.x_local[j]? = some xj ∧
          b'.u_local[j]? = some uj ∧
          (anyNaN isnan xj = true ∨ anyNaN isnan uj = true)) := by
  have key := rolloutLoop_induct isnan ints integrator dt_sim steps K L_ u_ff_local flag
    (fun i _ b => b.u_local.length = i ∧ b.x_local.length = i + 1 ∧
      (∀ j, j < i → flagAt flag j = false) ∧ (∀ j, j < i → StageClean isnan b j))
    (fun o => ∀ r b', o = .ret r b' →
      b'.u_local.length ≤ K ∧
      (∀ j, j < b'.u_local.length → flagAt flag j = false) ∧
      (∀ j, j + 1 < b'.u_local.length → StageClean isnan b' j) ∧
      (r = true → b'.u_local.length = K ∧ ∀ j, j < K → StageClean isnan b' j) ∧
      (r = false →
        (b'.u_local.length < K ∧ flagAt flag b'.u_local.length = true ∧
          ∀ j, j < b'.u_local.length → StageClean isnan b' j) ∨
        ∃ j xj uj, j + 1 = b'.u_local.length ∧ b'.x_local[j]? = some xj ∧
          b'.u_local[j]? = some uj ∧
          (anyNaN isnan xj = true ∨ anyNaN isnan uj = true)))
    (by intro r b' h; cases h)
    (by
      rintro i x0 b hiK ⟨hu, hx, hf, hc⟩ hfi r b' h
      cases h
      refine ⟨by rw [hu]; exact Nat.le_of_lt hiK, fun j hj => hf j (hu ▸ hj),
        fun j hj => hc j (by rw [hu] at hj; exact Nat.lt_of_succ_lt hj),
        (fun h => by cases h), fun _ => Or.inl ⟨by rw [hu]; exact hiK, by rw [hu]; exact hfi,
          fun j hj => hc j (hu ▸ hj)⟩⟩)
    (by
      intro i x0 b uff Li log _ _ _ _ _ _ r b' h
      cases h)
    (by
      rintro i x0 b uff Li x1 log xi ui hiK ⟨hu, hx, hf, hc⟩ hfi _ _ _ e3 e4 hnan r b' h
      cases h
      have hlen : (b.u_local ++ [ctrlAdd uff (gainTimes Li x0)]).length = i + 1 := by
        rw [List.length_append, List.length_singleton, hu]
      refine ⟨?_, ?_, ?_, (fun h => by cases h), fun _ => Or.inr ⟨i, xi, ui, ?_, e3, e4, hnan⟩⟩
      · show (b.u_local ++ [ctrlAdd uff (gainTimes Li x0)]).length ≤ K
        rw [hlen]
        exact hiK
      · intro j hj
        change j < (b.u_local ++ [ctrlAdd uff (gainTimes Li x0)]).length at hj
        rw [hlen] at hj
        rcases Nat.lt_succ_iff_lt_or_eq.mp hj with h | h
        · exact hf j h
        · rw [h]
          exact hfi
      · intro j hj
        change j + 1 < (b.u_local ++ [ctrlAdd uff (gainTimes Li x0)]).length at hj
        rw [hlen] at hj
        have hji : j < i := Nat.lt_of_succ_lt_succ hj
        exact stageClean_push isnan b j x1 _ _ log (by rw [hx]; exact Nat.lt_succ_of_lt hji)
          (by rw [hu]; exact hji) (hc j hji)
      · exact hlen.symm)
    (by
      rintro i x0 b uff Li x1 log xi ui hiK ⟨hu, hx, hf, hc⟩ hfi _ _ _ e3 e4 h1 h2
      refine ⟨by simp only [List.length_append, List.length_singleton, hu],
        by simp only [List.length_append, List.length_singleton, hx], ?_, ?_⟩
      · intro j hj
        rcases Nat.lt_succ_iff_lt_or_eq.mp hj with h | h
        · exact hf j h
        · rw [h]
          exact hfi
      · intro j hj
        rcases Nat.lt_succ_iff_lt_or_eq.mp hj with h | h
        · exact stageClean_push isnan b j x1 _ _ log (by rw [hx]; exact Nat.lt_succ_of_lt h)
            (by rw [hu]; exact h) (hc j h)
        · rw [h]
          exact stageClean_last isnan _ i xi ui e3 e4 h1 h2)
    (by
      rintro x0 b ⟨hu, hx, hf, hc⟩ r b' h
      unfold rolloutEpilogue at h
      rw [if_neg (not_not.mpr hx), if_neg (not_not.mpr hu)] at h
      cases h
      exact ⟨Nat.le_of_eq hu, fun j hj => hf j (hu ▸ hj),
        fun j hj => hc j (by rw [hu] at hj; exact Nat.lt_of_succ_lt hj),
        fun _ => ⟨hu, hc⟩, fun h => by cases h⟩)
  exact key rem i x0 b hi ⟨hul, hxl, hflags, hclean⟩

/-- C31: let `x_local[0] = x0` exist and `L_`, `u_ff_local` have at least `K_` entries, and let
`steps = round(dt / dt_sim)`. With a recognised integrator `rolloutSystem` returns a result
`r` and buffers that start with `x0` and hold `N <= K_` stages. Every stage `i < N` was
entered with the termination flag not set, its control is
`u_local[i] = u_ff_local[i] + L_[i] * x_local[i]`, and `x_local[i + 1]` is the result of
`steps` successive single-step integrations of size `dt_sim` from `x_local[i]` under that
constant control, the `j`-th started at time `(i * steps + j) * dt_sim`; the integrator
calls made are exactly these, stage after stage. The rollout stops early only as the source
does: `r = false` means that the flag was set at the start of stage `N < K_`, or that the
check after the last stage run found a NaN in `x_local[N - 1]` or `u_local[N - 1]`;
`r = true` means that all `K_` stages were run and passed the check, with `K_ * steps`
integrator calls. So when the flag is never set and the check finds no NaN, the rollout
returns `true` having integrated every stage `i < K_`. With an integrator selector that is
not recognised, at least one stage, at least one micro-step per stage and the termination
flag not set, `rolloutSystem` throws "invalid integration mode selected." before any
integrator call is made. -/
theorem rolloutSystem_micro_steps [Zero F] [Add F] [Mul F] (isnan : F → Bool)
    (ints : Integrators F n m) (integrator : IntegratorType) (dt dt_sim : ℚ) (K_ : Nat)
    (L_ : List (Matrix (Fin m) (Fin n) F)) (u_ff_local : List (Fin m → F))
    (b : RolloutBuffers F n m) (flag : Option (Nat → Bool)) (x0 : Fin n → F)
    (hx : b.x_local[0]? = some x0) (hL : K_ ≤ L_.length) (hu : K_ ≤ u_ff_local.length) :
    ((∀ c, integrator ≠ .unknown c) →
      ∃ r b', rolloutSystem isnan ints integrator dt dt_sim K_ L_ u_ff_local b flag = .ret r b' ∧
        b'.x_local[0]? = some x0 ∧
        ControlLaw L_ u_ff_local b' ∧
        MicroStepLaw ints integrator dt_sim (substeps dt dt_sim) b.calls b' ∧
        b'.u_local.length ≤ K_ ∧
        (∀ i, i < b'.u_local.length → flagAt flag i = false) ∧
        (∀ i, i + 1 < b'.u_local.length → StageClean isnan b' i) ∧
        (r = true → b'.u_local.length = K_ ∧ (∀ i, i < K_ → StageClean isnan b' i) ∧
          b'.calls.length = b.calls.length + K_ * substeps dt dt_sim) ∧
        (r = false →
          (b'.u_local.length < K_ ∧ flagAt flag b'.u_local.length = true ∧
            ∀ i, i < b'.u_local.length → StageClean isnan b' i) ∨
          ∃ i xi ui, i + 1 = b'.u_local.length ∧ b'.x_local[i]? = some xi ∧
            b'.u_local[i]? = some ui ∧
            (anyNaN isnan xi = true ∨ anyNaN isnan ui = true)) ∧
        ((∀ i, i < K_ → flagAt flag i = false) →
          (∀ i, i < b'.u_local.length → StageClean isnan b' i) → r = true)) ∧
    (∀ c, 0 < K_ → 0 < substeps dt dt_sim → flagAt flag 0 = false →
      ∃ b', rolloutSystem isnan ints (.unknown c) dt dt_sim K_ L_ u_ff_local b flag =
          .raise "invalid integration mode selected." b' ∧
        b'.calls = b.calls) := by
  constructor
  · intro hint
    have hloop := rolloutSystem_eq_loop isnan ints integrator dt dt_sim K_ L_ u_ff_local b flag
      x0 hx
    obtain ⟨r, b', hret⟩ := rolloutLoop_returns isnan ints integrator hint dt_sim
      (substeps dt dt_sim) K_ L_ u_ff_local flag hL hu K_ 0 x0
      { x_local := [x0], u_local := [], t_local := [0], calls := b.calls } (Nat.zero_add _)
      rfl rfl
    obtain ⟨hlaw, hlen⟩ := rolloutLoop_micro_steps isnan ints integrator dt_sim
      (substeps dt dt_sim) K_ L_ u_ff_local flag b.calls K_ 0 x0
      { x_local := [x0], u_local := [], t_local := [0], calls := b.calls } (Nat.zero_add _)
      ⟨rfl, fun i hi => absurd hi (Nat.not_lt_zero i), (List.append_nil _).symm⟩ rfl rfl r b'
      hret
    obtain ⟨hle, hflags, hclean, htrue, hfalse⟩ := rolloutLoop_progress isnan ints integrator
      dt_sim (substeps dt dt_sim) K_ L_ u_ff_local flag K_ 0 x0
      { x_local := [x0], u_local := [], t_local := [0], calls := b.calls } (Nat.zero_add _)
      rfl rfl (fun j hj => absurd hj (Nat.not_lt_zero j))
      (fun j hj => absurd hj (Nat.not_lt_zero j)) r b' hret
    obtain ⟨hctrl, hfirst, -⟩ :=
      (rolloutSystem_post isnan ints integrator dt dt_sim K_ L_ u_ff_local b flag).1 r b'
        (hloop.trans hret)
    refine ⟨r, b', hloop.trans hret, hfirst.trans hx, hctrl, hlaw, hle, hflags, hclean, ?_,
      hfalse, ?_⟩
    · intro hr
      refine ⟨hlen hr, (htrue hr).2, ?_⟩
      rw [hlaw.2.2, List.length_append, length_rolloutCalls, hlen hr]
    · intro hnever hall
      cases r with
      | true => rfl
      | false =>
        rcases hfalse rfl with ⟨hlt, hset, -⟩ | ⟨i, xi, ui, hi, ex, eu, hnan⟩
        · rw [hnever _ hlt] at hset
          cases hset
        · have hc := hall i (by rw [← hi]; exact Nat.lt_succ_self i)
          rcases hnan with h | h
          · rw [hc.1 xi ex] at h
            cases h
          · rw [hc.2 ui eu] at h
            cases h
  · intro c hK hsteps hflag
    obtain ⟨uff, e1⟩ : ∃ v, u_ff_local[0]? = some v :=
      ⟨_, List.getElem?_eq_getElem (Nat.lt_of_lt_of_le hK hu)⟩
    obtain ⟨L0, e2⟩ : ∃ v, L_[0]? = some v :=
      ⟨_, List.getElem?_eq_getElem (Nat.lt_of_lt_of_le hK hL)⟩
    exact ⟨_, rolloutSystem_of_unknown isnan ints c dt dt_sim K_ L_ u_ff_local b flag x0 uff L0
      hx e1 e2 hK hsteps hflag, rfl⟩

theorem rolloutSystem_micro_steps_witness :
    ({ x_local := [fun _ => 1], u_local := [], t_local := [], calls := [] } :
      RolloutBuffers ℚ 1 1).x_local[0]? = some (fun _ => 1) ∧
    1 ≤ [(1 : Matrix (Fin 1) (Fin 1) ℚ)].length ∧ 1 ≤ [(0 : Fin 1 → ℚ)].length ∧
    (((∀ c, IntegratorType.EULER ≠ .unknown c) →
      ∃ r b', rolloutSystem (fun _ : ℚ => false) scalarIntegrators .EULER 2 1 1
          [(1 : Matrix (Fin 1) (Fin 1) ℚ)] [(0 : Fin 1 → ℚ)]
          { x_local := [fun _ => 1], u_local := [], t_local := [], calls := [] } none
          = .ret r b' ∧
        b'.x_local[0]? = some (fun _ => 1) ∧
        ControlLaw [(1 : Matrix (Fin 1) (Fin 1) ℚ)] [(0 : Fin 1 → ℚ)] b' ∧
        MicroStepLaw scalarIntegrators .EULER 1 (substeps 2 1) [] b' ∧
        b'.u_local.length ≤ 1 ∧
        (∀ i, i < b'.u_local.length → flagAt none i = false) ∧
        (∀ i, i + 1 < b'.u_local.length → StageClean (fun _ : ℚ => false) b' i) ∧
        (r = true → b'.u_local.length = 1 ∧
          (∀ i, i < 1 → StageClean (fun _ : ℚ => false) b' i) ∧
          b'.calls.length = ([] : List (IntegratorCall ℚ 1)).length + 1 * substeps 2 1) ∧
        (r = false →
          (b'.u_local.length < 1 ∧ flagAt none b'.u_local.length = true ∧
            ∀ i, i < b'.u_local.length → StageClean (fun _ : ℚ => false) b' i) ∨
          ∃ i xi ui, i + 1 = b'.u_local.length ∧ b'.x_local[i]? = some xi ∧
            b'.u_local[i]? = some ui ∧
            (anyNaN (fun _ : ℚ => false) xi = true ∨
              anyNaN (fun _ : ℚ => false) ui = true)) ∧
        ((∀ i, i < 1 → flagAt none i = false) →
          (∀ i, i < b'.u_local.length → StageClean (fun _ : ℚ => false) b' i) → r = true)) ∧
    (∀ c, 0 < 1 → 0 < substeps 2 1 → flagAt none 0 = false →
      ∃ b', rolloutSystem (fun _ : ℚ => false) scalarIntegrators (.unknown c) 2 1 1
          [(1 : Matrix (Fin 1) (Fin 1) ℚ)] [(0 : Fin 1 → ℚ)]
          { x_local := [fun _ => 1], u_local := [], t_local := [], calls := [] } none
          = .raise "invalid integration mode selected." b' ∧
        b'.calls = [])) ∧
    ∃ b', rolloutSystem (fun _ : ℚ => false) scalarIntegrators .EULER 2 1 1
        [(1 : Matrix (Fin 1) (Fin 1) ℚ)] [(0 : Fin 1 → ℚ)]
        { x_local := [fun _ => 1], u_local := [], t_local := [], calls := [] } none
        = .ret true b' ∧
      b'.u_local.length = 1 ∧ b'.calls.length = 2 :=
  ⟨rfl, Nat.le_refl 1, Nat.le_refl 1,
    rolloutSystem_micro_steps (fun _ : ℚ => false) scalarIntegrators .EULER 2 1 1
      [(1 : Matrix (Fin 1) (Fin 1) ℚ)] [(0 : Fin 1 → ℚ)]
      { x_local := [fun _ => 1], u_local := [], t_local := [], calls := [] } none (fun _ => 1)
      rfl (Nat.le_refl 1) (Nat.le_refl 1),
    by
      obtain ⟨r, b', hrun, -, -, -, -, -, -, htrue, -, hprog⟩ :=
        (rolloutSystem_micro_steps (fun _ : ℚ => false) scalarIntegrators .EULER 2 1 1
          [(1 : Matrix (Fin 1) (Fin 1) ℚ)] [(0 : Fin 1 → ℚ)]
          { x_local := [fun _ => 1], u_local := [], t_local := [], calls := [] } none
          (fun _ => 1) rfl (Nat.le_refl 1) (Nat.le_refl 1)).1 (fun c h => by cases h)
      have hr : r = true :=
        hprog (fun _ _ => rfl)
          (fun i _ => ⟨fun _ _ => by simp [anyNaN], fun _ _ => by simp [anyNaN]⟩)
      subst hr
      have hsub : substeps 2 1 = 2 := by simp [substeps]
      refine ⟨b', hrun, (htrue rfl).1, ?_⟩
      rw [(htrue rfl).2.2, hsub]
      rfl⟩

/-- A rollout evaluated: one stage of two micro-steps of size `1`
from the state `1` under the control `0 + 1 * 1 = 1`, started at the times `0` and `1`,
ends in the state `3`; the rollout returns `true`. -/
theorem rolloutSystem_two_micro_steps_example :
    rolloutSystem (fun _ : ℚ => false) scalarIntegrators .EULER 2 1 1
        [(1 : Matrix (Fin 1) (Fin 1) ℚ)] [(0 : Fin 1 → ℚ)]
        { x_local := [fun _ => 1], u_local := [], t_local := [], calls := [] } none
      = .ret true
          { x_local := [fun _ => 1, fun _ => 3], u_local := [fun _ => 1],
            t_local := [0, 1],
            calls := [⟨0, 0, 1, fun _ => 1⟩, ⟨0, 1, 1, fun _ => 1⟩] } ∧
    stagePropagation scalarIntegrators .EULER 1 (fun _ => 1 : Fin 1 → ℚ) 0 2
      (fun _ => 1 : Fin 1 → ℚ) = some (fun _ => 3) := by
  have hu : ctrlAdd (0 : Fin 1 → ℚ)
      (gainTimes (1 : Matrix (Fin 1) (Fin 1) ℚ) (fun _ => 1)) = fun _ => 1 := by
    funext i
    simp [ctrlAdd, gainTimes, ← Fin.sum_univ_def, Matrix.one_apply]
    exact Subsingleton.elim _ _
  have hsub : substeps 2 1 = 2 := by simp [substeps]
  constructor
  · simp [rolloutSystem, hsub, rolloutLoop, microSteps, integrateStep, scalarIntegrators,
      rolloutEpilogue, anyNaN, hu]
    funext i
    norm_num
  · simp [stagePropagation, List.range_succ, integrateStep, scalarIntegrators]
    funext i
    norm_num

/-! ### Positive semidefiniteness of the cost-to-go -/

theorem dotProduct_transpose_mulVec [Field F] {a b : Nat} (B : Matrix (Fin a) (Fin b) F)
    (u : Fin b → F) (w : Fin a → F) : u ⬝ᵥ B.transpose.mulVec w = B.mulVec u ⬝ᵥ w := by
  rw [Matrix.dotProduct_mulVec, Matrix.vecMul_transpose]

theorem costToGoHessian_quadForm [Field F] [CharZero F] (Q A S1 : Matrix (Fin n) (Fin n) F)
    (L : Matrix (Fin m) (Fin n) F) (Hi : Matrix (Fin m) (Fin m) F) (x : Fin n → F) :
    x ⬝ᵥ (costToGoHessian Q A S1 L Hi).mulVec x =
      x ⬝ᵥ Q.mulVec x + A.mulVec x ⬝ᵥ S1.mulVec (A.mulVec x) -
        L.mulVec x ⬝ᵥ Hi.mulVec (L.mulVec x) := by
  have hM : ∀ M : Matrix (Fin n) (Fin n) F,
      x ⬝ᵥ ((1 / 2 : F) • (M + M.transpose)).mulVec x = x ⬝ᵥ M.mulVec x := by
    intro M
    rw [Matrix.smul_mulVec_assoc, Matrix.dotProduct_smul, Matrix.add_mulVec,
      Matrix.dotProduct_add, dotProduct_transpose_mulVec, Matrix.dotProduct_comm (M.mulVec x) x,
      smul_eq_mul]
    ring
  unfold costToGoHessian
  simp only []
  rw [hM, Matrix.sub_mulVec, Matrix.add_mulVec, Matrix.dotProduct_sub, Matrix.dotProduct_add,
    ← Matrix.mulVec_mulVec, ← Matrix.mulVec_mulVec, ← Matrix.mulVec_mulVec,
    ← Matrix.mulVec_mulVec, dotProduct_transpose_mulVec, dotProduct_transpose_mulVec]

theorem costToGoHessian_nonneg [LinearOrderedField F] (Q A S1 : Matrix (Fin n) (Fin n) F)
    (B : Matrix (Fin n) (Fin m) F) (P L : Matrix (Fin m) (Fin n) F)
    (R Hi : Matrix (Fin m) (Fin m) F)
    (hS1 : IsPosSemidef S1) (hstage : IsPosSemidef (Matrix.fromBlocks Q P.transpose P R))
    (hreg : IsPosSemidef (Hi - (R + B.transpose * S1 * B)))
    (hgain : Hi * L = -(P + B.transpose * S1 * A)) (x : Fin n → F) :
    0 ≤ x ⬝ᵥ (costToGoHessian Q A S1 L Hi).mulVec x := by
  rw [costToGoHessian_quadForm]
  have f1 := hstage.2 (Sum.elim x (L.mulVec x))
  rw [Matrix.fromBlocks_mulVec, Matrix.sum_elim_dotProduct_sum_elim] at f1
  simp only [Sum.elim_comp_inl, Sum.elim_comp_inr, Matrix.dotProduct_add,
    dotProduct_transpose_mulVec] at f1
  have f2 := hS1.2 (A.mulVec x + B.mulVec (L.mulVec x))
  rw [Matrix.mulVec_add, Matrix.dotProduct_add, Matrix.add_dotProduct,
    Matrix.add_dotProduct] at f2
  have hsymm : A.mulVec x ⬝ᵥ S1.mulVec (B.mulVec (L.mulVec x)) =
      B.mulVec (L.mulVec x) ⬝ᵥ S1.mulVec (A.mulVec x) := by
    rw [Matrix.dotProduct_mulVec, ← Matrix.mulVec_transpose, hS1.1.eq, Matrix.dotProduct_comm]
  have f3 := hreg.2 (L.mulVec x)
  rw [Matrix.sub_mulVec, Matrix.dotProduct_sub, Matrix.add_mulVec, Matrix.dotProduct_add,
    ← Matrix.mulVec_mulVec, ← Matrix.mulVec_mulVec, dotProduct_transpose_mulVec] at f3
  have f4 : Hi.mulVec (L.mulVec x) =
      -(P.mulVec x + B.transpose.mulVec (S1.mulVec (A.mulVec x))) := by
    rw [Matrix.mulVec_mulVec, hgain, Matrix.neg_mulVec, Matrix.add_mulVec,
      ← Matrix.mulVec_mulVec, ← Matrix.mulVec_mulVec]
  have f5 : L.mulVec x ⬝ᵥ Hi.mulVec (L.mulVec x) =
      -(L.mulVec x ⬝ᵥ P.mulVec x +
        B.mulVec (L.mulVec x) ⬝ᵥ S1.mulVec (A.mulVec x)) := by
    rw [f4, Matrix.dotProduct_neg, Matrix.dotProduct_add, dotProduct_transpose_mulVec]
  rw [Matrix.dotProduct_comm (P.mulVec x) (L.mulVec x)] at f1
  rw [hsymm] at f2
  rw [f5] at f3 ⊢
  linarith

theorem clipped_ne_zero_of_posDef [LinearOrderedField F] {d : Nat} (V : Matrix (Fin d) (Fin d) F)
    (c : Fin d → F) (hV : V.transpose * V = 1)
    (hpd : IsPosDef (V * Matrix.diagonal c * V.transpose)) (i : Fin d) : c i ≠ 0 := by
  intro h0
  have hVx : V.transpose.mulVec (V.mulVec (Pi.single i 1)) = Pi.single i 1 := by
    rw [Matrix.mulVec_mulVec, hV, Matrix.one_mulVec]
  have hx : V.mulVec (Pi.single i (1 : F)) ≠ 0 := by
    intro h
    rw [h, Matrix.mulVec_zero] at hVx
    have := congrFun hVx i
    simp at this
  have := hpd.2 _ hx
  rw [← Matrix.mulVec_mulVec, ← Matrix.mulVec_mulVec, hVx, Matrix.diagonal_mulVec_single, h0,
    zero_mul, Pi.single_zero, Matrix.mulVec_zero, Matrix.dotProduct_zero] at this
  exact lt_irrefl _ this

theorem designControllerStage_gain_eq [LinearOrderedField F] (E : EigenLib F n m)
    (st : GNMSSettings F) (rv : Fin m → F) (B : Matrix (Fin n) (Fin m) F) (sv1 : Fin n → F)
    (P : Matrix (Fin m) (Fin n) F) (S1 A : Matrix (Fin n) (Fin n) F)
    (R : Matrix (Fin m) (Fin m) F) (du : F) (sm smi : WithTop F)
    (hllt : LLTExact E) (horth : EigenvectorsOrthonormal E)
    (hpd : IsPosDef (designControllerStage E st rv B sv1 P S1 A R du sm smi).Hi) :
    (designControllerStage E st rv B sv1 P S1 A R du sm smi).Hi *
        (designControllerStage E st rv B sv1 P S1 A R du sm smi).L =
      -(designControllerStage E st rv B sv1 P S1 A R du sm smi).G := by
  cases hflag : st.fixedHessianCorrection with
  | true =>
    obtain ⟨-, eHinv, eL, -⟩ := designControllerStage_fixed E st rv B sv1 P S1 A R du sm smi hflag
    obtain ⟨hmul, hsal⟩ := fixed_mul_inverse E hllt hpd
    rw [← eHinv] at hmul hsal
    rw [hsal] at eL
    rw [eL]
    exact (gains_of_mul_eq_neg_one _ (0 : Fin m → F) hmul).2.2.2.1
  | false =>
    obtain ⟨eHi, eHinv, eL, -⟩ :=
      designControllerStage_clipping E st rv B sv1 P S1 A R du sm smi hflag
    have hne : ∀ i,
        max ((E.eigenSolve (designControllerStage E st rv B sv1 P S1 A R du sm smi).H).2 i)
          st.epsilon ≠ 0 := by
      rw [eHi] at hpd
      exact clipped_ne_zero_of_posDef _ _ (horth _) hpd
    have hmul := clipped_mul_inverse
      (E.eigenSolve (designControllerStage E st rv B sv1 P S1 A R du sm smi).H).1
      (fun i => max ((E.eigenSolve (designControllerStage E st rv B sv1 P S1 A R du sm
        smi).H).2 i) st.epsilon) (horth _) hne
    rw [← eHi, ← eHinv] at hmul
    rw [eL]
    exact (gains_of_mul_eq_neg_one _ (0 : Fin m → F) hmul).2.2.2.1

theorem isPosSemidef_fixed_correction [LinearOrderedField F] (E : EigenLib F n m)
    (st : GNMSSettings F) (rv : Fin m → F) (B : Matrix (Fin n) (Fin m) F) (sv1 : Fin n → F)
    (P : Matrix (Fin m) (Fin n) F) (S1 A : Matrix (Fin n) (Fin n) F)
    (R : Matrix (Fin m) (Fin m) F) (du : F) (sm smi : WithTop F)
    (hflag : st.fixedHessianCorrection = true) :
    IsPosSemidef ((designControllerStage E st rv B sv1 P S1 A R du sm smi).Hi -
      (designControllerStage E st rv B sv1 P S1 A R du sm smi).H) := by
  obtain ⟨eHi, -⟩ := designControllerStage_fixed E st rv B sv1 P S1 A R du sm smi hflag
  rw [eHi]
  split_ifs with heps
  · rw [add_sub_cancel_left]
    have h0 : (0 : F) < st.epsilon := lt_trans (by positivity) heps
    refine ⟨?_, fun x => ?_⟩
    · unfold Matrix.IsSymm
      rw [Matrix.transpose_smul, Matrix.transpose_one]
    · rw [Matrix.smul_mulVec_assoc, Matrix.one_mulVec, Matrix.dotProduct_smul, smul_eq_mul]
      exact mul_nonneg h0.le (Finset.sum_nonneg (fun i _ => mul_self_nonneg (x i)))
  · rw [sub_self]
    refine ⟨Matrix.isSymm_zero, fun x => ?_⟩
    rw [Matrix.zero_mulVec, Matrix.dotProduct_zero]

theorem isPosSemidef_clipping [LinearOrderedField F] (E : EigenLib F n m)
    (st : GNMSSettings F) (rv : Fin m → F) (B : Matrix (Fin n) (Fin m) F) (sv1 : Fin n → F)
    (P : Matrix (Fin m) (Fin n) F) (S1 A : Matrix (Fin n) (Fin n) F)
    (R : Matrix (Fin m) (Fin m) F) (du : F) (sm smi : WithTop F)
    (hflag : st.fixedHessianCorrection = false) (horth : EigenvectorsOrthonormal E)
    (hexact : (designControllerStage E st rv B sv1 P S1 A R du sm smi).H =
      (E.eigenSolve (designControllerStage E st rv B sv1 P S1 A R du sm smi).H).1 *
        Matrix.diagonal (E.eigenSolve (designControllerStage E st rv B sv1 P S1 A R du sm
          smi).H).2 *
        (E.eigenSolve (designControllerStage E st rv B sv1 P S1 A R du sm smi).H).1.transpose) :
    IsPosSemidef ((designControllerStage E st rv B sv1 P S1 A R du sm smi).Hi -
      (designControllerStage E st rv B sv1 P S1 A R du sm smi).H) := by
  obtain ⟨eHi, -⟩ := designControllerStage_clipping E st rv B sv1 P S1 A R du sm smi hflag
  rw [eHi]
  generalize (designControllerStage E st rv B sv1 P S1 A R du sm smi).H = H at hexact ⊢
  have hV := horth H
  generalize (E.eigenSolve H).1 = V at hexact hV ⊢
  generalize (E.eigenSolve H).2 = lam at hexact ⊢
  have e : V * Matrix.diagonal (fun i => max (lam i) st.epsilon) * V.transpose - H =
      V * Matrix.diagonal (fun i => max (lam i) st.epsilon - lam i) * V.transpose := by
    conv_lhs => rw [hexact]
    rw [← Matrix.sub_mul, ← Matrix.mul_sub, Matrix.diagonal_sub]
  rw [e]
  refine ⟨isSymm_clipped _ _, fun x => ?_⟩
  have := quadForm_clipped_ge V (fun i => max (lam i) st.epsilon - lam i) 0 hV
    (fun i => sub_nonneg.mpr (le_max_left _ _)) x
  rwa [zero_mul] at this

/-- C34: `designController(k)` followed by `computeCostToGo(k)` returns, and one backward
step preserves positive semidefiniteness of the cost-to-go under either regularization
policy (exact LLT solve, orthonormal eigenvectors): if `S_[k+1]` is symmetric positive
semidefinite, the stage cost Hessian `[[Q_k, P_k^T], [P_k, R_k]]` is symmetric positive
semidefinite, and `Hi_[k]` is symmetric positive definite with `Hi_[k] - H_[k]` positive
semidefinite, then the stored `S_[k]` is symmetric positive semidefinite. The premise
`Hi_[k] - H_[k]` positive semidefinite always holds under the fixed correction, and holds
under clipping when the eigen-decomposition reproduces `H_[k]`; under clipping with
`epsilon > 0` the matrix `Hi_[k]` is positive definite. -/
theorem costToGo_posSemidef_preserved [LinearOrderedField F] (E : EigenLib F n m)
    (s : GNMSBase F n m) (k : Nat) (hs : StageSized s s.K_) (hk : k < s.K_)
    (hllt : LLTExact E) (horth : EigenvectorsOrthonormal E) :
    ∃ s1 s2 Q P R S1 H Hi S,
      s.Q_[k]? = some Q ∧ s.P_[k]? = some P ∧ s.R_[k]? = some R ∧ s.S_[k + 1]? = some S1 ∧
      designController E s k = .ret () s1 ∧ s1.H_[k]? = some H ∧ s1.Hi_[k]? = some Hi ∧
      computeCostToGo s1 k = .ret () s2 ∧ s2.S_[k]? = some S ∧
      (IsPosSemidef S1 → IsPosSemidef (Matrix.fromBlocks Q P.transpose P R) → IsPosDef Hi →
        IsPosSemidef (Hi - H) → IsPosSemidef S) ∧
      (s.settings_.fixedHessianCorrection = true → IsPosSemidef (Hi - H)) ∧
      (s.settings_.fixedHessianCorrection = false →
        H = (E.eigenSolve H).1 * Matrix.diagonal (E.eigenSolve H).2 *
          (E.eigenSolve H).1.transpose → IsPosSemidef (Hi - H)) ∧
      (s.settings_.fixedHessianCorrection = false → 0 < s.settings_.epsilon →
        IsPosDef Hi) := by
  obtain ⟨rv, B, sv1, P, S1, A, R, ⟨erv, eB, esv1, eP, eS1, eA, eR⟩, hrun⟩ :=
    designController_eq_of_sized E s k hs hk
  obtain ⟨⟨hA, hB, hu, huff, huffp, hd, hgv, hG⟩, ⟨hH, hHi, hHinv, hlv, hL, hP, hrv, hR⟩,
    ⟨hx, hxS, hlx, hq, hqv, hQ, hsv, hS⟩⟩ := hs
  have hk1 : k < s.K_ + 1 := Nat.lt_succ_of_lt hk
  obtain ⟨Q, eQ⟩ := exists_getElem?_of_length s.Q_ hQ hk1
  obtain ⟨qv, eqv⟩ := exists_getElem?_of_length s.qv_ hqv hk1
  obtain ⟨d, ed⟩ := exists_getElem?_of_length s.d_ hd hk
  have hSk : k < s.S_.length := hS ▸ hk1
  have hsvk : k < s.sv_.length := hsv ▸ hk1
  obtain ⟨eG', eH'⟩ := (designControllerStage_unregularized E s.settings_ rv B sv1 P S1 A R
    s.du_norm_ s.smallestEigenvalue_ s.smallestEigenvalueIteration_).2
  have hgain := designControllerStage_gain_eq E s.settings_ rv B sv1 P S1 A R
    s.du_norm_ s.smallestEigenvalue_ s.smallestEigenvalueIteration_ hllt horth
  have hfix := isPosSemidef_fixed_correction E s.settings_ rv B sv1 P S1 A R
    s.du_norm_ s.smallestEigenvalue_ s.smallestEigenvalueIteration_
  have hclip := fun h => isPosSemidef_clipping E s.settings_ rv B sv1 P S1 A R
    s.du_norm_ s.smallestEigenvalue_ s.smallestEigenvalueIteration_ h horth
  have hclipHi := fun h => (designControllerStage_clipping E s.settings_ rv B sv1 P S1 A R
    s.du_norm_ s.smallestEigenvalue_ s.smallestEigenvalueIteration_ h).1
  generalize designControllerStage E s.settings_ rv B sv1 P S1 A R s.du_norm_
    s.smallestEigenvalue_ s.smallestEigenvalueIteration_ = c
    at hrun eG' eH' hgain hfix hclip hclipHi
  have hrun2 := computeCostToGo_eq
    { s with gv_ := s.gv_.set k c.gv, G_ := s.G_.set k c.G, H_ := s.H_.set k c.H,
             Hi_ := s.Hi_.set k c.Hi, Hi_inverse_ := s.Hi_inverse_.set k c.Hi_inverse,
             L_ := s.L_.set k c.L, lv_ := s.lv_.set k c.lv, du_norm_ := c.du_norm,
             smallestEigenvalue_ := c.smallestEigenvalue,
             smallestEigenvalueIteration_ := c.smallestEigenvalueIteration } k
    eQ eA eS1 (List.getElem?_set_eq_of_lt _ (hL ▸ hk)) (List.getElem?_set_eq_of_lt _ (hHi ▸ hk))
    eqv esv1 ed (List.getElem?_set_eq_of_lt _ (hlv ▸ hk))
    (List.getElem?_set_eq_of_lt _ (hgv ▸ hk)) (List.getElem?_set_eq_of_lt _ (hG ▸ hk)) hSk hsvk
  refine ⟨_, _, Q, P, R, S1, c.H, c.Hi, costToGoHessian Q A S1 c.L c.Hi, eQ, eP, eR, eS1, hrun,
    List.getElem?_set_eq_of_lt _ (hH ▸ hk), List.getElem?_set_eq_of_lt _ (hHi ▸ hk), hrun2,
    List.getElem?_set_eq_of_lt _ hSk, ?_, hfix, hclip, ?_⟩
  · intro hS1 hstage hpd hreg
    have hsal : selfadjointLower S1 = S1 := selfadjointLower_of_isSymm hS1.1
    rw [hsal] at eG' eH'
    refine ⟨costToGoHessian_isSymm _ _ _ _ _, fun x => ?_⟩
    rw [eH'] at hreg
    have hg := hgain hpd
    rw [eG'] at hg
    exact costToGoHessian_nonneg Q A S1 B P c.L R c.Hi hS1 hstage hreg hg x
  · intro hflag heps
    have eHi := hclipHi hflag
    have hfloor : ∀ x : Fin m → F, s.settings_.epsilon * (x ⬝ᵥ x) ≤ x ⬝ᵥ c.Hi.mulVec x := by
      intro x
      rw [eHi]
      exact quadForm_clipped_ge _ _ _ (horth _) (fun i => le_max_right _ _) x
    refine ⟨?_, fun x hx => lt_of_lt_of_le (mul_pos heps (dotProduct_self_pos x hx)) (hfloor x)⟩
    rw [eHi]
    exact isSymm_clipped _ _

theorem costToGo_posSemidef_preserved_witness :
    StageSized fixedSolver fixedSolver.K_ ∧ 0 < fixedSolver.K_ ∧
    LLTExact (sampleEigenLib 1) ∧ EigenvectorsOrthonormal (sampleEigenLib 1) ∧
    ∃ s1 s2 Q P R S1 H Hi S,
      fixedSolver.Q_[0]? = some Q ∧ fixedSolver.P_[0]? = some P ∧
      fixedSolver.R_[0]? = some R ∧ fixedSolver.S_[0 + 1]? = some S1 ∧
      designController (sampleEigenLib 1) fixedSolver 0 = .ret () s1 ∧
      s1.H_[0]? = some H ∧ s1.Hi_[0]? = some Hi ∧
      computeCostToGo s1 0 = .ret () s2 ∧ s2.S_[0]? = some S ∧
      (IsPosSemidef S1 → IsPosSemidef (Matrix.fromBlocks Q P.transpose P R) → IsPosDef Hi →
        IsPosSemidef (Hi - H) → IsPosSemidef S) ∧
      (fixedSolver.settings_.fixedHessianCorrection = true → IsPosSemidef (Hi - H)) ∧
      (fixedSolver.settings_.fixedHessianCorrection = false →
        H = ((sampleEigenLib 1).eigenSolve H).1 *
            Matrix.diagonal ((sampleEigenLib 1).eigenSolve H).2 *
          ((sampleEigenLib 1).eigenSolve H).1.transpose → IsPosSemidef (Hi - H)) ∧
      (fixedSolver.settings_.fixedHessianCorrection = false →
        0 < fixedSolver.settings_.epsilon → IsPosDef Hi) :=
  ⟨stageSized_zeroSolver 1 1 _ 1, Nat.zero_lt_one, lltExact_sampleEigenLib 1,
    eigenvectorsOrthonormal_sampleEigenLib 1,
    costToGo_posSemidef_preserved (sampleEigenLib 1) fixedSolver 0
      (stageSized_zeroSolver 1 1 _ 1) Nat.zero_lt_one (lltExact_sampleEigenLib 1)
      (eigenvectorsOrthonormal_sampleEigenLib 1)⟩

theorem backwardStep_eq_of_sized [LinearOrderedField F] (E : EigenLib F n m)
    (s : GNMSBase F n m) (k : Nat) (hs : StageSized s s.K_) (hk : k < s.K_) :
    ∃ rv B sv1 P S1 A R Q,
      (s.rv_[k]? = some rv ∧ s.B_[k]? = some B ∧ s.sv_[k + 1]? = some sv1 ∧ s.P_[k]? = some P ∧
        s.S_[k + 1]? = some S1 ∧ s.A_[k]? = some A ∧ s.R_[k]? = some R ∧ s.Q_[k]? = some Q) ∧
      ∃ s1 s2, designController E s k = .ret () s1 ∧
        s1.H_[k]? = some (designControllerStage E s.settings_ rv B sv1 P S1 A R s.du_norm_
          s.smallestEigenvalue_ s.smallestEigenvalueIteration_).H ∧
        s1.Hi_[k]? = some (designControllerStage E s.settings_ rv B sv1 P S1 A R s.du_norm_
          s.smallestEigenvalue_ s.smallestEigenvalueIteration_).Hi ∧
        computeCostToGo s1 k = .ret () s2 ∧
        s2.S_[k]? = some (costToGoHessian Q A S1
          (designControllerStage E s.settings_ rv B sv1 P S1 A R s.du_norm_
            s.smallestEigenvalue_ s.smallestEigenvalueIteration_).L
          (designControllerStage E s.settings_ rv B sv1 P S1 A R s.du_norm_
            s.smallestEigenvalue_ s.smallestEigenvalueIteration_).Hi) := by
  obtain ⟨rv, B, sv1, P, S1, A, R, ⟨erv, eB, esv1, eP, eS1, eA, eR⟩, hrun⟩ :=
    designController_eq_of_sized E s k hs hk
  obtain ⟨⟨hA, hB, hu, huff, huffp, hd, hgv, hG⟩, ⟨hH, hHi, hHinv, hlv, hL, hP, hrv, hR⟩,
    ⟨hx, hxS, hlx, hq, hqv, hQ, hsv, hS⟩⟩ := hs
  have hk1 : k < s.K_ + 1 := Nat.lt_succ_of_lt hk
  obtain ⟨Q, eQ⟩ := exists_getElem?_of_length s.Q_ hQ hk1
  obtain ⟨qv, eqv⟩ := exists_getElem?_of_length s.qv_ hqv hk1
  obtain ⟨d, ed⟩ := exists_getElem?_of_length s.d_ hd hk
  have hSk : k < s.S_.length := hS ▸ hk1
  have hsvk : k < s.sv_.length := hsv ▸ hk1
  refine ⟨rv, B, sv1, P, S1, A, R, Q, ⟨erv, eB, esv1, eP, eS1, eA, eR, eQ⟩, ?_⟩
  generalize designControllerStage E s.settings_ rv B sv1 P S1 A R s.du_norm_
    s.smallestEigenvalue_ s.smallestEigenvalueIteration_ = c at hrun ⊢
  have hrun2 := computeCostToGo_eq
    { s with gv_ := s.gv_.set k c.gv, G_ := s.G_.set k c.G, H_ := s.H_.set k c.H,
             Hi_ := s.Hi_.set k c.Hi, Hi_inverse_ := s.Hi_inverse_.set k c.Hi_inverse,
             L_ := s.L_.set k c.L, lv_ := s.lv_.set k c.lv, du_norm_ := c.du_norm,
             smallestEigenvalue_ := c.smallestEigenvalue,
             smallestEigenvalueIteration_ := c.smallestEigenvalueIteration } k
    eQ eA eS1 (List.getElem?_set_eq_of_lt _ (hL ▸ hk)) (List.getElem?_set_eq_of_lt _ (hHi ▸ hk))
    eqv esv1 ed (List.getElem?_set_eq_of_lt _ (hlv ▸ hk))
    (List.getElem?_set_eq_of_lt _ (hgv ▸ hk)) (List.getElem?_set_eq_of_lt _ (hG ▸ hk)) hSk hsvk
  exact ⟨_, _, hrun,
    List.getElem?_set_eq_of_lt _ (hH ▸ hk), List.getElem?_set_eq_of_lt _ (hHi ▸ hk), hrun2,
    List.getElem?_set_eq_of_lt _ hSk⟩

theorem stageSized_valueSolver : StageSized valueSolver valueSolver.K_ := by
  simp [StageSized, valueSolver, fixedSolver, zeroSolver]

theorem isPosSemidef_scalar (M : Matrix (Fin 1) (Fin 1) ℚ) (h : 0 ≤ M 0 0) :
    IsPosSemidef M := by
  refine ⟨?_, fun x => ?_⟩
  · ext i j
    rw [Subsingleton.elim i j]
    rfl
  · simp only [Matrix.dotProduct, Matrix.mulVec, Fin.sum_univ_one]
    nlinarith [mul_self_nonneg (x 0)]

theorem isPosDef_scalar (M : Matrix (Fin 1) (Fin 1) ℚ) (h : 0 < M 0 0) : IsPosDef M := by
  refine ⟨?_, fun x hx => ?_⟩
  · ext i j
    rw [Subsingleton.elim i j]
    rfl
  · have hx0 : x 0 ≠ 0 := by
      intro h0
      apply hx
      funext i
      rw [Subsingleton.elim i 0]
      exact h0
    simp only [Matrix.dotProduct, Matrix.mulVec, Fin.sum_univ_one]
    have : 0 < x 0 * x 0 := mul_self_pos.mpr hx0
    nlinarith

/-- The premises of the preservation property are met together: on `valueSolver` the
cost-to-go `S_[1] = 1` and the stage cost Hessian are positive semidefinite, the stored
`H_[0] = 2` and `Hi_[0] = 3` satisfy `Hi_[0]` positive definite and `Hi_[0] - H_[0]`
positive semidefinite, and the backward step stores `S_[0] = 5/3`. -/
theorem costToGo_posSemidef_example :
    ∃ s1 s2 Q P R S1 H Hi S,
      valueSolver.Q_[0]? = some Q ∧ valueSolver.P_[0]? = some P ∧
      valueSolver.R_[0]? = some R ∧ valueSolver.S_[0 + 1]? = some S1 ∧
      designController (sampleEigenLib 1) valueSolver 0 = .ret () s1 ∧
      s1.H_[0]? = some H ∧ s1.Hi_[0]? = some Hi ∧
      computeCostToGo s1 0 = .ret () s2 ∧ s2.S_[0]? = some S ∧
      IsPosSemidef S1 ∧ IsPosSemidef (Matrix.fromBlocks Q P.transpose P R) ∧ IsPosDef Hi ∧
      IsPosSemidef (Hi - H) ∧ H 0 0 = 2 ∧ Hi 0 0 = 3 ∧ S 0 0 = 5 / 3 := by
  obtain ⟨rv, B, sv1, P, S1, A, R, Q, ⟨-, eB, -, eP, eS1, eA, eR, eQ⟩, s1, s2, hrun, hH, hHi,
    hrun2, hS⟩ := backwardStep_eq_of_sized (sampleEigenLib 1) valueSolver 0
      stageSized_valueSolver Nat.zero_lt_one
  have hB : B = 1 := by simpa [valueSolver, fixedSolver, zeroSolver] using eB.symm
  have hP : P = 0 := by simpa [valueSolver, fixedSolver, zeroSolver] using eP.symm
  have hS1 : S1 = 1 := by simpa [valueSolver, fixedSolver, zeroSolver] using eS1.symm
  have hA : A = 1 := by simpa [valueSolver, fixedSolver, zeroSolver] using eA.symm
  have hR : R = 1 := by simpa [valueSolver, fixedSolver, zeroSolver] using eR.symm
  have hQ : Q = 1 := by simpa [valueSolver, fixedSolver, zeroSolver] using eQ.symm
  obtain ⟨eHi, eHinv, eL, -⟩ := designControllerStage_fixed (sampleEigenLib 1)
    valueSolver.settings_ rv B sv1 P S1 A R valueSolver.du_norm_ valueSolver.smallestEigenvalue_
    valueSolver.smallestEigenvalueIteration_ rfl
  obtain ⟨-, eG, eH⟩ := designControllerStage_unregularized (sampleEigenLib 1)
    valueSolver.settings_ rv B sv1 P S1 A R valueSolver.du_norm_ valueSolver.smallestEigenvalue_
    valueSolver.smallestEigenvalueIteration_
  generalize designControllerStage (sampleEigenLib 1) valueSolver.settings_ rv B sv1 P S1 A R
    valueSolver.du_norm_ valueSolver.smallestEigenvalue_
    valueSolver.smallestEigenvalueIteration_ = c at hH hHi hS eHi eHinv eL eG eH
  have heps : valueSolver.settings_.epsilon = 1 := rfl
  rw [heps, if_pos (by norm_num)] at eHi
  subst hB hP hS1 hA hR hQ
  have hH00 : c.H 0 0 = 2 := by
    rw [eH, selfadjointLower_scalar]
    simp [Matrix.mul_apply]
    norm_num
  have hHi00 : c.Hi 0 0 = 3 := by
    rw [eHi, Matrix.add_apply, hH00]
    simp
    norm_num
  have hG00 : c.G 0 0 = 1 := by
    rw [eG, selfadjointLower_scalar]
    simp [Matrix.mul_apply]
  have hL00 : c.L 0 0 = -(1 / 3) := by
    rw [eL, selfadjointLower_scalar, eHinv]
    simp [Matrix.mul_apply, sampleEigenLib, hG00, hHi00]
  refine ⟨s1, s2, 1, 0, 1, 1, c.H, c.Hi, _, eQ, eP, eR, eS1, hrun, hH, hHi, hrun2, hS,
    isPosSemidef_scalar _ (by simp), ?_, isPosDef_scalar _ (by rw [hHi00]; norm_num),
    isPosSemidef_scalar _ (by rw [Matrix.sub_apply, hHi00, hH00]; norm_num), hH00, hHi00, ?_⟩
  · rw [Matrix.transpose_zero, Matrix.fromBlocks_one]
    refine ⟨Matrix.isSymm_one, fun x => ?_⟩
    rw [Matrix.one_mulVec]
    exact Finset.sum_nonneg (fun i _ => mul_self_nonneg (x i))
  · rw [costToGoHessian_scalar, hL00, hHi00]
    simp
    norm_num

end GNMS
